import Mathlib

/-!
# PStruct: persistent structure with wear levelling

A shallow embedding of `persist::Struct<T>` (struct.h) and of the abstract
`persist::Media` interface (media.h), followed by theorems about load, save
and the slot ring.

Conventions of the embedding
* `uint32_t` values are `Nat`; every arithmetic result the source computes in
  32 bits is reduced with `u32`.
* Locations (`uint32_t*`) are `Int` word addresses: `l + n` is pointer
  arithmetic in units of 32-bit words, and the null location is `0`.
* The user type `T` is its byte image: a `List Nat` of `sizeofT` bytes, stored
  little-endian in the words that follow the header.
* `Media` is a record of the three virtual operations over a media state `σ`;
  each operation receives the state and returns the new one.  A buffer argument
  is the content of the memory the pointer designates, the word count is passed
  next to it with the conversion of the parameter type (`int16_t`, `uint16_t`).
-/

namespace persist

/-! ## Machine integers -/

/-- Reduction of an arithmetic result to `uint32_t`. -/
def u32 (n : Nat) : Nat := n % 2 ^ 32

/-- Conversion of a size to the `int16_t` parameter of `Media::Program` and `Media::Read`. -/
def toInt16 (n : Nat) : Int :=
  if n % 65536 < 32768 then ((n % 65536 : Nat) : Int) else ((n % 65536 : Nat) : Int) - 65536

/-- Conversion of a size to the `uint16_t` parameter of `Media::Crc`. -/
def toUInt16 (n : Nat) : Nat := n % 65536

/-- Conversion to the `uint8_t` parameter of `Db::WillFit`. -/
def toUInt8 (n : Nat) : Nat := n % 256

/-- Number of times the body of `do { ... } while(--i>0);` runs for a `uint32_t i`
when no `break` is taken: `i` times, and `2^32` times when `i` starts at zero
(the decrement wraps). -/
def doWhileCount (i : Nat) : Nat := if i = 0 then 2 ^ 32 else i

/-! ## Media (media.h) -/

/-- Abstract class `persist::Media`: the page size and the three virtual operations.
`Program s buffer data size_u32 page_size_u32 use_lock`,
`Read s buffer data size_u32` (returns the new content of `data`) and
`Crc s buffer size_u16`. -/
structure Media (σ : Type) where
  GetPageSize : Nat
  Program : σ → Int → List Nat → Int → Nat → Bool → Bool × σ
  Read : σ → Int → List Nat → Int → Bool × List Nat × σ
  Crc : σ → List Nat → Nat → Nat × σ

/-! ## Byte image of the user type inside the word array -/

/-- Little-endian bytes of one 32-bit word. -/
def wordBytes (w : Nat) : List Nat :=
  [w % 256, w / 256 % 256, w / 65536 % 256, w / 16777216 % 256]

/-- Byte image of a word array. -/
def bytesOf : List Nat → List Nat
  | [] => []
  | w :: ws => wordBytes w ++ bytesOf ws

/-- Word array of a byte image (whole words only). -/
def wordsOf : List Nat → List Nat
  | b0 :: b1 :: b2 :: b3 :: bs => (b0 + 256 * b1 + 65536 * b2 + 16777216 * b3) :: wordsOf bs
  | _ => []

/-- Store of the words a media read delivered into a buffer, in place: the buffer
keeps its length, words the media did not deliver keep their value. -/
def overlay : List Nat → List Nat → List Nat
  | _, [] => []
  | [], o :: os => o :: os
  | n :: ns, _ :: os => n :: overlay ns os

/-- The `n` words of a memory content `v` from location `l` on. -/
def wordsAt (v : Int → Nat) (l : Int) : Nat → List Nat
  | 0 => []
  | n + 1 => v l :: wordsAt v (l + 1) n

/-! ## Db: the wrapper written to persistent storage -/

/-- Size of `tDbHead` in bytes (three `uint32_t`). -/
def GetDbHeadSize : Nat := 12

/-- Number of elements of `tDb::u32`:
`(sizeof(tDbHead)+sizeof(T))/4 + ((sizeof(tDbHead)+sizeof(T))%4 ? 1 : 0)`. -/
def u32Len (sizeofT : Nat) : Nat :=
  (GetDbHeadSize + sizeofT) / 4 + (if (GetDbHeadSize + sizeofT) % 4 ≠ 0 then 1 else 0)

/-- Value of `sizeof(db_.u32)`, which is also `sizeof(tDb)`. -/
def sizeofU32 (sizeofT : Nat) : Nat := 4 * u32Len sizeofT

/-- Member `Db::GetDbSize`. -/
def GetDbSize (sizeofT : Nat) : Nat := sizeofU32 sizeofT

/-- Data block `tDb`: the header `f.meta` and the words after it (`f.data` and padding). -/
structure Db where
  crc : Nat
  counter : Nat
  bytes : Nat
  body : List Nat
  deriving DecidableEq

namespace Db

/-- The `u32` member of the union: the whole block as words. -/
def u32 (db : Db) : List Nat := db.crc :: db.counter :: db.bytes :: db.body

/-- The block after a media read stored `ws` at `&db_.u32[0]`. -/
def store (db : Db) (ws : List Nat) : Db :=
  match overlay ws db.u32 with
  | c :: n :: b :: rest => { crc := c, counter := n, bytes := b, body := rest }
  | _ => db

/-- Member `Db::Clear` with `set_word` given. -/
def ClearWith (db : Db) (set_word : Nat) : Db :=
  { crc := 0, counter := 0, bytes := 0, body := db.body.map (fun _ => set_word) }

/-- Member `Db::Clear` with the default `set_word`, `0xffffffff`. -/
def Clear (db : Db) : Db := db.ClearWith 0xffffffff

/-- Constructor `Db()`: a block of `u32Len` words, cleared. -/
def init (sizeofT : Nat) : Db :=
  Clear { crc := 0, counter := 0, bytes := 0, body := List.replicate (u32Len sizeofT - 3) 0 }

/-- Member `Db::Get(T&)`: copy of `f.data`. -/
def Get (db : Db) (sizeofT : Nat) : List Nat := (bytesOf db.body).take sizeofT

/-- Assignment `db_.f.data = t`: the bytes of `t` replace the first bytes after the header. -/
def setData (db : Db) (t : List Nat) : Db :=
  { db with body := wordsOf (t ++ (bytesOf db.body).drop t.length) }

/-- Member `Db::GetCounter`. -/
def GetCounter (db : Db) : Nat := db.counter

/-- Member `Db::WillFit`: `sizeof(db_.u32) <= pages * m.GetPageSize()` with `pages`
received as `uint8_t`. -/
def WillFit {σ : Type} (M : Media σ) (sizeofT : Nat) (pages : Nat) : Bool :=
  decide (sizeofU32 sizeofT ≤ persist.u32 (toUInt8 pages * M.GetPageSize))

/-- Member `Db::CalculateCRC`: the media CRC of the words after the header, or `0`
when `bytes` is not the block size. -/
def CalculateCRC {σ : Type} (M : Media σ) (sizeofT : Nat) (db : Db) (s : σ) : Nat × σ :=
  if db.bytes = sizeofU32 sizeofT then
    M.Crc s db.body (toUInt16 ((db.bytes - GetDbHeadSize) / 4))
  else (0, s)

/-- Member `Db::IsValid`: `bytes == sizeof(db_.u32) && CalculateCRC(m) == crc`. -/
def IsValid {σ : Type} (M : Media σ) (sizeofT : Nat) (db : Db) (s : σ) : Bool × σ :=
  if db.bytes = sizeofU32 sizeofT then
    let c := CalculateCRC M sizeofT db s
    (decide (c.1 = db.crc), c.2)
  else (false, s)

/-- Member `Db::Update(Media&, T&, first)`. -/
def Update {σ : Type} (M : Media σ) (sizeofT : Nat) (db : Db) (s : σ) (t : List Nat)
    (first : Bool) : Db × σ :=
  let db1 : Db := { db with counter := if first then 0 else persist.u32 (db.counter + 1) }
  let db2 : Db := { db1 with bytes := sizeofU32 sizeofT }
  let db3 : Db := db2.setData t
  let c := CalculateCRC M sizeofT db3 s
  ({ db3 with crc := c.1 }, c.2)

/-- Member `Db::Read`: read the whole block at `location` and validate it. -/
def Read {σ : Type} (M : Media σ) (sizeofT : Nat) (db : Db) (s : σ) (location : Int) :
    Bool × Db × σ :=
  let r := M.Read s location db.u32 (toInt16 (sizeofU32 sizeofT / 4))
  let db1 := db.store r.2.1
  if r.1 then
    let v := IsValid M sizeofT db1 r.2.2
    if v.1 then (true, db1, v.2)
    else (false, { db1 with bytes := 0, crc := 0 }, v.2)
  else (false, { db1 with bytes := 0, crc := 0 }, r.2.2)

/-- Member `Db::ReadHeader`: read the three header words at `location`. -/
def ReadHeader {σ : Type} (M : Media σ) (sizeofT : Nat) (db : Db) (s : σ) (location : Int) :
    Bool × Db × σ :=
  let db0 : Db := { db with counter := 0 }
  let r := M.Read s location db0.u32 (toInt16 (GetDbHeadSize / 4))
  let db1 := db0.store r.2.1
  if r.1 && decide (db1.bytes = sizeofU32 sizeofT) then (true, db1, r.2.2)
  else (false, { db1 with bytes := 0, crc := 0 }, r.2.2)

/-- Member `Db::Write`: `IsValid(m) && m.Program(location, data, sizeof(db_.u32)>>2,
m.GetPageSize()>>2, true)`. -/
def Write {σ : Type} (M : Media σ) (sizeofT : Nat) (db : Db) (s : σ) (location : Int) :
    Bool × σ :=
  let v := IsValid M sizeofT db s
  if v.1 then
    M.Program v.2 location db.u32 (toInt16 (sizeofU32 sizeofT / 4)) (M.GetPageSize / 4) true
  else (false, v.2)

end Db

/-! ## Struct: the engine -/

/-- Data members of `persist::Struct<T>` (the media reference is passed to each operation). -/
structure Struct where
  loaded : Bool
  location : Int
  start_ : Int
  struct_pages_u32_ : Nat
  pages_ : Nat
  ware_level_ : Nat
  db_ : Db
  deriving DecidableEq

/-- Static member `Struct::GetStorageUnitSize`. -/
def GetStorageUnitSize (sizeofT : Nat) : Nat := GetDbSize sizeofT

/-- Static member `Struct::GetStorageUnitPages`: the page count `pc` is computed and
the value returned is `page_size * pc`. -/
def GetStorageUnitPages (sizeofT page_size : Nat) : Nat :=
  let pc0 := GetStorageUnitSize sizeofT / page_size
  let pc := if GetStorageUnitSize sizeofT % page_size ≠ 0 then u32 (pc0 + 1) else pc0
  u32 (page_size * pc)

/-- Macro `PERSISTSTRUCT_SIZE(s, ps, l)` as the compiler reads its expansion
`((size / ps) + ((size % ps) ? 1 : 0) * ps * l)`: the product binds tighter than
the sum, so `ps * l` multiplies the conditional alone. -/
def PERSISTSTRUCT_SIZE (sizeofT ps l : Nat) : Nat :=
  u32 (GetStorageUnitSize sizeofT / ps +
    (if GetStorageUnitSize sizeofT % ps ≠ 0 then 1 else 0) * ps * l)

/-- Result of `Struct::Load`: the return value, the caller's record, the engine and the media. -/
structure LoadResult (σ : Type) where
  ok : Bool
  data : List Nat
  engine : Struct
  media : σ

/-- Result of `Struct::Save`: the return value, the engine and the media. -/
structure SaveResult (σ : Type) where
  ok : Bool
  engine : Struct
  media : σ

namespace Struct

/-- Constructor `Struct(Media&, uint32_t* start, uint8_t ware_level)`. -/
def new {σ : Type} (M : Media σ) (sizeofT : Nat) (start : Int) (ware_level : Nat) : Struct :=
  let wl := toUInt8 ware_level
  let p0 := GetStorageUnitSize sizeofT / M.GetPageSize
  let p1 := if GetStorageUnitSize sizeofT % M.GetPageSize ≠ 0 then u32 (p0 + 1) else p0
  { loaded := false
    location := 0
    start_ := start
    struct_pages_u32_ := u32 (p1 * (M.GetPageSize / 4))
    pages_ := u32 (p1 * wl)
    ware_level_ := wl
    db_ := Db.init sizeofT }

/-- Constructor `Struct(Media&, uint32_t* start, uint32_t* end)`; the two pointers
are converted to byte addresses before the subtraction. -/
def newRange {σ : Type} (M : Media σ) (sizeofT : Nat) (start : Int) (endp : Int) : Struct :=
  let p0 := GetStorageUnitSize sizeofT / M.GetPageSize
  let ps := if GetStorageUnitSize sizeofT % M.GetPageSize ≠ 0 then u32 (p0 + 1) else p0
  let pages0 := ((4 * endp - 4 * start) % (2 ^ 32 : Int)).toNat / M.GetPageSize
  let pages1 := u32 (pages0 + 2 ^ 32 - pages0 % ps)
  { loaded := false
    location := 0
    start_ := start
    struct_pages_u32_ := u32 (ps * (M.GetPageSize / 4))
    pages_ := pages1
    ware_level_ := pages1 / ps
    db_ := Db.init sizeofT }

/-- Member `Struct::Unload`. -/
def Unload (e : Struct) : Struct :=
  { e with db_ := e.db_.Clear, loaded := false, location := 0 }

/-- Member `Struct::IsLoaded`. -/
def IsLoaded (e : Struct) : Bool := e.loaded

/-- Member `Struct::GetWareLevels`. -/
def GetWareLevels (e : Struct) : Nat := e.ware_level_

/-- Member `Struct::GetPages`. -/
def GetPages (e : Struct) : Nat := e.pages_

/-- Member `Struct::GetLocation`. -/
def GetLocation (e : Struct) : Int := e.location

/-- Member `Struct::GetCounter`. -/
def GetCounter (e : Struct) : Nat := e.db_.GetCounter

/-- Local `t` ("top") of `GetPreviousLocation` and `GetNextLocation`:
`start_ + pages_ * (media_.GetPageSize()>>2) - struct_pages_u32_`. -/
def top {σ : Type} (M : Media σ) (e : Struct) : Int :=
  e.start_ + (u32 (e.pages_ * (M.GetPageSize / 4)) : Nat) - (e.struct_pages_u32_ : Nat)

/-- Member `Struct::GetPreviousLocation`. -/
def GetPreviousLocation {σ : Type} (M : Media σ) (e : Struct) (l : Int) : Int :=
  if l > e.start_ then l - (e.struct_pages_u32_ : Nat) else top M e

/-- Member `Struct::GetNextLocation`. -/
def GetNextLocation {σ : Type} (M : Media σ) (e : Struct) (l : Int) : Int :=
  if l < top M e then l + (e.struct_pages_u32_ : Nat) else e.start_

/-- State of the first loop of a cold load: the largest counter `c`, the flag `s`,
the location `l`, the block and the media. -/
structure ScanState (σ : Type) where
  c : Nat
  s : Bool
  l : Int
  db : Db
  media : σ

/-- First loop of the cold load of `Struct::Load` (header only), `n` iterations left. -/
def headerScan {σ : Type} (M : Media σ) (sizeofT : Nat) (e : Struct) :
    Nat → ScanState σ → ScanState σ
  | 0, st => st
  | n + 1, st =>
    let r := Db.ReadHeader M sizeofT st.db st.media st.l
    if r.1 then
      if !st.s || decide (r.2.1.GetCounter > st.c) then
        headerScan M sizeofT e n
          { c := r.2.1.GetCounter, s := true, l := GetNextLocation M e st.l,
            db := r.2.1, media := r.2.2 }
      else
        { st with db := r.2.1, media := r.2.2 }
    else
      headerScan M sizeofT e n
        { st with l := GetNextLocation M e st.l, db := r.2.1, media := r.2.2 }

/-- Second loop of the cold load of `Struct::Load` (backwards, whole block), `n`
iterations left; returns the location that validated, if any. -/
def backScan {σ : Type} (M : Media σ) (sizeofT : Nat) (e : Struct) :
    Nat → Int → Db → σ → Option Int × Db × σ
  | 0, _, db, s => (none, db, s)
  | n + 1, l, db, s =>
    let l1 := GetPreviousLocation M e l
    let r := Db.Read M sizeofT db s l1
    if r.1 then (some l1, r.2.1, r.2.2)
    else backScan M sizeofT e n l1 r.2.1 r.2.2

/-- Cold-load part of `Struct::Load` (entered with `current_.loaded == false`). -/
def coldLoad {σ : Type} (M : Media σ) (sizeofT : Nat) (e : Struct) (s : σ) (data : List Nat) :
    LoadResult σ :=
  let sc := headerScan M sizeofT e (doWhileCount e.pages_)
    { c := 0, s := false, l := e.start_, db := e.db_, media := s }
  if sc.s then
    let b := backScan M sizeofT e (doWhileCount e.pages_) sc.l sc.db sc.media
    match b.1 with
    | some l =>
      { ok := true, data := b.2.1.Get sizeofT,
        engine := { e with loaded := true, location := l, db_ := b.2.1 }, media := b.2.2 }
    | none => { ok := false, data := data, engine := { e with db_ := b.2.1 }, media := b.2.2 }
  else { ok := false, data := data, engine := { e with db_ := sc.db }, media := sc.media }

/-- Member `Struct::Load(T&)`. -/
def Load {σ : Type} (M : Media σ) (sizeofT : Nat) (e : Struct) (s : σ) (data : List Nat) :
    LoadResult σ :=
  if Db.WillFit M sizeofT e.pages_ then
    if e.loaded then
      let r := Db.Read M sizeofT e.db_ s e.location
      if r.1 then
        { ok := true, data := r.2.1.Get sizeofT, engine := { e with db_ := r.2.1 },
          media := r.2.2 }
      else
        coldLoad M sizeofT { e with loaded := false, db_ := r.2.1 } r.2.2 data
    else coldLoad M sizeofT e s data
  else { ok := false, data := data, engine := e, media := s }

/-- Write attempt loop of `Struct::Save`, `n` iterations left; returns the location
written, if any. -/
def saveLoop {σ : Type} (M : Media σ) (sizeofT : Nat) (e : Struct) (db : Db) :
    Nat → Int → σ → Option Int × σ
  | 0, _, s => (none, s)
  | n + 1, l, s =>
    let w := Db.Write M sizeofT db s l
    if w.1 then (some l, w.2)
    else saveLoop M sizeofT e db n (GetNextLocation M e l) w.2

/-- Attempt part of `Struct::Save`: the loop from `l` with the stamped block `db`. -/
def saveAttempt {σ : Type} (M : Media σ) (sizeofT : Nat) (e : Struct) (db : Db) (l : Int)
    (s : σ) : SaveResult σ :=
  let i := if e.loaded then u32 (e.pages_ + 2 ^ 32 - 1) else e.pages_
  let w := saveLoop M sizeofT e db (doWhileCount i) l s
  match w.1 with
  | some l1 =>
    { ok := true, engine := { e with loaded := true, location := l1, db_ := db }, media := w.2 }
  | none => { ok := false, engine := { e with db_ := db }, media := w.2 }

/-- Member `Struct::Save(T&, bool not_loaded_force)`. -/
def Save {σ : Type} (M : Media σ) (sizeofT : Nat) (e : Struct) (s : σ) (data : List Nat)
    (not_loaded_force : Bool) : SaveResult σ :=
  if Db.WillFit M sizeofT e.pages_ then
    if !e.loaded then
      if not_loaded_force then
        let u := Db.Update M sizeofT e.db_ s data true
        saveAttempt M sizeofT e u.1 e.start_ u.2
      else { ok := false, engine := e, media := s }
    else
      let l := GetNextLocation M e e.location
      let u := Db.Update M sizeofT e.db_ s data false
      saveAttempt M sizeofT e u.1 l u.2
  else { ok := false, engine := e, media := s }

end Struct

/-! ## Observation of the media calls -/

/-- One call of a media operation: its arguments and its return value. -/
inductive Call where
  | program (location : Int) (data : List Nat) (size : Int) (ok : Bool)
  | read (location : Int) (size : Int) (ok : Bool)
  | crc (size : Nat)
  deriving DecidableEq

/-- The media `M` with a journal: every operation behaves as in `M` and appends its
call to the journal kept next to the state of `M`. -/
def traced {σ : Type} (M : Media σ) : Media (σ × List Call) where
  GetPageSize := M.GetPageSize
  Program st l d n ps lk :=
    let r := M.Program st.1 l d n ps lk
    (r.1, (r.2, st.2 ++ [Call.program l (d.take n.toNat) n r.1]))
  Read st l d n :=
    let r := M.Read st.1 l d n
    (r.1, r.2.1, (r.2.2, st.2 ++ [Call.read l n r.1]))
  Crc st b n :=
    let r := M.Crc st.1 b n
    (r.1, (r.2, st.2 ++ [Call.crc n]))

/-- Locations of the `Program` calls of a journal, in order. -/
def programLocations : List Call → List Int
  | [] => []
  | Call.program l _ _ _ :: cs => l :: programLocations cs
  | _ :: cs => programLocations cs

/-- Return values of the `Program` calls of a journal, in order. -/
def programOutcomes : List Call → List Bool
  | [] => []
  | Call.program _ _ _ ok :: cs => ok :: programOutcomes cs
  | _ :: cs => programOutcomes cs

/-- Word counts passed to the `Program` calls of a journal, in order. -/
def programSizes : List Call → List Int
  | [] => []
  | Call.program _ _ n _ :: cs => n :: programSizes cs
  | _ :: cs => programSizes cs

/-- Locations and word counts of the `Read` calls of a journal, in order. -/
def readCalls : List Call → List (Int × Int)
  | [] => []
  | Call.read l n _ :: cs => (l, n) :: readCalls cs
  | _ :: cs => readCalls cs

/-- Word counts passed to the `Crc` calls of a journal, in order. -/
def crcSizes : List Call → List Nat
  | [] => []
  | Call.crc n :: cs => n :: crcSizes cs
  | _ :: cs => crcSizes cs

/-! ## A simulated media

Word-addressed memory with scripted `Program` failures, in the manner of the
memory-mapped flash and the error injection of the test harness
(persisttest.cpp).  It instantiates the media hypotheses of the theorems. -/

/-- State of the simulated media: the memory and, for each coming `Program` call,
`none` when it succeeds or `some g` when it fails leaving the words `g` (no more
than the size of the call) at the destination. -/
structure Sim where
  mem : Int → Nat
  faults : List (Option (List Nat))

namespace Sim

/-- Memory after the words `ws` are stored from location `l` on. -/
def write (mem : Int → Nat) (l : Int) (ws : List Nat) : Int → Nat :=
  fun a => if l ≤ a ∧ a < l + (ws.length : Nat) then ws.getD (a - l).toNat 0 else mem a

/-- A checksum that stands for the CRC of the simulated media. -/
def crc (ws : List Nat) : Nat := ws.foldl (fun a w => (a * 33 + w + 1) % 2 ^ 32) 5381

/-- The simulated media with the given page size. -/
def media (pageSize : Nat) : Media Sim where
  GetPageSize := pageSize
  Program s l d n _ _ :=
    match s.faults with
    | [] => (true, { s with mem := write s.mem l (d.take n.toNat) })
    | none :: fs => (true, { mem := write s.mem l (d.take n.toNat), faults := fs })
    | some g :: fs => (false, { mem := write s.mem l (g.take n.toNat), faults := fs })
  Read s l d n := (true, wordsAt s.mem l n.toNat ++ d.drop n.toNat, s)
  Crc s b n := (crc (b.take n), s)

/-- The simulated media without failures: its state is the memory alone. -/
def reliable (pageSize : Nat) : Media (Int → Nat) where
  GetPageSize := pageSize
  Program mem l d n _ _ := (true, write mem l (d.take n.toNat))
  Read mem l d n := (true, wordsAt mem l n.toNat ++ d.drop n.toNat, mem)
  Crc mem b n := (crc (b.take n), mem)

/-- Content of the simulated media. -/
def view (s : Sim) : Int → Nat := s.mem

/-- The CRC of the simulated media as a function of the buffer and the word count. -/
def crcf (b : List Nat) (n : Nat) : Nat := crc (b.take n)

/-- Simulated media with every word zero (the state after `Pset(0)` in the test
harness) and the given script of `Program` outcomes. -/
def zeroed (faults : List (Option (List Nat))) : Sim := { mem := fun _ => 0, faults := faults }

end Sim

/-! ## Sessions -/

/-- One step of a session: `Save(r, force)`, followed by a `Load` when `loadAfter` is set. -/
structure SaveStep where
  r : List Nat
  force : Bool
  loadAfter : Bool
  deriving DecidableEq

/-- A session of saves: each step saves its record and, when asked, loads it back
into the caller's record; the session stops with `none` at a `Save` that returns
false. -/
def runSaves {σ : Type} (M : Media σ) (sizeofT : Nat) : Struct → σ → List SaveStep →
    Option (Struct × σ)
  | e, s, [] => some (e, s)
  | e, s, st :: rest =>
    if (e.Save M sizeofT s st.r st.force).ok then
      if st.loadAfter then
        runSaves M sizeofT
          ((e.Save M sizeofT s st.r st.force).engine.Load M sizeofT
            (e.Save M sizeofT s st.r st.force).media st.r).engine
          ((e.Save M sizeofT s st.r st.force).engine.Load M sizeofT
            (e.Save M sizeofT s st.r st.force).media st.r).media rest
      else
        runSaves M sizeofT (e.Save M sizeofT s st.r st.force).engine
          (e.Save M sizeofT s st.r st.force).media rest
    else none

/-! ## Worked configurations

Small configurations on the simulated media, used to instantiate the theorems:
a 13-byte record (the size of `cfg_t` in the test harness) gives a block of 28
bytes, seven words. -/

namespace Demo

/-- A 13-byte record. -/
def rec0 : List Nat := [1, 2, 3, 4, 5, 6, 7, 8, 9, 10, 11, 12, 13]

/-- A second 13-byte record. -/
def rec1 : List Nat := [21, 22, 23, 24, 25, 26, 27, 28, 29, 30, 31, 32, 33]

/-- A third 13-byte record. -/
def rec2 : List Nat := [41, 42, 43, 44, 45, 46, 47, 48, 49, 50, 51, 52, 53]

/-- Engine over three slots of two 16-byte pages each, starting at word 100. -/
def engine3 : Struct := Struct.new (Sim.reliable 16) 13 100 3

/-- The engine `engine3` after a forced save of `rec0` on a zeroed media. -/
def saved3 : SaveResult (Int → Nat) :=
  engine3.Save (Sim.reliable 16) 13 (fun _ => 0) rec0 true

/-- Engine over two slots of one 28-byte page each, starting at word 0. -/
def engine2 : Struct := Struct.new (Sim.reliable 28) 13 0 2

/-- A media on which an earlier session of `engine2` saved `rec0` (forced) and then `rec1`. -/
def used2 : Int → Nat :=
  ((engine2.Save (Sim.reliable 28) 13 (fun _ => 0) rec0 true).engine.Save (Sim.reliable 28) 13
    (engine2.Save (Sim.reliable 28) 13 (fun _ => 0) rec0 true).media rec1 false).media

/-- A forced save of `rec2` by a fresh `engine2` on the used media. -/
def forced2 : SaveResult (Int → Nat) := engine2.Save (Sim.reliable 28) 13 used2 rec2 true

/-- A valid block for `rec0` whose counter is the largest 32-bit value. -/
def lastFrame : Db :=
  { (Db.Update (Sim.reliable 16) 13 (Db.init 13) (fun _ => 0) rec0 true).1 with
    counter := 4294967295 }

/-- The three-slot engine loaded from a media whose first slot holds `lastFrame`;
the media is scripted to fail its next `Program` call and to succeed after. -/
def loadedLast : LoadResult Sim :=
  (Struct.new (Sim.media 16) 13 100 3).Load (Sim.media 16) 13
    { mem := Sim.write (fun _ => 0) 100 lastFrame.u32, faults := [some [], none] } []

/-- A save of `rec1` by `loadedLast`, with the journal of the media calls. -/
def retried : SaveResult (Sim × List Call) :=
  loadedLast.engine.Save (traced (Sim.media 16)) 13 (loadedLast.media, []) rec1 false

/-- Engine over three slots of one 28-byte page each on the media with scripted
failures, after a forced save of `rec0` on a zeroed media. -/
def first3 : SaveResult Sim :=
  (Struct.new (Sim.media 28) 13 0 3).Save (Sim.media 28) 13 (Sim.zeroed []) rec0 true

/-- What a torn write of the next block leaves: its three header words, the words
after the header lost. -/
def tornFrame : List Nat :=
  (Db.Update (Sim.media 28) 13 first3.engine.db_ first3.media rec1 false).1.crc ::
  (Db.Update (Sim.media 28) 13 first3.engine.db_ first3.media rec1 false).1.counter ::
  (Db.Update (Sim.media 28) 13 first3.engine.db_ first3.media rec1 false).1.bytes ::
  List.replicate 4 0

/-- The save of `rec1` that follows: the first `Program` attempt fails and leaves
`tornFrame`, the second succeeds. -/
def second3 : SaveResult Sim :=
  first3.engine.Save (Sim.media 28) 13 { first3.media with faults := [some tornFrame, none] }
    rec1 false

/-- Engine over two slots of two 16-byte pages each, after a forced save of `rec0`
on a zeroed media. -/
def savedP2 : SaveResult Sim :=
  (Struct.new (Sim.media 16) 13 100 2).Save (Sim.media 16) 13 (Sim.zeroed []) rec0 true

/-- The save of `rec1` that follows on a media whose `Program` calls all fail and
leave zeros at their destination, with the journal of the media calls. -/
def failedP2 : SaveResult (Sim × List Call) :=
  savedP2.engine.Save (traced (Sim.media 16)) 13
    ({ savedP2.media with faults := List.replicate 3 (some (List.replicate 7 0)) }, []) rec1 false

/-- A session on `engine3`: four saves (the first forced), some followed by a load;
the fourth save wraps to the first slot. -/
def steps4 : List SaveStep :=
  [{ r := rec1, force := false, loadAfter := false },
   { r := rec2, force := false, loadAfter := true },
   { r := rec0, force := true, loadAfter := false }]

/-- The first step of the session: a forced save of `rec0` followed by a load. -/
def step0 : SaveStep := { r := rec0, force := true, loadAfter := true }

/-- Engine of the test harness: five slots of one 1024-byte page each, starting at
word 2048. -/
def engine5 : Struct := Struct.new (Sim.reliable 1024) 13 2048 5

/-- Cycle `k` of the loop of the test harness: a forced save followed by a load,
the record changing with the cycle. -/
def cycle (k : Nat) : SaveStep :=
  { r := List.replicate 13 k, force := true, loadAfter := true }

/-- The cycles 1 to 19 of the test harness. -/
def cycles19 : List SaveStep := (List.range 19).map fun k => cycle (k + 1)

/-- The loop of the test harness: twenty cycles. -/
def cycles20 : List SaveStep := cycle 0 :: cycles19

/-- A forced save of `rec0` by a fresh engine over two slots of two 16-byte pages
each, on a media whose `Program` calls all fail, with the journal of the media
calls. -/
def forcedFailP2 : SaveResult (Sim × List Call) :=
  (Struct.new (Sim.media 16) 13 100 2).Save (traced (Sim.media 16)) 13
    (Sim.zeroed (List.replicate 6 (some (List.replicate 7 0))), []) rec0 true

/-- Engine over one slot of two 16-byte pages: the block of 28 bytes is larger
than one page. -/
def engine1 : Struct := Struct.new (Sim.reliable 16) 13 100 1

/-- Engine over 128 slots of two 16-byte pages each: 256 pages. -/
def engine128 : Struct := Struct.new (Sim.reliable 16) 13 100 128

/-- Engine over no slot at all. -/
def engine0 : Struct := Struct.new (Sim.reliable 16) 13 100 0

/-- The three-slot engine after a second save, of `rec1`: it is loaded at the second
slot, which the media `saved3.media`, taken before that save, does not hold. -/
def ahead3 : Struct :=
  (saved3.engine.Save (Sim.reliable 16) 13 saved3.media rec1 false).engine

/-- A save of `rec1` by `loadedLast` (counter `2^32 - 1`) on a media whose next five
`Program` calls fail: every attempt of the save fails. -/
def failedLast : SaveResult Sim :=
  loadedLast.engine.Save (Sim.media 16) 13
    { loadedLast.media with faults := List.replicate 5 (some []) } rec1 false

/-- The save of `rec1` retried directly after `failedLast`, without a load. -/
def retriedLast : SaveResult Sim :=
  failedLast.engine.Save (Sim.media 16) 13 failedLast.media rec1 false

/-- The save of `rec1` that follows `savedP2` (counter 0) on a media whose next three
`Program` calls fail: every attempt of the save fails. -/
def failedOnce : SaveResult Sim :=
  savedP2.engine.Save (Sim.media 16) 13
    { savedP2.media with faults := List.replicate 3 (some []) } rec1 false

/-- The save of `rec2` made directly after `failedOnce`, without a load. -/
def retriedOnce : SaveResult Sim :=
  failedOnce.engine.Save (Sim.media 16) 13 failedOnce.media rec2 false

/-- A media whose two slots of one 28-byte page hold valid blocks of `rec0` with the
counters `2^32 - 2` (slot 0) and `2^32 - 1` (slot 1). -/
def nearWrap : Int → Nat :=
  Sim.write (Sim.write (fun _ => 0) 0 ({ lastFrame with counter := 4294967294 } : Db).u32) 7
    lastFrame.u32

/-- The two-slot engine `engine2` loaded from `nearWrap`. -/
def loadedWrap : LoadResult (Int → Nat) := engine2.Load (Sim.reliable 28) 13 nearWrap []

end Demo

/-! ## Vocabulary of the statements -/

/-- Number of media pages of one slot: `GetStorageUnitSize() / page_size`, plus one
when there is a remainder (the local `pages_` / `ps` of the constructors). -/
def pagesPerSlot {σ : Type} (M : Media σ) (sizeofT : Nat) : Nat :=
  GetStorageUnitSize sizeofT / M.GetPageSize +
    (if GetStorageUnitSize sizeofT % M.GetPageSize ≠ 0 then 1 else 0)

/-- The engine `e` has the geometry the constructors compute for a ring of `N`
slots on the media `M`, the region being addressable in 32 bits. -/
structure Ring {σ : Type} (M : Media σ) (sizeofT : Nat) (e : Struct) (N : Nat) : Prop where
  levels_pos : 0 < N
  page_pos : 0 < M.GetPageSize
  page_words : 4 ∣ M.GetPageSize
  addressable : N * pagesPerSlot M sizeofT * M.GetPageSize < 2 ^ 32
  slot_words : e.struct_pages_u32_ = pagesPerSlot M sizeofT * (M.GetPageSize / 4)
  pages : e.pages_ = pagesPerSlot M sizeofT * N
  levels : e.ware_level_ = N

/-- Location of slot `i` of the ring of `e`. -/
def Struct.slot (e : Struct) (i : Nat) : Int :=
  e.start_ + ((i * e.struct_pages_u32_ : Nat) : Int)

/-- Index of the slot after slot `i` in a ring of `N` slots. -/
def nextIdx (N i : Nat) : Nat := if i + 1 < N then i + 1 else 0

/-- Index of the slot before slot `i` in a ring of `N` slots. -/
def prevIdx (N i : Nat) : Nat := if 0 < i then i - 1 else N - 1

/-- The block stored at location `l` of a memory content `v`. -/
def frameAt (v : Int → Nat) (sizeofT : Nat) (l : Int) : Db :=
  { crc := v l, counter := v (l + 1), bytes := v (l + 2),
    body := wordsAt v (l + 3) (u32Len sizeofT - 3) }

/-- A block is valid for the CRC function `crcf`: its `bytes` field is the block
size and its `crc` field is the CRC of the words after the header. -/
def validFrame (crcf : List Nat → Nat → Nat) (sizeofT : Nat) (db : Db) : Prop :=
  db.bytes = sizeofU32 sizeofT ∧ crcf db.body (u32Len sizeofT - 3) = db.crc

instance (crcf : List Nat → Nat → Nat) (sizeofT : Nat) (db : Db) :
    Decidable (validFrame crcf sizeofT db) := by
  unfold validFrame; infer_instance

/-- Header of slot `i` in the content `v`: its counter when `bytes` is the block size. -/
def headerOf (v : Int → Nat) (sizeofT : Nat) (e : Struct) (i : Nat) : Option Nat :=
  if v (e.slot i + 2) = sizeofU32 sizeofT then some (v (e.slot i + 1)) else none

/-- The first loop of the cold load on slot indices: `h i` is the header counter of
slot `i`, the state is the largest counter `c`, the flag `s` and the index `i`;
the result is the flag and the index the loop ends with. -/
def scanIdx (h : Nat → Option Nat) (N : Nat) : Nat → Nat → Bool → Nat → Bool × Nat
  | 0, _, s, i => (s, i)
  | n + 1, c, s, i =>
    match h i with
    | some x =>
      if !s || decide (x > c) then scanIdx h N n x true (nextIdx N i) else (s, i)
    | none => scanIdx h N n c s (nextIdx N i)

/-- The second loop of the cold load on slot indices: the first index, walking
backwards from `i`, whose slot holds a valid block. -/
def backIdx (valid : Nat → Bool) (N : Nat) : Nat → Nat → Option Nat
  | 0, _ => none
  | n + 1, i => if valid (prevIdx N i) then some (prevIdx N i) else backIdx valid N n (prevIdx N i)

/-- Headers and validity of the slots of a ring written in order: slot `p` is the
newest, slots up to `p` hold the counters `b + i`, and the slots after `p` are
either never written (`b = 0`) or hold the counters `b + i - N` of the lap before. -/
structure IdxState (h : Nat → Option Nat) (valid : Nat → Bool) (N p b : Nat) : Prop where
  p_lt : p < N
  cur : ∀ i, i ≤ p → h i = some (b + i) ∧ valid i = true
  first_lap : b = 0 → ∀ i, p < i → i < N → h i = none ∧ valid i = false
  later_lap : b ≠ 0 → N ≤ b ∧ ∀ i, p < i → i < N → h i = some (b + i - N) ∧ valid i = true

/-- The block `db` is valid, carries the counter `c` and holds the record `r`. -/
def Holds (crcf : List Nat → Nat → Nat) (sizeofT : Nat) (db : Db) (c : Nat) (r : List Nat) :
    Prop :=
  validFrame crcf sizeofT db ∧ db.counter = c ∧ db.Get sizeofT = r

/-- Content `v` of the ring of `e` after the records `rs` were saved in order, one
slot after the other, the first with counter 0: slot `p` holds the newest, the
slots up to `p` hold the counters `b + i`, and the slots after `p` were never
written (`b = 0`, no header there) or hold the counters `b + i - N` of the lap
before.  The block with counter `c` holds the record `rs[c]`. -/
structure RingState (crcf : List Nat → Nat → Nat) (sizeofT : Nat) (e : Struct) (N : Nat)
    (v : Int → Nat) (rs : List (List Nat)) (p b : Nat) : Prop where
  len : rs.length = b + p + 1
  p_lt : p < N
  cur : ∀ i, i ≤ p → Holds crcf sizeofT (frameAt v sizeofT (e.slot i)) (b + i) (rs.getD (b + i) [])
  first_lap : b = 0 → ∀ i, p < i → i < N →
    (frameAt v sizeofT (e.slot i)).bytes ≠ sizeofU32 sizeofT
  later_lap : b ≠ 0 → N ≤ b ∧ ∀ i, p < i → i < N →
    Holds crcf sizeofT (frameAt v sizeofT (e.slot i)) (b + i - N) (rs.getD (b + i - N) [])

/-- State of a session on the ring of `e0` after the records `rs` were saved: the
engine `e` is `e0` loaded at the newest slot `p` with that slot's block in its
scratch block, and the media content is the ring state of `rs`. -/
structure Session {σ : Type} (view : σ → Int → Nat) (crcf : List Nat → Nat → Nat)
    (sizeofT : Nat) (e0 : Struct) (N : Nat) (e : Struct) (s : σ) (rs : List (List Nat))
    (p b : Nat) : Prop where
  engine : e = { e0 with loaded := true, location := e0.slot p,
                         db_ := frameAt (view s) sizeofT (e0.slot p) }
  ring : RingState crcf sizeofT e0 N (view s) rs p b

/-- Media whose content is observed by `view` and whose CRC is the function `crcf`:
`Read` and `Crc` leave the content as it is, a `Read` that returns true has
delivered the stored words, and `Crc` returns `crcf` of its arguments. -/
structure ReadContract {σ : Type} (M : Media σ) (view : σ → Int → Nat)
    (crcf : List Nat → Nat → Nat) : Prop where
  read_view : ∀ s l buf n, view (M.Read s l buf n).2.2 = view s
  read_data : ∀ s l buf (n : Nat), n ≤ buf.length → (M.Read s l buf (n : Int)).1 = true →
    (M.Read s l buf (n : Int)).2.1 = wordsAt (view s) l n ++ buf.drop n
  crc_view : ∀ s buf n, view (M.Crc s buf n).2 = view s
  crc_value : ∀ s buf n, (M.Crc s buf n).1 = crcf buf n

/-- Every `Read` of the media returns true. -/
def ReadsSucceed {σ : Type} (M : Media σ) : Prop :=
  ∀ s l buf n, (M.Read s l buf n).1 = true

/-- A `Program` that returns true has stored the words it was given. -/
def ProgramStores {σ : Type} (M : Media σ) (view : σ → Int → Nat) : Prop :=
  ∀ s l buf (n : Nat) ps lk, n ≤ buf.length → (M.Program s l buf (n : Int) ps lk).1 = true →
    wordsAt (view (M.Program s l buf (n : Int) ps lk).2) l n = buf.take n

/-- Every `Program` of the media returns true. -/
def ProgramSucceeds {σ : Type} (M : Media σ) : Prop :=
  ∀ s l buf n ps lk, (M.Program s l buf n ps lk).1 = true

/-- A `Program` of no more than `span` words changes no word outside the `span`
words that start at its destination, whether it returns true or false. -/
def ProgramWithin {σ : Type} (M : Media σ) (view : σ → Int → Nat) (span : Nat) : Prop :=
  ∀ s l buf (n : Nat) ps lk (a : Int), n ≤ span → (a < l ∨ l + (span : Int) ≤ a) →
    view (M.Program s l buf (n : Int) ps lk).2 a = view s a

/-- Reliable media: reads succeed and deliver the stored words, the CRC is the
function `crcf`, and every `Program` returns true, stores the words it is given
and changes no word outside the `span` words from its destination. -/
structure Reliable {σ : Type} (M : Media σ) (view : σ → Int → Nat)
    (crcf : List Nat → Nat → Nat) (span : Nat) : Prop where
  read : ReadContract M view crcf
  reads : ReadsSucceed M
  succeeds : ProgramSucceeds M
  stores : ProgramStores M view
  within : ProgramWithin M view span

/-- Engine states reachable from the engine `e0` by calls of `Load`, `Save` and
`Unload`, each on any media state and with any arguments. -/
inductive Reachable {σ : Type} (M : Media σ) (sizeofT : Nat) (e0 : Struct) : Struct → Prop where
  | construction : Reachable M sizeofT e0 e0
  | load (e : Struct) (s : σ) (data : List Nat) :
      Reachable M sizeofT e0 e → Reachable M sizeofT e0 (e.Load M sizeofT s data).engine
  | save (e : Struct) (s : σ) (r : List Nat) (force : Bool) :
      Reachable M sizeofT e0 e → Reachable M sizeofT e0 (e.Save M sizeofT s r force).engine
  | unload (e : Struct) :
      Reachable M sizeofT e0 e → Reachable M sizeofT e0 e.Unload

end persist

/-! # The flash drivers

A shallow embedding of `stm32f103x::Flash` (stm32/f103/flash.h) and of the page
count of `avr8mega::Flash::Program` (mega/flash.h).

Conventions of the embedding
* A flash pointer is its byte address, a `Nat` reduced with `u32` after pointer
  arithmetic (`p + i` on a `uint32_t*` adds `4 * i`); `data` is the list of the
  source words, `data[i]` being `data.getD i 0`.
* The flash and its controller are a record `Hardware` over a state `σ`: the word
  read, the programming sequence of one word, the erase sequence of one page,
  and the lock and unlock sequences.  Nothing is assumed about what a
  programming or erase sequence leaves in the flash.
* `int16_t` and `int32_t` values are `Int`; `toUInt32` is their conversion to
  `uint32_t`.
-/

namespace stm32f103x

/-- Conversion of a signed value to `uint32_t`. -/
def toUInt32 (z : Int) : Nat := (z % 4294967296).toNat

/-- Conversion of a `uint32_t` value to `int32_t`. -/
def toInt32 (n : Nat) : Int :=
  if n % 4294967296 < 2147483648 then ((n % 4294967296 : Nat) : Int)
  else ((n % 4294967296 : Nat) : Int) - 4294967296

/-- The flash and its programming controller as the driver uses them. -/
structure Hardware (σ : Type) where
  /-- Word read `address[0]` at a byte address. -/
  peek : σ → Nat → Nat
  /-- Programming sequence of `Write32` (the two half-word stores and the
  controller traffic around them) for a byte address and a word. -/
  programWord : σ → Nat → Nat → σ
  /-- Erase sequence of `ErasePage` for a masked page address and a page size in
  words. -/
  erasePage : σ → Nat → Nat → σ
  /-- Sequence of `Unlock()`. -/
  unlock : σ → σ
  /-- Sequence of `Lock()`. -/
  lock : σ → σ

namespace Flash

/-- The masked address `address & ~((page_size_u32<<2)-1)`. -/
def pageBase (address page_size_u32 : Nat) : Nat :=
  address &&&
    (persist.u32 (persist.u32 (page_size_u32 <<< 2) + 4294967295) ^^^ 4294967295)

/-- Member `Flash::Verify`. -/
def Verify {σ : Type} (hw : Hardware σ) (s : σ) (buffer : Nat) (data : List Nat)
    (size_u32 : Int) : Bool :=
  (List.range (toUInt32 size_u32)).all fun i =>
    decide (hw.peek s (persist.u32 (buffer + 4 * i)) = data.getD i 0)

/-- Member `Flash::Write32`: the programming sequence, then `address[0] == data`. -/
def Write32 {σ : Type} (hw : Hardware σ) (s : σ) (address data : Nat) : Bool × σ :=
  let s1 := hw.programWord s address data
  (decide (hw.peek s1 address = data), s1)

/-- Loop of `Flash::Write32Buffer`: `n` words left, the next one of index `i`. -/
def Write32BufferLoop {σ : Type} (hw : Hardware σ) (buffer : Nat) (data : List Nat) :
    Nat → Nat → σ → Bool × σ
  | 0, _, s => (true, s)
  | n + 1, i, s =>
    let w := Write32 hw s (persist.u32 (buffer + 4 * i)) (data.getD i 0)
    if w.1 then Write32BufferLoop hw buffer data n (i + 1) w.2 else (false, w.2)

/-- Member `Flash::Write32Buffer`. -/
def Write32Buffer {σ : Type} (hw : Hardware σ) (s : σ) (buffer : Nat) (data : List Nat)
    (size_u32 : Int) : Bool × σ :=
  Write32BufferLoop hw buffer data size_u32.toNat 0 s

/-- Member `Flash::CheckErasePage`. -/
def CheckErasePage {σ : Type} (hw : Hardware σ) (s : σ) (page_address page_size_u32 : Nat) :
    Bool :=
  (List.range page_size_u32).all fun i =>
    decide (hw.peek s (persist.u32 (pageBase page_address page_size_u32 + 4 * i)) = 4294967295)

/-- Member `Flash::ErasePage`. -/
def ErasePage {σ : Type} (hw : Hardware σ) (s : σ) (page_address page_size_u32 : Nat) :
    Bool × σ :=
  if CheckErasePage hw s page_address page_size_u32 then (true, s)
  else
    let s1 := hw.erasePage s (pageBase page_address page_size_u32) page_size_u32
    (CheckErasePage hw s1 page_address page_size_u32, s1)

/-- Loop of `Flash::ErasePages`: `p` pages left, the next one at `pa`. -/
def ErasePagesLoop {σ : Type} (hw : Hardware σ) (page_size_u32 : Nat) :
    Nat → Nat → σ → Bool × σ
  | 0, _, s => (true, s)
  | p + 1, pa, s =>
    let r := ErasePage hw s pa page_size_u32
    if r.1 then ErasePagesLoop hw page_size_u32 p (persist.u32 (pa + 4 * page_size_u32)) r.2
    else (false, r.2)

/-- Member `Flash::ErasePages`. -/
def ErasePages {σ : Type} (hw : Hardware σ) (s : σ) (page_address : Nat) (pages : Int)
    (page_size_u32 : Nat) : Bool × σ :=
  ErasePagesLoop hw page_size_u32 pages.toNat page_address s

/-- The page count `pc` that `Flash::Program` passes to `ErasePages`. -/
def pageCount (buffer : Nat) (size_u32 : Int) (page_size_u32 : Nat) : Int :=
  let bam := pageBase buffer page_size_u32
  let be := persist.u32 (buffer + toUInt32 (size_u32 * 4))
  let pc0 := toInt32 (toUInt32 size_u32 / page_size_u32)
  let pc1 := if toUInt32 size_u32 % page_size_u32 ≠ 0 then pc0 + 1 else pc0
  let bam1 := persist.u32 (bam + persist.u32 (persist.u32 (toUInt32 pc1 * page_size_u32) <<< 2))
  if be > bam1 then pc1 + 1 else pc1

/-- The erase and write of `Flash::Program` with the page count `pc`. -/
def eraseWrite {σ : Type} (hw : Hardware σ) (s : σ) (buffer : Nat) (data : List Nat)
    (size_u32 : Int) (page_size_u32 : Nat) (pc : Int) : Bool × σ :=
  let r := ErasePages hw s buffer pc page_size_u32
  if r.1 then Write32Buffer hw r.2 buffer data size_u32 else (false, r.2)

/-- Member `Flash::Program`. -/
def Program {σ : Type} (hw : Hardware σ) (s : σ) (buffer : Nat) (data : List Nat)
    (size_u32 : Int) (page_size_u32 : Nat) (use_lock : Bool) : Bool × σ :=
  if size_u32 = 0 ∨ page_size_u32 = 0 then (false, s)
  else if Verify hw s buffer data size_u32 then (true, s)
  else
    let s1 := if use_lock then hw.unlock s else s
    let w := eraseWrite hw s1 buffer data size_u32 page_size_u32
      (pageCount buffer size_u32 page_size_u32)
    (w.1, if use_lock then hw.lock w.2 else w.2)

/-- A simulated NOR flash: the state is the word at each byte address; programming
a word clears the bits that the word has clear, erasing a page sets every word of
it to `0xffffffff`, and the lock sequences leave the flash alone. -/
def simulated : Hardware (Nat → Nat) where
  peek m a := m a
  programWord m a d := fun x => if x = a then m x &&& d else m x
  erasePage m base page_size_u32 :=
    fun x => if base ≤ x ∧ x < base + 4 * page_size_u32 then 4294967295 else m x
  unlock m := m
  lock m := m

/-- A simulated NOR flash with a write disturb: as `simulated`, but programming a
word also clears the word before it. -/
def disturbed : Hardware (Nat → Nat) where
  peek m a := m a
  programWord m a d := fun x => if x = a then m x &&& d else if x + 4 = a then 0 else m x
  erasePage m base page_size_u32 :=
    fun x => if base ≤ x ∧ x < base + 4 * page_size_u32 then 4294967295 else m x
  unlock m := m
  lock m := m

/-- The hardware with a journal of its erase sequences: the state carries the masked
page addresses that `erasePage` received, in order. -/
def journaled {σ : Type} (hw : Hardware σ) : Hardware (σ × List Nat) where
  peek st a := hw.peek st.1 a
  programWord st a d := (hw.programWord st.1 a d, st.2)
  erasePage st base page_size_u32 := (hw.erasePage st.1 base page_size_u32, st.2 ++ [base])
  unlock st := (hw.unlock st.1, st.2)
  lock st := (hw.lock st.1, st.2)

/-- Every word of the page of `page_size_u32` words at the byte address `base` reads
`0xffffffff`. -/
def pageBlank {σ : Type} (hw : Hardware σ) (s : σ) (base page_size_u32 : Nat) : Bool :=
  (List.range page_size_u32).all fun i =>
    decide (hw.peek s (persist.u32 (base + 4 * i)) = 4294967295)

/-- Specification of the erase of `Program`, in the words of the claim: the pages at
the given addresses are taken one after the other; a page that is not blank
receives the erase sequence; the run stops with false at the first page that is
not blank after it. -/
def erasePagesSpec {σ : Type} (hw : Hardware σ) (page_size_u32 : Nat) :
    List Nat → σ → Bool × σ
  | [], s => (true, s)
  | base :: rest, s =>
    if pageBlank hw s base page_size_u32 then erasePagesSpec hw page_size_u32 rest s
    else if pageBlank hw (hw.erasePage s base page_size_u32) base page_size_u32 then
      erasePagesSpec hw page_size_u32 rest (hw.erasePage s base page_size_u32)
    else (false, hw.erasePage s base page_size_u32)

/-- The pages that a write of `size` words at `buffer` overlaps, for pages of
`page_size_u32` words: the addresses of the `ceil((o + 4 * size) / P)` pages from
the one that contains `buffer`, with `P = 4 * page_size_u32` and `o = buffer mod P`. -/
def overlappedPages (buffer size page_size_u32 : Nat) : List Nat :=
  (List.range ((buffer % (4 * page_size_u32) + 4 * size + (4 * page_size_u32 - 1)) /
      (4 * page_size_u32))).map
    fun k => buffer - buffer % (4 * page_size_u32) + k * (4 * page_size_u32)

end Flash

end stm32f103x

namespace avr8mega

/-- Reduction of an arithmetic result to the 16-bit `unsigned int` of the AVR. -/
def u16 (n : Nat) : Nat := n % 65536

namespace Flash

/-- The page count `pc` that `Flash::Program` passes to `ErasePages`, for the device
page size `page_size`, the byte address `buffer`, `size_u8` and `page_size_u8`;
`int` and `unsigned int` are the 16-bit types of the AVR. -/
def pageCount (page_size buffer : Nat) (size_u8 : Int) (page_size_u8 : Nat) : Nat :=
  let bam := buffer &&& (u16 (u16 (page_size >>> 1) + 65535) ^^^ 65535)
  let be := persist.u32 (buffer + stm32f103x.toUInt32 (size_u8 / 2))
  let pc0 := u16 (u16 (stm32f103x.toUInt32 size_u8) / page_size_u8)
  let pc1 := if u16 (stm32f103x.toUInt32 size_u8) % page_size_u8 ≠ 0 then u16 (pc0 + 1) else pc0
  let bam1 := persist.u32 (bam + u16 (pc1 * page_size_u8))
  if be > bam1 then u16 (pc1 + 1) else pc1

end Flash

end avr8mega

/-! # Theorems -/

namespace persist

/-! ## Machine integers and buffers -/

theorem toInt16_of_lt {n : Nat} (h : n < 32768) : toInt16 n = (n : Int) := by
  unfold toInt16
  have h1 : n % 65536 = n := Nat.mod_eq_of_lt (by omega)
  rw [h1]; simp [h]

theorem toUInt16_of_lt {n : Nat} (h : n < 65536) : toUInt16 n = n := by
  unfold toUInt16; exact Nat.mod_eq_of_lt h

theorem u32Len_ge (sizeofT : Nat) : 3 ≤ u32Len sizeofT := by
  unfold u32Len GetDbHeadSize; omega

theorem sizeofU32_div (sizeofT : Nat) : sizeofU32 sizeofT / 4 = u32Len sizeofT := by
  unfold sizeofU32; omega

theorem wordsAt_length (v : Int → Nat) (l : Int) (n : Nat) : (wordsAt v l n).length = n := by
  induction n generalizing l with
  | zero => rfl
  | succ n ih => simp [wordsAt, ih]

theorem overlay_length (ns os : List Nat) : (overlay ns os).length = os.length := by
  induction os generalizing ns with
  | nil => cases ns <;> rfl
  | cons o os ih => cases ns <;> simp [overlay, ih]

theorem overlay_same_length (ns os : List Nat) (h : ns.length = os.length) :
    overlay ns os = ns := by
  induction os generalizing ns with
  | nil => cases ns <;> simp_all [overlay]
  | cons o os ih =>
    cases ns with
    | nil => simp at h
    | cons n ns => simp [overlay]; exact ih ns (by simpa using h)

theorem wordsAt_add (v : Int → Nat) (l : Int) (a b : Nat) :
    wordsAt v l (a + b) = wordsAt v l a ++ wordsAt v (l + (a : Int)) b := by
  induction a generalizing l with
  | zero => simp [wordsAt]
  | succ a ih =>
    have h : a + 1 + b = (a + b) + 1 := by omega
    rw [h]
    simp only [wordsAt, List.cons_append, ih]
    congr 2
    push_cast
    ring_nf

theorem wordsAt_congr (v w : Int → Nat) (l : Int) (n : Nat)
    (h : ∀ a, l ≤ a → a < l + (n : Int) → v a = w a) : wordsAt v l n = wordsAt w l n := by
  induction n generalizing l with
  | zero => rfl
  | succ n ih =>
    simp only [wordsAt]
    rw [h l (le_refl _) (by push_cast; omega)]
    rw [ih (l + 1) (fun a h1 h2 => h a (by omega) (by push_cast; omega))]

/-! ## Byte image -/

theorem bytesOf_length (ws : List Nat) : (bytesOf ws).length = 4 * ws.length := by
  induction ws with
  | nil => rfl
  | cons w ws ih => simp [bytesOf, wordBytes, ih]; omega

theorem bytesOf_lt (ws : List Nat) : ∀ b ∈ bytesOf ws, b < 256 := by
  induction ws with
  | nil => simp [bytesOf]
  | cons w ws ih =>
    intro b hb
    simp only [bytesOf, wordBytes, List.cons_append, List.nil_append, List.mem_cons] at hb
    rcases hb with h | h | h | h | h
    · omega
    · omega
    · omega
    · omega
    · exact ih b h

theorem wordsOf_length (n : Nat) (bs : List Nat) (h : bs.length = 4 * n) :
    (wordsOf bs).length = n := by
  induction n generalizing bs with
  | zero =>
    have : bs = [] := List.length_eq_zero.mp (by omega)
    subst this; rfl
  | succ n ih =>
    match bs, h with
    | b0 :: b1 :: b2 :: b3 :: bs, h =>
      simp only [wordsOf, List.length_cons]
      rw [ih bs (by simp only [List.length_cons] at h; omega)]

theorem bytesOf_wordsOf (n : Nat) (bs : List Nat) (h : bs.length = 4 * n)
    (hb : ∀ b ∈ bs, b < 256) : bytesOf (wordsOf bs) = bs := by
  induction n generalizing bs with
  | zero =>
    have : bs = [] := List.length_eq_zero.mp (by omega)
    subst this; rfl
  | succ n ih =>
    match bs, h, hb with
    | b0 :: b1 :: b2 :: b3 :: bs, h, hb =>
      have h0 : b0 < 256 := hb b0 (by simp)
      have h1 : b1 < 256 := hb b1 (by simp)
      have h2 : b2 < 256 := hb b2 (by simp)
      have h3 : b3 < 256 := hb b3 (by simp)
      simp only [wordsOf, bytesOf, wordBytes, List.cons_append, List.nil_append]
      rw [ih bs (by simp only [List.length_cons] at h; omega)
        (fun b hm => hb b (by simp [hm]))]
      have e0 : (b0 + 256 * b1 + 65536 * b2 + 16777216 * b3) % 256 = b0 := by omega
      have e1 : (b0 + 256 * b1 + 65536 * b2 + 16777216 * b3) / 256 % 256 = b1 := by omega
      have e2 : (b0 + 256 * b1 + 65536 * b2 + 16777216 * b3) / 65536 % 256 = b2 := by omega
      have e3 : (b0 + 256 * b1 + 65536 * b2 + 16777216 * b3) / 16777216 % 256 = b3 := by omega
      rw [e0, e1, e2, e3]

theorem sizeofT_le_body (sizeofT : Nat) : sizeofT ≤ 4 * (u32Len sizeofT - 3) := by
  unfold u32Len GetDbHeadSize; split <;> omega

/-- The bytes of a record assigned to `f.data` are the bytes `Get` copies out,
and the block keeps its number of words. -/
theorem Db.setData_spec (db : Db) (sizeofT : Nat) (t : List Nat)
    (hb : db.body.length = u32Len sizeofT - 3) (ht : t.length = sizeofT)
    (hbytes : ∀ b ∈ t, b < 256) :
    (db.setData t).body.length = u32Len sizeofT - 3 ∧ (db.setData t).Get sizeofT = t := by
  have hle := sizeofT_le_body sizeofT
  have hlen : (t ++ (bytesOf db.body).drop t.length).length = 4 * (u32Len sizeofT - 3) := by
    simp [bytesOf_length, hb, ht]; omega
  have hlt : ∀ b ∈ t ++ (bytesOf db.body).drop t.length, b < 256 := by
    intro b hm
    rcases List.mem_append.1 hm with h | h
    · exact hbytes b h
    · exact bytesOf_lt _ b (List.mem_of_mem_drop h)
  constructor
  · simp only [Db.setData]
    exact wordsOf_length _ _ hlen
  · simp only [Db.setData, Db.Get]
    rw [bytesOf_wordsOf _ _ hlen hlt, ← ht]
    simp

/-! ## The block and the media -/

theorem Db.store_body_length (db : Db) (ws : List Nat) :
    (db.store ws).body.length = db.body.length := by
  unfold Db.store
  have h := overlay_length ws db.u32
  split
  · next c n b rest heq =>
    rw [heq] at h
    simp [Db.u32] at h
    simpa using h
  · rfl

theorem Db.store_full (db : Db) (v : Int → Nat) (l : Int) (sizeofT : Nat)
    (hb : db.body.length = u32Len sizeofT - 3) :
    db.store (wordsAt v l (u32Len sizeofT) ++ db.u32.drop (u32Len sizeofT)) =
      frameAt v sizeofT l := by
  have h3 := u32Len_ge sizeofT
  obtain ⟨k, hk⟩ : ∃ k, u32Len sizeofT = 3 + k := ⟨u32Len sizeofT - 3, by omega⟩
  have hlen : db.u32.length = 3 + k := by simp [Db.u32, hb, hk]; omega
  rw [hk, List.drop_of_length_le (by omega), List.append_nil, wordsAt_add]
  unfold Db.store frameAt
  have hbk : db.body.length = k := by omega
  have e1 : l + 1 + 1 = l + 2 := by ring
  have e2 : l + 1 + 1 + 1 = l + 3 := by ring
  have e3 : l + ((3 : Nat) : Int) = l + 3 := by norm_num
  simp only [wordsAt, Db.u32, List.cons_append, List.nil_append, overlay, e1, e2, e3]
  have e4 : ([] : List Nat).append (wordsAt v (l + 3) k) = wordsAt v (l + 3) k := rfl
  rw [e4, overlay_same_length _ _ (by rw [wordsAt_length]; exact hbk.symm)]
  simp [hk]

theorem Db.store_head (db : Db) (v : Int → Nat) (l : Int) :
    db.store (wordsAt v l 3 ++ db.u32.drop 3) =
      { crc := v l, counter := v (l + 1), bytes := v (l + 2), body := db.body } := by
  unfold Db.store
  have e1 : l + 1 + 1 = l + 2 := by ring
  simp only [wordsAt, Db.u32, List.cons_append, List.nil_append, overlay, e1, List.drop_succ_cons,
    List.drop_zero]
  have e4 : ([] : List Nat).append db.body = db.body := rfl
  rw [e4, overlay_same_length _ _ rfl]

section MediaLemmas

variable {σ : Type} {M : Media σ} {view : σ → Int → Nat} {crcf : List Nat → Nat → Nat}

theorem crcSize_eq {sizeofT : Nat} (hW : u32Len sizeofT < 32768) :
    toUInt16 ((sizeofU32 sizeofT - GetDbHeadSize) / 4) = u32Len sizeofT - 3 := by
  have h3 := u32Len_ge sizeofT
  have : (sizeofU32 sizeofT - GetDbHeadSize) / 4 = u32Len sizeofT - 3 := by
    unfold sizeofU32 GetDbHeadSize; omega
  rw [this]; exact toUInt16_of_lt (by omega)

theorem Db.CalculateCRC_view (hM : ReadContract M view crcf) (sizeofT : Nat) (db : Db) (s : σ) :
    view (Db.CalculateCRC M sizeofT db s).2 = view s := by
  unfold Db.CalculateCRC
  split
  · exact hM.crc_view _ _ _
  · rfl

theorem Db.CalculateCRC_value (hM : ReadContract M view crcf) {sizeofT : Nat}
    (hW : u32Len sizeofT < 32768) (db : Db) (s : σ) (hb : db.bytes = sizeofU32 sizeofT) :
    (Db.CalculateCRC M sizeofT db s).1 = crcf db.body (u32Len sizeofT - 3) := by
  unfold Db.CalculateCRC
  rw [if_pos hb, hM.crc_value, hb, crcSize_eq hW]

theorem Db.IsValid_view (hM : ReadContract M view crcf) (sizeofT : Nat) (db : Db) (s : σ) :
    view (Db.IsValid M sizeofT db s).2 = view s := by
  unfold Db.IsValid
  split
  · exact Db.CalculateCRC_view hM _ _ _
  · rfl

theorem Db.IsValid_iff (hM : ReadContract M view crcf) {sizeofT : Nat}
    (hW : u32Len sizeofT < 32768) (db : Db) (s : σ) :
    (Db.IsValid M sizeofT db s).1 = true ↔ validFrame crcf sizeofT db := by
  unfold Db.IsValid validFrame
  by_cases hb : db.bytes = sizeofU32 sizeofT
  · rw [if_pos hb]
    simp only [Db.CalculateCRC_value hM hW db s hb, decide_eq_true_eq, hb, true_and]
  · rw [if_neg hb]
    simp [hb]

theorem Db.Read_view (hM : ReadContract M view crcf) (sizeofT : Nat) (db : Db) (s : σ)
    (l : Int) : view (Db.Read M sizeofT db s l).2.2 = view s := by
  unfold Db.Read
  simp only []
  split
  · split
    · simp only [Db.IsValid_view hM, hM.read_view]
    · simp only [Db.IsValid_view hM, hM.read_view]
  · simp only [hM.read_view]

theorem Db.Read_body_length (sizeofT : Nat) (db : Db) (s : σ) (l : Int) :
    (Db.Read M sizeofT db s l).2.1.body.length = db.body.length := by
  unfold Db.Read
  simp only []
  split
  · split <;> simp only [Db.store_body_length]
  · simp only [Db.store_body_length]

theorem Db.Read_ok (hM : ReadContract M view crcf) {sizeofT : Nat}
    (hW : u32Len sizeofT < 32768) (db : Db) (hb : db.body.length = u32Len sizeofT - 3)
    (s : σ) (l : Int) (h : (Db.Read M sizeofT db s l).1 = true) :
    (Db.Read M sizeofT db s l).2.1 = frameAt (view s) sizeofT l ∧
      validFrame crcf sizeofT (frameAt (view s) sizeofT l) := by
  have h3 := u32Len_ge sizeofT
  have hlen : u32Len sizeofT ≤ db.u32.length := by simp [Db.u32, hb]; omega
  unfold Db.Read at h ⊢
  simp only [sizeofU32_div, toInt16_of_lt hW] at h ⊢
  by_cases hr : (M.Read s l db.u32 (u32Len sizeofT : Int)).1 = true
  · have hd := hM.read_data s l db.u32 (u32Len sizeofT) hlen hr
    rw [if_pos hr] at h ⊢
    rw [hd, Db.store_full db (view s) l sizeofT hb] at h ⊢
    by_cases hv : (Db.IsValid M sizeofT (frameAt (view s) sizeofT l)
        (M.Read s l db.u32 (u32Len sizeofT : Int)).2.2).1 = true
    · rw [if_pos hv]
      exact ⟨rfl, (Db.IsValid_iff hM hW _ _).1 hv⟩
    · rw [if_neg hv] at h
      simp at h
  · rw [if_neg hr] at h
    simp at h

theorem Db.Read_of_valid (hM : ReadContract M view crcf) (hR : ReadsSucceed M) {sizeofT : Nat}
    (hW : u32Len sizeofT < 32768) (db : Db) (hb : db.body.length = u32Len sizeofT - 3)
    (s : σ) (l : Int) (hv : validFrame crcf sizeofT (frameAt (view s) sizeofT l)) :
    (Db.Read M sizeofT db s l).1 = true := by
  have h3 := u32Len_ge sizeofT
  have hlen : u32Len sizeofT ≤ db.u32.length := by simp [Db.u32, hb]; omega
  unfold Db.Read
  simp only [sizeofU32_div, toInt16_of_lt hW]
  have hr := hR s l db.u32 (u32Len sizeofT : Int)
  have hd := hM.read_data s l db.u32 (u32Len sizeofT) hlen hr
  rw [if_pos hr, hd, Db.store_full db (view s) l sizeofT hb]
  rw [if_pos ((Db.IsValid_iff hM hW _ _).2 hv)]

theorem headSize_eq : toInt16 (GetDbHeadSize / 4) = (3 : Int) := by
  decide

theorem read_head_data (hM : ReadContract M view crcf) (s : σ) (l : Int) (buf : List Nat)
    (hlen : 3 ≤ buf.length) (hr : (M.Read s l buf 3).1 = true) :
    (M.Read s l buf 3).2.1 = wordsAt (view s) l 3 ++ buf.drop 3 := by
  have h := hM.read_data s l buf 3 hlen (by exact_mod_cast hr)
  exact_mod_cast h

theorem Db.ReadHeader_view (hM : ReadContract M view crcf) (sizeofT : Nat) (db : Db) (s : σ)
    (l : Int) : view (Db.ReadHeader M sizeofT db s l).2.2 = view s := by
  unfold Db.ReadHeader
  simp only []
  split <;> simp only [hM.read_view]

theorem Db.ReadHeader_body_length (sizeofT : Nat) (db : Db) (s : σ) (l : Int) :
    (Db.ReadHeader M sizeofT db s l).2.1.body.length = db.body.length := by
  unfold Db.ReadHeader
  simp only []
  split <;> simp only [Db.store_body_length]

theorem Db.ReadHeader_ok (hM : ReadContract M view crcf) {sizeofT : Nat} (db : Db)
    (s : σ) (l : Int) (h : (Db.ReadHeader M sizeofT db s l).1 = true) :
    view s (l + 2) = sizeofU32 sizeofT ∧
      (Db.ReadHeader M sizeofT db s l).2.1.counter = view s (l + 1) := by
  unfold Db.ReadHeader at h ⊢
  simp only [headSize_eq] at h ⊢
  have hlen : 3 ≤ ({ db with counter := 0 } : Db).u32.length := by simp [Db.u32]
  cases hr : (M.Read s l ({ db with counter := 0 } : Db).u32 3).1
  · rw [hr] at h
    simp at h
  · have hd := read_head_data hM s l _ hlen hr
    rw [hd, Db.store_head] at h ⊢
    rw [hr] at h
    by_cases hbytes : view s (l + 2) = sizeofU32 sizeofT
    · simp [hbytes]
    · simp [hbytes] at h

theorem Db.ReadHeader_of_header (hM : ReadContract M view crcf) (hR : ReadsSucceed M)
    {sizeofT : Nat} (db : Db) (s : σ) (l : Int) (hv : view s (l + 2) = sizeofU32 sizeofT) :
    (Db.ReadHeader M sizeofT db s l).1 = true := by
  unfold Db.ReadHeader
  simp only [headSize_eq]
  have hlen : 3 ≤ ({ db with counter := 0 } : Db).u32.length := by simp [Db.u32]
  have hr := hR s l ({ db with counter := 0 } : Db).u32 3
  have hd := read_head_data hM s l _ hlen hr
  rw [hd, Db.store_head, hr]
  simp [hv]

theorem frameAt_of_words (v : Int → Nat) (sizeofT : Nat) (l : Int) (db : Db)
    (h : wordsAt v l (u32Len sizeofT) = db.u32) : frameAt v sizeofT l = db := by
  have h3 := u32Len_ge sizeofT
  obtain ⟨k, hk⟩ : ∃ k, u32Len sizeofT = 3 + k := ⟨u32Len sizeofT - 3, by omega⟩
  rw [hk, wordsAt_add] at h
  have e1 : l + 1 + 1 = l + 2 := by ring
  have e3 : l + ((3 : Nat) : Int) = l + 3 := by norm_num
  simp only [wordsAt, Db.u32, List.cons_append, List.nil_append, e1, e3, List.cons.injEq] at h
  obtain ⟨h0, h1, h2, h4⟩ := h
  unfold frameAt
  have hk2 : u32Len sizeofT - 3 = k := by omega
  rw [hk2, h0, h1, h2]
  rw [h4]

theorem Db.Update_view (hM : ReadContract M view crcf) (sizeofT : Nat) (db : Db) (s : σ)
    (t : List Nat) (first : Bool) : view (Db.Update M sizeofT db s t first).2 = view s := by
  unfold Db.Update
  exact Db.CalculateCRC_view hM _ _ _

theorem Db.Update_counter (sizeofT : Nat) (db : Db) (s : σ) (t : List Nat) (first : Bool) :
    (Db.Update M sizeofT db s t first).1.counter =
      if first then 0 else persist.u32 (db.counter + 1) := by
  unfold Db.Update Db.setData
  rfl

theorem Db.Update_spec (hM : ReadContract M view crcf) {sizeofT : Nat}
    (hW : u32Len sizeofT < 32768) (db : Db) (hb : db.body.length = u32Len sizeofT - 3)
    (s : σ) (t : List Nat) (ht : t.length = sizeofT) (hbytes : ∀ b ∈ t, b < 256)
    (first : Bool) :
    (Db.Update M sizeofT db s t first).1.body.length = u32Len sizeofT - 3 ∧
      (Db.Update M sizeofT db s t first).1.Get sizeofT = t ∧
      validFrame crcf sizeofT (Db.Update M sizeofT db s t first).1 := by
  have hs := Db.setData_spec db sizeofT t hb ht hbytes
  unfold Db.Update validFrame
  simp only []
  refine ⟨hs.1, hs.2, rfl, ?_⟩
  rw [Db.CalculateCRC_value hM hW _ _ rfl]

theorem Db.Write_view_outside (hM : ReadContract M view crcf) {span : Nat}
    (hP : ProgramWithin M view span) {sizeofT : Nat} (hW : u32Len sizeofT < 32768)
    (hspan : u32Len sizeofT ≤ span) (db : Db) (s : σ) (l : Int) (a : Int)
    (ha : a < l ∨ l + (span : Int) ≤ a) :
    view (Db.Write M sizeofT db s l).2 a = view s a := by
  unfold Db.Write
  simp only [sizeofU32_div, toInt16_of_lt hW]
  split
  · rw [hP _ _ _ _ _ _ a hspan ha, Db.IsValid_view hM]
  · rw [Db.IsValid_view hM]

theorem Db.Write_ok (hP : ProgramStores M view) {sizeofT : Nat}
    (hW : u32Len sizeofT < 32768) (db : Db) (hb : db.body.length = u32Len sizeofT - 3)
    (s : σ) (l : Int) (h : (Db.Write M sizeofT db s l).1 = true) :
    frameAt (view (Db.Write M sizeofT db s l).2) sizeofT l = db := by
  have h3 := u32Len_ge sizeofT
  have hlen : db.u32.length = u32Len sizeofT := by simp [Db.u32, hb]; omega
  apply frameAt_of_words
  unfold Db.Write at h ⊢
  simp only [sizeofU32_div, toInt16_of_lt hW] at h ⊢
  split at h
  · next hv =>
    rw [if_pos hv]
    have := hP _ l db.u32 (u32Len sizeofT) (M.GetPageSize / 4) true (le_of_eq hlen.symm) h
    rw [this, ← hlen, List.take_length]
  · simp at h

theorem Db.Write_of_valid (hM : ReadContract M view crcf) (hP : ProgramSucceeds M)
    {sizeofT : Nat} (hW : u32Len sizeofT < 32768) (db : Db) (s : σ) (l : Int)
    (hv : validFrame crcf sizeofT db) : (Db.Write M sizeofT db s l).1 = true := by
  unfold Db.Write
  simp only []
  rw [if_pos ((Db.IsValid_iff hM hW db s).2 hv)]
  exact hP _ _ _ _ _ _

end MediaLemmas

/-! ## The slot ring -/

section RingLemmas

variable {σ : Type} {M : Media σ} {sizeofT : Nat} {e : Struct} {N : Nat}

theorem pagesPerSlot_pos (M : Media σ) (sizeofT : Nat) : 0 < pagesPerSlot M sizeofT := by
  unfold pagesPerSlot
  have h3 := u32Len_ge sizeofT
  have hsz : 0 < GetStorageUnitSize sizeofT := by
    unfold GetStorageUnitSize GetDbSize sizeofU32; omega
  by_cases hr : GetStorageUnitSize sizeofT % M.GetPageSize = 0
  · have := Nat.div_add_mod (GetStorageUnitSize sizeofT) M.GetPageSize
    rw [hr] at this
    have hd : 0 < GetStorageUnitSize sizeofT / M.GetPageSize := by
      rcases Nat.eq_zero_or_pos (GetStorageUnitSize sizeofT / M.GetPageSize) with h0 | h0
      · rw [h0] at this; omega
      · exact h0
    omega
  · simp [hr]

theorem pagesPerSlot_mul_ge (M : Media σ) (sizeofT : Nat) (hp : 0 < M.GetPageSize) :
    GetStorageUnitSize sizeofT ≤ pagesPerSlot M sizeofT * M.GetPageSize := by
  unfold pagesPerSlot
  have h1 := Nat.div_add_mod (GetStorageUnitSize sizeofT) M.GetPageSize
  have h2 := Nat.mod_lt (GetStorageUnitSize sizeofT) hp
  by_cases hr : GetStorageUnitSize sizeofT % M.GetPageSize = 0
  · simp only [hr, ne_eq, not_true_eq_false, if_false, Nat.add_zero]
    rw [hr] at h1
    rw [Nat.mul_comm]; omega
  · simp only [hr, ne_eq, not_false_eq_true, if_true]
    rw [Nat.add_mul, Nat.mul_comm]
    omega

theorem Ring.slot_pos (hR : Ring M sizeofT e N) : 0 < e.struct_pages_u32_ := by
  rw [hR.slot_words]
  have h1 := pagesPerSlot_pos M sizeofT
  obtain ⟨q, hq⟩ := hR.page_words
  have hq0 : 0 < q := by
    have := hR.page_pos
    rcases Nat.eq_zero_or_pos q with h0 | h0
    · rw [hq, h0] at this; omega
    · exact h0
  have : M.GetPageSize / 4 = q := by rw [hq]; omega
  rw [this]
  exact Nat.mul_pos h1 hq0

theorem Ring.frame_fits (hR : Ring M sizeofT e N) : u32Len sizeofT ≤ e.struct_pages_u32_ := by
  rw [hR.slot_words]
  have h1 := pagesPerSlot_mul_ge M sizeofT hR.page_pos
  obtain ⟨q, hq⟩ := hR.page_words
  have h2 : M.GetPageSize / 4 = q := by rw [hq]; omega
  rw [h2]
  rw [hq] at h1
  have h3 : pagesPerSlot M sizeofT * (4 * q) = 4 * (pagesPerSlot M sizeofT * q) := by ring
  rw [h3] at h1
  unfold GetStorageUnitSize GetDbSize sizeofU32 at h1
  omega

theorem Ring.count (hR : Ring M sizeofT e N) :
    doWhileCount e.pages_ = pagesPerSlot M sizeofT * N ∧ N ≤ doWhileCount e.pages_ := by
  have h1 := pagesPerSlot_pos M sizeofT
  have h2 := hR.levels_pos
  have h3 : 0 < pagesPerSlot M sizeofT * N := Nat.mul_pos h1 h2
  unfold doWhileCount
  rw [hR.pages, if_neg (by omega)]
  exact ⟨rfl, Nat.le_mul_of_pos_left N h1⟩

theorem Ring.top_eq (hR : Ring M sizeofT e N) : Struct.top M e = e.slot (N - 1) := by
  have hN := hR.levels_pos
  unfold Struct.top Struct.slot
  obtain ⟨q, hq⟩ := hR.page_words
  have h2 : M.GetPageSize / 4 = q := by rw [hq]; omega
  have hlt : pagesPerSlot M sizeofT * N * (M.GetPageSize / 4) < 2 ^ 32 := by
    have ha := hR.addressable
    have hle : pagesPerSlot M sizeofT * N * (M.GetPageSize / 4) ≤
        N * pagesPerSlot M sizeofT * M.GetPageSize := by
      rw [Nat.mul_comm (pagesPerSlot M sizeofT) N]
      exact Nat.mul_le_mul_left _ (Nat.div_le_self _ _)
    omega
  rw [hR.pages, hR.slot_words]
  unfold u32
  rw [Nat.mod_eq_of_lt hlt]
  obtain ⟨k, hk⟩ : ∃ k, N = k + 1 := ⟨N - 1, by omega⟩
  rw [hk]
  simp only [Nat.add_sub_cancel]
  push_cast
  ring

theorem Ring.slot_lt_iff (hR : Ring M sizeofT e N) (i j : Nat) :
    e.slot i < e.slot j ↔ i < j := by
  have hpos := hR.slot_pos
  unfold Struct.slot
  constructor
  · intro h
    have h1 : i * e.struct_pages_u32_ < j * e.struct_pages_u32_ := by omega
    exact Nat.lt_of_mul_lt_mul_right h1
  · intro h
    have h1 : i * e.struct_pages_u32_ < j * e.struct_pages_u32_ :=
      Nat.mul_lt_mul_of_pos_right h hpos
    omega

theorem Struct.slot_succ (e : Struct) (i : Nat) :
    e.slot (i + 1) = e.slot i + (e.struct_pages_u32_ : Int) := by
  unfold Struct.slot
  push_cast
  ring

theorem Struct.slot_zero (e : Struct) : e.slot 0 = e.start_ := by
  unfold Struct.slot
  simp

theorem Ring.next_slot (hR : Ring M sizeofT e N) (i : Nat) :
    Struct.GetNextLocation M e (e.slot i) = e.slot (nextIdx N i) := by
  unfold Struct.GetNextLocation nextIdx
  rw [hR.top_eq]
  by_cases h : i + 1 < N
  · rw [if_pos ((hR.slot_lt_iff i (N - 1)).2 (by omega)), if_pos h, Struct.slot_succ]
  · rw [if_neg (fun hlt => h (by have := (hR.slot_lt_iff i (N - 1)).1 hlt; omega)), if_neg h,
      Struct.slot_zero]

theorem Ring.prev_slot (hR : Ring M sizeofT e N) (i : Nat) :
    Struct.GetPreviousLocation M e (e.slot i) = e.slot (prevIdx N i) := by
  unfold Struct.GetPreviousLocation prevIdx
  rw [hR.top_eq, ← Struct.slot_zero e]
  by_cases h : 0 < i
  · have hgt : e.slot i > e.slot 0 := (hR.slot_lt_iff 0 i).2 h
    rw [if_pos hgt, if_pos h]
    obtain ⟨k, hk⟩ : ∃ k, i = k + 1 := ⟨i - 1, by omega⟩
    rw [hk, Struct.slot_succ]
    simp
  · have hle : ¬ e.slot i > e.slot 0 := fun hgt => h ((hR.slot_lt_iff 0 i).1 hgt)
    rw [if_neg hle, if_neg h]

theorem nextIdx_lt {N : Nat} (hN : 0 < N) (i : Nat) : nextIdx N i < N := by
  unfold nextIdx; split <;> omega

theorem prevIdx_lt {N : Nat} (hN : 0 < N) (i : Nat) (hi : i < N) : prevIdx N i < N := by
  unfold prevIdx; split <;> omega

end RingLemmas

/-! ## The two loops of the cold load -/

section ScanLemmas

variable {σ : Type} {M : Media σ} {view : σ → Int → Nat} {crcf : List Nat → Nat → Nat}
variable {sizeofT : Nat} {e : Struct} {N : Nat}

theorem Struct.headerScan_view (sizeofT : Nat) (hM : ReadContract M view crcf) (n : Nat)
    (st : Struct.ScanState σ) :
    view (Struct.headerScan M sizeofT e n st).media = view st.media ∧
      (Struct.headerScan M sizeofT e n st).db.body.length = st.db.body.length := by
  induction n generalizing st with
  | zero => exact ⟨rfl, rfl⟩
  | succ n ih =>
    have hv := Db.ReadHeader_view hM sizeofT st.db st.media st.l
    have hl := Db.ReadHeader_body_length (M := M) sizeofT st.db st.media st.l
    unfold Struct.headerScan
    simp only []
    split
    · split
      · have := ih
          { c := (Db.ReadHeader M sizeofT st.db st.media st.l).2.1.GetCounter
            s := true
            l := Struct.GetNextLocation M e st.l
            db := (Db.ReadHeader M sizeofT st.db st.media st.l).2.1
            media := (Db.ReadHeader M sizeofT st.db st.media st.l).2.2 }
        simp only [] at this
        rw [this.1, this.2, hv, hl]
        exact ⟨rfl, rfl⟩
      · exact ⟨hv, hl⟩
    · have := ih
        { st with
          l := Struct.GetNextLocation M e st.l
          db := (Db.ReadHeader M sizeofT st.db st.media st.l).2.1
          media := (Db.ReadHeader M sizeofT st.db st.media st.l).2.2 }
      simp only [] at this
      rw [this.1, this.2, hv, hl]
      exact ⟨rfl, rfl⟩

theorem Struct.headerScan_on_ring (sizeofT : Nat) (hR : Ring M sizeofT e N) (n : Nat)
    (st : Struct.ScanState σ) (i : Nat) (hi : i < N) (hl : st.l = e.slot i) :
    ∃ j, j < N ∧ (Struct.headerScan M sizeofT e n st).l = e.slot j := by
  induction n generalizing st i with
  | zero => exact ⟨i, hi, hl⟩
  | succ n ih =>
    unfold Struct.headerScan
    simp only []
    have hn : Struct.GetNextLocation M e st.l = e.slot (nextIdx N i) := by
      rw [hl]; exact hR.next_slot i
    have hlt := nextIdx_lt hR.levels_pos i
    split
    · split
      · exact ih _ (nextIdx N i) hlt hn
      · exact ⟨i, hi, hl⟩
    · exact ih _ (nextIdx N i) hlt hn

theorem Struct.headerScan_idx (sizeofT : Nat) (hM : ReadContract M view crcf)
    (hS : ReadsSucceed M) (hR : Ring M sizeofT e N) (n : Nat) (st : Struct.ScanState σ) (i : Nat)
    (hl : st.l = e.slot i) :
    (Struct.headerScan M sizeofT e n st).s =
        (scanIdx (headerOf (view st.media) sizeofT e) N n st.c st.s i).1 ∧
      (Struct.headerScan M sizeofT e n st).l =
        e.slot (scanIdx (headerOf (view st.media) sizeofT e) N n st.c st.s i).2 := by
  induction n generalizing st i with
  | zero => exact ⟨rfl, hl⟩
  | succ n ih =>
    have hv := Db.ReadHeader_view hM sizeofT st.db st.media st.l
    have hn : Struct.GetNextLocation M e st.l = e.slot (nextIdx N i) := by
      rw [hl]; exact hR.next_slot i
    unfold Struct.headerScan scanIdx
    simp only []
    by_cases hok : (Db.ReadHeader M sizeofT st.db st.media st.l).1 = true
    · have hh := Db.ReadHeader_ok hM st.db st.media st.l hok
      have hhdr : headerOf (view st.media) sizeofT e i =
          some (Db.ReadHeader M sizeofT st.db st.media st.l).2.1.counter := by
        unfold headerOf
        rw [← hl, if_pos hh.1, hh.2]
      rw [if_pos hok, hhdr]
      simp only [Db.GetCounter]
      split
      · have := ih
          { c := (Db.ReadHeader M sizeofT st.db st.media st.l).2.1.counter
            s := true
            l := Struct.GetNextLocation M e st.l
            db := (Db.ReadHeader M sizeofT st.db st.media st.l).2.1
            media := (Db.ReadHeader M sizeofT st.db st.media st.l).2.2 } (nextIdx N i) hn
        simp only [hv] at this
        exact this
      · exact ⟨rfl, hl⟩
    · have hnone : headerOf (view st.media) sizeofT e i = none := by
        unfold headerOf
        rw [← hl]
        by_cases hb : view st.media (st.l + 2) = sizeofU32 sizeofT
        · exact absurd (Db.ReadHeader_of_header hM hS st.db st.media st.l hb) hok
        · rw [if_neg hb]
      rw [if_neg hok, hnone]
      have := ih
        { st with
          l := Struct.GetNextLocation M e st.l
          db := (Db.ReadHeader M sizeofT st.db st.media st.l).2.1
          media := (Db.ReadHeader M sizeofT st.db st.media st.l).2.2 } (nextIdx N i) hn
      simp only [hv] at this
      exact this

theorem Struct.backScan_view (sizeofT : Nat) (hM : ReadContract M view crcf) (n : Nat) (l : Int)
    (db : Db)
    (s : σ) :
    view (Struct.backScan M sizeofT e n l db s).2.2 = view s ∧
      (Struct.backScan M sizeofT e n l db s).2.1.body.length = db.body.length := by
  induction n generalizing l db s with
  | zero => exact ⟨rfl, rfl⟩
  | succ n ih =>
    have hv := Db.Read_view hM sizeofT db s (Struct.GetPreviousLocation M e l)
    have hl := Db.Read_body_length (M := M) sizeofT db s
      (Struct.GetPreviousLocation M e l)
    unfold Struct.backScan
    simp only []
    split
    · exact ⟨hv, hl⟩
    · have := ih (Struct.GetPreviousLocation M e l)
        (Db.Read M sizeofT db s (Struct.GetPreviousLocation M e l)).2.1
        (Db.Read M sizeofT db s (Struct.GetPreviousLocation M e l)).2.2
      rw [this.1, this.2, hv, hl]
      exact ⟨rfl, rfl⟩

theorem Struct.backScan_sound (hM : ReadContract M view crcf) (hR : Ring M sizeofT e N)
    (hW : u32Len sizeofT < 32768) (n : Nat) (i : Nat) (hi : i < N) (db : Db)
    (hb : db.body.length = u32Len sizeofT - 3) (s : σ) (l1 : Int)
    (h : (Struct.backScan M sizeofT e n (e.slot i) db s).1 = some l1) :
    ∃ j, j < N ∧ l1 = e.slot j ∧
      validFrame crcf sizeofT (frameAt (view s) sizeofT (e.slot j)) ∧
      (Struct.backScan M sizeofT e n (e.slot i) db s).2.1 =
        frameAt (view s) sizeofT (e.slot j) := by
  induction n generalizing i db s with
  | zero => simp [Struct.backScan] at h
  | succ n ih =>
    have hp := hR.prev_slot i
    have hlt := prevIdx_lt hR.levels_pos i hi
    unfold Struct.backScan at h ⊢
    simp only [hp] at h ⊢
    by_cases hok : (Db.Read M sizeofT db s (e.slot (prevIdx N i))).1 = true
    · rw [if_pos hok] at h ⊢
      simp only [Option.some.injEq] at h
      have hr := Db.Read_ok hM hW db hb s _ hok
      exact ⟨prevIdx N i, hlt, h.symm, hr.2, hr.1⟩
    · rw [if_neg hok] at h ⊢
      have hv := Db.Read_view hM sizeofT db s (e.slot (prevIdx N i))
      have hl := Db.Read_body_length (M := M) sizeofT db s (e.slot (prevIdx N i))
      have := ih (prevIdx N i) hlt _ (by rw [hl]; exact hb) _ h
      rw [hv] at this
      exact this

theorem Struct.backScan_idx (hM : ReadContract M view crcf) (hS : ReadsSucceed M)
    (hR : Ring M sizeofT e N) (hW : u32Len sizeofT < 32768) (n : Nat) (i : Nat) (hi : i < N)
    (db : Db) (hb : db.body.length = u32Len sizeofT - 3) (s : σ) :
    (Struct.backScan M sizeofT e n (e.slot i) db s).1 =
      (backIdx (fun j => decide (validFrame crcf sizeofT (frameAt (view s) sizeofT (e.slot j))))
        N n i).map e.slot := by
  induction n generalizing i db s with
  | zero => rfl
  | succ n ih =>
    have hp := hR.prev_slot i
    have hlt := prevIdx_lt hR.levels_pos i hi
    unfold Struct.backScan backIdx
    simp only [hp]
    by_cases hv : validFrame crcf sizeofT (frameAt (view s) sizeofT (e.slot (prevIdx N i)))
    · rw [if_pos (Db.Read_of_valid hM hS hW db hb s _ hv)]
      simp [hv]
    · have hok : ¬ (Db.Read M sizeofT db s (e.slot (prevIdx N i))).1 = true :=
        fun hok => hv (Db.Read_ok hM hW db hb s _ hok).2
      rw [if_neg hok]
      have hview := Db.Read_view hM sizeofT db s (e.slot (prevIdx N i))
      have hl := Db.Read_body_length (M := M) sizeofT db s (e.slot (prevIdx N i))
      have := ih (prevIdx N i) hlt _ (by rw [hl]; exact hb)
        (Db.Read M sizeofT db s (e.slot (prevIdx N i))).2.2
      rw [this, hview]
      simp [hv]

end ScanLemmas

/-! ## The two loops on slot indices -/

theorem scanIdx_lt (h : Nat → Option Nat) {N : Nat} (hN : 0 < N) (n c : Nat) (s : Bool)
    (i : Nat) (hi : i < N) : (scanIdx h N n c s i).2 < N := by
  induction n generalizing c s i with
  | zero => exact hi
  | succ n ih =>
    unfold scanIdx
    split
    · split
      · exact ih _ _ _ (nextIdx_lt hN i)
      · exact hi
    · exact ih _ _ _ (nextIdx_lt hN i)

theorem scanIdx_true (h : Nat → Option Nat) (N n c i : Nat) :
    (scanIdx h N n c true i).1 = true := by
  induction n generalizing c i with
  | zero => rfl
  | succ n ih =>
    unfold scanIdx
    split
    · split
      · exact ih _ _
      · rfl
    · exact ih _ _

theorem scanIdx_false (h : Nat → Option Nat) (N n c i : Nat) (hnone : ∀ j, h j = none) :
    (scanIdx h N n c false i).1 = false := by
  induction n generalizing c i with
  | zero => rfl
  | succ n ih =>
    unfold scanIdx
    rw [hnone i]
    exact ih _ _

theorem scanIdx_found (h : Nat → Option Nat) (N : Nat) (j : Nat) (hj : j < N)
    (hh : h j ≠ none) (n c i : Nat) (hi : i ≤ j) (hn : j < i + n) :
    (scanIdx h N n c false i).1 = true := by
  induction n generalizing c i with
  | zero => omega
  | succ n ih =>
    unfold scanIdx
    cases hx : h i with
    | some x =>
      simp only [Bool.not_false, Bool.true_or, if_true]
      exact scanIdx_true h N n x _
    | none =>
      simp only []
      have hne : i ≠ j := fun heq => hh (heq ▸ hx)
      have hnext : nextIdx N i = i + 1 := by unfold nextIdx; rw [if_pos (by omega)]
      rw [hnext]
      exact ih _ _ (by omega) (by omega)

theorem backIdx_some (valid : Nat → Bool) {N : Nat} (hN : 0 < N) (n i : Nat) (hi : i < N)
    (j : Nat) (h : backIdx valid N n i = some j) : j < N ∧ valid j = true := by
  induction n generalizing i with
  | zero => simp [backIdx] at h
  | succ n ih =>
    unfold backIdx at h
    by_cases hv : valid (prevIdx N i) = true
    · rw [if_pos hv] at h
      simp only [Option.some.injEq] at h
      subst h
      exact ⟨prevIdx_lt hN i hi, hv⟩
    · rw [if_neg hv] at h
      exact ih _ (prevIdx_lt hN i hi) h

theorem backIdx_descend (valid : Nat → Bool) (N : Nat) (n q : Nat)
    (h : backIdx valid N n q = none) :
    (∀ j, j < q → q ≤ j + n → valid j = false) ∧
      (q ≤ n → backIdx valid N (n - q) 0 = none) := by
  induction n generalizing q with
  | zero =>
    refine ⟨fun j h1 h2 => by omega, fun hq => ?_⟩
    have : q = 0 := by omega
    subst this
    exact h
  | succ n ih =>
    cases q with
    | zero => exact ⟨fun j h1 _ => by omega, fun _ => h⟩
    | succ q =>
      unfold backIdx at h
      have hp : prevIdx N (q + 1) = q := by unfold prevIdx; simp
      rw [hp] at h
      by_cases hv : valid q = true
      · rw [if_pos hv] at h
        simp at h
      · rw [if_neg hv] at h
        have := ih q h
        refine ⟨fun j h1 h2 => ?_, fun hq => ?_⟩
        · by_cases hjq : j = q
          · subst hjq
            simpa using hv
          · exact this.1 j (by omega) (by omega)
        · have h3 := this.2 (by omega)
          have e : n + 1 - (q + 1) = n - q := by omega
          rw [e]
          exact h3

theorem backIdx_none (valid : Nat → Bool) {N : Nat} (n q : Nat) (hq : q < N)
    (hn : N ≤ n) (h : backIdx valid N n q = none) : ∀ j, j < N → valid j = false := by
  have h1 := backIdx_descend valid N n q h
  have h2 := h1.2 (by omega)
  obtain ⟨m, hm⟩ : ∃ m, n - q = m + 1 := ⟨n - q - 1, by omega⟩
  rw [hm] at h2
  unfold backIdx at h2
  have hp : prevIdx N 0 = N - 1 := by unfold prevIdx; simp
  rw [hp] at h2
  by_cases hv : valid (N - 1) = true
  · rw [if_pos hv] at h2
    simp at h2
  · rw [if_neg hv] at h2
    have h3 := backIdx_descend valid N m (N - 1) h2
    intro j hj
    by_cases hjq : j < q
    · exact h1.1 j hjq (by omega)
    · by_cases hjN : j = N - 1
      · subst hjN
        simpa using hv
      · exact h3.1 j (by omega) (by omega)

/-- Walking backwards from `q`, the loop returns `p` when `p` is valid and every
slot between `p` and `q` (downwards from `q`) is not. -/
theorem backIdx_down (valid : Nat → Bool) (N : Nat) (p : Nat) (hp : valid p = true)
    (n q : Nat) (hpq : p < q) (hn : q ≤ p + n)
    (hbad : ∀ j, p < j → j < q → valid j = false) : backIdx valid N n q = some p := by
  induction n generalizing q with
  | zero => omega
  | succ n ih =>
    unfold backIdx
    have hprev : prevIdx N q = q - 1 := by unfold prevIdx; rw [if_pos (by omega)]
    rw [hprev]
    by_cases hq : q - 1 = p
    · rw [hq, if_pos hp]
    · have hv := hbad (q - 1) (by omega) (by omega)
      rw [if_neg (by simp [hv])]
      exact ih (q - 1) (by omega) (by omega) (fun j h1 h2 => hbad j h1 (by omega))

/-- The same from slot `0`, where the walk wraps to the last slot. -/
theorem backIdx_wrap (valid : Nat → Bool) (N : Nat) (p : Nat) (hp : valid p = true)
    (hpN : p < N) (n : Nat) (hn : N ≤ p + n)
    (hbad : ∀ j, p < j → j < N → valid j = false) : backIdx valid N n 0 = some p := by
  obtain ⟨m, hm⟩ : ∃ m, n = m + 1 := ⟨n - 1, by omega⟩
  subst hm
  unfold backIdx
  have hprev : prevIdx N 0 = N - 1 := by unfold prevIdx; simp
  rw [hprev]
  by_cases hq : N - 1 = p
  · rw [hq, if_pos hp]
  · have hv := hbad (N - 1) (by omega) (by omega)
    rw [if_neg (by simp [hv])]
    exact backIdx_down valid N p hp m (N - 1) (by omega) (by omega)
      (fun j h1 h2 => hbad j h1 (by omega))

/-! ## The first loop on a ring written in order -/

section ScanRuns

variable (h : Nat → Option Nat) (N : Nat)

theorem scanIdx_step_some (n c : Nat) (f : Bool) (i x : Nat) (hx : h i = some x)
    (hc : f = false ∨ c < x) :
    scanIdx h N (n + 1) c f i = scanIdx h N n x true (nextIdx N i) := by
  rw [scanIdx, hx]
  simp only []
  rcases hc with hf | hlt
  · rw [hf]; simp
  · rw [if_pos (by simp [hlt])]

theorem scanIdx_step_none (n c : Nat) (f : Bool) (i : Nat) (hx : h i = none) :
    scanIdx h N (n + 1) c f i = scanIdx h N n c f (nextIdx N i) := by
  rw [scanIdx, hx]

theorem scanIdx_stop (n c q : Nat) (hq : n = 0 ∨ ∃ x, h q = some x ∧ x ≤ c) :
    scanIdx h N n c true q = (true, q) := by
  cases n with
  | zero => rfl
  | succ n =>
    rcases hq with h0 | ⟨x, hx, hle⟩
    · omega
    · rw [scanIdx, hx]
      simp only []
      rw [if_neg (by simp; omega)]

/-- A run of `d ≥ 1` consecutive slots from `a` whose counters are `c0 + i`,
entered with no block found yet or with a smaller counter. -/
theorem scanIdx_rising (c0 : Nat) (d : Nat) (a c : Nat) (f : Bool) (n : Nat)
    (hc : f = false ∨ c < c0 + a)
    (hrun : ∀ i, a ≤ i → i ≤ a + d → h i = some (c0 + i))
    (hN : a + d < N) (hn : d + 1 ≤ n) :
    scanIdx h N n c f a =
      scanIdx h N (n - (d + 1)) (c0 + (a + d)) true (nextIdx N (a + d)) := by
  induction d generalizing a c f n with
  | zero =>
    obtain ⟨m, hm⟩ : ∃ m, n = m + 1 := ⟨n - 1, by omega⟩
    subst hm
    rw [scanIdx_step_some h N m c f a (c0 + a) (hrun a (le_refl _) (by omega)) hc]
    simp
  | succ d ih =>
    obtain ⟨m, hm⟩ : ∃ m, n = m + 1 := ⟨n - 1, by omega⟩
    subst hm
    rw [scanIdx_step_some h N m c f a (c0 + a) (hrun a (le_refl _) (by omega)) hc]
    have hnext : nextIdx N a = a + 1 := by unfold nextIdx; rw [if_pos (by omega)]
    rw [hnext, ih (a + 1) (c0 + a) true m (Or.inr (by omega))
      (fun i h1 h2 => hrun i (by omega) (by omega)) (by omega) (by omega)]
    have e1 : a + 1 + d = a + (d + 1) := by omega
    have e2 : m - (d + 1) = m + 1 - (d + 1 + 1) := by omega
    rw [e1, e2]

/-- A run of `d` consecutive slots from `a` without a header, up to the end of the ring. -/
theorem scanIdx_none_run (d : Nat) (a c : Nat) (f : Bool) (n : Nat)
    (hrun : ∀ i, a ≤ i → i < a + d → h i = none)
    (ha : a < N) (hN : a + d ≤ N) (hn : d ≤ n) :
    scanIdx h N n c f a =
      scanIdx h N (n - d) c f (if a + d = N then 0 else a + d) := by
  induction d generalizing a n with
  | zero =>
    rw [if_neg (by omega)]
    simp
  | succ d ih =>
    obtain ⟨m, hm⟩ : ∃ m, n = m + 1 := ⟨n - 1, by omega⟩
    subst hm
    rw [scanIdx_step_none h N m c f a (hrun a (le_refl _) (by omega))]
    by_cases hlast : a + 1 < N
    · have hnext : nextIdx N a = a + 1 := by unfold nextIdx; rw [if_pos hlast]
      rw [hnext, ih (a + 1) m (fun i h1 h2 => hrun i (by omega) (by omega)) hlast (by omega)
        (by omega)]
      have e1 : a + 1 + d = a + (d + 1) := by omega
      have e2 : m - d = m + 1 - (d + 1) := by omega
      rw [e1, e2]
    · have hnext : nextIdx N a = 0 := by unfold nextIdx; rw [if_neg hlast]
      have hd : d = 0 := by omega
      subst hd
      rw [hnext, if_pos (by omega)]
      simp

end ScanRuns

/-- On a ring written in order the two loops end at the newest slot. -/
theorem IdxState.newest {h : Nat → Option Nat} {valid : Nat → Bool} {N p b : Nat}
    (hI : IdxState h valid N p b) (K : Nat) (hK : N ≤ K) :
    (scanIdx h N K 0 false 0).1 = true ∧
      backIdx valid N K (scanIdx h N K 0 false 0).2 = some p := by
  have hp := hI.p_lt
  have hrise := scanIdx_rising h N b p 0 0 false K (Or.inl rfl)
    (fun i _ h2 => by simpa using (hI.cur i (by omega)).1) (by omega) (by omega)
  simp only [Nat.zero_add] at hrise
  rw [hrise]
  have hvp := (hI.cur p (le_refl _)).2
  by_cases hb : b = 0
  · have hfl := hI.first_lap hb
    by_cases hlast : p + 1 < N
    · have hnext : nextIdx N p = p + 1 := by unfold nextIdx; rw [if_pos hlast]
      rw [hnext, scanIdx_none_run h N (N - (p + 1)) (p + 1) _ true _
        (fun i h1 h2 => (hfl i (by omega) (by omega)).1) hlast (by omega) (by omega)]
      rw [if_pos (by omega)]
      rw [scanIdx_stop h N _ _ 0 (by
        by_cases hz : K - (p + 1) - (N - (p + 1)) = 0
        · exact Or.inl hz
        · exact Or.inr ⟨b + 0, (hI.cur 0 (by omega)).1, by omega⟩)]
      exact ⟨rfl, backIdx_wrap valid N p hvp hp K (by omega)
        (fun j h1 h2 => (hfl j h1 h2).2)⟩
    · have hnext : nextIdx N p = 0 := by unfold nextIdx; rw [if_neg hlast]
      rw [hnext, scanIdx_stop h N _ _ 0 (by
        by_cases hz : K - (p + 1) = 0
        · exact Or.inl hz
        · exact Or.inr ⟨b + 0, (hI.cur 0 (by omega)).1, by omega⟩)]
      exact ⟨rfl, backIdx_wrap valid N p hvp hp K (by omega) (fun j h1 h2 => by omega)⟩
  · obtain ⟨hbN, hll⟩ := hI.later_lap hb
    by_cases hlast : p + 1 < N
    · have hnext : nextIdx N p = p + 1 := by unfold nextIdx; rw [if_pos hlast]
      rw [hnext, scanIdx_stop h N _ _ (p + 1)
        (Or.inr ⟨b + (p + 1) - N, (hll (p + 1) (by omega) hlast).1, by omega⟩)]
      exact ⟨rfl, backIdx_down valid N p hvp K (p + 1) (by omega) (by omega)
        (fun j h1 h2 => by omega)⟩
    · have hnext : nextIdx N p = 0 := by unfold nextIdx; rw [if_neg hlast]
      rw [hnext, scanIdx_stop h N _ _ 0 (by
        by_cases hz : K - (p + 1) = 0
        · exact Or.inl hz
        · exact Or.inr ⟨b + 0, (hI.cur 0 (by omega)).1, by omega⟩)]
      exact ⟨rfl, backIdx_wrap valid N p hvp hp K (by omega) (fun j h1 h2 => by omega)⟩

/-- On a ring written in order whose newest slot `p` has been replaced by content
that does not validate, the two loops end at the slot before `p`. -/
theorem IdxState.torn {h : Nat → Option Nat} {valid : Nat → Bool} {N p b : Nat}
    (hI : IdxState h valid N p b) (h1 : Nat → Option Nat) (valid1 : Nat → Bool)
    (hsame : ∀ i, i ≠ p → h1 i = h i ∧ valid1 i = valid i) (hbad : valid1 p = false)
    (hN : 2 ≤ N) (hk : 1 ≤ b + p) (K : Nat) (hK : N ≤ K) :
    (scanIdx h1 N K 0 false 0).1 = true ∧
      backIdx valid1 N K (scanIdx h1 N K 0 false 0).2 = some (prevIdx N p) := by
  have hp := hI.p_lt
  by_cases hp0 : p = 0
  · -- the newest slot is the first one: the lap before fills the other slots
    subst hp0
    have hb : b ≠ 0 := by omega
    obtain ⟨hbN, hll⟩ := hI.later_lap hb
    have hprev : prevIdx N 0 = N - 1 := by unfold prevIdx; simp
    rw [hprev]
    have hv1 : ∀ i, 0 < i → i < N → h1 i = some (b - N + i) ∧ valid1 i = true := by
      intro i hi1 hi2
      have h2 := hll i hi1 hi2
      have h3 := hsame i (by omega)
      rw [h3.1, h3.2, h2.1]
      exact ⟨by congr 1; omega, h2.2⟩
    have hlastv : valid1 (N - 1) = true := (hv1 (N - 1) (by omega) (by omega)).2
    have back0 : ∀ n, 1 ≤ n → backIdx valid1 N n 0 = some (N - 1) := fun n hn =>
      backIdx_wrap valid1 N (N - 1) hlastv (by omega) n (by omega) (fun j h1 h2 => by omega)
    have back1 : ∀ n, 2 ≤ n → backIdx valid1 N n 1 = some (N - 1) := by
      intro n hn
      obtain ⟨m, hm⟩ : ∃ m, n = m + 1 := ⟨n - 1, by omega⟩
      subst hm
      rw [backIdx]
      have hp1 : prevIdx N 1 = 0 := by unfold prevIdx; simp
      rw [hp1, if_neg (by simp [hbad])]
      exact back0 m (by omega)
    have hnext0 : nextIdx N 0 = 1 := by unfold nextIdx; rw [if_pos (by omega)]
    have hnextl : nextIdx N (1 + (N - 2)) = 0 := by unfold nextIdx; rw [if_neg (by omega)]
    obtain ⟨m, hm⟩ : ∃ m, K = m + 1 := ⟨K - 1, by omega⟩
    have hrise : ∀ c f, (f = false ∨ c < b - N + 1) →
        scanIdx h1 N m c f 1 = scanIdx h1 N (m - (N - 2 + 1)) (b - N + (1 + (N - 2))) true 0 := by
      intro c f hc
      rw [scanIdx_rising h1 N (b - N) (N - 2) 1 c f m hc
        (fun i hi1 hi2 => (hv1 i (by omega) (by omega)).1) (by omega) (by omega), hnextl]
    cases hg : h1 0 with
    | none =>
      rw [hm, scanIdx_step_none h1 N m 0 false 0 hg, hnext0, hrise 0 false (Or.inl rfl)]
      by_cases hz : m - (N - 2 + 1) = 0
      · rw [hz]
        exact ⟨rfl, back0 _ (by omega)⟩
      · obtain ⟨m2, hm2⟩ : ∃ m2, m - (N - 2 + 1) = m2 + 1 := ⟨m - (N - 2 + 1) - 1, by omega⟩
        rw [hm2, scanIdx_step_none h1 N m2 _ true 0 hg, hnext0,
          scanIdx_stop h1 N m2 _ 1 (Or.inr ⟨b - N + 1, (hv1 1 (by omega) (by omega)).1,
            by omega⟩)]
        exact ⟨rfl, back1 _ (by omega)⟩
    | some g =>
      rw [hm, scanIdx_step_some h1 N m 0 false 0 g hg (Or.inl rfl), hnext0]
      by_cases hgle : b - N + 1 ≤ g
      · rw [scanIdx_stop h1 N m g 1 (Or.inr ⟨b - N + 1, (hv1 1 (by omega) (by omega)).1, hgle⟩)]
        exact ⟨rfl, back1 _ (by omega)⟩
      · rw [hrise g true (Or.inr (by omega)),
          scanIdx_stop h1 N _ _ 0 (Or.inr ⟨g, hg, by omega⟩)]
        exact ⟨rfl, back0 _ (by omega)⟩
  · -- the newest slot has a slot before it in the same lap
    have hprev : prevIdx N p = p - 1 := by unfold prevIdx; rw [if_pos (by omega)]
    rw [hprev]
    have hcur1 : ∀ i, i < p → h1 i = some (b + i) ∧ valid1 i = true := by
      intro i hi
      have h2 := hI.cur i (by omega)
      have h3 := hsame i (by omega)
      rw [h3.1, h3.2]
      exact h2
    have hvpp : valid1 (p - 1) = true := (hcur1 (p - 1) (by omega)).2
    have hnextp : nextIdx N (0 + (p - 1)) = p := by unfold nextIdx; rw [if_pos (by omega)]; omega
    have hrise := scanIdx_rising h1 N b (p - 1) 0 0 false K (Or.inl rfl)
      (fun i _ h2 => by simpa using (hcur1 i (by omega)).1) (by omega) (by omega)
    rw [hnextp] at hrise
    rw [hrise]
    obtain ⟨m, hm⟩ : ∃ m, K - (p - 1 + 1) = m + 1 := ⟨K - (p - 1 + 1) - 1, by omega⟩
    rw [hm]
    have tail : ∀ c1, b + (0 + (p - 1)) ≤ c1 →
        (scanIdx h1 N m c1 true (nextIdx N p)).1 = true ∧
          backIdx valid1 N K (scanIdx h1 N m c1 true (nextIdx N p)).2 = some (p - 1) := by
      intro c1 hc1
      by_cases hlast : p + 1 < N
      · have hnext : nextIdx N p = p + 1 := by unfold nextIdx; rw [if_pos hlast]
        rw [hnext]
        by_cases hb : b = 0
        · have hfl := hI.first_lap hb
          rw [scanIdx_none_run h1 N (N - (p + 1)) (p + 1) c1 true m
            (fun i hi1 hi2 => by
              rw [(hsame i (by omega)).1]; exact (hfl i (by omega) (by omega)).1)
            hlast (by omega) (by omega)]
          rw [if_pos (by omega)]
          rw [scanIdx_stop h1 N _ _ 0 (by
            by_cases hz : m - (N - (p + 1)) = 0
            · exact Or.inl hz
            · exact Or.inr ⟨b + 0, (hcur1 0 (by omega)).1, by omega⟩)]
          refine ⟨rfl, backIdx_wrap valid1 N (p - 1) hvpp (by omega) K (by omega) ?_⟩
          intro j hj1 hj2
          by_cases hjp : j = p
          · rw [hjp]; exact hbad
          · rw [(hsame j hjp).2]; exact (hfl j (by omega) hj2).2
        · obtain ⟨hbN, hll⟩ := hI.later_lap hb
          rw [scanIdx_stop h1 N m c1 (p + 1) (Or.inr ⟨b + (p + 1) - N, by
            rw [(hsame (p + 1) (by omega)).1]; exact (hll (p + 1) (by omega) hlast).1,
            by omega⟩)]
          refine ⟨rfl, backIdx_down valid1 N (p - 1) hvpp K (p + 1) (by omega) (by omega) ?_⟩
          intro j hj1 hj2
          have hjp : j = p := by omega
          rw [hjp]; exact hbad
      · have hnext : nextIdx N p = 0 := by unfold nextIdx; rw [if_neg hlast]
        rw [hnext, scanIdx_stop h1 N _ _ 0 (by
          by_cases hz : m = 0
          · exact Or.inl hz
          · exact Or.inr ⟨b + 0, (hcur1 0 (by omega)).1, by omega⟩)]
        refine ⟨rfl, backIdx_wrap valid1 N (p - 1) hvpp (by omega) K (by omega) ?_⟩
        intro j hj1 hj2
        have hjp : j = p := by omega
        rw [hjp]; exact hbad
    cases hg : h1 p with
    | none =>
      rw [scanIdx_step_none h1 N m _ true p hg]
      exact tail _ (le_refl _)
    | some g =>
      by_cases hgle : g ≤ b + (0 + (p - 1))
      · rw [scanIdx_stop h1 N _ _ p (Or.inr ⟨g, hg, hgle⟩)]
        exact ⟨rfl, backIdx_down valid1 N (p - 1) hvpp K p (by omega) (by omega)
          (fun j hj1 hj2 => by omega)⟩
      · rw [scanIdx_step_some h1 N m _ true p g hg (Or.inr (by omega))]
        exact tail g (by omega)

/-! ## Cold load -/

section ColdLoad

variable {σ : Type} {M : Media σ} {view : σ → Int → Nat} {crcf : List Nat → Nat → Nat}
variable {sizeofT : Nat} {e : Struct} {N : Nat}

/-- A cold load that returns true has taken a valid block from a slot of the ring. -/
theorem Struct.coldLoad_sound (hM : ReadContract M view crcf) (hR : Ring M sizeofT e N)
    (hW : u32Len sizeofT < 32768) (hb : e.db_.body.length = u32Len sizeofT - 3) (s : σ)
    (data : List Nat) (h : (Struct.coldLoad M sizeofT e s data).ok = true) :
    ∃ j, j < N ∧
      validFrame crcf sizeofT (frameAt (view s) sizeofT (e.slot j)) ∧
      (Struct.coldLoad M sizeofT e s data).engine =
        { e with loaded := true, location := e.slot j,
                 db_ := frameAt (view s) sizeofT (e.slot j) } ∧
      (Struct.coldLoad M sizeofT e s data).data =
        (frameAt (view s) sizeofT (e.slot j)).Get sizeofT ∧
      view (Struct.coldLoad M sizeofT e s data).media = view s := by
  have hsv := Struct.headerScan_view (e := e) sizeofT hM (doWhileCount e.pages_)
    { c := 0, s := false, l := e.start_, db := e.db_, media := s }
  obtain ⟨q, hq, hql⟩ := Struct.headerScan_on_ring sizeofT hR (doWhileCount e.pages_)
    { c := 0, s := false, l := e.start_, db := e.db_, media := s } 0 hR.levels_pos
    (Struct.slot_zero e).symm
  unfold Struct.coldLoad at h ⊢
  simp only [] at h hsv ⊢
  generalize Struct.headerScan M sizeofT e (doWhileCount e.pages_)
    { c := 0, s := false, l := e.start_, db := e.db_, media := s } = sc at h hsv hql ⊢
  cases hs : sc.s with
  | false => rw [hs] at h; simp at h
  | true =>
    rw [hs] at h
    simp only [if_true] at h ⊢
    rw [hql] at h ⊢
    have hbv := Struct.backScan_view (e := e) sizeofT hM (doWhileCount e.pages_)
      (e.slot q) sc.db sc.media
    cases hb1 : (Struct.backScan M sizeofT e (doWhileCount e.pages_) (e.slot q) sc.db
        sc.media).1 with
    | none => rw [hb1] at h; simp at h
    | some l1 =>
      obtain ⟨j, hj, hl1, hv, hdb⟩ := Struct.backScan_sound hM hR hW (doWhileCount e.pages_) q hq
        sc.db (by rw [hsv.2]; exact hb) sc.media l1 hb1
      rw [hsv.1] at hv hdb
      refine ⟨j, hj, hv, ?_, ?_, ?_⟩
      · simp only [hdb, hl1]
      · simp only [hdb]
      · simp only [hbv.1, hsv.1]

/-- On a media whose reads succeed, the cold load is the two loops on slot indices. -/
theorem Struct.coldLoad_idx (hM : ReadContract M view crcf) (hS : ReadsSucceed M)
    (hR : Ring M sizeofT e N) (hW : u32Len sizeofT < 32768)
    (hb : e.db_.body.length = u32Len sizeofT - 3) (s : σ) (data : List Nat) :
    (Struct.coldLoad M sizeofT e s data).ok =
      ((scanIdx (headerOf (view s) sizeofT e) N (doWhileCount e.pages_) 0 false 0).1 &&
        (backIdx (fun j => decide (validFrame crcf sizeofT (frameAt (view s) sizeofT (e.slot j))))
          N (doWhileCount e.pages_)
          (scanIdx (headerOf (view s) sizeofT e) N (doWhileCount e.pages_) 0 false 0).2).isSome) ∧
    (∀ j, backIdx (fun j => decide (validFrame crcf sizeofT (frameAt (view s) sizeofT (e.slot j))))
          N (doWhileCount e.pages_)
          (scanIdx (headerOf (view s) sizeofT e) N (doWhileCount e.pages_) 0 false 0).2 = some j →
      (Struct.coldLoad M sizeofT e s data).ok = true →
      (Struct.coldLoad M sizeofT e s data).engine =
        { e with loaded := true, location := e.slot j,
                 db_ := frameAt (view s) sizeofT (e.slot j) } ∧
      (Struct.coldLoad M sizeofT e s data).data =
        (frameAt (view s) sizeofT (e.slot j)).Get sizeofT) := by
  have hsv := Struct.headerScan_view (e := e) sizeofT hM (doWhileCount e.pages_)
    { c := 0, s := false, l := e.start_, db := e.db_, media := s }
  have hsi := Struct.headerScan_idx sizeofT hM hS hR (doWhileCount e.pages_)
    { c := 0, s := false, l := e.start_, db := e.db_, media := s } 0 (Struct.slot_zero e).symm
  have hqlt := scanIdx_lt (headerOf (view s) sizeofT e) hR.levels_pos (doWhileCount e.pages_) 0
    false 0 hR.levels_pos
  unfold Struct.coldLoad
  simp only [] at hsv hsi ⊢
  generalize Struct.headerScan M sizeofT e (doWhileCount e.pages_)
    { c := 0, s := false, l := e.start_, db := e.db_, media := s } = sc at hsv hsi ⊢
  generalize scanIdx (headerOf (view s) sizeofT e) N (doWhileCount e.pages_) 0 false 0 = r
    at hsi hqlt ⊢
  obtain ⟨hs, hl⟩ := hsi
  have hbi := Struct.backScan_idx hM hS hR hW (doWhileCount e.pages_) r.2 hqlt sc.db
    (by rw [hsv.2]; exact hb) sc.media
  rw [hsv.1, ← hl] at hbi
  cases hs1 : r.1 with
  | false =>
    rw [hs1] at hs
    simp [hs]
  | true =>
    rw [hs1] at hs
    simp only [hs, if_true, Bool.true_and]
    cases hbk : backIdx (fun j => decide (validFrame crcf sizeofT
        (frameAt (view s) sizeofT (e.slot j)))) N (doWhileCount e.pages_) r.2 with
    | none =>
      rw [hbk] at hbi
      simp only [Option.map_none'] at hbi
      simp [hbi]
    | some j =>
      rw [hbk] at hbi
      simp only [Option.map_some'] at hbi
      have hsound := Struct.backScan_sound hM hR hW (doWhileCount e.pages_) r.2 hqlt sc.db
        (by rw [hsv.2]; exact hb) sc.media (e.slot j) (by rw [← hl]; exact hbi)
      obtain ⟨j2, _, hjj, _, hdb⟩ := hsound
      rw [← hl, hsv.1, ← hjj] at hdb
      simp only [hbi, Option.isSome_some, true_and]
      intro j3 hj3 _
      simp only [Option.some.injEq] at hj3
      subst hj3
      simp only [hdb, and_self]

/-- On a ring without a header the first loop of the cold load finds no candidate. -/
theorem Struct.headerScan_empty (sizeofT : Nat) (hM : ReadContract M view crcf)
    (hR : Ring M sizeofT e N) (n : Nat) :
    ∀ (st : Struct.ScanState σ) (i : Nat), st.s = false → st.l = e.slot i → i < N →
      (∀ j, j < N →
        (frameAt (view st.media) sizeofT (e.slot j)).bytes ≠ sizeofU32 sizeofT) →
      (Struct.headerScan M sizeofT e n st).s = false := by
  induction n with
  | zero =>
    intro st i hs _ _ _
    exact hs
  | succ n ih =>
    intro st i hs hl hi hv
    have hno : (Db.ReadHeader M sizeofT st.db st.media st.l).1 = false := by
      cases hr : (Db.ReadHeader M sizeofT st.db st.media st.l).1
      · rfl
      · exfalso
        have h2 := (Db.ReadHeader_ok hM st.db st.media st.l hr).1
        rw [hl] at h2
        exact hv i hi h2
    rw [Struct.headerScan]
    simp only [hno, Bool.false_eq_true, if_false]
    refine ih _ (nextIdx N i) hs ?_ (nextIdx_lt hR.levels_pos i) ?_
    · show Struct.GetNextLocation M e st.l = _
      rw [hl, hR.next_slot]
    · intro j hj
      show (frameAt (view (Db.ReadHeader M sizeofT st.db st.media st.l).2.2) sizeofT
        (e.slot j)).bytes ≠ _
      rw [Db.ReadHeader_view hM]
      exact hv j hj

end ColdLoad

/-! ## Save -/

section SaveLemmas

variable {σ : Type} {M : Media σ} {view : σ → Int → Nat} {crcf : List Nat → Nat → Nat}

theorem Struct.saveLoop_some (hP : ProgramStores M view) {sizeofT : Nat}
    (hW : u32Len sizeofT < 32768) (e : Struct) (db : Db)
    (hb : db.body.length = u32Len sizeofT - 3) (n : Nat) (l : Int) (s : σ) (l1 : Int)
    (h : (Struct.saveLoop M sizeofT e db n l s).1 = some l1) :
    frameAt (view (Struct.saveLoop M sizeofT e db n l s).2) sizeofT l1 = db := by
  induction n generalizing l s with
  | zero => simp [Struct.saveLoop] at h
  | succ n ih =>
    unfold Struct.saveLoop at h ⊢
    simp only [] at h ⊢
    by_cases hw : (Db.Write M sizeofT db s l).1 = true
    · rw [if_pos hw] at h ⊢
      simp only [Option.some.injEq] at h
      subst h
      exact Db.Write_ok hP hW db hb s l hw
    · rw [if_neg hw] at h ⊢
      exact ih _ _ h

theorem Struct.saveAttempt_ok (hP : ProgramStores M view) {sizeofT : Nat}
    (hW : u32Len sizeofT < 32768) (e : Struct) (db : Db)
    (hb : db.body.length = u32Len sizeofT - 3) (l : Int) (s : σ)
    (h : (Struct.saveAttempt M sizeofT e db l s).ok = true) :
    (Struct.saveAttempt M sizeofT e db l s).engine =
        { e with loaded := true,
                 location := (Struct.saveAttempt M sizeofT e db l s).engine.location,
                 db_ := db } ∧
      frameAt (view (Struct.saveAttempt M sizeofT e db l s).media) sizeofT
        (Struct.saveAttempt M sizeofT e db l s).engine.location = db := by
  unfold Struct.saveAttempt at h ⊢
  simp only [] at h ⊢
  split
  · next l1 hl1 =>
    exact ⟨rfl, Struct.saveLoop_some hP hW e db hb _ _ _ l1 hl1⟩
  · next hn =>
    rw [hn] at h
    simp at h

theorem Struct.Load_warm (hM : ReadContract M view crcf) (hR : ReadsSucceed M) {sizeofT : Nat}
    (hW : u32Len sizeofT < 32768) (e : Struct) (hb : e.db_.body.length = u32Len sizeofT - 3)
    (s : σ) (data : List Nat) (hfit : Db.WillFit M sizeofT e.pages_ = true)
    (hl : e.loaded = true)
    (hv : validFrame crcf sizeofT (frameAt (view s) sizeofT e.location)) :
    (e.Load M sizeofT s data).ok = true ∧
      (e.Load M sizeofT s data).data = (frameAt (view s) sizeofT e.location).Get sizeofT ∧
      (e.Load M sizeofT s data).engine = { e with db_ := frameAt (view s) sizeofT e.location } ∧
      view (e.Load M sizeofT s data).media = view s := by
  have hok := Db.Read_of_valid hM hR hW e.db_ hb s e.location hv
  have hdb := (Db.Read_ok hM hW e.db_ hb s e.location hok).1
  unfold Struct.Load
  have hview := Db.Read_view hM sizeofT e.db_ s e.location
  simp only [hfit, hl, if_true, hok, hdb, hview, and_self]

end SaveLemmas

/-! ## Engines that share a ring -/

section SameRing

variable {σ : Type} {M : Media σ} {view : σ → Int → Nat} {crcf : List Nat → Nat → Nat}
variable {sizeofT : Nat} {e : Struct} {N : Nat}

theorem Ring.of_geometry (hR : Ring M sizeofT e N) (e1 : Struct)
    (h1 : e1.struct_pages_u32_ = e.struct_pages_u32_) (h2 : e1.pages_ = e.pages_)
    (h3 : e1.ware_level_ = e.ware_level_) : Ring M sizeofT e1 N where
  levels_pos := hR.levels_pos
  page_pos := hR.page_pos
  page_words := hR.page_words
  addressable := hR.addressable
  slot_words := by rw [h1]; exact hR.slot_words
  pages := by rw [h2]; exact hR.pages
  levels := by rw [h3]; exact hR.levels

theorem Struct.slot_congr (e e1 : Struct) (h0 : e1.start_ = e.start_)
    (h1 : e1.struct_pages_u32_ = e.struct_pages_u32_) (i : Nat) : e1.slot i = e.slot i := by
  unfold Struct.slot
  rw [h0, h1]

theorem frameAt_congr (v w : Int → Nat) (sizeofT : Nat) (l : Int)
    (h : ∀ a, l ≤ a → a < l + (u32Len sizeofT : Int) → v a = w a) :
    frameAt v sizeofT l = frameAt w sizeofT l := by
  have h3 := u32Len_ge sizeofT
  unfold frameAt
  rw [h l (by omega) (by omega), h (l + 1) (by omega) (by omega),
    h (l + 2) (by omega) (by omega)]
  rw [wordsAt_congr v w (l + 3) (u32Len sizeofT - 3) (fun a h1 h2 => h a (by omega) (by omega))]

theorem Db.Clear_body_length (db : Db) : db.Clear.body.length = db.body.length := by
  simp [Db.Clear, Db.ClearWith]

/-- Slots of a ring do not overlap: a word of slot `i` lies outside slot `j`. -/
theorem Ring.slot_disjoint (hR : Ring M sizeofT e N) (i j : Nat) (hij : i ≠ j) (a : Int)
    (h1 : e.slot i ≤ a) (h2 : a < e.slot i + (e.struct_pages_u32_ : Int)) :
    a < e.slot j ∨ e.slot j + (e.struct_pages_u32_ : Int) ≤ a := by
  rcases Nat.lt_or_gt_of_ne hij with h | h
  · left
    have : e.slot (i + 1) ≤ e.slot j := by
      rcases Nat.lt_or_ge (i + 1) j with h3 | h3
      · exact le_of_lt ((hR.slot_lt_iff _ _).2 h3)
      · have : i + 1 = j := by omega
        rw [this]
    rw [Struct.slot_succ] at this
    omega
  · right
    have : e.slot (j + 1) ≤ e.slot i := by
      rcases Nat.lt_or_ge (j + 1) i with h3 | h3
      · exact le_of_lt ((hR.slot_lt_iff _ _).2 h3)
      · have : j + 1 = i := by omega
        rw [this]
    rw [Struct.slot_succ] at this
    omega

/-- A block stored in slot `i` is untouched by a change confined to slot `j`. -/
theorem Ring.frameAt_other (hR : Ring M sizeofT e N) (v w : Int → Nat) (i j : Nat)
    (hij : i ≠ j)
    (h : ∀ a, (a < e.slot j ∨ e.slot j + (e.struct_pages_u32_ : Int) ≤ a) → w a = v a) :
    frameAt w sizeofT (e.slot i) = frameAt v sizeofT (e.slot i) := by
  apply frameAt_congr
  intro a h1 h2
  have hfit := hR.frame_fits
  exact h a (hR.slot_disjoint i j hij a h1 (by omega))

theorem doWhileCount_pos (i : Nat) : 0 < doWhileCount i := by
  unfold doWhileCount; split <;> omega

theorem Struct.saveAttempt_first (sizeofT : Nat) (e : Struct) (db : Db) (l : Int) (s : σ)
    (h : (Db.Write M sizeofT db s l).1 = true) :
    Struct.saveAttempt M sizeofT e db l s =
      { ok := true, engine := { e with loaded := true, location := l, db_ := db },
        media := (Db.Write M sizeofT db s l).2 } := by
  unfold Struct.saveAttempt
  simp only []
  obtain ⟨k, hk⟩ : ∃ k, doWhileCount (if e.loaded = true then u32 (e.pages_ + 2 ^ 32 - 1)
      else e.pages_) = k + 1 := ⟨_, (Nat.succ_pred_eq_of_pos (doWhileCount_pos _)).symm⟩
  rw [hk]
  unfold Struct.saveLoop
  simp only [h, if_true]

theorem Struct.Load_cold (sizeofT : Nat) (e : Struct) (s : σ) (data : List Nat)
    (hfit : Db.WillFit M sizeofT e.pages_ = true) (hnl : e.loaded = false) :
    e.Load M sizeofT s data = Struct.coldLoad M sizeofT e s data := by
  unfold Struct.Load
  simp [hfit, hnl]

end SameRing

/-! ## The cold load is determined by the media content -/

section Determined

variable {σ : Type} {M : Media σ} {view : σ → Int → Nat} {crcf : List Nat → Nat → Nat}

/-- On a media whose reads succeed, `Db::ReadHeader` is determined by the content
at the location: it returns whether `bytes` is the block size, and it leaves
the header read in the scratch block, with `bytes` and `crc` cleared when it
returns false. -/
theorem Db.ReadHeader_eq (hM : ReadContract M view crcf) (hR : ReadsSucceed M)
    (sizeofT : Nat) (db : Db) (s : σ) (l : Int) :
    (Db.ReadHeader M sizeofT db s l).1 = decide (view s (l + 2) = sizeofU32 sizeofT) ∧
      (Db.ReadHeader M sizeofT db s l).2.1 =
        (if view s (l + 2) = sizeofU32 sizeofT then
          { crc := view s l, counter := view s (l + 1), bytes := view s (l + 2),
            body := db.body }
        else { crc := 0, counter := view s (l + 1), bytes := 0, body := db.body }) := by
  unfold Db.ReadHeader
  simp only [headSize_eq]
  have hlen : 3 ≤ ({ db with counter := 0 } : Db).u32.length := by simp [Db.u32]
  have hr := hR s l ({ db with counter := 0 } : Db).u32 3
  have hd := read_head_data hM s l _ hlen hr
  rw [hd, Db.store_head, hr]
  by_cases hv : view s (l + 2) = sizeofU32 sizeofT
  · simp [hv]
  · simp [hv]

/-- On a media whose reads succeed, `Db::Read` is determined by the content at the
location: it returns whether the block there is valid, and it leaves that block
in the scratch block, with `bytes` and `crc` cleared when it returns false. -/
theorem Db.Read_eq (hM : ReadContract M view crcf) (hR : ReadsSucceed M) {sizeofT : Nat}
    (hW : u32Len sizeofT < 32768) (db : Db) (hb : db.body.length = u32Len sizeofT - 3)
    (s : σ) (l : Int) :
    (Db.Read M sizeofT db s l).1 = decide (validFrame crcf sizeofT (frameAt (view s) sizeofT l)) ∧
      (Db.Read M sizeofT db s l).2.1 =
        (if validFrame crcf sizeofT (frameAt (view s) sizeofT l) then frameAt (view s) sizeofT l
        else { frameAt (view s) sizeofT l with bytes := 0, crc := 0 }) := by
  have h3 := u32Len_ge sizeofT
  have hlen : u32Len sizeofT ≤ db.u32.length := by simp [Db.u32, hb]; omega
  unfold Db.Read
  simp only [sizeofU32_div, toInt16_of_lt hW]
  have hr := hR s l db.u32 (u32Len sizeofT : Int)
  have hd := hM.read_data s l db.u32 (u32Len sizeofT) hlen hr
  rw [if_pos hr, hd, Db.store_full db (view s) l sizeofT hb]
  by_cases hv : validFrame crcf sizeofT (frameAt (view s) sizeofT l)
  · rw [if_pos ((Db.IsValid_iff hM hW _ _).2 hv), if_pos hv]
    simp [hv]
  · have hnv : ¬ (Db.IsValid M sizeofT (frameAt (view s) sizeofT l)
        (M.Read s l db.u32 (u32Len sizeofT : Int)).2.2).1 = true :=
      fun h => hv ((Db.IsValid_iff hM hW _ _).1 h)
    rw [if_neg hnv, if_neg hv]
    simp [hv]

/-- The first loop of the cold load uses the engine for its ring order only. -/
theorem Struct.headerScan_geometry (sizeofT : Nat) (e1 e2 : Struct)
    (hnext : ∀ l, Struct.GetNextLocation M e1 l = Struct.GetNextLocation M e2 l) (n : Nat) :
    ∀ st : Struct.ScanState σ,
      Struct.headerScan M sizeofT e1 n st = Struct.headerScan M sizeofT e2 n st := by
  induction n with
  | zero => intro st; rfl
  | succ n ih =>
    intro st
    rw [Struct.headerScan, Struct.headerScan]
    simp only [hnext, ih]

/-- The second loop of the cold load uses the engine for its ring order only. -/
theorem Struct.backScan_geometry (sizeofT : Nat) (e1 e2 : Struct)
    (hprev : ∀ l, Struct.GetPreviousLocation M e1 l = Struct.GetPreviousLocation M e2 l)
    (n : Nat) :
    ∀ (l : Int) (db : Db) (s : σ),
      Struct.backScan M sizeofT e1 n l db s = Struct.backScan M sizeofT e2 n l db s := by
  induction n with
  | zero => intro l db s; rfl
  | succ n ih =>
    intro l db s
    rw [Struct.backScan, Struct.backScan]
    simp only [hprev, ih]

/-- Two runs of the first loop of the cold load from the same position, on media
with the same content, end in the same position with the same header in the
scratch block, whatever the scratch blocks held before. -/
theorem Struct.headerScan_determined (hM : ReadContract M view crcf) (hR : ReadsSucceed M)
    (sizeofT : Nat) (e : Struct) (n : Nat) :
    ∀ (st1 st2 : Struct.ScanState σ), st1.c = st2.c → st1.s = st2.s → st1.l = st2.l →
      view st1.media = view st2.media →
      (0 < n ∨ (st1.db.crc = st2.db.crc ∧ st1.db.counter = st2.db.counter ∧
        st1.db.bytes = st2.db.bytes)) →
      (Struct.headerScan M sizeofT e n st1).c = (Struct.headerScan M sizeofT e n st2).c ∧
        (Struct.headerScan M sizeofT e n st1).s = (Struct.headerScan M sizeofT e n st2).s ∧
        (Struct.headerScan M sizeofT e n st1).l = (Struct.headerScan M sizeofT e n st2).l ∧
        view (Struct.headerScan M sizeofT e n st1).media =
          view (Struct.headerScan M sizeofT e n st2).media ∧
        (Struct.headerScan M sizeofT e n st1).db.crc =
          (Struct.headerScan M sizeofT e n st2).db.crc ∧
        (Struct.headerScan M sizeofT e n st1).db.counter =
          (Struct.headerScan M sizeofT e n st2).db.counter ∧
        (Struct.headerScan M sizeofT e n st1).db.bytes =
          (Struct.headerScan M sizeofT e n st2).db.bytes := by
  induction n with
  | zero =>
    intro st1 st2 hc hs hl hv hhead
    rcases hhead with h0 | ⟨h1, h2, h3⟩
    · omega
    · exact ⟨hc, hs, hl, hv, h1, h2, h3⟩
  | succ n ih =>
    intro st1 st2 hc hs hl hv _
    obtain ⟨a1, b1⟩ := Db.ReadHeader_eq hM hR sizeofT st1.db st1.media st1.l
    obtain ⟨a2, b2⟩ := Db.ReadHeader_eq hM hR sizeofT st2.db st2.media st1.l
    have v1 := Db.ReadHeader_view hM sizeofT st1.db st1.media st1.l
    have v2 := Db.ReadHeader_view hM sizeofT st2.db st2.media st1.l
    rw [← hv] at a2 b2
    have hok : (Db.ReadHeader M sizeofT st1.db st1.media st1.l).1 =
        (Db.ReadHeader M sizeofT st2.db st2.media st1.l).1 := by rw [a1, a2]
    have hcrc : (Db.ReadHeader M sizeofT st1.db st1.media st1.l).2.1.crc =
        (Db.ReadHeader M sizeofT st2.db st2.media st1.l).2.1.crc := by
      rw [b1, b2]; split <;> rfl
    have hcnt : (Db.ReadHeader M sizeofT st1.db st1.media st1.l).2.1.counter =
        (Db.ReadHeader M sizeofT st2.db st2.media st1.l).2.1.counter := by
      rw [b1, b2]; split <;> rfl
    have hbytes : (Db.ReadHeader M sizeofT st1.db st1.media st1.l).2.1.bytes =
        (Db.ReadHeader M sizeofT st2.db st2.media st1.l).2.1.bytes := by
      rw [b1, b2]; split <;> rfl
    have hview : view (Db.ReadHeader M sizeofT st1.db st1.media st1.l).2.2 =
        view (Db.ReadHeader M sizeofT st2.db st2.media st1.l).2.2 := by rw [v1, v2, hv]
    rw [Struct.headerScan, Struct.headerScan]
    rw [← hl]
    generalize Db.ReadHeader M sizeofT st1.db st1.media st1.l = x1 at hok hcrc hcnt hbytes hview
    generalize Db.ReadHeader M sizeofT st2.db st2.media st1.l = x2 at hok hcrc hcnt hbytes hview
    by_cases hx : x1.1 = true
    · have hx2 : x2.1 = true := by rw [← hok]; exact hx
      rw [if_pos hx, if_pos hx2]
      by_cases hgo : (!st1.s || decide (x1.2.1.GetCounter > st1.c)) = true
      · have hgo2 : (!st2.s || decide (x2.2.1.GetCounter > st2.c)) = true := by
          simp only [Db.GetCounter, Bool.or_eq_true, Bool.not_eq_true', decide_eq_true_eq]
            at hgo ⊢
          rw [← hs, ← hc, ← hcnt]
          exact hgo
        rw [if_pos hgo, if_pos hgo2]
        exact ih _ _ hcnt rfl rfl hview (Or.inr ⟨hcrc, hcnt, hbytes⟩)
      · have hgo2 : ¬ (!st2.s || decide (x2.2.1.GetCounter > st2.c)) = true := by
          simp only [Db.GetCounter, Bool.or_eq_true, Bool.not_eq_true', decide_eq_true_eq]
            at hgo ⊢
          rw [← hs, ← hc, ← hcnt]
          exact hgo
        rw [if_neg hgo, if_neg hgo2]
        exact ⟨hc, hs, rfl, hview, hcrc, hcnt, hbytes⟩
    · have hx2 : ¬ x2.1 = true := by rw [← hok]; exact hx
      rw [if_neg hx, if_neg hx2]
      exact ih _ _ hc hs rfl hview (Or.inr ⟨hcrc, hcnt, hbytes⟩)

/-- Two runs of the second loop of the cold load from the same location, on media
with the same content, find the same location, and after at least one step they
leave the same scratch block. -/
theorem Struct.backScan_determined (hM : ReadContract M view crcf) (hR : ReadsSucceed M)
    {sizeofT : Nat} (hW : u32Len sizeofT < 32768) (e : Struct) (n : Nat) :
    ∀ (l : Int) (db1 db2 : Db) (s1 s2 : σ), db1.body.length = u32Len sizeofT - 3 →
      db2.body.length = u32Len sizeofT - 3 → view s1 = view s2 →
      (Struct.backScan M sizeofT e n l db1 s1).1 = (Struct.backScan M sizeofT e n l db2 s2).1 ∧
        view (Struct.backScan M sizeofT e n l db1 s1).2.2 =
          view (Struct.backScan M sizeofT e n l db2 s2).2.2 ∧
        ((0 < n ∨ db1 = db2) → (Struct.backScan M sizeofT e n l db1 s1).2.1 =
          (Struct.backScan M sizeofT e n l db2 s2).2.1) := by
  induction n with
  | zero =>
    intro l db1 db2 s1 s2 _ _ hv
    refine ⟨rfl, hv, ?_⟩
    intro h
    rcases h with h | h
    · omega
    · exact h
  | succ n ih =>
    intro l db1 db2 s1 s2 hb1 hb2 hv
    obtain ⟨a1, b1⟩ := Db.Read_eq hM hR hW db1 hb1 s1 (Struct.GetPreviousLocation M e l)
    obtain ⟨a2, b2⟩ := Db.Read_eq hM hR hW db2 hb2 s2 (Struct.GetPreviousLocation M e l)
    have v1 := Db.Read_view hM sizeofT db1 s1 (Struct.GetPreviousLocation M e l)
    have v2 := Db.Read_view hM sizeofT db2 s2 (Struct.GetPreviousLocation M e l)
    have l1 := Db.Read_body_length (M := M) sizeofT db1 s1 (Struct.GetPreviousLocation M e l)
    have l2 := Db.Read_body_length (M := M) sizeofT db2 s2 (Struct.GetPreviousLocation M e l)
    rw [← hv] at a2 b2
    have hok : (Db.Read M sizeofT db1 s1 (Struct.GetPreviousLocation M e l)).1 =
        (Db.Read M sizeofT db2 s2 (Struct.GetPreviousLocation M e l)).1 := by rw [a1, a2]
    have hdb : (Db.Read M sizeofT db1 s1 (Struct.GetPreviousLocation M e l)).2.1 =
        (Db.Read M sizeofT db2 s2 (Struct.GetPreviousLocation M e l)).2.1 := by rw [b1, b2]
    have hview : view (Db.Read M sizeofT db1 s1 (Struct.GetPreviousLocation M e l)).2.2 =
        view (Db.Read M sizeofT db2 s2 (Struct.GetPreviousLocation M e l)).2.2 := by
      rw [v1, v2, hv]
    rw [Struct.backScan, Struct.backScan]
    generalize Db.Read M sizeofT db1 s1 (Struct.GetPreviousLocation M e l) = x1
      at hok hdb hview l1
    generalize Db.Read M sizeofT db2 s2 (Struct.GetPreviousLocation M e l) = x2
      at hok hdb hview l2
    by_cases hx : x1.1 = true
    · have hx2 : x2.1 = true := by rw [← hok]; exact hx
      rw [if_pos hx, if_pos hx2]
      exact ⟨rfl, hview, fun _ => hdb⟩
    · have hx2 : ¬ x2.1 = true := by rw [← hok]; exact hx
      rw [if_neg hx, if_neg hx2]
      obtain ⟨h1, h2, h3⟩ := ih (Struct.GetPreviousLocation M e l) x1.2.1 x2.2.1 x1.2.2 x2.2.2
        (by rw [l1]; exact hb1) (by rw [l2]; exact hb2) hview
      exact ⟨h1, h2, fun _ => h3 (Or.inr hdb)⟩

/-- Two cold loads by not-loaded engines of the same ring, on media with the same
content, return the same result, deliver the same record and end with the same
loaded flag and counter, whatever the scratch blocks held before; they end at
the same location when they return true, and each keeps its location when they
return false. -/
theorem Struct.coldLoad_determined (hM : ReadContract M view crcf) (hR : ReadsSucceed M)
    {sizeofT : Nat} (hW : u32Len sizeofT < 32768) (e1 e2 : Struct)
    (hstart : e1.start_ = e2.start_) (hpages : e1.pages_ = e2.pages_)
    (hslot : e1.struct_pages_u32_ = e2.struct_pages_u32_)
    (hb1 : e1.db_.body.length = u32Len sizeofT - 3)
    (hb2 : e2.db_.body.length = u32Len sizeofT - 3)
    (hl1 : e1.loaded = false) (hl2 : e2.loaded = false)
    (s1 s2 : σ) (hv : view s1 = view s2) (data : List Nat) :
    (Struct.coldLoad M sizeofT e1 s1 data).ok = (Struct.coldLoad M sizeofT e2 s2 data).ok ∧
      (Struct.coldLoad M sizeofT e1 s1 data).data =
        (Struct.coldLoad M sizeofT e2 s2 data).data ∧
      (Struct.coldLoad M sizeofT e1 s1 data).engine.loaded =
        (Struct.coldLoad M sizeofT e2 s2 data).engine.loaded ∧
      (Struct.coldLoad M sizeofT e1 s1 data).engine.db_.counter =
        (Struct.coldLoad M sizeofT e2 s2 data).engine.db_.counter ∧
      ((Struct.coldLoad M sizeofT e1 s1 data).ok = true →
        (Struct.coldLoad M sizeofT e1 s1 data).engine.location =
          (Struct.coldLoad M sizeofT e2 s2 data).engine.location) ∧
      ((Struct.coldLoad M sizeofT e1 s1 data).ok = false →
        (Struct.coldLoad M sizeofT e1 s1 data).engine.location = e1.location ∧
        (Struct.coldLoad M sizeofT e2 s2 data).engine.location = e2.location) := by
  have hnext : ∀ l, Struct.GetNextLocation M e1 l = Struct.GetNextLocation M e2 l := by
    intro l
    unfold Struct.GetNextLocation Struct.top
    rw [hstart, hpages, hslot]
  have hprev : ∀ l, Struct.GetPreviousLocation M e1 l = Struct.GetPreviousLocation M e2 l := by
    intro l
    unfold Struct.GetPreviousLocation Struct.top
    rw [hstart, hpages, hslot]
  have hn := doWhileCount_pos e2.pages_
  obtain ⟨hc, hs, hl, hview, _, hcnt, _⟩ := Struct.headerScan_determined hM hR sizeofT e2
    (doWhileCount e2.pages_)
    { c := 0, s := false, l := e2.start_, db := e1.db_, media := s1 }
    { c := 0, s := false, l := e2.start_, db := e2.db_, media := s2 } rfl rfl rfl hv
    (Or.inl hn)
  have hlen1 := (Struct.headerScan_view (e := e2) sizeofT hM (doWhileCount e2.pages_)
    { c := 0, s := false, l := e2.start_, db := e1.db_, media := s1 }).2
  have hlen2 := (Struct.headerScan_view (e := e2) sizeofT hM (doWhileCount e2.pages_)
    { c := 0, s := false, l := e2.start_, db := e2.db_, media := s2 }).2
  rw [Struct.coldLoad, Struct.coldLoad]
  simp only []
  rw [Struct.headerScan_geometry sizeofT e1 e2 hnext, hpages, hstart]
  simp only [Struct.backScan_geometry sizeofT e1 e2 hprev]
  generalize Struct.headerScan M sizeofT e2 (doWhileCount e2.pages_)
    { c := 0, s := false, l := e2.start_, db := e1.db_, media := s1 } = sc1
    at hc hs hl hview hcnt hlen1
  generalize Struct.headerScan M sizeofT e2 (doWhileCount e2.pages_)
    { c := 0, s := false, l := e2.start_, db := e2.db_, media := s2 } = sc2
    at hc hs hl hview hcnt hlen2
  simp only [] at hlen1 hlen2
  by_cases hfound : sc1.s = true
  · have hfound2 : sc2.s = true := by rw [← hs]; exact hfound
    rw [if_pos hfound, if_pos hfound2]
    obtain ⟨hloc, _, hdb⟩ := Struct.backScan_determined hM hR hW e2 (doWhileCount e2.pages_)
      sc1.l sc1.db sc2.db sc1.media sc2.media (by rw [hlen1]; exact hb1)
      (by rw [hlen2]; exact hb2) hview
    have hdb1 := hdb (Or.inl hn)
    rw [← hl]
    generalize Struct.backScan M sizeofT e2 (doWhileCount e2.pages_) sc1.l sc1.db sc1.media = b1
      at hloc hdb1
    generalize Struct.backScan M sizeofT e2 (doWhileCount e2.pages_) sc1.l sc2.db sc2.media = b2
      at hloc hdb1
    cases h1 : b1.1 with
    | none =>
      have h2 : b2.1 = none := by rw [← hloc]; exact h1
      simp [h2, hl1, hl2, hdb1]
    | some l =>
      have h2 : b2.1 = some l := by rw [← hloc]; exact h1
      simp [h2, hdb1]
  · have hfound2 : ¬ sc2.s = true := by rw [← hs]; exact hfound
    rw [if_neg hfound, if_neg hfound2]
    simp [hl1, hl2, hcnt]

end Determined

/-! ## Sessions of saves on reliable media -/

section Sessions

variable {σ : Type} {M : Media σ} {view : σ → Int → Nat} {crcf : List Nat → Nat → Nat}
variable {sizeofT : Nat} {e0 : Struct} {N : Nat}

theorem frameAt_body_length (v : Int → Nat) (sizeofT : Nat) (l : Int) :
    (frameAt v sizeofT l).body.length = u32Len sizeofT - 3 := by
  simp [frameAt, wordsAt_length]

theorem Holds.congr {db db1 : Db} {c : Nat} {r : List Nat}
    (h : Holds crcf sizeofT db c r) (heq : db1 = db) : Holds crcf sizeofT db1 c r := by
  rw [heq]; exact h

/-- What a save on reliable media does to a block stamped by `Update`: the first
attempt succeeds at the target, the target slot holds the stamped block and
nothing else changes. -/
theorem Struct.Save_reliable (hRel : Reliable M view crcf e0.struct_pages_u32_)
    (hW : u32Len sizeofT < 32768) (hR : Ring M sizeofT e0 N) (e : Struct)
    (hb : e.db_.body.length = u32Len sizeofT - 3) (s : σ) (r : List Nat)
    (hr : r.length = sizeofT) (hbytes : ∀ x ∈ r, x < 256) (first : Bool) (l : Int) :
    Struct.saveAttempt M sizeofT e (Db.Update M sizeofT e.db_ s r first).1 l
        (Db.Update M sizeofT e.db_ s r first).2 =
      { ok := true,
        engine := { e with loaded := true, location := l,
                           db_ := (Db.Update M sizeofT e.db_ s r first).1 },
        media := (Db.Write M sizeofT (Db.Update M sizeofT e.db_ s r first).1
          (Db.Update M sizeofT e.db_ s r first).2 l).2 } ∧
    frameAt (view (Db.Write M sizeofT (Db.Update M sizeofT e.db_ s r first).1
        (Db.Update M sizeofT e.db_ s r first).2 l).2) sizeofT l =
      (Db.Update M sizeofT e.db_ s r first).1 ∧
    (∀ a, (a < l ∨ l + (e0.struct_pages_u32_ : Int) ≤ a) →
      view (Db.Write M sizeofT (Db.Update M sizeofT e.db_ s r first).1
        (Db.Update M sizeofT e.db_ s r first).2 l).2 a = view s a) ∧
    Holds crcf sizeofT (Db.Update M sizeofT e.db_ s r first).1
      (if first then 0 else u32 (e.db_.counter + 1)) r := by
  have hu := Db.Update_spec hRel.read hW e.db_ hb s r hr hbytes first
  have huv := Db.Update_view hRel.read sizeofT e.db_ s r first
  have hw := Db.Write_of_valid hRel.read hRel.succeeds hW (Db.Update M sizeofT e.db_ s r first).1
    (Db.Update M sizeofT e.db_ s r first).2 l hu.2.2
  refine ⟨Struct.saveAttempt_first sizeofT e _ _ _ hw, Db.Write_ok hRel.stores hW _ hu.1 _ _ hw,
    ?_, hu.2.2, Db.Update_counter sizeofT e.db_ s r first, hu.2.1⟩
  intro a ha
  rw [← huv]
  exact Db.Write_view_outside hRel.read hRel.within hW hR.frame_fits _ _ _ a ha

/-- The forced save that opens a session on a ring without headers. -/
theorem Session.first (hRel : Reliable M view crcf e0.struct_pages_u32_)
    (hW : u32Len sizeofT < 32768) (hR : Ring M sizeofT e0 N)
    (hfit : Db.WillFit M sizeofT e0.pages_ = true)
    (hb : e0.db_.body.length = u32Len sizeofT - 3) (hnl : e0.loaded = false) (s : σ)
    (hvirgin : ∀ i, i < N → (frameAt (view s) sizeofT (e0.slot i)).bytes ≠ sizeofU32 sizeofT)
    (r : List Nat) (hr : r.length = sizeofT) (hbytes : ∀ x ∈ r, x < 256) :
    (e0.Save M sizeofT s r true).ok = true ∧
      Session view crcf sizeofT e0 N (e0.Save M sizeofT s r true).engine
        (e0.Save M sizeofT s r true).media [r] 0 0 := by
  obtain ⟨hsa, hframe, hout, hholds⟩ := Struct.Save_reliable hRel hW hR e0 hb s r hr hbytes
    true e0.start_
  have hsv : e0.Save M sizeofT s r true =
      Struct.saveAttempt M sizeofT e0 (Db.Update M sizeofT e0.db_ s r true).1 e0.start_
        (Db.Update M sizeofT e0.db_ s r true).2 := by
    unfold Struct.Save
    simp [hfit, hnl]
  rw [hsv, hsa]
  simp only []
  generalize (Db.Write M sizeofT (Db.Update M sizeofT e0.db_ s r true).1
    (Db.Update M sizeofT e0.db_ s r true).2 e0.start_).2 = s1 at hframe hout ⊢
  rw [← Struct.slot_zero e0] at hframe hout
  refine ⟨trivial, ⟨by rw [hframe, Struct.slot_zero], ?_⟩⟩
  exact {
    len := rfl
    p_lt := hR.levels_pos
    cur := by
      intro i hi
      have hi0 : i = 0 := by omega
      subst hi0
      rw [hframe]
      simpa using hholds
    first_lap := by
      intro _ i hi1 hi2
      rw [hR.frameAt_other (view s) _ i 0 (by omega) hout]
      exact hvirgin i hi2
    later_lap := fun h => absurd rfl h }

/-- A save inside a session moves to the next slot with the next counter. -/
theorem Session.save (hRel : Reliable M view crcf e0.struct_pages_u32_)
    (hW : u32Len sizeofT < 32768) (hR : Ring M sizeofT e0 N)
    (hfit : Db.WillFit M sizeofT e0.pages_ = true) {e : Struct} {s : σ}
    {rs : List (List Nat)} {p b : Nat} (hS : Session view crcf sizeofT e0 N e s rs p b)
    (hsmall : b + p + 1 < 2 ^ 32)
    (r : List Nat) (hr : r.length = sizeofT) (hbytes : ∀ x ∈ r, x < 256) (force : Bool) :
    (e.Save M sizeofT s r force).ok = true ∧
      Session view crcf sizeofT e0 N (e.Save M sizeofT s r force).engine
        (e.Save M sizeofT s r force).media (rs ++ [r]) (nextIdx N p)
        (if p + 1 < N then b else b + N) := by
  obtain ⟨heng, hring⟩ := hS
  have hp := hring.p_lt
  have hcur := hring.cur p (le_refl _)
  have hloaded : e.loaded = true := by rw [heng]
  have hloc : e.location = e0.slot p := by rw [heng]
  have hdb : e.db_ = frameAt (view s) sizeofT (e0.slot p) := by rw [heng]
  have hpages : e.pages_ = e0.pages_ := by rw [heng]
  have hgeo : e.struct_pages_u32_ = e0.struct_pages_u32_ := by rw [heng]
  have hstart : e.start_ = e0.start_ := by rw [heng]
  have hlev : e.ware_level_ = e0.ware_level_ := by rw [heng]
  have hRe := hR.of_geometry e hgeo hpages hlev
  have hslot := Struct.slot_congr e0 e hstart hgeo
  have hb : e.db_.body.length = u32Len sizeofT - 3 := by rw [hdb]; exact frameAt_body_length _ _ _
  have hnext : Struct.GetNextLocation M e e.location = e0.slot (nextIdx N p) := by
    rw [hloc, ← hslot p, hRe.next_slot p, hslot]
  obtain ⟨hsa, hframe, hout, hholds⟩ := Struct.Save_reliable hRel hW hR e hb s r hr hbytes
    false (e0.slot (nextIdx N p))
  have hsv : e.Save M sizeofT s r force =
      Struct.saveAttempt M sizeofT e (Db.Update M sizeofT e.db_ s r false).1
        (e0.slot (nextIdx N p)) (Db.Update M sizeofT e.db_ s r false).2 := by
    unfold Struct.Save
    simp [hfit, hpages, hloaded, hnext]
  have hcounter : u32 (e.db_.counter + 1) = b + p + 1 := by
    rw [hdb, hcur.2.1]
    unfold u32
    exact Nat.mod_eq_of_lt hsmall
  simp only [Bool.false_eq_true, if_false, hcounter] at hholds
  rw [hsv, hsa]
  simp only []
  generalize (Db.Write M sizeofT (Db.Update M sizeofT e.db_ s r false).1
    (Db.Update M sizeofT e.db_ s r false).2 (e0.slot (nextIdx N p))).2 = s1 at hframe hout ⊢
  have hother : ∀ i, i ≠ nextIdx N p →
      frameAt (view s1) sizeofT (e0.slot i) = frameAt (view s) sizeofT (e0.slot i) :=
    fun i hi => hR.frameAt_other (view s) (view s1) i (nextIdx N p) hi hout
  have hlen := hring.len
  have hget : ∀ i, i < rs.length → (rs ++ [r]).getD i [] = rs.getD i [] :=
    fun i hi => List.getD_append rs [r] [] i hi
  have hgetl : (rs ++ [r]).getD (b + p + 1) [] = r := by
    rw [List.getD_append_right rs [r] [] (b + p + 1) (by omega)]
    have : b + p + 1 - rs.length = 0 := by omega
    rw [this]
    rfl
  have hengine : ({ e with loaded := true, location := e0.slot (nextIdx N p),
                           db_ := (Db.Update M sizeofT e.db_ s r false).1 } : Struct) =
      { e0 with loaded := true, location := e0.slot (nextIdx N p),
                db_ := frameAt (view s1) sizeofT (e0.slot (nextIdx N p)) } := by
    rw [hframe]
    simp only [hpages, hgeo, hstart, hlev]
  refine ⟨trivial, ⟨hengine, ?_⟩⟩
  by_cases hlast : p + 1 < N
  · have hnx : nextIdx N p = p + 1 := by unfold nextIdx; rw [if_pos hlast]
    rw [hnx] at hframe hother ⊢
    rw [if_pos hlast]
    exact {
      len := by
        simp only [List.length_append, List.length_singleton]
        omega
      p_lt := hlast
      cur := by
        intro i hi
        by_cases hip : i = p + 1
        · subst hip
          rw [hframe, ← Nat.add_assoc, hgetl]
          exact hholds
        · rw [hother i hip, hget (b + i) (by omega)]
          exact hring.cur i (by omega)
      first_lap := by
        intro hb0 i hi1 hi2
        rw [hother i (by omega)]
        exact hring.first_lap hb0 i (by omega) hi2
      later_lap := by
        intro hb0
        obtain ⟨hN, hl⟩ := hring.later_lap hb0
        refine ⟨hN, fun i hi1 hi2 => ?_⟩
        rw [hother i (by omega), hget (b + i - N) (by omega)]
        exact hl i (by omega) hi2 }
  · have hnx : nextIdx N p = 0 := by unfold nextIdx; rw [if_neg hlast]
    have hpN : p + 1 = N := by omega
    rw [hnx] at hframe hother ⊢
    rw [if_neg hlast]
    exact {
      len := by
        simp only [List.length_append, List.length_singleton]
        omega
      p_lt := hR.levels_pos
      cur := by
        intro i hi
        have hi0 : i = 0 := by omega
        subst hi0
        have e1 : b + N + 0 = b + p + 1 := by omega
        rw [hframe, e1, hgetl]
        exact hholds
      first_lap := by
        intro hb0
        omega
      later_lap := by
        intro _
        refine ⟨by omega, fun i hi1 hi2 => ?_⟩
        have e1 : b + N + i - N = b + i := by omega
        rw [hother i (by omega), e1, hget (b + i) (by omega)]
        exact hring.cur i (by omega) }

/-- A load inside a session re-reads the newest slot and changes nothing. -/
theorem Session.load (hRel : Reliable M view crcf e0.struct_pages_u32_)
    (hW : u32Len sizeofT < 32768)
    (hfit : Db.WillFit M sizeofT e0.pages_ = true) {e : Struct} {s : σ}
    {rs : List (List Nat)} {p b : Nat} (hS : Session view crcf sizeofT e0 N e s rs p b)
    (data : List Nat) :
    (e.Load M sizeofT s data).ok = true ∧
      (e.Load M sizeofT s data).data = rs.getD (b + p) [] ∧
      (e.Load M sizeofT s data).engine.GetCounter = b + p ∧
      Session view crcf sizeofT e0 N (e.Load M sizeofT s data).engine
        (e.Load M sizeofT s data).media rs p b := by
  obtain ⟨heng, hring⟩ := hS
  have hcur := hring.cur p (le_refl _)
  have hloaded : e.loaded = true := by rw [heng]
  have hloc : e.location = e0.slot p := by rw [heng]
  have hdb : e.db_ = frameAt (view s) sizeofT (e0.slot p) := by rw [heng]
  have hpages : e.pages_ = e0.pages_ := by rw [heng]
  have hb : e.db_.body.length = u32Len sizeofT - 3 := by rw [hdb]; exact frameAt_body_length _ _ _
  obtain ⟨h1, h2, h3, h4⟩ := Struct.Load_warm hRel.read hRel.reads hW e hb s data
    (by rw [hpages]; exact hfit) hloaded (by rw [hloc]; exact hcur.1)
  have hself : (e.Load M sizeofT s data).engine = e := by
    rw [h3, show frameAt (view s) sizeofT e.location = e.db_ from by rw [hloc, hdb]]
  rw [hloc] at h2
  refine ⟨h1, by rw [h2]; exact hcur.2.2, ?_, ⟨?_, ?_⟩⟩
  · rw [hself]
    simp only [Struct.GetCounter, Db.GetCounter, hdb]
    exact hcur.2.1
  · rw [hself, h4]
    exact heng
  · rw [h4]; exact hring

/-- A session continues through any list of steps. -/
theorem Session.run (hRel : Reliable M view crcf e0.struct_pages_u32_)
    (hW : u32Len sizeofT < 32768) (hR : Ring M sizeofT e0 N)
    (hfit : Db.WillFit M sizeofT e0.pages_ = true) (steps : List SaveStep) :
    ∀ (e : Struct) (s : σ) (rs : List (List Nat)) (p b : Nat),
      Session view crcf sizeofT e0 N e s rs p b → b + p + steps.length < 2 ^ 32 →
      (∀ st ∈ steps, st.r.length = sizeofT ∧ ∀ x ∈ st.r, x < 256) →
      ∃ e1 s1 p1 b1, runSaves M sizeofT e s steps = some (e1, s1) ∧
        Session view crcf sizeofT e0 N e1 s1 (rs ++ steps.map SaveStep.r) p1 b1 ∧
        b1 + p1 = b + p + steps.length := by
  induction steps with
  | nil =>
    intro e s rs p b hS _ _
    exact ⟨e, s, p, b, rfl, by simpa using hS, rfl⟩
  | cons st rest ih =>
    intro e s rs p b hS hsmall hwf
    have hst := hwf st (List.mem_cons_self _ _)
    simp only [List.length_cons] at hsmall
    obtain ⟨hok, hS1⟩ := Session.save hRel hW hR hfit hS (by omega) st.r hst.1 hst.2 st.force
    have hsum : (if p + 1 < N then b else b + N) + nextIdx N p = b + p + 1 := by
      have hp := hS.ring.p_lt
      unfold nextIdx
      split <;> omega
    have hwf1 : ∀ st1 ∈ rest, st1.r.length = sizeofT ∧ ∀ x ∈ st1.r, x < 256 :=
      fun st1 h1 => hwf st1 (List.mem_cons_of_mem _ h1)
    unfold runSaves
    rw [hok]
    simp only [if_true]
    by_cases hla : st.loadAfter = true
    · rw [if_pos hla]
      obtain ⟨_, _, _, hS2⟩ := Session.load hRel hW hfit hS1 st.r
      obtain ⟨e1, s1, p1, b1, hrun, hS3, hsum3⟩ := ih _ _ _ _ _ hS2 (by omega) hwf1
      refine ⟨e1, s1, p1, b1, hrun, ?_, by simp only [List.length_cons]; omega⟩
      simpa using hS3
    · rw [if_neg hla]
      obtain ⟨e1, s1, p1, b1, hrun, hS3, hsum3⟩ := ih _ _ _ _ _ hS1 (by omega) hwf1
      refine ⟨e1, s1, p1, b1, hrun, ?_, by simp only [List.length_cons]; omega⟩
      simpa using hS3

/-- A session opened by a forced save on a ring without headers. -/
theorem Session.opened (hRel : Reliable M view crcf e0.struct_pages_u32_)
    (hW : u32Len sizeofT < 32768) (hR : Ring M sizeofT e0 N)
    (hfit : Db.WillFit M sizeofT e0.pages_ = true)
    (hb : e0.db_.body.length = u32Len sizeofT - 3) (hnl : e0.loaded = false) (s : σ)
    (hvirgin : ∀ i, i < N → (frameAt (view s) sizeofT (e0.slot i)).bytes ≠ sizeofU32 sizeofT)
    (first : SaveStep) (rest : List SaveStep) (hforce : first.force = true)
    (hwf : ∀ st ∈ first :: rest, st.r.length = sizeofT ∧ ∀ x ∈ st.r, x < 256)
    (hk : (first :: rest).length < 2 ^ 32) :
    ∃ e1 s1 p1 b1, runSaves M sizeofT e0 s (first :: rest) = some (e1, s1) ∧
      Session view crcf sizeofT e0 N e1 s1 ((first :: rest).map SaveStep.r) p1 b1 ∧
      b1 + p1 = rest.length := by
  have hst := hwf first (List.mem_cons_self _ _)
  obtain ⟨hok, hS1⟩ := Session.first hRel hW hR hfit hb hnl s hvirgin first.r hst.1 hst.2
  have hwf1 : ∀ st1 ∈ rest, st1.r.length = sizeofT ∧ ∀ x ∈ st1.r, x < 256 :=
    fun st1 h1 => hwf st1 (List.mem_cons_of_mem _ h1)
  simp only [List.length_cons] at hk
  unfold runSaves
  rw [hforce, hok]
  simp only [if_true]
  by_cases hla : first.loadAfter = true
  · rw [if_pos hla]
    obtain ⟨_, _, _, hS2⟩ := Session.load hRel hW hfit hS1 first.r
    obtain ⟨e1, s1, p1, b1, hrun, hS3, hsum3⟩ := Session.run hRel hW hR hfit rest _ _ _ _ _ hS2
      (by omega) hwf1
    exact ⟨e1, s1, p1, b1, hrun, by simpa using hS3, by omega⟩
  · rw [if_neg hla]
    obtain ⟨e1, s1, p1, b1, hrun, hS3, hsum3⟩ := Session.run hRel hW hR hfit rest _ _ _ _ _ hS1
      (by omega) hwf1
    exact ⟨e1, s1, p1, b1, hrun, by simpa using hS3, by omega⟩

theorem headerOf_frame (v : Int → Nat) (sizeofT : Nat) (e : Struct) (i : Nat) :
    headerOf v sizeofT e i =
      if (frameAt v sizeofT (e.slot i)).bytes = sizeofU32 sizeofT then
        some (frameAt v sizeofT (e.slot i)).counter else none := rfl

/-- The ring state on slot indices. -/
theorem RingState.idx {e : Struct} {v : Int → Nat} {rs : List (List Nat)} {p b : Nat}
    (hRS : RingState crcf sizeofT e N v rs p b) :
    IdxState (headerOf v sizeofT e)
      (fun j => decide (validFrame crcf sizeofT (frameAt v sizeofT (e.slot j)))) N p b where
  p_lt := hRS.p_lt
  cur := by
    intro i hi
    obtain ⟨hv, hc, _⟩ := hRS.cur i hi
    rw [headerOf_frame, if_pos hv.1, hc]
    exact ⟨rfl, by simpa using hv⟩
  first_lap := by
    intro hb i hi1 hi2
    have hne := hRS.first_lap hb i hi1 hi2
    rw [headerOf_frame, if_neg hne]
    exact ⟨rfl, by simp [validFrame, hne]⟩
  later_lap := by
    intro hb
    obtain ⟨hN, hl⟩ := hRS.later_lap hb
    refine ⟨hN, fun i hi1 hi2 => ?_⟩
    obtain ⟨hv, hc, _⟩ := hl i hi1 hi2
    rw [headerOf_frame, if_pos hv.1, hc]
    exact ⟨rfl, by simpa using hv⟩

theorem RingState.of_slots {e e1 : Struct} {v : Int → Nat} {rs : List (List Nat)} {p b : Nat}
    (hRS : RingState crcf sizeofT e N v rs p b) (hslot : ∀ i, e1.slot i = e.slot i) :
    RingState crcf sizeofT e1 N v rs p b where
  len := hRS.len
  p_lt := hRS.p_lt
  cur := fun i hi => by rw [hslot]; exact hRS.cur i hi
  first_lap := fun hb i h1 h2 => by rw [hslot]; exact hRS.first_lap hb i h1 h2
  later_lap := fun hb => ⟨(hRS.later_lap hb).1, fun i h1 h2 => by
    rw [hslot]; exact (hRS.later_lap hb).2 i h1 h2⟩

/-- The cold load on a ring written in order delivers the newest record. -/
theorem RingState.coldLoad (hM : ReadContract M view crcf) (hS : ReadsSucceed M)
    (hW : u32Len sizeofT < 32768) {e : Struct} (hR : Ring M sizeofT e N)
    (hb : e.db_.body.length = u32Len sizeofT - 3) {s : σ} {rs : List (List Nat)} {p b : Nat}
    (hRS : RingState crcf sizeofT e N (view s) rs p b) (data : List Nat) :
    (Struct.coldLoad M sizeofT e s data).ok = true ∧
      (Struct.coldLoad M sizeofT e s data).data = rs.getD (b + p) [] ∧
      (Struct.coldLoad M sizeofT e s data).engine.GetCounter = b + p := by
  obtain ⟨hscan, hback⟩ := hRS.idx.newest (doWhileCount e.pages_) hR.count.2
  obtain ⟨hok, hres⟩ := Struct.coldLoad_idx hM hS hR hW hb s data
  have hok1 : (Struct.coldLoad M sizeofT e s data).ok = true := by
    rw [hok, hscan, hback]; rfl
  obtain ⟨heng, hdata⟩ := hres p hback hok1
  obtain ⟨_, hc, hg⟩ := hRS.cur p (le_refl _)
  refine ⟨hok1, by rw [hdata, hg], ?_⟩
  rw [heng]
  exact hc

/-- The cold load on a ring written in order whose newest slot was replaced by
content that does not validate delivers the record saved before the newest. -/
theorem RingState.coldLoad_torn (hM : ReadContract M view crcf) (hS : ReadsSucceed M)
    (hW : u32Len sizeofT < 32768) {e : Struct} (hR : Ring M sizeofT e N)
    (hb : e.db_.body.length = u32Len sizeofT - 3) {v : Int → Nat} {rs : List (List Nat)}
    {p b : Nat} (hRS : RingState crcf sizeofT e N v rs p b) (hN : 2 ≤ N) (hk : 1 ≤ b + p)
    (s : σ)
    (hout : ∀ a, (a < e.slot p ∨ e.slot p + (e.struct_pages_u32_ : Int) ≤ a) → view s a = v a)
    (hbad : ¬ validFrame crcf sizeofT (frameAt (view s) sizeofT (e.slot p)))
    (data : List Nat) :
    (Struct.coldLoad M sizeofT e s data).ok = true ∧
      (Struct.coldLoad M sizeofT e s data).data = rs.getD (b + p - 1) [] ∧
      (Struct.coldLoad M sizeofT e s data).engine.GetCounter = b + p - 1 := by
  have hp := hRS.p_lt
  have hsame : ∀ i, i ≠ p →
      frameAt (view s) sizeofT (e.slot i) = frameAt v sizeofT (e.slot i) :=
    fun i hi => hR.frameAt_other v (view s) i p hi hout
  obtain ⟨hscan, hback⟩ := hRS.idx.torn (headerOf (view s) sizeofT e)
    (fun j => decide (validFrame crcf sizeofT (frameAt (view s) sizeofT (e.slot j))))
    (fun i hi => ⟨by rw [headerOf_frame, headerOf_frame, hsame i hi],
      by simp only [hsame i hi]⟩)
    (by simpa using hbad) hN hk (doWhileCount e.pages_) hR.count.2
  obtain ⟨hok, hres⟩ := Struct.coldLoad_idx hM hS hR hW hb s data
  have hok1 : (Struct.coldLoad M sizeofT e s data).ok = true := by
    rw [hok, hscan, hback]; rfl
  obtain ⟨heng, hdata⟩ := hres (prevIdx N p) hback hok1
  have hholds : Holds crcf sizeofT (frameAt (view s) sizeofT (e.slot (prevIdx N p)))
      (b + p - 1) (rs.getD (b + p - 1) []) := by
    by_cases hp0 : p = 0
    · have hb0 : b ≠ 0 := by omega
      have hpr : prevIdx N p = N - 1 := by unfold prevIdx; rw [if_neg (by omega)]
      rw [hpr, hsame (N - 1) (by omega)]
      have := (hRS.later_lap hb0).2 (N - 1) (by omega) (by omega)
      have e1 : b + (N - 1) - N = b + p - 1 := by omega
      rw [e1] at this
      exact this
    · have hpr : prevIdx N p = p - 1 := by unfold prevIdx; rw [if_pos (by omega)]
      rw [hpr, hsame (p - 1) (by omega)]
      have := hRS.cur (p - 1) (by omega)
      have e1 : b + (p - 1) = b + p - 1 := by omega
      rw [e1] at this
      exact this
  refine ⟨hok1, by rw [hdata]; exact hholds.2.2, ?_⟩
  rw [heng]
  exact hholds.2.1

theorem getD_map_last (l : List SaveStep) (a : SaveStep) :
    ((a :: l).map SaveStep.r).getD l.length [] = (l.getLastD a).r := by
  induction l generalizing a with
  | nil => rfl
  | cons b l ih =>
    rw [List.getLastD_cons]
    simpa using ih b

theorem getD_map_r (l : List SaveStep) (a : SaveStep) (i : Nat) (hi : i < l.length) :
    (l.map SaveStep.r).getD i [] = (l.getD i a).r := by
  induction l generalizing i with
  | nil => simp at hi
  | cons b l ih =>
    cases i with
    | zero => rfl
    | succ i => simpa using ih i (by simpa using hi)

/-- A session through any list of steps keeps the lap base a multiple of the
number of slots. -/
theorem Session.run_lap (hRel : Reliable M view crcf e0.struct_pages_u32_)
    (hW : u32Len sizeofT < 32768) (hR : Ring M sizeofT e0 N)
    (hfit : Db.WillFit M sizeofT e0.pages_ = true) (steps : List SaveStep) :
    ∀ (e : Struct) (s : σ) (rs : List (List Nat)) (p b : Nat),
      Session view crcf sizeofT e0 N e s rs p b → b + p + steps.length < 2 ^ 32 →
      N ∣ b →
      (∀ st ∈ steps, st.r.length = sizeofT ∧ ∀ x ∈ st.r, x < 256) →
      ∃ e1 s1 p1 b1, runSaves M sizeofT e s steps = some (e1, s1) ∧
        Session view crcf sizeofT e0 N e1 s1 (rs ++ steps.map SaveStep.r) p1 b1 ∧
        b1 + p1 = b + p + steps.length ∧ N ∣ b1 := by
  induction steps with
  | nil =>
    intro e s rs p b hS _ hdvd _
    exact ⟨e, s, p, b, rfl, by simpa using hS, rfl, hdvd⟩
  | cons st rest ih =>
    intro e s rs p b hS hsmall hdvd hwf
    have hst := hwf st (List.mem_cons_self _ _)
    simp only [List.length_cons] at hsmall
    obtain ⟨hok, hS1⟩ := Session.save hRel hW hR hfit hS (by omega) st.r hst.1 hst.2 st.force
    have hsum : (if p + 1 < N then b else b + N) + nextIdx N p = b + p + 1 := by
      have hp := hS.ring.p_lt
      unfold nextIdx
      split <;> omega
    have hdvd1 : N ∣ (if p + 1 < N then b else b + N) := by
      split
      · exact hdvd
      · exact Dvd.dvd.add hdvd (dvd_refl N)
    have hwf1 : ∀ st1 ∈ rest, st1.r.length = sizeofT ∧ ∀ x ∈ st1.r, x < 256 :=
      fun st1 h1 => hwf st1 (List.mem_cons_of_mem _ h1)
    unfold runSaves
    rw [hok]
    simp only [if_true]
    by_cases hla : st.loadAfter = true
    · rw [if_pos hla]
      obtain ⟨_, _, _, hS2⟩ := Session.load hRel hW hfit hS1 st.r
      obtain ⟨e1, s1, p1, b1, hrun, hS3, hsum3, hd3⟩ := ih _ _ _ _ _ hS2 (by omega) hdvd1 hwf1
      refine ⟨e1, s1, p1, b1, hrun, ?_, by simp only [List.length_cons]; omega, hd3⟩
      simpa using hS3
    · rw [if_neg hla]
      obtain ⟨e1, s1, p1, b1, hrun, hS3, hsum3, hd3⟩ := ih _ _ _ _ _ hS1 (by omega) hdvd1 hwf1
      refine ⟨e1, s1, p1, b1, hrun, ?_, by simp only [List.length_cons]; omega, hd3⟩
      simpa using hS3

/-- A session opened by a forced save on a ring without headers: after the save
number `n` (the forced one is number 0) the newest frame is in the slot
`n % N` and carries the counter `n`. -/
theorem Session.opened_lap (hRel : Reliable M view crcf e0.struct_pages_u32_)
    (hW : u32Len sizeofT < 32768) (hR : Ring M sizeofT e0 N)
    (hfit : Db.WillFit M sizeofT e0.pages_ = true)
    (hb : e0.db_.body.length = u32Len sizeofT - 3) (hnl : e0.loaded = false) (s : σ)
    (hvirgin : ∀ i, i < N → (frameAt (view s) sizeofT (e0.slot i)).bytes ≠ sizeofU32 sizeofT)
    (first : SaveStep) (rest : List SaveStep) (hforce : first.force = true)
    (hwf : ∀ st ∈ first :: rest, st.r.length = sizeofT ∧ ∀ x ∈ st.r, x < 256)
    (hk : rest.length < 2 ^ 32) :
    ∃ e1 s1 b1, runSaves M sizeofT e0 s (first :: rest) = some (e1, s1) ∧
      Session view crcf sizeofT e0 N e1 s1 ((first :: rest).map SaveStep.r)
        (rest.length % N) b1 ∧
      b1 + rest.length % N = rest.length := by
  have hst := hwf first (List.mem_cons_self _ _)
  obtain ⟨hok, hS1⟩ := Session.first hRel hW hR hfit hb hnl s hvirgin first.r hst.1 hst.2
  have hwf1 : ∀ st1 ∈ rest, st1.r.length = sizeofT ∧ ∀ x ∈ st1.r, x < 256 :=
    fun st1 h1 => hwf st1 (List.mem_cons_of_mem _ h1)
  have key : ∀ (e : Struct) (t : σ), Session view crcf sizeofT e0 N e t [first.r] 0 0 →
      ∃ e1 s1 b1, runSaves M sizeofT e t rest = some (e1, s1) ∧
        Session view crcf sizeofT e0 N e1 s1 ((first :: rest).map SaveStep.r)
          (rest.length % N) b1 ∧
        b1 + rest.length % N = rest.length := by
    intro e t hS
    obtain ⟨e1, s1, p1, b1, hrun, hS3, hsum3, hd3⟩ :=
      Session.run_lap hRel hW hR hfit rest e t _ 0 0 hS (by omega) (dvd_zero N) hwf1
    have hp1 := hS3.ring.p_lt
    obtain ⟨q, hq⟩ := hd3
    have hmod : rest.length % N = p1 := by
      have h1 : rest.length = p1 + N * q := by omega
      rw [h1, Nat.add_mul_mod_self_left]
      exact Nat.mod_eq_of_lt hp1
    rw [hmod]
    exact ⟨e1, s1, b1, hrun, by simpa using hS3, by omega⟩
  unfold runSaves
  rw [hforce, hok]
  simp only [if_true]
  by_cases hla : first.loadAfter = true
  · rw [if_pos hla]
    obtain ⟨_, _, _, hS2⟩ := Session.load hRel hW hfit hS1 first.r
    exact key _ _ hS2
  · rw [if_neg hla]
    exact key _ _ hS1

end Sessions

/-! ## The simulated media meets the media hypotheses -/

theorem Sim.wordsAt_write_same (mem : Int → Nat) (l : Int) (ws : List Nat) :
    wordsAt (Sim.write mem l ws) l ws.length = ws := by
  have key : ∀ (k : Nat) (pre post : List Nat), ws = pre ++ post → pre.length = k →
      wordsAt (Sim.write mem l ws) (l + (k : Int)) post.length = post := by
    intro k pre post
    induction post generalizing k pre with
    | nil => intros; rfl
    | cons p post ih =>
      intro hws hk
      simp only [List.length_cons, wordsAt]
      have h1 : Sim.write mem l ws (l + (k : Int)) = p := by
        unfold Sim.write
        have hlen : ws.length = k + (post.length + 1) := by simp [hws, hk]
        rw [if_pos (by constructor <;> push_cast [hlen] <;> omega)]
        have : (l + (k : Int) - l).toNat = k := by simp
        rw [this, hws, List.getD_eq_getElem?_getD, List.getElem?_append_right (by omega)]
        simp [hk]
      rw [h1]
      have h2 := ih (k + 1) (pre ++ [p]) (by simp [hws]) (by simp [hk])
      have e : l + (k : Int) + 1 = l + ((k + 1 : Nat) : Int) := by push_cast; ring
      rw [e, h2]
  have := key 0 [] ws rfl rfl
  simpa using this

theorem Sim.readContract (pageSize : Nat) :
    ReadContract (Sim.media pageSize) Sim.view Sim.crcf where
  read_view := fun _ _ _ _ => rfl
  read_data := fun s l buf n _ _ => by simp [Sim.media, Sim.view]
  crc_view := fun _ _ _ => rfl
  crc_value := fun _ _ _ => rfl

theorem Sim.readsSucceed (pageSize : Nat) : ReadsSucceed (Sim.media pageSize) :=
  fun _ _ _ _ => rfl

theorem Sim.programStores (pageSize : Nat) : ProgramStores (Sim.media pageSize) Sim.view := by
  intro s l buf n ps lk hn hok
  have hlen : (buf.take n).length = n := by simp [hn]
  have hw := Sim.wordsAt_write_same s.mem l (buf.take n)
  rw [hlen] at hw
  simp only [Sim.media, Sim.view, Int.toNat_ofNat] at hok ⊢
  split at hok
  · simpa using hw
  · simpa using hw
  · simp at hok

theorem Sim.reliable_readContract (pageSize : Nat) :
    ReadContract (Sim.reliable pageSize) id Sim.crcf where
  read_view := fun _ _ _ _ => rfl
  read_data := fun s l buf n _ _ => by simp [Sim.reliable]
  crc_view := fun _ _ _ => rfl
  crc_value := fun _ _ _ => rfl

theorem Sim.reliable_readsSucceed (pageSize : Nat) : ReadsSucceed (Sim.reliable pageSize) :=
  fun _ _ _ _ => rfl

theorem Sim.reliable_programSucceeds (pageSize : Nat) :
    ProgramSucceeds (Sim.reliable pageSize) :=
  fun _ _ _ _ _ _ => rfl

theorem Sim.reliable_programStores (pageSize : Nat) :
    ProgramStores (Sim.reliable pageSize) id := by
  intro s l buf n ps lk hn _
  have hlen : (buf.take n).length = n := by simp [hn]
  have hw := Sim.wordsAt_write_same s l (buf.take n)
  rw [hlen] at hw
  simpa [Sim.reliable] using hw

theorem Sim.write_outside (mem : Int → Nat) (l : Int) (ws : List Nat) (span : Nat)
    (hlen : ws.length ≤ span) (a : Int) (ha : a < l ∨ l + (span : Int) ≤ a) :
    Sim.write mem l ws a = mem a := by
  unfold Sim.write
  rw [if_neg (by omega)]

theorem Sim.reliable_programWithin (pageSize span : Nat) :
    ProgramWithin (Sim.reliable pageSize) id span := by
  intro s l buf n ps lk a hn ha
  simp only [Sim.reliable, id, Int.toNat_ofNat]
  exact Sim.write_outside s l _ span (by simp; omega) a ha

theorem Sim.programWithin (pageSize span : Nat) :
    ProgramWithin (Sim.media pageSize) Sim.view span := by
  intro s l buf n ps lk a hn ha
  simp only [Sim.media, Sim.view, Int.toNat_ofNat]
  split
  · exact Sim.write_outside s.mem l _ span (by simp; omega) a ha
  · exact Sim.write_outside s.mem l _ span (by simp; omega) a ha
  · exact Sim.write_outside s.mem l _ span (by simp; omega) a ha

theorem Sim.reliable_reliable (pageSize span : Nat) :
    Reliable (Sim.reliable pageSize) id Sim.crcf span where
  read := Sim.reliable_readContract pageSize
  reads := Sim.reliable_readsSucceed pageSize
  succeeds := Sim.reliable_programSucceeds pageSize
  stores := Sim.reliable_programStores pageSize
  within := Sim.reliable_programWithin pageSize span

/-! ## The constructor builds a ring -/

/-- The ware-level constructor, given `1 ≤ N ≤ 255` levels on a media whose page
size is a positive multiple of 4 and whose region is addressable, builds the
geometry of a ring of `N` slots. -/
theorem Struct.new_ring {σ : Type} (M : Media σ) (sizeofT : Nat) (start : Int) (N : Nat)
    (hN : 0 < N) (hN2 : N < 256) (hp : 0 < M.GetPageSize) (h4 : 4 ∣ M.GetPageSize)
    (ha : N * pagesPerSlot M sizeofT * M.GetPageSize < 2 ^ 32) :
    Ring M sizeofT (Struct.new M sizeofT start N) N := by
  have hpps : pagesPerSlot M sizeofT * 1 ≤ N * pagesPerSlot M sizeofT * M.GetPageSize := by
    rw [Nat.mul_comm N]
    rw [Nat.mul_assoc]
    exact Nat.mul_le_mul_left _ (Nat.mul_pos hN hp)
  have hlt : pagesPerSlot M sizeofT < 2 ^ 32 := by omega
  have hp1 : (if GetStorageUnitSize sizeofT % M.GetPageSize ≠ 0 then
      u32 (GetStorageUnitSize sizeofT / M.GetPageSize + 1)
      else GetStorageUnitSize sizeofT / M.GetPageSize) = pagesPerSlot M sizeofT := by
    unfold pagesPerSlot at hlt ⊢
    split
    · next h =>
      rw [if_pos h] at hlt
      unfold u32
      exact Nat.mod_eq_of_lt hlt
    · rfl
  have hwl : toUInt8 N = N := by unfold toUInt8; exact Nat.mod_eq_of_lt hN2
  have hmul1 : pagesPerSlot M sizeofT * N < 2 ^ 32 := by
    have : pagesPerSlot M sizeofT * N * 1 ≤ N * pagesPerSlot M sizeofT * M.GetPageSize := by
      rw [Nat.mul_comm (pagesPerSlot M sizeofT) N]
      exact Nat.mul_le_mul_left _ hp
    omega
  have hmul2 : pagesPerSlot M sizeofT * (M.GetPageSize / 4) < 2 ^ 32 := by
    have h1 : pagesPerSlot M sizeofT * (M.GetPageSize / 4) ≤
        pagesPerSlot M sizeofT * M.GetPageSize :=
      Nat.mul_le_mul_left _ (Nat.div_le_self _ _)
    have h2 : pagesPerSlot M sizeofT * M.GetPageSize ≤
        N * pagesPerSlot M sizeofT * M.GetPageSize := by
      rw [Nat.mul_assoc]
      exact Nat.le_mul_of_pos_left _ hN
    omega
  exact {
    levels_pos := hN
    page_pos := hp
    page_words := h4
    addressable := ha
    slot_words := by
      simp only [Struct.new, hp1]
      unfold u32
      exact Nat.mod_eq_of_lt hmul2
    pages := by
      simp only [Struct.new, hp1, hwl]
      unfold u32
      exact Nat.mod_eq_of_lt hmul1
    levels := by simp only [Struct.new, hwl] }

/-- The range constructor computes the pages of one slot without overflow. -/
theorem pagesPerSlot_u32 {σ : Type} (M : Media σ) (sizeofT : Nat) (hp : 0 < M.GetPageSize)
    (hsize : sizeofU32 sizeofT < 2 ^ 32) :
    (if GetStorageUnitSize sizeofT % M.GetPageSize ≠ 0
      then u32 (GetStorageUnitSize sizeofT / M.GetPageSize + 1)
      else GetStorageUnitSize sizeofT / M.GetPageSize) = pagesPerSlot M sizeofT := by
  unfold pagesPerSlot
  have hs : GetStorageUnitSize sizeofT < 2 ^ 32 := hsize
  have hdm := Nat.div_add_mod (GetStorageUnitSize sizeofT) M.GetPageSize
  have hle : GetStorageUnitSize sizeofT / M.GetPageSize ≤
      M.GetPageSize * (GetStorageUnitSize sizeofT / M.GetPageSize) :=
    Nat.le_mul_of_pos_left _ hp
  by_cases h : GetStorageUnitSize sizeofT % M.GetPageSize ≠ 0
  · rw [if_pos h, if_pos h]
    unfold u32
    exact Nat.mod_eq_of_lt (by omega)
  · rw [if_neg h, if_neg h]
    rfl

/-- Sizing of the range constructor on a region of less than `2^32` bytes. -/
theorem Struct.newRange_sizing {σ : Type} (M : Media σ) (sizeofT : Nat) (start endp : Int)
    (hse : start ≤ endp) (hspan : 4 * (endp - start) < 2 ^ 32) (hp : 0 < M.GetPageSize)
    (hsize : sizeofU32 sizeofT < 2 ^ 32) :
    (Struct.newRange M sizeofT start endp).ware_level_ =
        (4 * (endp - start)).toNat / M.GetPageSize / pagesPerSlot M sizeofT ∧
      (Struct.newRange M sizeofT start endp).pages_ =
        (4 * (endp - start)).toNat / M.GetPageSize / pagesPerSlot M sizeofT *
          pagesPerSlot M sizeofT := by
  have hpps := pagesPerSlot_pos M sizeofT
  have hbytes : ((4 * endp - 4 * start) % (2 ^ 32 : Int)).toNat = (4 * (endp - start)).toNat := by
    rw [← mul_sub, Int.emod_eq_of_lt (by omega) hspan]
  have hlt : (4 * (endp - start)).toNat / M.GetPageSize < 2 ^ 32 := by
    have h1 : (4 * (endp - start)).toNat < 2 ^ 32 := by omega
    exact lt_of_le_of_lt (Nat.div_le_self _ _) h1
  unfold Struct.newRange
  simp only []
  rw [pagesPerSlot_u32 M sizeofT hp hsize, hbytes]
  generalize (4 * (endp - start)).toNat / M.GetPageSize = P at hlt ⊢
  have hmod : P % pagesPerSlot M sizeofT ≤ P := Nat.mod_le _ _
  have hdm := Nat.div_add_mod P (pagesPerSlot M sizeofT)
  have hu : u32 (P + 2 ^ 32 - P % pagesPerSlot M sizeofT) =
      P / pagesPerSlot M sizeofT * pagesPerSlot M sizeofT := by
    unfold u32
    have h2 : P + 2 ^ 32 - P % pagesPerSlot M sizeofT =
        P / pagesPerSlot M sizeofT * pagesPerSlot M sizeofT + 2 ^ 32 := by
      rw [Nat.mul_comm]; omega
    rw [h2, Nat.add_mod_right]
    exact Nat.mod_eq_of_lt (by rw [Nat.mul_comm]; omega)
  rw [hu]
  exact ⟨Nat.mul_div_cancel _ hpps, rfl⟩

/-! ## The journal of a save -/

section Journal

variable {σ : Type} {M : Media σ}

theorem traced_Program (st : σ × List Call) (l : Int) (d : List Nat) (n : Int) (ps : Nat)
    (lk : Bool) :
    (traced M).Program st l d n ps lk =
      ((M.Program st.1 l d n ps lk).1, ((M.Program st.1 l d n ps lk).2,
        st.2 ++ [Call.program l (d.take n.toNat) n (M.Program st.1 l d n ps lk).1])) := rfl

theorem traced_Crc (st : σ × List Call) (b : List Nat) (n : Nat) :
    (traced M).Crc st b n = ((M.Crc st.1 b n).1, ((M.Crc st.1 b n).2, st.2 ++ [Call.crc n])) :=
  rfl

theorem traced_GetPageSize : (traced M).GetPageSize = M.GetPageSize := rfl

theorem programOutcomes_append (a b : List Call) :
    programOutcomes (a ++ b) = programOutcomes a ++ programOutcomes b := by
  induction a with
  | nil => rfl
  | cons c a ih => cases c <;> simp [programOutcomes, ih]

theorem programLocations_append (a b : List Call) :
    programLocations (a ++ b) = programLocations a ++ programLocations b := by
  induction a with
  | nil => rfl
  | cons c a ih => cases c <;> simp [programLocations, ih]

/-- The journal after `Db::IsValid`: nothing but CRC calls were added. -/
theorem Db.IsValid_journal (sizeofT : Nat) (db : Db) (st : σ × List Call) :
    ∃ pre, (Db.IsValid (traced M) sizeofT db st).2.2 = st.2 ++ pre ∧
      programOutcomes pre = [] ∧ programLocations pre = [] := by
  unfold Db.IsValid Db.CalculateCRC
  by_cases hb : db.bytes = sizeofU32 sizeofT
  · simp only [hb, if_true, traced]
    exact ⟨[Call.crc _], rfl, rfl, rfl⟩
  · simp only [hb, if_false]
    exact ⟨[], by simp, rfl, rfl⟩

/-- The journal after `Db::Update`: nothing but CRC calls were added. -/
theorem Db.Update_journal (sizeofT : Nat) (db : Db) (st : σ × List Call) (t : List Nat)
    (first : Bool) :
    ∃ pre, (Db.Update (traced M) sizeofT db st t first).2.2 = st.2 ++ pre ∧
      programOutcomes pre = [] ∧ programLocations pre = [] := by
  unfold Db.Update Db.CalculateCRC
  simp only [Db.setData, if_true, traced]
  exact ⟨[Call.crc _], rfl, rfl, rfl⟩

/-- The journal after `Db::Write`: at most one `Program` call was added, at the
location given, and `Write` returns what that call returned. -/
theorem Db.Write_journal (sizeofT : Nat) (db : Db) (st : σ × List Call) (l : Int) :
    ∃ pre, (Db.Write (traced M) sizeofT db st l).2.2 = st.2 ++ pre ∧
      ((Db.Write (traced M) sizeofT db st l).1 = true →
        ∃ pre1 d n, pre = pre1 ++ [Call.program l d n true] ∧ programOutcomes pre1 = []) ∧
      ((Db.Write (traced M) sizeofT db st l).1 = false →
        (programOutcomes pre = [] ∧ programLocations pre = []) ∨
        (programOutcomes pre = [false] ∧ programLocations pre = [l])) := by
  obtain ⟨pre0, h0, h1, h2⟩ := Db.IsValid_journal (M := M) sizeofT db st
  unfold Db.Write
  simp only []
  by_cases hv : (Db.IsValid (traced M) sizeofT db st).1 = true
  · rw [if_pos hv]
    generalize (Db.IsValid (traced M) sizeofT db st).2 = sv at h0
    rw [traced_Program]
    simp only []
    rw [h0]
    refine ⟨pre0 ++ [Call.program l _ _ _], by rw [List.append_assoc], ?_, ?_⟩
    · intro hok
      rw [hok]
      exact ⟨pre0, _, _, rfl, h1⟩
    · intro hok
      right
      rw [hok]
      simp [programOutcomes_append, programLocations_append, h1, h2, programOutcomes,
        programLocations]
  · rw [if_neg hv]
    refine ⟨pre0, h0, ?_, ?_⟩
    · intro h; simp at h
    · intro _; left; exact ⟨h1, h2⟩

/-- The journal after the write attempt loop: when the loop returns a location,
the last call is the `Program` call that returned true, at that location, and no
earlier `Program` call of the loop returned true. -/
theorem Struct.saveLoop_journal (sizeofT : Nat) (e : Struct) (db : Db) (n : Nat) (l : Int)
    (st : σ × List Call) :
    ∃ pre, (Struct.saveLoop (traced M) sizeofT e db n l st).2.2 = st.2 ++ pre ∧
      (∀ l1, (Struct.saveLoop (traced M) sizeofT e db n l st).1 = some l1 →
        ∃ pre1 d k, pre = pre1 ++ [Call.program l1 d k true] ∧
          ∀ b ∈ programOutcomes pre1, b = false) ∧
      ((Struct.saveLoop (traced M) sizeofT e db n l st).1 = none →
        ∀ b ∈ programOutcomes pre, b = false) := by
  induction n generalizing l st with
  | zero =>
    exact ⟨[], by simp [Struct.saveLoop], by simp [Struct.saveLoop],
      by simp [programOutcomes]⟩
  | succ n ih =>
    obtain ⟨pre0, h0, hok, hfail⟩ := Db.Write_journal (M := M) sizeofT db st l
    unfold Struct.saveLoop
    simp only []
    by_cases hw : (Db.Write (traced M) sizeofT db st l).1 = true
    · rw [if_pos hw]
      obtain ⟨pre1, d, k, hpre, hout⟩ := hok hw
      refine ⟨pre0, h0, ?_, ?_⟩
      · intro l1 hl1
        simp only [Option.some.injEq] at hl1
        subst hl1
        exact ⟨pre1, d, k, hpre, by simp [hout]⟩
      · intro h; simp at h
    · rw [if_neg hw]
      obtain ⟨pre2, h2, hsome, hnone⟩ := ih (Struct.GetNextLocation (traced M) e l)
        (Db.Write (traced M) sizeofT db st l).2
      have hf : ∀ b ∈ programOutcomes pre0, b = false := by
        rcases hfail (by simpa using hw) with h | h
        · simp [h.1]
        · simp [h.1]
      refine ⟨pre0 ++ pre2, by rw [h2, h0, List.append_assoc], ?_, ?_⟩
      · intro l1 hl1
        obtain ⟨pre3, d, k, hpre, hout⟩ := hsome l1 hl1
        refine ⟨pre0 ++ pre3, d, k, by rw [hpre, List.append_assoc], ?_⟩
        intro b hb
        rw [programOutcomes_append] at hb
        rcases List.mem_append.1 hb with h | h
        · exact hf b h
        · exact hout b h
      · intro hn b hb
        rw [programOutcomes_append] at hb
        rcases List.mem_append.1 hb with h | h
        · exact hf b h
        · exact hnone hn b h

theorem Struct.saveAttempt_journal (sizeofT : Nat) (e : Struct) (db : Db) (l : Int)
    (st : σ × List Call) :
    ((Struct.saveAttempt (traced M) sizeofT e db l st).ok = false →
      (Struct.saveAttempt (traced M) sizeofT e db l st).engine.loaded = e.loaded ∧
      (Struct.saveAttempt (traced M) sizeofT e db l st).engine.location = e.location) ∧
    ((Struct.saveAttempt (traced M) sizeofT e db l st).ok = true →
      (Struct.saveAttempt (traced M) sizeofT e db l st).engine.loaded = true ∧
      ∃ pre d k, (Struct.saveAttempt (traced M) sizeofT e db l st).media.2 =
          st.2 ++ pre ++
            [Call.program (Struct.saveAttempt (traced M) sizeofT e db l st).engine.location
              d k true] ∧
        ∀ b ∈ programOutcomes pre, b = false) := by
  unfold Struct.saveAttempt
  simp only []
  generalize doWhileCount (if e.loaded = true then u32 (e.pages_ + 2 ^ 32 - 1) else e.pages_) = n
  obtain ⟨pre, hj, hsome, _⟩ := Struct.saveLoop_journal (M := M) sizeofT e db n l st
  cases hl : (Struct.saveLoop (traced M) sizeofT e db n l st).1 with
  | none => simp
  | some l1 =>
    obtain ⟨pre1, d, k, hpre, hout⟩ := hsome l1 hl
    simp only [Bool.true_eq_false, false_implies, true_implies, true_and]
    exact ⟨pre1, d, k, by rw [hj, hpre, List.append_assoc], hout⟩

/-- With a CRC that is a function of its arguments, the block stamped by
`Db::Update` passes `Db::IsValid` in every media state. -/
theorem Db.Update_IsValid {τ : Type} (M1 : Media τ) (crcf : List Nat → Nat → Nat)
    (hcrc : ∀ s b n, (M1.Crc s b n).1 = crcf b n) (sizeofT : Nat) (db : Db) (s : τ)
    (t : List Nat) (first : Bool) (s1 : τ) :
    (Db.IsValid M1 sizeofT (Db.Update M1 sizeofT db s t first).1 s1).1 = true := by
  unfold Db.IsValid Db.Update Db.CalculateCRC
  simp only [Db.setData, if_true, hcrc, decide_eq_true_eq]

/-- The journal after a `Db::Write` of a block that passes `Db::IsValid`: exactly
one `Program` call was added, at the location given, and `Write` returns what it
returned. -/
theorem Db.Write_journal_valid (sizeofT : Nat) (db : Db) (st : σ × List Call) (l : Int)
    (hv : (Db.IsValid (traced M) sizeofT db st).1 = true) :
    programOutcomes (Db.Write (traced M) sizeofT db st l).2.2 =
        programOutcomes st.2 ++ [(Db.Write (traced M) sizeofT db st l).1] := by
  obtain ⟨pre0, h0, h1, _⟩ := Db.IsValid_journal (M := M) sizeofT db st
  unfold Db.Write
  simp only []
  rw [if_pos hv]
  generalize (Db.IsValid (traced M) sizeofT db st).2 = sv at h0
  rw [traced_Program]
  simp only []
  rw [h0]
  simp [programOutcomes_append, h1, programOutcomes]

/-- Two write attempts: when the first `Program` call of the loop returns false
and the second returns true, the loop returns the location after the first. -/
theorem Struct.saveLoop_retry (sizeofT : Nat) (e : Struct) (db : Db)
    (hv : ∀ st : σ × List Call, (Db.IsValid (traced M) sizeofT db st).1 = true)
    (k : Nat) (l : Int) (st : σ × List Call) (hst : programOutcomes st.2 = [])
    (hout : (programOutcomes
      (Struct.saveLoop (traced M) sizeofT e db (k + 2) l st).2.2).take 2 = [false, true]) :
    (Struct.saveLoop (traced M) sizeofT e db (k + 2) l st).1 =
      some (Struct.GetNextLocation (traced M) e l) := by
  have h1 := Db.Write_journal_valid (M := M) sizeofT db st l (hv st)
  rw [hst, List.nil_append] at h1
  unfold Struct.saveLoop at hout ⊢
  simp only [] at hout ⊢
  cases hw1 : (Db.Write (traced M) sizeofT db st l).1 with
  | true =>
    rw [hw1] at hout h1
    simp only [if_true] at hout
    rw [h1] at hout
    simp at hout
  | false =>
    rw [hw1] at hout h1
    simp only [Bool.false_eq_true, if_false] at hout ⊢
    have h2 := Db.Write_journal_valid (M := M) sizeofT db
      (Db.Write (traced M) sizeofT db st l).2 (Struct.GetNextLocation (traced M) e l) (hv _)
    rw [h1] at h2
    unfold Struct.saveLoop at hout ⊢
    simp only [] at hout ⊢
    cases hw2 : (Db.Write (traced M) sizeofT db (Db.Write (traced M) sizeofT db st l).2
        (Struct.GetNextLocation (traced M) e l)).1 with
    | true => simp
    | false =>
      rw [hw2] at hout h2
      simp only [Bool.false_eq_true, if_false] at hout
      obtain ⟨pre, hj, _, _⟩ := Struct.saveLoop_journal (M := M) sizeofT e db k
        (Struct.GetNextLocation (traced M) e (Struct.GetNextLocation (traced M) e l))
        (Db.Write (traced M) sizeofT db (Db.Write (traced M) sizeofT db st l).2
          (Struct.GetNextLocation (traced M) e l)).2
      rw [hj, programOutcomes_append, h2] at hout
      simp at hout

theorem nextIdx_eq_mod {N : Nat} (i : Nat) (hi : i < N) : nextIdx N i = (i + 1) % N := by
  unfold nextIdx
  by_cases h : i + 1 < N
  · rw [if_pos h, Nat.mod_eq_of_lt h]
  · have : i + 1 = N := by omega
    rw [if_neg h, this, Nat.mod_self]

theorem nextIdx_twice_eq_mod {N : Nat} (i : Nat) (hi : i < N) :
    nextIdx N (nextIdx N i) = (i + 2) % N := by
  have hN : 0 < N := by omega
  rw [nextIdx_eq_mod (nextIdx N i) (nextIdx_lt hN i), nextIdx_eq_mod i hi]
  rw [Nat.add_mod, Nat.mod_mod, ← Nat.add_mod]

theorem prevIdx_eq_mod {N : Nat} (i : Nat) (hi : i < N) : prevIdx N i = (i + (N - 1)) % N := by
  unfold prevIdx
  by_cases h : 0 < i
  · rw [if_pos h]
    have h1 : i + (N - 1) = i - 1 + N := by omega
    rw [h1, Nat.add_mod_right, Nat.mod_eq_of_lt (by omega)]
  · rw [if_neg h]
    have h0 : i = 0 := by omega
    rw [h0, Nat.zero_add, Nat.mod_eq_of_lt (by omega)]

theorem prevIdx_nextIdx {N : Nat} (i : Nat) (hi : i < N) : prevIdx N (nextIdx N i) = i := by
  unfold prevIdx nextIdx
  by_cases h : i + 1 < N
  · rw [if_pos h, if_pos (by omega)]
    omega
  · rw [if_neg h, if_neg (by omega)]
    omega

theorem nextIdx_prevIdx {N : Nat} (i : Nat) (hi : i < N) : nextIdx N (prevIdx N i) = i := by
  unfold prevIdx nextIdx
  by_cases h : 0 < i
  · rw [if_pos h, if_pos (by omega)]
    omega
  · rw [if_neg h, if_neg (by omega)]
    omega

/-- The slot reached from slot `i` by `k` steps forward. -/
theorem Ring.next_iterate {sizeofT : Nat} {e : Struct} {N : Nat} (hR : Ring M sizeofT e N)
    (k i : Nat) (hi : i < N) :
    (Struct.GetNextLocation M e)^[k] (e.slot i) = e.slot ((i + k) % N) := by
  induction k with
  | zero => rw [Function.iterate_zero, id, Nat.add_zero, Nat.mod_eq_of_lt hi]
  | succ k ih =>
    rw [Function.iterate_succ_apply', ih, hR.next_slot,
      nextIdx_eq_mod _ (Nat.mod_lt _ hR.levels_pos), Nat.mod_add_mod, Nat.add_assoc]

/-- The slot reached from slot `i` by `k` steps backward. -/
theorem Ring.prev_iterate {sizeofT : Nat} {e : Struct} {N : Nat} (hR : Ring M sizeofT e N)
    (k i : Nat) (hi : i < N) :
    (Struct.GetPreviousLocation M e)^[k] (e.slot i) = e.slot ((i + k * (N - 1)) % N) := by
  induction k with
  | zero => rw [Function.iterate_zero, id, Nat.zero_mul, Nat.add_zero, Nat.mod_eq_of_lt hi]
  | succ k ih =>
    rw [Function.iterate_succ_apply', ih, hR.prev_slot,
      prevIdx_eq_mod _ (Nat.mod_lt _ hR.levels_pos), Nat.mod_add_mod, Nat.succ_mul,
      Nat.add_assoc]

theorem Ring.traced {sizeofT : Nat} {e : Struct} {N : Nat} (hR : Ring M sizeofT e N) :
    Ring (traced M) sizeofT e N where
  levels_pos := hR.levels_pos
  page_pos := hR.page_pos
  page_words := hR.page_words
  addressable := hR.addressable
  slot_words := hR.slot_words
  pages := hR.pages
  levels := hR.levels

/-- A journal without `Program` locations holds no `Program` call. -/
theorem programLocations_nil {cs : List Call} (h : programLocations cs = []) (l : Int)
    (d : List Nat) (n : Int) (ok : Bool) : Call.program l d n ok ∉ cs := by
  induction cs with
  | nil => simp
  | cons c cs ih =>
    cases c with
    | program l1 d1 n1 ok1 => simp [programLocations] at h
    | read l1 n1 ok1 =>
      simp only [programLocations] at h
      simp only [List.mem_cons, not_or]
      exact ⟨by simp, ih h⟩
    | crc n1 =>
      simp only [programLocations] at h
      simp only [List.mem_cons, not_or]
      exact ⟨by simp, ih h⟩

/-- The journal after a `Db::Write` of a block that passes `Db::IsValid`: the
`Program` call, with its arguments, was added after the calls of the check. -/
theorem Db.Write_journal_exact (sizeofT : Nat) (db : Db) (st : σ × List Call) (l : Int)
    (hv : (Db.IsValid (traced M) sizeofT db st).1 = true) :
    (Db.Write (traced M) sizeofT db st l).2.2 =
      (Db.IsValid (traced M) sizeofT db st).2.2 ++
        [Call.program l (db.u32.take (toInt16 (sizeofU32 sizeofT / 4)).toNat)
          (toInt16 (sizeofU32 sizeofT / 4)) (Db.Write (traced M) sizeofT db st l).1] := by
  unfold Db.Write
  simp only []
  rw [if_pos hv, traced_Program]

/-- The `Program` calls of a `Db::Write`: at the location given, with the words of
the block and the block size in words as the `int16_t` argument. -/
theorem Db.Write_calls (sizeofT : Nat) (db : Db) (st : σ × List Call) (l : Int) :
    ∃ pre, (Db.Write (traced M) sizeofT db st l).2.2 = st.2 ++ pre ∧
      ∀ l1 d n ok, Call.program l1 d n ok ∈ pre →
        l1 = l ∧ d = db.u32.take (toInt16 (sizeofU32 sizeofT / 4)).toNat ∧
          n = toInt16 (sizeofU32 sizeofT / 4) := by
  obtain ⟨pre0, h0, _, h2⟩ := Db.IsValid_journal (M := M) sizeofT db st
  by_cases hv : (Db.IsValid (traced M) sizeofT db st).1 = true
  · rw [Db.Write_journal_exact sizeofT db st l hv, h0]
    refine ⟨pre0 ++ [Call.program l _ _ _], by rw [List.append_assoc], ?_⟩
    intro l1 d n ok hmem
    rcases List.mem_append.1 hmem with h | h
    · exact absurd h (programLocations_nil h2 l1 d n ok)
    · simp only [List.mem_singleton, Call.program.injEq] at h
      exact ⟨h.1, h.2.1, h.2.2.1⟩
  · refine ⟨pre0, ?_, fun l1 d n ok h => absurd h (programLocations_nil h2 l1 d n ok)⟩
    unfold Db.Write
    simp only []
    rw [if_neg hv]
    exact h0

/-- The `Program` calls of the write attempt loop started at a slot of the ring:
each is at a slot of the ring, with the words of the block. -/
theorem Struct.saveLoop_calls {sizeofT : Nat} {e : Struct} {N : Nat} (hR : Ring M sizeofT e N)
    (db : Db) (n : Nat) :
    ∀ (l : Int) (st : σ × List Call) (i : Nat), i < N → l = e.slot i →
      ∃ pre, (Struct.saveLoop (traced M) sizeofT e db n l st).2.2 = st.2 ++ pre ∧
        ∀ l1 d k ok, Call.program l1 d k ok ∈ pre →
          (∃ i1, i1 < N ∧ l1 = e.slot i1) ∧
            d = db.u32.take (toInt16 (sizeofU32 sizeofT / 4)).toNat ∧
            k = toInt16 (sizeofU32 sizeofT / 4) := by
  induction n with
  | zero =>
    intro l st i _ _
    exact ⟨[], by simp [Struct.saveLoop], by simp⟩
  | succ n ih =>
    intro l st i hi hl
    obtain ⟨pre0, h0, hc0⟩ := Db.Write_calls (M := M) sizeofT db st l
    unfold Struct.saveLoop
    simp only []
    by_cases hw : (Db.Write (traced M) sizeofT db st l).1 = true
    · rw [if_pos hw]
      refine ⟨pre0, h0, ?_⟩
      intro l1 d k ok hmem
      obtain ⟨h1, h2, h3⟩ := hc0 l1 d k ok hmem
      exact ⟨⟨i, hi, by rw [h1, hl]⟩, h2, h3⟩
    · rw [if_neg hw]
      obtain ⟨pre1, h1, hc1⟩ := ih (Struct.GetNextLocation (traced M) e l)
        (Db.Write (traced M) sizeofT db st l).2 (nextIdx N i) (nextIdx_lt hR.levels_pos i)
        (by rw [hl]; exact hR.traced.next_slot i)
      refine ⟨pre0 ++ pre1, by rw [h1, h0, List.append_assoc], ?_⟩
      intro l1 d k ok hmem
      rcases List.mem_append.1 hmem with h | h
      · obtain ⟨h1, h2, h3⟩ := hc0 l1 d k ok h
        exact ⟨⟨i, hi, by rw [h1, hl]⟩, h2, h3⟩
      · exact hc1 l1 d k ok h

/-- The `Program` calls of a `Save` by an engine that, when loaded, is at a slot of
its ring: each is at a slot of the ring, with the words of the block the engine
holds after the save. -/
theorem Struct.Save_calls {sizeofT : Nat} {e : Struct} {N : Nat} (hR : Ring M sizeofT e N)
    (hloc : e.loaded = true → ∃ i, i < N ∧ e.location = e.slot i)
    (st : σ × List Call) (r : List Nat) (force : Bool) :
    ∃ pre, (e.Save (traced M) sizeofT st r force).media.2 = st.2 ++ pre ∧
      ∀ l1 d k ok, Call.program l1 d k ok ∈ pre →
        (∃ i1, i1 < N ∧ l1 = e.slot i1) ∧
          d = (e.Save (traced M) sizeofT st r force).engine.db_.u32.take
            (toInt16 (sizeofU32 sizeofT / 4)).toNat ∧
          k = toInt16 (sizeofU32 sizeofT / 4) := by
  have attempt : ∀ (db : Db) (l : Int) (st1 : σ × List Call) (i : Nat), i < N → l = e.slot i →
      ∃ pre, (Struct.saveAttempt (traced M) sizeofT e db l st1).media.2 = st1.2 ++ pre ∧
        (Struct.saveAttempt (traced M) sizeofT e db l st1).engine.db_ = db ∧
        ∀ l1 d k ok, Call.program l1 d k ok ∈ pre →
          (∃ i1, i1 < N ∧ l1 = e.slot i1) ∧
            d = db.u32.take (toInt16 (sizeofU32 sizeofT / 4)).toNat ∧
            k = toInt16 (sizeofU32 sizeofT / 4) := by
    intro db l st1 i hi hl
    unfold Struct.saveAttempt
    simp only []
    generalize doWhileCount
      (if e.loaded = true then u32 (e.pages_ + 2 ^ 32 - 1) else e.pages_) = n
    obtain ⟨pre, hj, hc⟩ := Struct.saveLoop_calls hR db n l st1 i hi hl
    cases hw : (Struct.saveLoop (traced M) sizeofT e db n l st1).1 with
    | none => exact ⟨pre, hj, rfl, hc⟩
    | some l1 => exact ⟨pre, hj, rfl, hc⟩
  have stamped : ∀ (first : Bool) (l : Int) (i : Nat), i < N → l = e.slot i →
      ∃ pre, (Struct.saveAttempt (traced M) sizeofT e
          (Db.Update (traced M) sizeofT e.db_ st r first).1 l
          (Db.Update (traced M) sizeofT e.db_ st r first).2).media.2 = st.2 ++ pre ∧
        ∀ l1 d k ok, Call.program l1 d k ok ∈ pre →
          (∃ i1, i1 < N ∧ l1 = e.slot i1) ∧
            d = (Struct.saveAttempt (traced M) sizeofT e
              (Db.Update (traced M) sizeofT e.db_ st r first).1 l
              (Db.Update (traced M) sizeofT e.db_ st r first).2).engine.db_.u32.take
                (toInt16 (sizeofU32 sizeofT / 4)).toNat ∧
            k = toInt16 (sizeofU32 sizeofT / 4) := by
    intro first l i hi hl
    obtain ⟨pre0, h0, _, h2⟩ := Db.Update_journal (M := M) sizeofT e.db_ st r first
    obtain ⟨pre1, h1, hdb, hc⟩ := attempt (Db.Update (traced M) sizeofT e.db_ st r first).1 l
      (Db.Update (traced M) sizeofT e.db_ st r first).2 i hi hl
    refine ⟨pre0 ++ pre1, by rw [h1, h0, List.append_assoc], ?_⟩
    intro l1 d k ok hmem
    rw [hdb]
    rcases List.mem_append.1 hmem with h | h
    · exact absurd h (programLocations_nil h2 l1 d k ok)
    · exact hc l1 d k ok h
  unfold Struct.Save
  by_cases hfit : Db.WillFit (traced M) sizeofT e.pages_ = true
  · rw [if_pos hfit]
    cases hl : e.loaded with
    | false =>
      by_cases hf : force = true
      · subst hf
        simp only [Bool.not_false, if_true]
        exact stamped true e.start_ 0 hR.levels_pos (Struct.slot_zero e).symm
      · rw [Bool.not_eq_true] at hf
        subst hf
        exact ⟨[], by simp, by simp⟩
    | true =>
        obtain ⟨i, hi, hli⟩ := hloc hl
        simp only [Bool.not_true, Bool.false_eq_true, if_false]
        exact stamped false _ (nextIdx N i) (nextIdx_lt hR.levels_pos i)
          (by rw [hli]; exact hR.traced.next_slot i)
  · rw [if_neg hfit]
    exact ⟨[], by simp, by simp⟩

/-- The media state after the attempt part of `Save` is the one the loop leaves. -/
theorem Struct.saveAttempt_media {τ : Type} (M1 : Media τ) (sizeofT : Nat) (e : Struct)
    (db : Db) (l : Int) (s : τ) :
    (Struct.saveAttempt M1 sizeofT e db l s).media =
      (Struct.saveLoop M1 sizeofT e db
        (doWhileCount (if e.loaded then u32 (e.pages_ + 2 ^ 32 - 1) else e.pages_)) l s).2 := by
  unfold Struct.saveAttempt
  simp only []
  cases (Struct.saveLoop M1 sizeofT e db
    (doWhileCount (if e.loaded then u32 (e.pages_ + 2 ^ 32 - 1) else e.pages_)) l s).1 <;> rfl

/-- When the first `Program` call of the attempt part of `Save` returns true, with a
block that passes `Db::IsValid`, the write at the first location returned true. -/
theorem Struct.saveAttempt_head (sizeofT : Nat) (e : Struct) (db : Db)
    (hv : ∀ st : σ × List Call, (Db.IsValid (traced M) sizeofT db st).1 = true)
    (l : Int) (st : σ × List Call) (hst : programOutcomes st.2 = [])
    (hfirst : (programOutcomes
      (Struct.saveAttempt (traced M) sizeofT e db l st).media.2).head? = some true) :
    (Db.Write (traced M) sizeofT db st l).1 = true := by
  rw [Struct.saveAttempt_media] at hfirst
  have hn := doWhileCount_pos (if e.loaded then u32 (e.pages_ + 2 ^ 32 - 1) else e.pages_)
  generalize doWhileCount (if e.loaded then u32 (e.pages_ + 2 ^ 32 - 1) else e.pages_) = n
    at hfirst hn
  cases n with
  | zero => omega
  | succ m =>
    by_contra hw
    rw [Bool.not_eq_true] at hw
    have hout := Db.Write_journal_valid (M := M) sizeofT db st l (hv st)
    rw [hw, hst] at hout
    obtain ⟨pre, hj, _⟩ := Struct.saveLoop_journal (M := M) sizeofT e db m
      (Struct.GetNextLocation (traced M) e l) (Db.Write (traced M) sizeofT db st l).2
    unfold Struct.saveLoop at hfirst
    simp only [hw, Bool.false_eq_true, if_false] at hfirst
    rw [hj, programOutcomes_append, hout] at hfirst
    simp at hfirst

/-- With a block that passes `Db::IsValid`, the first `Program` call of the attempt
part of `Save` is at the location the loop starts from. -/
theorem Struct.saveAttempt_target (sizeofT : Nat) (e : Struct) (db : Db)
    (hv : ∀ st : σ × List Call, (Db.IsValid (traced M) sizeofT db st).1 = true)
    (l : Int) (st : σ × List Call) :
    ∃ pre, (Struct.saveAttempt (traced M) sizeofT e db l st).media.2 = st.2 ++ pre ∧
      (programLocations pre).head? = some l := by
  rw [Struct.saveAttempt_media]
  have hn := doWhileCount_pos (if e.loaded then u32 (e.pages_ + 2 ^ 32 - 1) else e.pages_)
  generalize doWhileCount (if e.loaded then u32 (e.pages_ + 2 ^ 32 - 1) else e.pages_) = n
    at hn
  cases n with
  | zero => omega
  | succ m =>
    obtain ⟨pre0, h0, _, h2⟩ := Db.IsValid_journal (M := M) sizeofT db st
    have hex := Db.Write_journal_exact (M := M) sizeofT db st l (hv st)
    rw [h0] at hex
    unfold Struct.saveLoop
    simp only []
    by_cases hw : (Db.Write (traced M) sizeofT db st l).1 = true
    · rw [if_pos hw, hex]
      refine ⟨pre0 ++ [Call.program l (db.u32.take (toInt16 (sizeofU32 sizeofT / 4)).toNat)
        (toInt16 (sizeofU32 sizeofT / 4)) (Db.Write (traced M) sizeofT db st l).1],
        by rw [List.append_assoc], ?_⟩
      rw [programLocations_append, h2]
      rfl
    · rw [if_neg hw]
      obtain ⟨pre2, hj, _⟩ := Struct.saveLoop_journal (M := M) sizeofT e db m
        (Struct.GetNextLocation (traced M) e l) (Db.Write (traced M) sizeofT db st l).2
      rw [hj, hex]
      refine ⟨pre0 ++ [Call.program l (db.u32.take (toInt16 (sizeofU32 sizeofT / 4)).toNat)
        (toInt16 (sizeofU32 sizeofT / 4)) (Db.Write (traced M) sizeofT db st l).1] ++ pre2,
        by simp only [List.append_assoc], ?_⟩
      rw [programLocations_append, programLocations_append, h2]
      rfl

theorem programSizes_append (a b : List Call) :
    programSizes (a ++ b) = programSizes a ++ programSizes b := by
  induction a with
  | nil => rfl
  | cons c a ih => cases c <;> simp [programSizes, ih]

theorem readCalls_append (a b : List Call) :
    readCalls (a ++ b) = readCalls a ++ readCalls b := by
  induction a with
  | nil => rfl
  | cons c a ih => cases c <;> simp [readCalls, ih]

theorem crcSizes_append (a b : List Call) :
    crcSizes (a ++ b) = crcSizes a ++ crcSizes b := by
  induction a with
  | nil => rfl
  | cons c a ih => cases c <;> simp [crcSizes, ih]

/-- The journal after `Db::IsValid`: one `Crc` call over the words after the
header when `bytes` is the block size, no call otherwise. -/
theorem Db.IsValid_journal_exact (sizeofT : Nat) (db : Db) (st : σ × List Call) :
    (Db.IsValid (traced M) sizeofT db st).2.2 =
      st.2 ++ (if db.bytes = sizeofU32 sizeofT
        then [Call.crc (toUInt16 ((db.bytes - GetDbHeadSize) / 4))] else []) := by
  unfold Db.IsValid Db.CalculateCRC
  by_cases hb : db.bytes = sizeofU32 sizeofT
  · simp only [hb, if_true, traced]
  · simp only [hb, if_false, List.append_nil]

/-- The journal after `Db::Read`: the `Read` call of the whole block, then the
calls of the check when the read returned true. -/
theorem Db.Read_journal_exact (sizeofT : Nat) (db : Db) (st : σ × List Call) (l : Int) :
    ∃ ok post, (Db.Read (traced M) sizeofT db st l).2.2.2 =
        st.2 ++ Call.read l (toInt16 (sizeofU32 sizeofT / 4)) ok :: post ∧
      readCalls post = [] ∧ programSizes post = [] ∧
      ∀ n ∈ crcSizes post, n = toUInt16 ((sizeofU32 sizeofT - GetDbHeadSize) / 4) := by
  have hcrc : ∀ (b : Nat),
      ∀ n ∈ crcSizes (if b = sizeofU32 sizeofT
        then [Call.crc (toUInt16 ((b - GetDbHeadSize) / 4))] else []),
        n = toUInt16 ((sizeofU32 sizeofT - GetDbHeadSize) / 4) := by
    intro b n hn
    by_cases hb : b = sizeofU32 sizeofT
    · rw [if_pos hb, hb] at hn
      simpa [crcSizes] using hn
    · rw [if_neg hb] at hn
      simp [crcSizes] at hn
  unfold Db.Read
  simp only []
  by_cases hr : ((traced M).Read st l db.u32 (toInt16 (sizeofU32 sizeofT / 4))).1 = true
  · rw [if_pos hr]
    by_cases hv : (Db.IsValid (traced M) sizeofT
        (db.store ((traced M).Read st l db.u32 (toInt16 (sizeofU32 sizeofT / 4))).2.1)
        ((traced M).Read st l db.u32 (toInt16 (sizeofU32 sizeofT / 4))).2.2).1 = true
    · rw [if_pos hv]
      simp only []
      rw [Db.IsValid_journal_exact]
      refine ⟨_, _, by simp only [traced, List.append_assoc, List.singleton_append]; rfl, ?_, ?_, ?_⟩
      · split <;> rfl
      · split <;> rfl
      · exact hcrc _
    · rw [if_neg hv]
      simp only []
      rw [Db.IsValid_journal_exact]
      refine ⟨_, _, by simp only [traced, List.append_assoc, List.singleton_append]; rfl, ?_, ?_, ?_⟩
      · split <;> rfl
      · split <;> rfl
      · exact hcrc _
  · rw [if_neg hr]
    exact ⟨_, [], rfl, rfl, rfl, by simp [crcSizes]⟩

/-- The `Program` calls of the write attempt loop submit the words of the block. -/
theorem Struct.saveLoop_frames (sizeofT : Nat) (e : Struct) (db : Db) (n : Nat) :
    ∀ (l : Int) (st : σ × List Call),
      ∃ pre, (Struct.saveLoop (traced M) sizeofT e db n l st).2.2 = st.2 ++ pre ∧
        ∀ l1 d k ok, Call.program l1 d k ok ∈ pre →
          d = db.u32.take (toInt16 (sizeofU32 sizeofT / 4)).toNat := by
  induction n with
  | zero =>
    intro l st
    exact ⟨[], by simp [Struct.saveLoop], by simp⟩
  | succ n ih =>
    intro l st
    obtain ⟨pre0, h0, hc0⟩ := Db.Write_calls (M := M) sizeofT db st l
    unfold Struct.saveLoop
    simp only []
    by_cases hw : (Db.Write (traced M) sizeofT db st l).1 = true
    · rw [if_pos hw]
      exact ⟨pre0, h0, fun l1 d k ok hmem => (hc0 l1 d k ok hmem).2.1⟩
    · rw [if_neg hw]
      obtain ⟨pre1, h1, hc1⟩ := ih (Struct.GetNextLocation (traced M) e l)
        (Db.Write (traced M) sizeofT db st l).2
      refine ⟨pre0 ++ pre1, by rw [h1, h0, List.append_assoc], ?_⟩
      intro l1 d k ok hmem
      rcases List.mem_append.1 hmem with h | h
      · exact (hc0 l1 d k ok h).2.1
      · exact hc1 l1 d k ok h

/-- A `Save` either does nothing and leaves the engine as it was, or stamps the
scratch block with `Db::Update` (the counter reset when the engine is not
loaded) and submits the words of that block in its `Program` calls. -/
theorem Struct.Save_frames (sizeofT : Nat) (e : Struct) (st : σ × List Call) (r : List Nat)
    (force : Bool) :
    ((e.Save (traced M) sizeofT st r force).ok = false ∧
      (e.Save (traced M) sizeofT st r force).media = st) ∨
    ((e.Save (traced M) sizeofT st r force).engine.db_ =
        (Db.Update (traced M) sizeofT e.db_ st r (!e.loaded)).1 ∧
      ∃ pre, (e.Save (traced M) sizeofT st r force).media.2 = st.2 ++ pre ∧
        ∀ l1 d k ok, Call.program l1 d k ok ∈ pre →
          d = (Db.Update (traced M) sizeofT e.db_ st r (!e.loaded)).1.u32.take
            (toInt16 (sizeofU32 sizeofT / 4)).toNat) := by
  have attempt : ∀ (first : Bool) (l : Int),
      (Struct.saveAttempt (traced M) sizeofT e
          (Db.Update (traced M) sizeofT e.db_ st r first).1 l
          (Db.Update (traced M) sizeofT e.db_ st r first).2).engine.db_ =
        (Db.Update (traced M) sizeofT e.db_ st r first).1 ∧
      ∃ pre, (Struct.saveAttempt (traced M) sizeofT e
          (Db.Update (traced M) sizeofT e.db_ st r first).1 l
          (Db.Update (traced M) sizeofT e.db_ st r first).2).media.2 = st.2 ++ pre ∧
        ∀ l1 d k ok, Call.program l1 d k ok ∈ pre →
          d = (Db.Update (traced M) sizeofT e.db_ st r first).1.u32.take
            (toInt16 (sizeofU32 sizeofT / 4)).toNat := by
    intro first l
    obtain ⟨pre0, h0, _, h2⟩ := Db.Update_journal (M := M) sizeofT e.db_ st r first
    refine ⟨?_, ?_⟩
    · unfold Struct.saveAttempt
      simp only []
      split <;> rfl
    · rw [Struct.saveAttempt_media]
      obtain ⟨pre1, h1, hc⟩ := Struct.saveLoop_frames (M := M) sizeofT e
        (Db.Update (traced M) sizeofT e.db_ st r first).1
        (doWhileCount (if e.loaded then u32 (e.pages_ + 2 ^ 32 - 1) else e.pages_)) l
        (Db.Update (traced M) sizeofT e.db_ st r first).2
      refine ⟨pre0 ++ pre1, by rw [h1, h0, List.append_assoc], ?_⟩
      intro l1 d k ok hmem
      rcases List.mem_append.1 hmem with h | h
      · exact absurd h (programLocations_nil h2 l1 d k ok)
      · exact hc l1 d k ok h
  unfold Struct.Save
  by_cases hfit : Db.WillFit (traced M) sizeofT e.pages_ = true
  · rw [if_pos hfit]
    cases hl : e.loaded with
    | false =>
      by_cases hf : force = true
      · subst hf
        right
        simp only [Bool.not_false, if_true]
        exact attempt true e.start_
      · rw [Bool.not_eq_true] at hf
        subst hf
        left
        exact ⟨rfl, rfl⟩
    | true =>
      right
      simp only [Bool.not_true, Bool.false_eq_true, if_false]
      exact attempt false _
  · rw [if_neg hfit]
    left
    exact ⟨rfl, rfl⟩

/-- The CRC stamped by `Db::Update` is the CRC of the words after the header, which
hold the record and the bytes after it; the counter has no part in it. -/
theorem Db.Update_crc {τ : Type} (M1 : Media τ) (crcf : List Nat → Nat → Nat)
    (hcrc : ∀ s b n, (M1.Crc s b n).1 = crcf b n) (sizeofT : Nat) (db : Db) (s : τ)
    (t : List Nat) (first : Bool) :
    (Db.Update M1 sizeofT db s t first).1.bytes = sizeofU32 sizeofT ∧
      (Db.Update M1 sizeofT db s t first).1.body =
        wordsOf (t ++ (bytesOf db.body).drop t.length) ∧
      (Db.Update M1 sizeofT db s t first).1.crc =
        crcf (wordsOf (t ++ (bytesOf db.body).drop t.length))
          (toUInt16 ((sizeofU32 sizeofT - GetDbHeadSize) / 4)) := by
  unfold Db.Update Db.CalculateCRC
  simp only [Db.setData, if_true, hcrc, and_self]

/-- The media with a journal meets the read contract of the media it observes. -/
theorem ReadContract.journaled {view : σ → Int → Nat} {crcf : List Nat → Nat → Nat}
    (hM : ReadContract M view crcf) :
    ReadContract (persist.traced M) (fun st => view st.1) crcf where
  read_view := fun st l buf n => hM.read_view st.1 l buf n
  read_data := fun st l buf n hn hr => hM.read_data st.1 l buf n hn hr
  crc_view := fun st buf n => hM.crc_view st.1 buf n
  crc_value := fun st buf n => hM.crc_value st.1 buf n

/-- Every read of the media with a journal succeeds when every read of the media does. -/
theorem ReadsSucceed.with_journal (hR : ReadsSucceed M) : ReadsSucceed (persist.traced M) :=
  fun st l buf n => hR st.1 l buf n

theorem programLocations_length (j : List Call) :
    (programLocations j).length = (programSizes j).length := by
  induction j with
  | nil => rfl
  | cons c j ih => cases c <;> simp [programLocations, programSizes, ih]

theorem traced_Read (st : σ × List Call) (l : Int) (d : List Nat) (n : Int) :
    (traced M).Read st l d n =
      ((M.Read st.1 l d n).1, (M.Read st.1 l d n).2.1,
        ((M.Read st.1 l d n).2.2, st.2 ++ [Call.read l n (M.Read st.1 l d n).1])) := rfl

/-- `Db::Read` makes no `Program` call. -/
theorem Db.Read_no_program (sizeofT : Nat) (db : Db) (st : σ × List Call) (l : Int) :
    programSizes (Db.Read (traced M) sizeofT db st l).2.2.2 = programSizes st.2 := by
  obtain ⟨ok, post, hj, _, hp, _⟩ := Db.Read_journal_exact (M := M) sizeofT db st l
  rw [hj, programSizes_append]
  simp only [programSizes, hp, List.append_nil]

/-- `Db::ReadHeader` makes no `Program` call. -/
theorem Db.ReadHeader_no_program (sizeofT : Nat) (db : Db) (st : σ × List Call) (l : Int) :
    programSizes (Db.ReadHeader (traced M) sizeofT db st l).2.2.2 = programSizes st.2 := by
  unfold Db.ReadHeader
  simp only []
  split <;> simp [traced_Read, programSizes_append, programSizes]

/-- The first loop of the cold load makes no `Program` call. -/
theorem Struct.headerScan_no_program (sizeofT : Nat) (e : Struct) (n : Nat) :
    ∀ st : Struct.ScanState (σ × List Call),
      programSizes (Struct.headerScan (traced M) sizeofT e n st).media.2 =
        programSizes st.media.2 := by
  induction n with
  | zero => intro st; rfl
  | succ n ih =>
    intro st
    have hr := Db.ReadHeader_no_program (M := M) sizeofT st.db st.media st.l
    rw [Struct.headerScan]
    split
    · split
      · rw [ih]; exact hr
      · exact hr
    · rw [ih]; exact hr

/-- The second loop of the cold load makes no `Program` call. -/
theorem Struct.backScan_no_program (sizeofT : Nat) (e : Struct) (n : Nat) :
    ∀ (l : Int) (db : Db) (st : σ × List Call),
      programSizes (Struct.backScan (traced M) sizeofT e n l db st).2.2.2 =
        programSizes st.2 := by
  induction n with
  | zero => intro l db st; rfl
  | succ n ih =>
    intro l db st
    have hr := Db.Read_no_program (M := M) sizeofT db st
      (Struct.GetPreviousLocation (traced M) e l)
    rw [Struct.backScan]
    split
    · exact hr
    · rw [ih]; exact hr

/-- The cold load makes no `Program` call. -/
theorem Struct.coldLoad_no_program (sizeofT : Nat) (e : Struct) (st : σ × List Call)
    (data : List Nat) :
    programSizes (Struct.coldLoad (traced M) sizeofT e st data).media.2 =
      programSizes st.2 := by
  have h1 := Struct.headerScan_no_program (M := M) sizeofT e (doWhileCount e.pages_)
    { c := 0, s := false, l := e.start_, db := e.db_, media := st }
  unfold Struct.coldLoad
  simp only []
  split
  · have h2 := Struct.backScan_no_program (M := M) sizeofT e (doWhileCount e.pages_)
      (Struct.headerScan (traced M) sizeofT e (doWhileCount e.pages_)
        { c := 0, s := false, l := e.start_, db := e.db_, media := st }).l
      (Struct.headerScan (traced M) sizeofT e (doWhileCount e.pages_)
        { c := 0, s := false, l := e.start_, db := e.db_, media := st }).db
      (Struct.headerScan (traced M) sizeofT e (doWhileCount e.pages_)
        { c := 0, s := false, l := e.start_, db := e.db_, media := st }).media
    split
    · rw [h2]; exact h1
    · rw [h2]; exact h1
  · exact h1

/-- `Load` makes no `Program` call. -/
theorem Struct.Load_no_program (sizeofT : Nat) (e : Struct) (st : σ × List Call)
    (data : List Nat) :
    programSizes (e.Load (traced M) sizeofT st data).media.2 = programSizes st.2 := by
  have hr := Db.Read_no_program (M := M) sizeofT e.db_ st e.location
  unfold Struct.Load
  split
  · split
    · simp only []
      split
      · exact hr
      · rw [Struct.coldLoad_no_program]; exact hr
    · exact Struct.coldLoad_no_program sizeofT e st data
  · rfl

end Journal

/-! ## The engine after `Load` and `Save`, on any media -/

section EngineStates

variable {σ : Type} {M : Media σ} {sizeofT : Nat}

theorem Struct.backScan_on_ring {e : Struct} {N : Nat} (hR : Ring M sizeofT e N) (n : Nat) :
    ∀ (i : Nat) (db : Db) (s : σ) (l1 : Int), i < N →
      (Struct.backScan M sizeofT e n (e.slot i) db s).1 = some l1 →
      ∃ j, j < N ∧ l1 = e.slot j := by
  induction n with
  | zero =>
    intro i db s l1 _ h
    simp [Struct.backScan] at h
  | succ n ih =>
    intro i db s l1 hi h
    rw [Struct.backScan, hR.prev_slot] at h
    have hp := prevIdx_lt hR.levels_pos i hi
    by_cases hr : (Db.Read M sizeofT db s (e.slot (prevIdx N i))).1 = true
    · rw [if_pos hr] at h
      simp only [Option.some.injEq] at h
      exact ⟨prevIdx N i, hp, h.symm⟩
    · rw [if_neg hr] at h
      exact ih (prevIdx N i) _ _ l1 hp h

theorem Struct.saveLoop_on_ring {e : Struct} {N : Nat} (hR : Ring M sizeofT e N) (db : Db)
    (n : Nat) :
    ∀ (i : Nat) (s : σ) (l1 : Int), i < N →
      (Struct.saveLoop M sizeofT e db n (e.slot i) s).1 = some l1 →
      ∃ j, j < N ∧ l1 = e.slot j := by
  induction n with
  | zero =>
    intro i s l1 _ h
    simp [Struct.saveLoop] at h
  | succ n ih =>
    intro i s l1 hi h
    rw [Struct.saveLoop] at h
    by_cases hw : (Db.Write M sizeofT db s (e.slot i)).1 = true
    · rw [if_pos hw] at h
      simp only [Option.some.injEq] at h
      exact ⟨i, hi, h.symm⟩
    · rw [if_neg hw, hR.next_slot] at h
      exact ih (nextIdx N i) _ l1 (nextIdx_lt hR.levels_pos i) h

/-- The engine after a cold load: the geometry is kept; when it returns true the
engine is loaded, at a slot of the ring; when it returns false the loaded flag,
the location and the caller's record are kept. -/
theorem Struct.coldLoad_engine (sizeofT : Nat) (e : Struct) (s : σ) (data : List Nat) :
    (Struct.coldLoad M sizeofT e s data).engine.start_ = e.start_ ∧
      (Struct.coldLoad M sizeofT e s data).engine.pages_ = e.pages_ ∧
      (Struct.coldLoad M sizeofT e s data).engine.struct_pages_u32_ = e.struct_pages_u32_ ∧
      (Struct.coldLoad M sizeofT e s data).engine.ware_level_ = e.ware_level_ ∧
      ((Struct.coldLoad M sizeofT e s data).ok = true →
        (Struct.coldLoad M sizeofT e s data).engine.loaded = true ∧
        ∀ N, Ring M sizeofT e N →
          ∃ j, j < N ∧ (Struct.coldLoad M sizeofT e s data).engine.location = e.slot j) ∧
      ((Struct.coldLoad M sizeofT e s data).ok = false →
        (Struct.coldLoad M sizeofT e s data).engine.loaded = e.loaded ∧
        (Struct.coldLoad M sizeofT e s data).engine.location = e.location ∧
        (Struct.coldLoad M sizeofT e s data).data = data) := by
  unfold Struct.coldLoad
  simp only []
  by_cases hs : (Struct.headerScan M sizeofT e (doWhileCount e.pages_)
      { c := 0, s := false, l := e.start_, db := e.db_, media := s }).s = true
  · rw [if_pos hs]
    cases hb : (Struct.backScan M sizeofT e (doWhileCount e.pages_)
        (Struct.headerScan M sizeofT e (doWhileCount e.pages_)
          { c := 0, s := false, l := e.start_, db := e.db_, media := s }).l
        (Struct.headerScan M sizeofT e (doWhileCount e.pages_)
          { c := 0, s := false, l := e.start_, db := e.db_, media := s }).db
        (Struct.headerScan M sizeofT e (doWhileCount e.pages_)
          { c := 0, s := false, l := e.start_, db := e.db_, media := s }).media).1 with
    | none => simp
    | some l =>
      simp only [true_and, Bool.true_eq_false, false_implies, and_true, true_implies]
      intro N hR
      obtain ⟨i, hi, hl⟩ := Struct.headerScan_on_ring sizeofT hR (doWhileCount e.pages_)
        { c := 0, s := false, l := e.start_, db := e.db_, media := s } 0 hR.levels_pos
        (Struct.slot_zero e).symm
      rw [hl] at hb
      exact Struct.backScan_on_ring hR _ i _ _ l hi hb
  · rw [if_neg hs]
    simp

/-- The engine after `Load`: the geometry is kept; when `Load` returns true the
engine is loaded and passes the fit check, and it is at a slot of the ring when
it was at one before; when `Load` returns false the location and the caller's
record are kept, and the engine is not loaded when it passes the fit check. -/
theorem Struct.Load_engine (sizeofT : Nat) (e : Struct) (s : σ) (data : List Nat) :
    (e.Load M sizeofT s data).engine.start_ = e.start_ ∧
      (e.Load M sizeofT s data).engine.pages_ = e.pages_ ∧
      (e.Load M sizeofT s data).engine.struct_pages_u32_ = e.struct_pages_u32_ ∧
      (e.Load M sizeofT s data).engine.ware_level_ = e.ware_level_ ∧
      ((e.Load M sizeofT s data).ok = true →
        (e.Load M sizeofT s data).engine.loaded = true ∧
        Db.WillFit M sizeofT e.pages_ = true ∧
        ∀ N, Ring M sizeofT e N → (e.loaded = true → ∃ i, i < N ∧ e.location = e.slot i) →
          ∃ j, j < N ∧ (e.Load M sizeofT s data).engine.location = e.slot j) ∧
      ((e.Load M sizeofT s data).ok = false →
        (e.Load M sizeofT s data).engine.location = e.location ∧
        (e.Load M sizeofT s data).data = data ∧
        (Db.WillFit M sizeofT e.pages_ = true →
          (e.Load M sizeofT s data).engine.loaded = false) ∧
        (¬ Db.WillFit M sizeofT e.pages_ = true → (e.Load M sizeofT s data).engine = e)) := by
  unfold Struct.Load
  by_cases hfit : Db.WillFit M sizeofT e.pages_ = true
  · rw [if_pos hfit]
    by_cases hl : e.loaded = true
    · rw [if_pos hl]
      simp only []
      by_cases hr : (Db.Read M sizeofT e.db_ s e.location).1 = true
      · rw [if_pos hr]
        refine ⟨rfl, rfl, rfl, rfl, ?_, ?_⟩
        · intro _
          exact ⟨hl, hfit, fun N _ hloc => hloc hl⟩
        · intro h
          simp at h
      · rw [if_neg hr]
        obtain ⟨c1, c2, c3, c4, c5, c6⟩ := Struct.coldLoad_engine (M := M) sizeofT
          { e with loaded := false, db_ := (Db.Read M sizeofT e.db_ s e.location).2.1 }
          (Db.Read M sizeofT e.db_ s e.location).2.2 data
        refine ⟨c1, c2, c3, c4, ?_, ?_⟩
        · intro hok
          obtain ⟨d1, d2⟩ := c5 hok
          refine ⟨d1, hfit, fun N hR _ => ?_⟩
          exact d2 N (hR.of_geometry _ rfl rfl rfl)
        · intro hok
          obtain ⟨d1, d2, d3⟩ := c6 hok
          exact ⟨d2, d3, fun _ => d1, fun h => absurd hfit h⟩
    · rw [if_neg hl]
      obtain ⟨c1, c2, c3, c4, c5, c6⟩ := Struct.coldLoad_engine (M := M) sizeofT
        e s data
      refine ⟨c1, c2, c3, c4, ?_, ?_⟩
      · intro hok
        obtain ⟨d1, d2⟩ := c5 hok
        exact ⟨d1, hfit, fun N hR _ => d2 N hR⟩
      · intro hok
        obtain ⟨d1, d2, d3⟩ := c6 hok
        refine ⟨d2, d3, fun _ => ?_, fun h => absurd hfit h⟩
        rw [d1]
        simpa using hl
  · rw [if_neg hfit]
    refine ⟨rfl, rfl, rfl, rfl, ?_, ?_⟩
    · intro h
      simp at h
    · intro _
      exact ⟨rfl, rfl, fun h => absurd h hfit, fun _ => rfl⟩

/-- The engine after the attempt part of `Save`. -/
theorem Struct.saveAttempt_engine (sizeofT : Nat) (e : Struct) (db : Db) (l : Int) (s : σ) :
    (Struct.saveAttempt M sizeofT e db l s).engine.start_ = e.start_ ∧
      (Struct.saveAttempt M sizeofT e db l s).engine.pages_ = e.pages_ ∧
      (Struct.saveAttempt M sizeofT e db l s).engine.struct_pages_u32_ = e.struct_pages_u32_ ∧
      (Struct.saveAttempt M sizeofT e db l s).engine.ware_level_ = e.ware_level_ ∧
      (Struct.saveAttempt M sizeofT e db l s).engine.db_ = db ∧
      ((Struct.saveAttempt M sizeofT e db l s).ok = true →
        (Struct.saveAttempt M sizeofT e db l s).engine.loaded = true ∧
        ∀ N i, Ring M sizeofT e N → i < N → l = e.slot i →
          ∃ j, j < N ∧ (Struct.saveAttempt M sizeofT e db l s).engine.location = e.slot j) ∧
      ((Struct.saveAttempt M sizeofT e db l s).ok = false →
        (Struct.saveAttempt M sizeofT e db l s).engine.loaded = e.loaded ∧
        (Struct.saveAttempt M sizeofT e db l s).engine.location = e.location) := by
  unfold Struct.saveAttempt
  simp only []
  generalize doWhileCount (if e.loaded = true then u32 (e.pages_ + 2 ^ 32 - 1) else e.pages_) = n
  cases hw : (Struct.saveLoop M sizeofT e db n l s).1 with
  | none => simp
  | some l1 =>
    simp only [true_and, Bool.true_eq_false, false_implies, and_true, true_implies]
    intro N i hR hi hl
    rw [hl] at hw
    exact Struct.saveLoop_on_ring hR db n i s l1 hi hw

/-- The engine after `Save`: the geometry is kept; when `Save` returns true the
engine is loaded and passes the fit check, at a slot of the ring; when `Save`
returns false the loaded flag and the location are kept. -/
theorem Struct.Save_engine (sizeofT : Nat) (e : Struct) (s : σ) (r : List Nat) (force : Bool) :
    (e.Save M sizeofT s r force).engine.start_ = e.start_ ∧
      (e.Save M sizeofT s r force).engine.pages_ = e.pages_ ∧
      (e.Save M sizeofT s r force).engine.struct_pages_u32_ = e.struct_pages_u32_ ∧
      (e.Save M sizeofT s r force).engine.ware_level_ = e.ware_level_ ∧
      ((e.Save M sizeofT s r force).ok = true →
        (e.Save M sizeofT s r force).engine.loaded = true ∧
        Db.WillFit M sizeofT e.pages_ = true ∧
        ∀ N, Ring M sizeofT e N → (e.loaded = true → ∃ i, i < N ∧ e.location = e.slot i) →
          ∃ j, j < N ∧ (e.Save M sizeofT s r force).engine.location = e.slot j) ∧
      ((e.Save M sizeofT s r force).ok = false →
        (e.Save M sizeofT s r force).engine.loaded = e.loaded ∧
        (e.Save M sizeofT s r force).engine.location = e.location) := by
  unfold Struct.Save
  by_cases hfit : Db.WillFit M sizeofT e.pages_ = true
  · rw [if_pos hfit]
    cases hl : e.loaded with
    | false =>
      by_cases hf : force = true
      · subst hf
        simp only [Bool.not_false, if_true]
        obtain ⟨c1, c2, c3, c4, _, c5, c6⟩ := Struct.saveAttempt_engine (M := M)
          sizeofT e (Db.Update M sizeofT e.db_ s r true).1 e.start_
          (Db.Update M sizeofT e.db_ s r true).2
        refine ⟨c1, c2, c3, c4, ?_, ?_⟩
        · intro hok
          obtain ⟨d1, d2⟩ := c5 hok
          exact ⟨d1, hfit, fun N hR _ => d2 N 0 hR hR.levels_pos (Struct.slot_zero e).symm⟩
        · intro hok
          rw [← hl]
          exact c6 hok
      · rw [Bool.not_eq_true] at hf
        subst hf
        simp [hl]
    | true =>
      simp only [Bool.not_true, Bool.false_eq_true, if_false]
      obtain ⟨c1, c2, c3, c4, _, c5, c6⟩ := Struct.saveAttempt_engine (M := M)
        sizeofT e (Db.Update M sizeofT e.db_ s r false).1
        (Struct.GetNextLocation M e e.location) (Db.Update M sizeofT e.db_ s r false).2
      refine ⟨c1, c2, c3, c4, ?_, ?_⟩
      · intro hok
        obtain ⟨d1, d2⟩ := c5 hok
        refine ⟨d1, hfit, fun N hR hloc => ?_⟩
        obtain ⟨i, hi, hli⟩ := hloc trivial
        exact d2 N (nextIdx N i) hR (nextIdx_lt hR.levels_pos i)
          (by rw [hli]; exact hR.next_slot i)
      · intro hok
        rw [← hl]
        exact c6 hok
  · rw [if_neg hfit]
    refine ⟨rfl, rfl, rfl, rfl, ?_, ?_⟩
    · intro h
      simp at h
    · intro _
      exact ⟨rfl, rfl⟩

/-- A reachable engine that is loaded passes the fit check. -/
theorem Reachable.fit {e0 e : Struct} (h0 : e0.loaded = false)
    (hreach : Reachable M sizeofT e0 e) :
    e.loaded = true → Db.WillFit M sizeofT e.pages_ = true := by
  induction hreach with
  | construction =>
    intro h
    rw [h0] at h
    exact absurd h (by decide)
  | load e s data _ ih =>
    intro hl
    obtain ⟨_, c2, _, _, c5, c6⟩ := Struct.Load_engine (M := M) sizeofT e s data
    rw [c2]
    cases hok : (e.Load M sizeofT s data).ok with
    | true => exact (c5 hok).2.1
    | false =>
      by_contra hfit
      have heq := (c6 hok).2.2.2 hfit
      rw [heq] at hl
      exact hfit (ih hl)
  | save e s r force _ ih =>
    intro hl
    obtain ⟨_, c2, _, _, c5, c6⟩ := Struct.Save_engine (M := M) sizeofT e s r force
    rw [c2]
    cases hok : (e.Save M sizeofT s r force).ok with
    | true => exact (c5 hok).2.1
    | false =>
      rw [(c6 hok).1] at hl
      exact ih hl
  | unload e _ _ =>
    intro hl
    have hu : e.Unload.loaded = false := rfl
    rw [hu] at hl
    exact absurd hl (by decide)

/-- A reachable engine keeps the geometry of the ring it was constructed with, and
when it is loaded it is at a slot of the ring. -/
theorem Reachable.ring {e0 e : Struct} {N : Nat} (hR : Ring M sizeofT e0 N)
    (h0 : e0.loaded = false) (hreach : Reachable M sizeofT e0 e) :
    e.start_ = e0.start_ ∧ e.pages_ = e0.pages_ ∧
      e.struct_pages_u32_ = e0.struct_pages_u32_ ∧ e.ware_level_ = e0.ware_level_ ∧
      (e.loaded = true → ∃ i, i < N ∧ e.location = e.slot i) := by
  induction hreach with
  | construction =>
    refine ⟨rfl, rfl, rfl, rfl, ?_⟩
    intro h
    rw [h0] at h
    exact absurd h (by decide)
  | load e s data _ ih =>
    obtain ⟨g1, g2, g3, g4, hloc⟩ := ih
    obtain ⟨c1, c2, c3, c4, c5, c6⟩ := Struct.Load_engine (M := M) sizeofT e s data
    have hRe := hR.of_geometry e g3 g2 g4
    have hslot := Struct.slot_congr e (e.Load M sizeofT s data).engine c1 c3
    refine ⟨by rw [c1, g1], by rw [c2, g2], by rw [c3, g3], by rw [c4, g4], ?_⟩
    intro hl
    cases hok : (e.Load M sizeofT s data).ok with
    | true =>
      obtain ⟨j, hj, hlj⟩ := (c5 hok).2.2 N hRe hloc
      exact ⟨j, hj, by rw [hlj, hslot]⟩
    | false =>
      by_cases hfit : Db.WillFit M sizeofT e.pages_ = true
      · rw [(c6 hok).2.2.1 hfit] at hl
        exact absurd hl (by decide)
      · have heq := (c6 hok).2.2.2 hfit
        rw [heq] at hl ⊢
        exact hloc hl
  | save e s r force _ ih =>
    obtain ⟨g1, g2, g3, g4, hloc⟩ := ih
    obtain ⟨c1, c2, c3, c4, c5, c6⟩ := Struct.Save_engine (M := M) sizeofT e s r
      force
    have hRe := hR.of_geometry e g3 g2 g4
    have hslot := Struct.slot_congr e (e.Save M sizeofT s r force).engine c1 c3
    refine ⟨by rw [c1, g1], by rw [c2, g2], by rw [c3, g3], by rw [c4, g4], ?_⟩
    intro hl
    cases hok : (e.Save M sizeofT s r force).ok with
    | true =>
      obtain ⟨j, hj, hlj⟩ := (c5 hok).2.2 N hRe hloc
      exact ⟨j, hj, by rw [hlj, hslot]⟩
    | false =>
      obtain ⟨d1, d2⟩ := c6 hok
      rw [d1] at hl
      obtain ⟨i, hi, hli⟩ := hloc hl
      exact ⟨i, hi, by rw [d2, hli, hslot]⟩
  | unload e _ ih =>
    obtain ⟨g1, g2, g3, g4, _⟩ := ih
    refine ⟨g1, g2, g3, g4, ?_⟩
    intro hl
    have hu : e.Unload.loaded = false := rfl
    rw [hu] at hl
    exact absurd hl (by decide)

/-- The cold load leaves the stored words as they were. -/
theorem Struct.coldLoad_view {view : σ → Int → Nat} {crcf : List Nat → Nat → Nat}
    (hM : ReadContract M view crcf) (e : Struct) (s : σ) (data : List Nat) :
    view (Struct.coldLoad M sizeofT e s data).media = view s := by
  have hsv := (Struct.headerScan_view (e := e) sizeofT hM (doWhileCount e.pages_)
    { c := 0, s := false, l := e.start_, db := e.db_, media := s }).1
  unfold Struct.coldLoad
  simp only [] at hsv ⊢
  split
  · have hbv := (Struct.backScan_view (e := e) sizeofT hM (doWhileCount e.pages_)
      (Struct.headerScan M sizeofT e (doWhileCount e.pages_)
        { c := 0, s := false, l := e.start_, db := e.db_, media := s }).l
      (Struct.headerScan M sizeofT e (doWhileCount e.pages_)
        { c := 0, s := false, l := e.start_, db := e.db_, media := s }).db
      (Struct.headerScan M sizeofT e (doWhileCount e.pages_)
        { c := 0, s := false, l := e.start_, db := e.db_, media := s }).media).1
    split
    · rw [hbv]; exact hsv
    · rw [hbv]; exact hsv
  · exact hsv

/-- `Load` leaves the stored words as they were. -/
theorem Struct.Load_view {view : σ → Int → Nat} {crcf : List Nat → Nat → Nat}
    (hM : ReadContract M view crcf) (e : Struct) (s : σ) (data : List Nat) :
    view (e.Load M sizeofT s data).media = view s := by
  have hr := Db.Read_view hM sizeofT e.db_ s e.location
  unfold Struct.Load
  split
  · split
    · simp only []
      split
      · exact hr
      · rw [Struct.coldLoad_view hM]; exact hr
    · exact Struct.coldLoad_view hM e s data
  · rfl

/-- A `Save` by a loaded engine that passes the fit check leaves in the scratch block
the block stamped by `Update`, whatever it returns. -/
theorem Struct.Save_stamp (sizeofT : Nat) (e : Struct) (s : σ) (r : List Nat) (force : Bool)
    (hfit : Db.WillFit M sizeofT e.pages_ = true) (hl : e.loaded = true) :
    (e.Save M sizeofT s r force).engine.db_ = (Db.Update M sizeofT e.db_ s r false).1 := by
  unfold Struct.Save
  rw [if_pos hfit, hl]
  simp only [Bool.not_true, Bool.false_eq_true, if_false]
  exact (Struct.saveAttempt_engine (M := M) sizeofT e _ _ _).2.2.2.2.1

theorem Db.Update_body (sizeofT : Nat) (db : Db) (hb : db.body.length = u32Len sizeofT - 3)
    (s : σ) (t : List Nat) (ht : t.length = sizeofT) (hbytes : ∀ b ∈ t, b < 256)
    (first : Bool) :
    (Db.Update M sizeofT db s t first).1.body.length = u32Len sizeofT - 3 ∧
      (Db.Update M sizeofT db s t first).1.Get sizeofT = t := by
  have hs := Db.setData_spec db sizeofT t hb ht hbytes
  unfold Db.Update
  exact hs

/-- A `Save` by a loaded engine that returns true on a media whose `Program` stores
has the stamped block at the new location. -/
theorem Struct.Save_stored {view : σ → Int → Nat} (hP : ProgramStores M view)
    (hW : u32Len sizeofT < 32768) (e : Struct)
    (hb : e.db_.body.length = u32Len sizeofT - 3) (s : σ) (r : List Nat)
    (ht : r.length = sizeofT) (hbytes : ∀ b ∈ r, b < 256) (force : Bool)
    (hl : e.loaded = true) (hok : (e.Save M sizeofT s r force).ok = true) :
    frameAt (view (e.Save M sizeofT s r force).media) sizeofT
        (e.Save M sizeofT s r force).engine.location =
      (Db.Update M sizeofT e.db_ s r false).1 := by
  have hbu := (Db.Update_body (M := M) sizeofT e.db_ hb s r ht hbytes false).1
  unfold Struct.Save at hok ⊢
  by_cases hfit : Db.WillFit M sizeofT e.pages_ = true
  · rw [if_pos hfit, hl] at hok ⊢
    simp only [Bool.not_true, Bool.false_eq_true, if_false] at hok ⊢
    exact (Struct.saveAttempt_ok hP hW e _ hbu _ _ hok).2
  · rw [if_neg hfit] at hok
    simp at hok

/-- The two loops of the cold load on a ring whose slots up to `p` hold the counters
`b + i` and whose slot after `p` was then given the counter `0`: the first loop
ends at that slot and the second finds slot `p`. -/
theorem scanIdx_wrapped (h1 : Nat → Option Nat) (valid1 : Nat → Bool) (N p b : Nat)
    (hN : 2 ≤ N) (hp : p < N) (hq : h1 (nextIdx N p) = some 0)
    (hcur : ∀ i, i ≤ p → i ≠ nextIdx N p → h1 i = some (b + i))
    (hvp : valid1 p = true) (K : Nat) (hK : N ≤ K) :
    (scanIdx h1 N K 0 false 0).1 = true ∧
      backIdx valid1 N K (scanIdx h1 N K 0 false 0).2 = some p := by
  by_cases hlast : p + 1 < N
  · have hnext : nextIdx N p = p + 1 := by unfold nextIdx; rw [if_pos hlast]
    rw [hnext] at hq hcur
    have hrise := scanIdx_rising h1 N b p 0 0 false K (Or.inl rfl)
      (fun i _ h2 => hcur i (by omega) (by omega)) (by omega) (by omega)
    simp only [Nat.zero_add] at hrise
    rw [hrise, hnext, scanIdx_stop h1 N _ _ (p + 1) (Or.inr ⟨0, hq, Nat.zero_le _⟩)]
    exact ⟨rfl, backIdx_down valid1 N p hvp K (p + 1) (by omega) (by omega)
      (fun j h1 h2 => by omega)⟩
  · have hpN : p = N - 1 := by omega
    have hnext : nextIdx N p = 0 := by unfold nextIdx; rw [if_neg hlast]
    rw [hnext] at hq hcur
    obtain ⟨m, hm⟩ : ∃ m, K = m + 1 := ⟨K - 1, by omega⟩
    have hn0 : nextIdx N 0 = 1 := by unfold nextIdx; rw [if_pos (by omega)]
    have hrise := scanIdx_rising h1 N b (N - 2) 1 0 true m (Or.inr (by omega))
      (fun i h2 h3 => hcur i (by omega) (by omega)) (by omega) (by omega)
    have hn1 : nextIdx N (1 + (N - 2)) = 0 := by unfold nextIdx; rw [if_neg (by omega)]
    rw [hm, scanIdx_step_some h1 N m 0 false 0 0 hq (Or.inl rfl), hn0, hrise, hn1,
      scanIdx_stop h1 N _ _ 0 (Or.inr ⟨0, hq, Nat.zero_le _⟩)]
    exact ⟨rfl, backIdx_wrap valid1 N p hvp hp (m + 1) (by omega) (fun j h1 h2 => by omega)⟩

end EngineStates

end persist

/-! ## The STM32 flash driver -/

namespace stm32f103x

theorem toUInt32_natCast (n : Nat) (h : n < 4294967296) : toUInt32 (n : Int) = n := by
  unfold toUInt32; omega

theorem toUInt32_natCast_mul (n : Nat) (h : n < 32768) : toUInt32 ((n : Int) * 4) = 4 * n := by
  unfold toUInt32; omega

variable {σ : Type}

/-- `Verify` returns true exactly when the flash holds the data. -/
theorem Flash.Verify_iff (hw : Hardware σ) (s : σ) (buffer : Nat) (data : List Nat)
    (size_u32 : Int) :
    Flash.Verify hw s buffer data size_u32 = true ↔
      ∀ i, i < toUInt32 size_u32 → hw.peek s (persist.u32 (buffer + 4 * i)) = data.getD i 0 := by
  unfold Flash.Verify
  simp [List.all_eq_true]

/-- A `Write32` that returns true has left the word at its address. -/
theorem Flash.Write32_ok (hw : Hardware σ) (s : σ) (address data : Nat)
    (h : (Flash.Write32 hw s address data).1 = true) :
    hw.peek (Flash.Write32 hw s address data).2 address = data := by
  simpa [Flash.Write32] using h

/-- The write loop, on a flash where programming a word changes no other word: when
it returns true the words it wrote hold the data, and the other words are as before. -/
theorem Flash.Write32BufferLoop_ok (hw : Hardware σ)
    (hlocal : ∀ s a d b, b ≠ a → hw.peek (hw.programWord s a d) b = hw.peek s b)
    (buffer : Nat) (data : List Nat) (n : Nat) :
    ∀ (i : Nat) (s : σ), i + n ≤ 32768 →
      (Flash.Write32BufferLoop hw buffer data n i s).1 = true →
      (∀ k, i ≤ k → k < i + n →
        hw.peek (Flash.Write32BufferLoop hw buffer data n i s).2 (persist.u32 (buffer + 4 * k)) =
          data.getD k 0) ∧
      (∀ a, (∀ k, i ≤ k → k < i + n → a ≠ persist.u32 (buffer + 4 * k)) →
        hw.peek (Flash.Write32BufferLoop hw buffer data n i s).2 a = hw.peek s a) := by
  induction n with
  | zero =>
    intro i s _ _
    exact ⟨fun k h1 h2 => by omega, fun a _ => rfl⟩
  | succ n ih =>
    intro i s hin h
    rw [Flash.Write32BufferLoop] at h ⊢
    by_cases hw1 : (Flash.Write32 hw s (persist.u32 (buffer + 4 * i)) (data.getD i 0)).1 = true
    · rw [if_pos hw1] at h ⊢
      have hi := Flash.Write32_ok hw s _ _ hw1
      obtain ⟨ih1, ih2⟩ := ih (i + 1) _ (by omega) h
      constructor
      · intro k hk1 hk2
        by_cases hki : k = i
        · subst hki
          rw [ih2 _ (fun j hj1 hj2 => by unfold persist.u32; omega)]
          exact hi
        · exact ih1 k (by omega) (by omega)
      · intro a ha
        rw [ih2 a (fun k hk1 hk2 => ha k (by omega) (by omega))]
        exact hlocal s _ _ a (ha i (le_refl _) (by omega))
    · rw [if_neg hw1] at h
      simp at h

/-- `Program` on a flash where programming a word changes no other word and the
lock sequence changes none: when it returns true, the sizes are not zero and the
flash holds the data at the destination. -/
theorem Flash.Program_ok (hw : Hardware σ)
    (hlocal : ∀ s a d b, b ≠ a → hw.peek (hw.programWord s a d) b = hw.peek s b)
    (hlock : ∀ s a, hw.peek (hw.lock s) a = hw.peek s a)
    (s : σ) (buffer : Nat) (data : List Nat) (size : Nat) (hsize : size < 32768)
    (page_size_u32 : Nat) (use_lock : Bool)
    (h : (Flash.Program hw s buffer data (size : Int) page_size_u32 use_lock).1 = true) :
    0 < size ∧ 0 < page_size_u32 ∧
      ∀ i, i < size →
        hw.peek (Flash.Program hw s buffer data (size : Int) page_size_u32 use_lock).2
          (persist.u32 (buffer + 4 * i)) = data.getD i 0 := by
  unfold Flash.Program at h ⊢
  by_cases h0 : (size : Int) = 0 ∨ page_size_u32 = 0
  · rw [if_pos h0] at h
    simp at h
  · rw [if_neg h0] at h ⊢
    have hs0 : 0 < size := by
      rcases Nat.eq_zero_or_pos size with hz | hp
      · exact absurd (Or.inl (by simp [hz])) h0
      · exact hp
    have hp0 : 0 < page_size_u32 := by
      rcases Nat.eq_zero_or_pos page_size_u32 with hz | hp
      · exact absurd (Or.inr hz) h0
      · exact hp
    refine ⟨hs0, hp0, ?_⟩
    by_cases hv : Flash.Verify hw s buffer data (size : Int) = true
    · rw [if_pos hv]
      have := (Flash.Verify_iff hw s buffer data (size : Int)).1 hv
      rw [toUInt32_natCast size (by omega)] at this
      exact this
    · rw [if_neg hv] at h ⊢
      simp only [] at h ⊢
      unfold Flash.eraseWrite at h ⊢
      simp only [] at h ⊢
      generalize (if use_lock = true then hw.unlock s else s) = s1 at h ⊢
      generalize Flash.ErasePages hw s1 buffer (Flash.pageCount buffer (size : Int) page_size_u32)
        page_size_u32 = r at h ⊢
      by_cases hr : r.1 = true
      · rw [if_pos hr] at h ⊢
        unfold Flash.Write32Buffer at h ⊢
        rw [Int.toNat_ofNat] at h ⊢
        obtain ⟨hw1, _⟩ := Flash.Write32BufferLoop_ok hw hlocal buffer data size 0 r.2
          (by omega) h
        intro i hi
        cases use_lock with
        | true =>
          simp only [if_true]
          rw [hlock]
          exact hw1 i (Nat.zero_le _) (by omega)
        | false => exact hw1 i (Nat.zero_le _) (by omega)
      · rw [if_neg hr] at h
        simp at h

/-- Programming a word of the simulated flash changes no other word. -/
theorem Flash.simulated_local (m : Nat → Nat) (a d b : Nat) (h : b ≠ a) :
    Flash.simulated.peek (Flash.simulated.programWord m a d) b = Flash.simulated.peek m b := by
  simp [Flash.simulated, h]

end stm32f103x

namespace stm32f103x

/-- Masking with the complement of `2^k - 1` in 32 bits clears the low `k` bits. -/
theorem and_not_mask (b k : Nat) (hb : b < 2 ^ 32) (hk : k ≤ 32) :
    b &&& ((2 ^ k - 1) ^^^ 4294967295) = b - b % 2 ^ k := by
  have hsub : b - b % 2 ^ k = 2 ^ k * (b / 2 ^ k) := by
    have := Nat.div_add_mod b (2 ^ k)
    omega
  rw [hsub]
  apply Nat.eq_of_testBit_eq
  intro i
  have h32 : (4294967295 : Nat) = 2 ^ 32 - 1 := by norm_num
  rw [Nat.testBit_and, Nat.testBit_xor, h32, Nat.testBit_two_pow_sub_one,
    Nat.testBit_two_pow_sub_one, Nat.testBit_mul_pow_two]
  by_cases h1 : i < k
  · have h2 : i < 32 := by omega
    simp [h1, h2]
  · by_cases h2 : i < 32
    · have h3 : k ≤ i := by omega
      simp only [h1, h2, decide_True, decide_False, Bool.false_xor, Bool.and_true, ge_iff_le,
        h3, Bool.true_and]
      rw [← Nat.shiftRight_eq_div_pow, Nat.testBit_shiftRight]
      congr 1
      omega
    · have h3 : k ≤ i := by omega
      have hlt : b < 2 ^ i := lt_of_lt_of_le hb (Nat.pow_le_pow_right (by omega) (by omega))
      have hb0 : b.testBit i = false := Nat.testBit_lt_two_pow hlt
      have hd0 : (b / 2 ^ k).testBit (i - k) = false := by
        rw [← Nat.shiftRight_eq_div_pow, Nat.testBit_shiftRight]
        have : k + (i - k) = i := by omega
        rw [this]; exact hb0
      simp [h1, h2, hb0, hd0]

/-- The masked page address when the page holds `2^j` words. -/
theorem Flash.pageBase_pow (address j : Nat) (ha : address < 2 ^ 32) (hj : j + 2 < 32) :
    Flash.pageBase address (2 ^ j) = address - address % (4 * 2 ^ j) := by
  have hP : 4 * 2 ^ j = 2 ^ (j + 2) := by rw [pow_add]; ring
  have hlt : 2 ^ (j + 2) < 2 ^ 32 := Nat.pow_lt_pow_right (by omega) hj
  have hpos : 0 < 2 ^ (j + 2) := Nat.two_pow_pos _
  unfold Flash.pageBase
  rw [Nat.shiftLeft_eq, show 2 ^ j * 2 ^ 2 = 2 ^ (j + 2) from by rw [pow_add]]
  have h1 : persist.u32 (persist.u32 (2 ^ (j + 2)) + 4294967295) = 2 ^ (j + 2) - 1 := by
    unfold persist.u32
    have : (2 : Nat) ^ 32 = 4294967296 := by norm_num
    omega
  rw [h1, hP]
  exact and_not_mask address (j + 2) ha (by omega)

/-- Rounding up to pages of `P` bytes from the offset `o`, given the page count `c` of
the data alone. -/
theorem ceil_pages (o n P c : Nat) (hP : 0 < P) (ho : o < P) (h1 : n ≤ c * P)
    (h2 : c * P < n + P) :
    (o + n + (P - 1)) / P = if o + n > c * P then c + 1 else c := by
  split
  · next h =>
    apply Nat.div_eq_of_lt_le
    · rw [Nat.succ_mul] at *; omega
    · have : (c + 1 + 1) * P = c * P + P + P := by ring
      omega
  · next h =>
    rcases Nat.eq_zero_or_pos c with hc | hc
    · subst hc
      simp only [Nat.zero_mul] at h1 h2 h
      have : o + n + (P - 1) < P := by omega
      exact Nat.div_eq_of_lt this
    · apply Nat.div_eq_of_lt_le
      · have : c * P = (c - 1) * P + P := by
          have : c = (c - 1) + 1 := by omega
          nth_rewrite 1 [this]
          rw [Nat.succ_mul]
        omega
      · rw [Nat.succ_mul]; omega

end stm32f103x

namespace stm32f103x

/-- The page count of the data alone, as `Program` computes it first. -/
theorem data_pages (size j : Nat) :
    ∃ c : Nat,
      (if size % 2 ^ j ≠ 0 then ((size / 2 ^ j : Nat) : Int) + 1 else ((size / 2 ^ j : Nat) : Int))
        = (c : Int) ∧ size ≤ c * 2 ^ j ∧ c * 2 ^ j < size + 2 ^ j := by
  have hps : 0 < 2 ^ j := Nat.two_pow_pos j
  have hdm := Nat.div_add_mod size (2 ^ j)
  have hml := Nat.mod_lt size hps
  by_cases hr : size % 2 ^ j ≠ 0
  · refine ⟨size / 2 ^ j + 1, by rw [if_pos hr]; push_cast; rfl, ?_, ?_⟩
    · rw [Nat.succ_mul, Nat.mul_comm]; omega
    · rw [Nat.succ_mul, Nat.mul_comm]; omega
  · refine ⟨size / 2 ^ j, by rw [if_neg hr], ?_, ?_⟩
    · rw [Nat.mul_comm]; omega
    · rw [Nat.mul_comm]; omega

/-- The pages of a write from the offset `o`: the pages of the data alone, and one
more exactly when the data runs past them. -/
theorem pages_split (o size j : Nat) (ho : o < 4 * 2 ^ j) :
    (o + 4 * size + (4 * 2 ^ j - 1)) / (4 * 2 ^ j) =
      (4 * size + (4 * 2 ^ j - 1)) / (4 * 2 ^ j) +
        (if o + 4 * size > (4 * size + (4 * 2 ^ j - 1)) / (4 * 2 ^ j) * (4 * 2 ^ j) then 1
          else 0) := by
  have hps : 0 < 2 ^ j := Nat.two_pow_pos j
  obtain ⟨c, _, hc1, hc2⟩ := data_pages size j
  have hcP : c * (4 * 2 ^ j) = 4 * (c * 2 ^ j) := by ring
  have h1 := ceil_pages o (4 * size) (4 * 2 ^ j) c (by omega) ho (by omega) (by omega)
  have h2 := ceil_pages 0 (4 * size) (4 * 2 ^ j) c (by omega) (by omega) (by omega) (by omega)
  rw [if_neg (by omega), Nat.zero_add] at h2
  rw [h1, h2]
  split <;> rfl

/-- The page count of `Program` when the page holds `2^j` words and the write with
one more page lies inside the 32-bit address space: the number of pages between
the page of the destination and the page of the last byte written. -/
theorem Flash.pageCount_eq (buffer size j : Nat) (hs0 : 0 < size) (hs : size < 32768)
    (hspace : buffer + 4 * size + 4 * 2 ^ j ≤ 2 ^ 32) :
    Flash.pageCount buffer (size : Int) (2 ^ j) =
      (((buffer % (4 * 2 ^ j) + 4 * size + (4 * 2 ^ j - 1)) / (4 * 2 ^ j) : Nat) : Int) := by
  have h232 : (2 : Nat) ^ 32 = 4294967296 := by norm_num
  have hP : 4 * 2 ^ j = 2 ^ (j + 2) := by rw [pow_add]; ring
  have hj : j + 2 < 32 := by
    by_contra hcon
    have : 2 ^ 32 ≤ 2 ^ (j + 2) := Nat.pow_le_pow_right (by omega) (by omega)
    omega
  have hps : 0 < 2 ^ j := Nat.two_pow_pos j
  have hbase := Flash.pageBase_pow buffer j (by omega) hj
  have ho : buffer % (4 * 2 ^ j) < 4 * 2 ^ j := Nat.mod_lt _ (by omega)
  have hole : buffer % (4 * 2 ^ j) ≤ buffer := Nat.mod_le _ _
  have hdm := Nat.div_add_mod size (2 ^ j)
  have hml := Nat.mod_lt size hps
  have hdl : size / 2 ^ j ≤ size := Nat.div_le_self _ _
  obtain ⟨c, hc, hc1, hc2⟩ := data_pages size j
  have hcle : c ≤ size := by
    by_contra hcon
    have : (size + 1) * 2 ^ j ≤ c * 2 ^ j := Nat.mul_le_mul_right _ (by omega)
    rw [Nat.succ_mul] at this
    have h1 : size * 1 ≤ size * 2 ^ j := Nat.mul_le_mul_left size hps
    omega
  have hcP : c * (4 * 2 ^ j) = 4 * (c * 2 ^ j) := by ring
  have hceil := ceil_pages (buffer % (4 * 2 ^ j)) (4 * size) (4 * 2 ^ j) c (by omega) ho
    (by omega) (by omega)
  rw [hceil]
  unfold Flash.pageCount
  simp only []
  have ht0 : toInt32 (toUInt32 (size : Int) / 2 ^ j) = ((size / 2 ^ j : Nat) : Int) := by
    rw [toUInt32_natCast size (by omega)]
    unfold toInt32
    rw [Nat.mod_eq_of_lt (by omega), if_pos (by omega)]
  rw [toUInt32_natCast_mul size hs, ht0, toUInt32_natCast size (by omega), hc,
    toUInt32_natCast c (by omega), hbase, Nat.shiftLeft_eq]
  have hb1 : persist.u32 (buffer + 4 * size) = buffer + 4 * size := by
    unfold persist.u32; omega
  have hb2 : persist.u32 (buffer - buffer % (4 * 2 ^ j) +
      persist.u32 (persist.u32 (c * 2 ^ j) * 2 ^ 2)) =
        buffer - buffer % (4 * 2 ^ j) + c * (4 * 2 ^ j) := by
    unfold persist.u32
    rw [hcP]
    omega
  rw [hb1, hb2]
  by_cases hgt : buffer % (4 * 2 ^ j) + 4 * size > c * (4 * 2 ^ j)
  · rw [if_pos hgt, if_pos (by omega)]
    push_cast; rfl
  · rw [if_neg hgt, if_neg (by omega)]

/-- The page that the `k`-th step of `ErasePages` from `buffer` checks and erases. -/
theorem Flash.pageBase_step (buffer j k : Nat) (hk : buffer + k * (4 * 2 ^ j) < 2 ^ 32)
    (hj : j + 2 < 32) :
    Flash.pageBase (persist.u32 (buffer + k * (4 * 2 ^ j))) (2 ^ j) =
      buffer - buffer % (4 * 2 ^ j) + k * (4 * 2 ^ j) := by
  have h232 : (2 : Nat) ^ 32 = 4294967296 := by norm_num
  have hu : persist.u32 (buffer + k * (4 * 2 ^ j)) = buffer + k * (4 * 2 ^ j) := by
    unfold persist.u32; omega
  rw [hu, Flash.pageBase_pow _ j hk hj, Nat.add_mul_mod_self_right]
  have := Nat.mod_le buffer (4 * 2 ^ j)
  omega

/-- The address that `ErasePages` passes to `ErasePage` at step `k`, and the run of
the loop from there. -/
theorem Flash.ErasePagesLoop_step {σ : Type} (hw : Hardware σ) (page_size_u32 p pa : Nat)
    (s : σ) :
    Flash.ErasePagesLoop hw page_size_u32 (p + 1) pa s =
      if (Flash.ErasePage hw s pa page_size_u32).1 then
        Flash.ErasePagesLoop hw page_size_u32 p (persist.u32 (pa + 4 * page_size_u32))
          (Flash.ErasePage hw s pa page_size_u32).2
      else (false, (Flash.ErasePage hw s pa page_size_u32).2) := rfl

end stm32f103x

namespace stm32f103x

variable {σ : Type}

/-- `CheckErasePage` looks at the page that contains its address. -/
theorem Flash.CheckErasePage_eq (hw : Hardware σ) (s : σ) (pa page_size_u32 : Nat) :
    Flash.CheckErasePage hw s pa page_size_u32 =
      Flash.pageBlank hw s (Flash.pageBase pa page_size_u32) page_size_u32 := rfl

/-- One step of `ErasePages` is one step of the specification at the page that
contains the address. -/
theorem Flash.ErasePagesLoop_spec (hw : Hardware σ) (buffer j : Nat) (hj : j + 2 < 32)
    (n : Nat) :
    ∀ (k : Nat) (s : σ), buffer + (k + n) * (4 * 2 ^ j) < 2 ^ 32 + 4 * 2 ^ j →
      Flash.ErasePagesLoop hw (2 ^ j) n (persist.u32 (buffer + k * (4 * 2 ^ j))) s =
        Flash.erasePagesSpec hw (2 ^ j)
          ((List.range n).map fun i =>
            buffer - buffer % (4 * 2 ^ j) + (k + i) * (4 * 2 ^ j)) s := by
  have h232 : (2 : Nat) ^ 32 = 4294967296 := by norm_num
  have hps : 0 < 2 ^ j := Nat.two_pow_pos j
  induction n with
  | zero => intro k s _; rfl
  | succ n ih =>
    intro k s hk
    have hkn : (k + (n + 1)) * (4 * 2 ^ j) = k * (4 * 2 ^ j) + n * (4 * 2 ^ j) + 4 * 2 ^ j := by
      ring
    have hk1 : (k + 1 + n) * (4 * 2 ^ j) = k * (4 * 2 ^ j) + n * (4 * 2 ^ j) + 4 * 2 ^ j := by
      ring
    have hk2 : (k + 1) * (4 * 2 ^ j) = k * (4 * 2 ^ j) + 4 * 2 ^ j := by ring
    have hbase := Flash.pageBase_step buffer j k (by omega) hj
    have hnext : persist.u32 (persist.u32 (buffer + k * (4 * 2 ^ j)) + 4 * 2 ^ j) =
        persist.u32 (buffer + (k + 1) * (4 * 2 ^ j)) := by
      unfold persist.u32; rw [hk2]; omega
    have hlist : (List.range (n + 1)).map (fun i =>
          buffer - buffer % (4 * 2 ^ j) + (k + i) * (4 * 2 ^ j)) =
        (buffer - buffer % (4 * 2 ^ j) + k * (4 * 2 ^ j)) ::
          (List.range n).map (fun i =>
            buffer - buffer % (4 * 2 ^ j) + (k + 1 + i) * (4 * 2 ^ j)) := by
      rw [List.range_succ_eq_map, List.map_cons, List.map_map]
      congr 1
      apply List.map_congr_left
      intro i _
      simp only [Function.comp, Nat.succ_eq_add_one]
      congr 2
      omega
    rw [hlist, Flash.ErasePagesLoop, Flash.erasePagesSpec]
    simp only [Flash.ErasePage, Flash.CheckErasePage_eq, hbase, hnext]
    have hih := fun s1 => ih (k + 1) s1 (by rw [hk1]; rw [hkn] at hk; exact hk)
    by_cases h1 : Flash.pageBlank hw s (buffer - buffer % (4 * 2 ^ j) + k * (4 * 2 ^ j))
        (2 ^ j) = true
    · simp only [h1, if_true]
      exact hih s
    · simp only [h1, if_false, Bool.false_eq_true]
      by_cases h2 : Flash.pageBlank hw
          (hw.erasePage s (buffer - buffer % (4 * 2 ^ j) + k * (4 * 2 ^ j)) (2 ^ j))
          (buffer - buffer % (4 * 2 ^ j) + k * (4 * 2 ^ j)) (2 ^ j) = true
      · simp only [h2, if_true]
        exact hih _
      · simp only [h2, if_false, Bool.false_eq_true]

/-- `Program` counts pages by `ceil`: `k` is below the count exactly when page `k`
starts before the end of the write. -/
theorem lt_ceil_iff (k T P : Nat) (hP : 0 < P) : k < (T + (P - 1)) / P ↔ k * P < T := by
  rw [Nat.lt_iff_add_one_le, Nat.le_div_iff_mul_le hP, Nat.succ_mul]
  omega

/-- `ErasePages` from the destination with the count of the overlapped pages is the
specified erase of those pages. -/
theorem Flash.ErasePages_spec (hw : Hardware σ) (s : σ) (buffer size j : Nat)
    (hspace : buffer + 4 * size + 4 * 2 ^ j ≤ 2 ^ 32) (hs0 : 0 < size) :
    Flash.ErasePages hw s buffer
        (((buffer % (4 * 2 ^ j) + 4 * size + (4 * 2 ^ j - 1)) / (4 * 2 ^ j) : Nat) : Int)
        (2 ^ j) =
      Flash.erasePagesSpec hw (2 ^ j) (Flash.overlappedPages buffer size (2 ^ j)) s := by
  have h232 : (2 : Nat) ^ 32 = 4294967296 := by norm_num
  have hps : 0 < 2 ^ j := Nat.two_pow_pos j
  have hj : j + 2 < 32 := by
    by_contra hcon
    have h1 : 4 * 2 ^ j = 2 ^ (j + 2) := by rw [pow_add]; ring
    have h2 : 2 ^ 32 ≤ 2 ^ (j + 2) := Nat.pow_le_pow_right (by omega) (by omega)
    omega
  have ho : buffer % (4 * 2 ^ j) < 4 * 2 ^ j := Nat.mod_lt _ (by omega)
  have hdiv := Nat.div_mul_le_self (buffer % (4 * 2 ^ j) + 4 * size + (4 * 2 ^ j - 1))
    (4 * 2 ^ j)
  have h := Flash.ErasePagesLoop_spec hw buffer j hj
    ((buffer % (4 * 2 ^ j) + 4 * size + (4 * 2 ^ j - 1)) / (4 * 2 ^ j)) 0 s
    (by rw [Nat.zero_add]; omega)
  have hu : persist.u32 (buffer + 0 * (4 * 2 ^ j)) = buffer := by
    unfold persist.u32; omega
  rw [hu] at h
  unfold Flash.ErasePages Flash.overlappedPages
  rw [Int.toNat_ofNat, h]
  simp only [Nat.zero_add]

/-- The specified erase on the hardware with a journal adds to the journal a
sublist of the pages it was given. -/
theorem Flash.erasePagesSpec_journal (hw : Hardware σ) (page_size_u32 : Nat)
    (pages : List Nat) :
    ∀ st : σ × List Nat, ∃ erased : List Nat,
      (Flash.erasePagesSpec (Flash.journaled hw) page_size_u32 pages st).2.2 =
        st.2 ++ erased ∧ erased.Sublist pages := by
  induction pages with
  | nil => intro st; exact ⟨[], by simp [Flash.erasePagesSpec], List.Sublist.refl _⟩
  | cons a rest ih =>
    intro st
    rw [Flash.erasePagesSpec]
    split
    · obtain ⟨er, h1, h2⟩ := ih st
      exact ⟨er, h1, List.Sublist.cons a h2⟩
    · split
      · obtain ⟨er, h1, h2⟩ := ih ((Flash.journaled hw).erasePage st a page_size_u32)
        refine ⟨a :: er, ?_, List.Sublist.cons₂ a h2⟩
        rw [h1]
        simp [Flash.journaled]
      · exact ⟨[a], by simp [Flash.journaled],
          List.Sublist.cons₂ a (List.nil_sublist rest)⟩

/-- The write loop leaves the journal of the erase sequences as it was. -/
theorem Flash.Write32BufferLoop_journal (hw : Hardware σ) (buffer : Nat) (data : List Nat)
    (n : Nat) :
    ∀ (i : Nat) (st : σ × List Nat),
      (Flash.Write32BufferLoop (Flash.journaled hw) buffer data n i st).2.2 = st.2 := by
  induction n with
  | zero => intro i st; rfl
  | succ n ih =>
    intro i st
    rw [Flash.Write32BufferLoop]
    split
    · rw [ih]; rfl
    · rfl

/-- A page-aligned address is one of the overlapped pages exactly when the page there
and the bytes written have a byte in common. -/
theorem Flash.mem_overlappedPages (buffer size page_size_u32 : Nat) (hp : 0 < page_size_u32)
    (a : Nat) (ha : 4 * page_size_u32 ∣ a) :
    a ∈ Flash.overlappedPages buffer size page_size_u32 ↔
      a < buffer + 4 * size ∧ buffer < a + 4 * page_size_u32 := by
  have hP : 0 < 4 * page_size_u32 := by omega
  unfold Flash.overlappedPages
  generalize 4 * page_size_u32 = P at hP ha ⊢
  have hdm := Nat.div_add_mod buffer P
  have ho := Nat.mod_lt buffer hP
  obtain ⟨m, hm⟩ := ha
  simp only [List.mem_map, List.mem_range]
  constructor
  · rintro ⟨k, hk, hka⟩
    rw [lt_ceil_iff k _ P hP] at hk
    constructor <;> omega
  · rintro ⟨h1, h2⟩
    have hle : buffer / P ≤ m := by
      by_contra hcon
      have h3 : P * (m + 1) ≤ P * (buffer / P) := Nat.mul_le_mul_left P (by omega)
      rw [Nat.mul_succ] at h3
      omega
    have hsub : (m - buffer / P) * P = P * m - P * (buffer / P) := by
      rw [Nat.sub_mul, Nat.mul_comm m P, Nat.mul_comm (buffer / P) P]
    have hle2 : P * (buffer / P) ≤ P * m := Nat.mul_le_mul_left P hle
    refine ⟨m - buffer / P, ?_, ?_⟩
    · rw [lt_ceil_iff _ _ P hP, hsub]
      omega
    · rw [hsub]; omega

end stm32f103x

namespace stm32f103x

variable {σ : Type}

/-- `Verify` on the hardware with a journal is `Verify` on the hardware. -/
theorem Flash.Verify_journaled (hw : Hardware σ) (st : σ × List Nat) (buffer : Nat)
    (data : List Nat) (size_u32 : Int) :
    Flash.Verify (Flash.journaled hw) st buffer data size_u32 =
      Flash.Verify hw st.1 buffer data size_u32 := rfl

/-- `Program`, when the flash differs from the data, is the specified erase of the
overlapped pages followed by the write. -/
theorem Flash.Program_spec (hw : Hardware σ) (s : σ) (buffer : Nat) (data : List Nat)
    (size j : Nat) (use_lock : Bool) (hs0 : 0 < size) (hs : size < 32768)
    (hspace : buffer + 4 * size + 4 * 2 ^ j ≤ 2 ^ 32)
    (hdiff : Flash.Verify hw s buffer data (size : Int) = false) :
    Flash.Program hw s buffer data (size : Int) (2 ^ j) use_lock =
      ((if (Flash.erasePagesSpec hw (2 ^ j) (Flash.overlappedPages buffer size (2 ^ j))
            (if use_lock then hw.unlock s else s)).1 then
          Flash.Write32Buffer hw
            (Flash.erasePagesSpec hw (2 ^ j) (Flash.overlappedPages buffer size (2 ^ j))
              (if use_lock then hw.unlock s else s)).2 buffer data (size : Int)
        else
          (false, (Flash.erasePagesSpec hw (2 ^ j) (Flash.overlappedPages buffer size (2 ^ j))
            (if use_lock then hw.unlock s else s)).2)).1,
        if use_lock then
          hw.lock (if (Flash.erasePagesSpec hw (2 ^ j)
                (Flash.overlappedPages buffer size (2 ^ j))
                (if use_lock then hw.unlock s else s)).1 then
              Flash.Write32Buffer hw
                (Flash.erasePagesSpec hw (2 ^ j) (Flash.overlappedPages buffer size (2 ^ j))
                  (if use_lock then hw.unlock s else s)).2 buffer data (size : Int)
            else
              (false, (Flash.erasePagesSpec hw (2 ^ j)
                (Flash.overlappedPages buffer size (2 ^ j))
                (if use_lock then hw.unlock s else s)).2)).2
        else
          (if (Flash.erasePagesSpec hw (2 ^ j) (Flash.overlappedPages buffer size (2 ^ j))
                (if use_lock then hw.unlock s else s)).1 then
              Flash.Write32Buffer hw
                (Flash.erasePagesSpec hw (2 ^ j) (Flash.overlappedPages buffer size (2 ^ j))
                  (if use_lock then hw.unlock s else s)).2 buffer data (size : Int)
            else
              (false, (Flash.erasePagesSpec hw (2 ^ j)
                (Flash.overlappedPages buffer size (2 ^ j))
                (if use_lock then hw.unlock s else s)).2)).2) := by
  have hps : 0 < 2 ^ j := Nat.two_pow_pos j
  unfold Flash.Program
  rw [if_neg (by intro h
                 rcases h with h | h
                 · have : size = 0 := by exact_mod_cast h
                   omega
                 · omega), hdiff, Flash.pageCount_eq buffer size j hs0 hs hspace]
  simp only [Bool.false_eq_true, if_false, Flash.eraseWrite,
    Flash.ErasePages_spec hw _ buffer size j hspace hs0]

/-- The erase sequences of `Program` go to overlapped pages only, each at most once
and in ascending order. -/
theorem Flash.Program_journal (hw : Hardware σ) (s : σ) (buffer : Nat) (data : List Nat)
    (size j : Nat) (use_lock : Bool) (hs0 : 0 < size) (hs : size < 32768)
    (hspace : buffer + 4 * size + 4 * 2 ^ j ≤ 2 ^ 32)
    (hdiff : Flash.Verify hw s buffer data (size : Int) = false) :
    (Flash.Program (Flash.journaled hw) (s, []) buffer data (size : Int) (2 ^ j)
        use_lock).2.2.Sublist (Flash.overlappedPages buffer size (2 ^ j)) := by
  rw [Flash.Program_spec (Flash.journaled hw) (s, []) buffer data size j use_lock hs0 hs hspace
    (by rw [Flash.Verify_journaled]; exact hdiff)]
  obtain ⟨erased, h1, h2⟩ := Flash.erasePagesSpec_journal hw (2 ^ j)
    (Flash.overlappedPages buffer size (2 ^ j))
    (if use_lock = true then (Flash.journaled hw).unlock (s, []) else (s, []))
  have h0 : (if use_lock = true then (Flash.journaled hw).unlock (s, []) else (s, [])).2 = [] := by
    cases use_lock <;> rfl
  rw [h0, List.nil_append] at h1
  generalize Flash.erasePagesSpec (Flash.journaled hw) (2 ^ j)
    (Flash.overlappedPages buffer size (2 ^ j))
    (if use_lock = true then (Flash.journaled hw).unlock (s, []) else (s, [])) = r at h1 ⊢
  have hw2 : (if r.1 = true then Flash.Write32Buffer (Flash.journaled hw) r.2 buffer data
      (size : Int) else (false, r.2)).2.2 = erased := by
    split
    · unfold Flash.Write32Buffer
      rw [Flash.Write32BufferLoop_journal]; exact h1
    · exact h1
  cases use_lock with
  | true =>
    simp only [if_true]
    show (if r.1 = true then Flash.Write32Buffer (Flash.journaled hw) r.2 buffer data
      (size : Int) else (false, r.2)).2.2.Sublist _
    rw [hw2]; exact h2
  | false =>
    simp only [Bool.false_eq_true, if_false]
    rw [hw2]; exact h2

end stm32f103x

namespace persist

/-! ## Claims -/

/-- C1. Warm round trip. On a media whose reads succeed and deliver the stored
words, whose CRC is a function of its arguments and whose successful `Program` has
stored the words it was given, for every engine state, every record `r` (its
`sizeofT` bytes) and every force flag: if `Save` returns true, the `Load` that
follows returns true, delivers `r`, and leaves `GetLocation()` and `GetCounter()`
as `Save` left them. -/
theorem C1_warm_round_trip {σ : Type} (M : Media σ) (view : σ → Int → Nat)
    (crcf : List Nat → Nat → Nat) (hM : ReadContract M view crcf) (hR : ReadsSucceed M)
    (hP : ProgramStores M view) (sizeofT : Nat) (hW : u32Len sizeofT < 32768)
    (e : Struct) (hb : e.db_.body.length = u32Len sizeofT - 3) (s : σ)
    (r : List Nat) (hr : r.length = sizeofT) (hbytes : ∀ b ∈ r, b < 256)
    (force : Bool) (data : List Nat)
    (hsave : (e.Save M sizeofT s r force).ok = true) :
    ((e.Save M sizeofT s r force).engine.Load M sizeofT
        (e.Save M sizeofT s r force).media data).ok = true ∧
    ((e.Save M sizeofT s r force).engine.Load M sizeofT
        (e.Save M sizeofT s r force).media data).data = r ∧
    ((e.Save M sizeofT s r force).engine.Load M sizeofT
        (e.Save M sizeofT s r force).media data).engine.GetLocation =
      (e.Save M sizeofT s r force).engine.GetLocation ∧
    ((e.Save M sizeofT s r force).engine.Load M sizeofT
        (e.Save M sizeofT s r force).media data).engine.GetCounter =
      (e.Save M sizeofT s r force).engine.GetCounter := by
  have key : ∀ (first : Bool) (l : Int),
      (Struct.saveAttempt M sizeofT e (Db.Update M sizeofT e.db_ s r first).1 l
        (Db.Update M sizeofT e.db_ s r first).2).ok = true →
      Db.WillFit M sizeofT e.pages_ = true →
      ∀ sv, sv = Struct.saveAttempt M sizeofT e (Db.Update M sizeofT e.db_ s r first).1 l
        (Db.Update M sizeofT e.db_ s r first).2 →
      (sv.engine.Load M sizeofT sv.media data).ok = true ∧
      (sv.engine.Load M sizeofT sv.media data).data = r ∧
      (sv.engine.Load M sizeofT sv.media data).engine.GetLocation = sv.engine.GetLocation ∧
      (sv.engine.Load M sizeofT sv.media data).engine.GetCounter = sv.engine.GetCounter := by
    intro first l hok hfit sv hsv
    have hu := Db.Update_spec hM hW e.db_ hb s r hr hbytes first
    have ha := Struct.saveAttempt_ok hP hW e _ hu.1 l _ hok
    rw [← hsv] at ha
    obtain ⟨heng, hframe⟩ := ha
    have hl : sv.engine.loaded = true := by rw [heng]
    have hdb : sv.engine.db_ = (Db.Update M sizeofT e.db_ s r first).1 := by rw [heng]
    have hpages : sv.engine.pages_ = e.pages_ := by rw [heng]
    have hv : validFrame crcf sizeofT (frameAt (view sv.media) sizeofT sv.engine.location) := by
      rw [hframe]; exact hu.2.2
    have hld := Struct.Load_warm hM hR hW sv.engine (by rw [hdb]; exact hu.1) sv.media data
      (by rw [hpages]; exact hfit) hl hv
    obtain ⟨h1, h2, h3, _⟩ := hld
    refine ⟨h1, ?_, ?_, ?_⟩
    · rw [h2, hframe]; exact hu.2.1
    · rw [h3]; rfl
    · rw [h3, hframe]
      simp only [Struct.GetCounter, hdb]
  unfold Struct.Save at hsave
  by_cases hfit : Db.WillFit M sizeofT e.pages_ = true
  · rw [if_pos hfit] at hsave
    by_cases hl : e.loaded = true
    · have hs : e.Save M sizeofT s r force =
          Struct.saveAttempt M sizeofT e (Db.Update M sizeofT e.db_ s r false).1
            (Struct.GetNextLocation M e e.location) (Db.Update M sizeofT e.db_ s r false).2 := by
        unfold Struct.Save
        simp [hfit, hl]
      simp only [hl, Bool.not_true, Bool.false_eq_true, if_false] at hsave
      exact key false _ hsave hfit _ hs
    · cases force with
      | false => simp [hl] at hsave
      | true =>
        have hs : e.Save M sizeofT s r true =
            Struct.saveAttempt M sizeofT e (Db.Update M sizeofT e.db_ s r true).1
              e.start_ (Db.Update M sizeofT e.db_ s r true).2 := by
          unfold Struct.Save
          simp [hfit, hl]
        simp only [hl, Bool.not_false, if_true] at hsave
        exact key true _ (by simpa [hl] using hsave) hfit _ hs
  · rw [if_neg hfit] at hsave
    simp at hsave

/-- Witness of C1 on the simulated media: three slots of two 16-byte pages, a
13-byte record saved with force on a zeroed media. -/
theorem C1_warm_round_trip_witness :
    ((Struct.new (Sim.media 16) 13 100 3).Save (Sim.media 16) 13 (Sim.zeroed [])
        [1, 2, 3, 4, 5, 6, 7, 8, 9, 10, 11, 12, 13] true).ok = true ∧
    (((Struct.new (Sim.media 16) 13 100 3).Save (Sim.media 16) 13 (Sim.zeroed [])
        [1, 2, 3, 4, 5, 6, 7, 8, 9, 10, 11, 12, 13] true).engine.Load (Sim.media 16) 13
      ((Struct.new (Sim.media 16) 13 100 3).Save (Sim.media 16) 13 (Sim.zeroed [])
        [1, 2, 3, 4, 5, 6, 7, 8, 9, 10, 11, 12, 13] true).media []).data =
      [1, 2, 3, 4, 5, 6, 7, 8, 9, 10, 11, 12, 13] :=
  ⟨by decide,
   (C1_warm_round_trip (Sim.media 16) Sim.view Sim.crcf (Sim.readContract 16)
      (Sim.readsSucceed 16) (Sim.programStores 16) 13 (by decide)
      (Struct.new (Sim.media 16) 13 100 3) (by decide) (Sim.zeroed [])
      [1, 2, 3, 4, 5, 6, 7, 8, 9, 10, 11, 12, 13] (by decide) (by decide) true []
      (by decide)).2.1⟩

/-- The fit check passes when a save returns true. -/
theorem Struct.fit_of_save {σ : Type} (M : Media σ) (sizeofT : Nat) (e : Struct) (s : σ)
    (r : List Nat) (force : Bool) (h : (e.Save M sizeofT s r force).ok = true) :
    Db.WillFit M sizeofT e.pages_ = true := by
  by_contra hfit
  unfold Struct.Save at h
  rw [if_neg hfit] at h
  simp at h

/-- C2. Cold round trip on reliable media. On a ring of `N ≥ 1` slots in which no
slot header has `bytes` equal to the block size, with a reliable media, for a
session `Save(r0, force=true), Save(r1), ..., Save(rk)` with `k+1 < 2^32`, each
save followed or not by a `Load`: once the first save returns true every save of
the session returns true, and `Unload()` followed by `Load` returns true,
delivers `rk`, and `GetCounter()` is `k`. -/
theorem C2_cold_round_trip {σ : Type} (M : Media σ) (view : σ → Int → Nat)
    (crcf : List Nat → Nat → Nat) (sizeofT : Nat) (hW : u32Len sizeofT < 32768)
    (e0 : Struct) (N : Nat) (hR : Ring M sizeofT e0 N)
    (hRel : Reliable M view crcf e0.struct_pages_u32_)
    (hb : e0.db_.body.length = u32Len sizeofT - 3) (hnl : e0.IsLoaded = false) (s0 : σ)
    (hvirgin : ∀ i, i < N →
      (frameAt (view s0) sizeofT (e0.slot i)).bytes ≠ sizeofU32 sizeofT)
    (first : SaveStep) (rest : List SaveStep) (hforce : first.force = true)
    (hwf : ∀ st ∈ first :: rest, st.r.length = sizeofT ∧ ∀ x ∈ st.r, x < 256)
    (hk : (first :: rest).length < 2 ^ 32)
    (hfirst : (e0.Save M sizeofT s0 first.r first.force).ok = true) (data : List Nat) :
    ∃ e1 s1, runSaves M sizeofT e0 s0 (first :: rest) = some (e1, s1) ∧
      (e1.Unload.Load M sizeofT s1 data).ok = true ∧
      (e1.Unload.Load M sizeofT s1 data).data = (rest.getLastD first).r ∧
      (e1.Unload.Load M sizeofT s1 data).engine.GetCounter = rest.length := by
  have hfit := Struct.fit_of_save M sizeofT e0 s0 first.r first.force hfirst
  obtain ⟨e1, s1, p1, b1, hrun, hS, hsum⟩ := Session.opened hRel hW hR hfit hb hnl s0 hvirgin
    first rest hforce hwf hk
  refine ⟨e1, s1, hrun, ?_⟩
  obtain ⟨heng, hring⟩ := hS
  have h0 : e1.Unload.start_ = e0.start_ := by rw [heng]; rfl
  have h1 : e1.Unload.struct_pages_u32_ = e0.struct_pages_u32_ := by rw [heng]; rfl
  have h2 : e1.Unload.pages_ = e0.pages_ := by rw [heng]; rfl
  have h3 : e1.Unload.ware_level_ = e0.ware_level_ := by rw [heng]; rfl
  have hl : e1.Unload.loaded = false := rfl
  have hb1 : e1.Unload.db_.body.length = u32Len sizeofT - 3 := by
    rw [heng]
    simp only [Struct.Unload, Db.Clear_body_length]
    exact frameAt_body_length _ _ _
  have hR1 := hR.of_geometry e1.Unload h1 h2 h3
  have hring1 := hring.of_slots (Struct.slot_congr e0 e1.Unload h0 h1)
  rw [Struct.Load_cold sizeofT e1.Unload s1 data (by rw [h2]; exact hfit) hl]
  obtain ⟨hok, hdata, hc⟩ := hring1.coldLoad hRel.read hRel.reads hW hR1 hb1 data
  refine ⟨hok, ?_, by rw [hc, hsum]⟩
  rw [hdata, hsum]
  exact getD_map_last rest first

/-- Witness of C2: a session of four saves on the zeroed three-slot ring. -/
theorem C2_cold_round_trip_witness :
    ∃ e1 s1, runSaves (Sim.reliable 16) 13 Demo.engine3 (fun _ => 0)
        (Demo.step0 :: Demo.steps4) = some (e1, s1) ∧
      (e1.Unload.Load (Sim.reliable 16) 13 s1 []).ok = true ∧
      (e1.Unload.Load (Sim.reliable 16) 13 s1 []).data =
        (Demo.steps4.getLastD Demo.step0).r ∧
      (e1.Unload.Load (Sim.reliable 16) 13 s1 []).engine.GetCounter = Demo.steps4.length :=
  C2_cold_round_trip (Sim.reliable 16) id Sim.crcf 13 (by decide) Demo.engine3 3
    (Struct.new_ring (Sim.reliable 16) 13 100 3 (by decide) (by decide) (by decide) (by decide)
      (by decide))
    (Sim.reliable_reliable 16 _) (by decide) (by decide) (fun _ => 0)
    (fun i hi => by interval_cases i <;> decide)
    Demo.step0 Demo.steps4 (by decide) (by decide) (by decide) (by decide) []

/-- C3. Torn-write recovery. On a ring of `N ≥ 2` slots without headers and a
reliable media, after a session of `k+1 ≥ 2` successful saves `r0..rk`: if the
slot holding the newest block is overwritten with content that does not validate
and no word outside that slot is changed, then `Load`, whether the engine is
still loaded or was unloaded, returns true, delivers `r(k-1)`, and
`GetCounter()` is `k-1`. -/
theorem C3_torn_write_recovery {σ : Type} (M : Media σ) (view : σ → Int → Nat)
    (crcf : List Nat → Nat → Nat) (sizeofT : Nat) (hW : u32Len sizeofT < 32768)
    (e0 : Struct) (N : Nat) (hR : Ring M sizeofT e0 N) (hN : 2 ≤ N)
    (hRel : Reliable M view crcf e0.struct_pages_u32_)
    (hb : e0.db_.body.length = u32Len sizeofT - 3) (hnl : e0.IsLoaded = false) (s0 : σ)
    (hvirgin : ∀ i, i < N →
      (frameAt (view s0) sizeofT (e0.slot i)).bytes ≠ sizeofU32 sizeofT)
    (first : SaveStep) (rest : List SaveStep) (hforce : first.force = true)
    (hrest : rest ≠ [])
    (hwf : ∀ st ∈ first :: rest, st.r.length = sizeofT ∧ ∀ x ∈ st.r, x < 256)
    (hk : (first :: rest).length < 2 ^ 32)
    (hfirst : (e0.Save M sizeofT s0 first.r first.force).ok = true) (data : List Nat) :
    ∃ e1 s1, runSaves M sizeofT e0 s0 (first :: rest) = some (e1, s1) ∧
      ∀ (s2 : σ) (e2 : Struct),
        (∀ a, (a < e1.GetLocation ∨ e1.GetLocation + (e0.struct_pages_u32_ : Int) ≤ a) →
          view s2 a = view s1 a) →
        ¬ validFrame crcf sizeofT (frameAt (view s2) sizeofT e1.GetLocation) →
        (e2 = e1 ∨ e2 = e1.Unload) →
        (e2.Load M sizeofT s2 data).ok = true ∧
        (e2.Load M sizeofT s2 data).data = ((first :: rest).getD (rest.length - 1) first).r ∧
        (e2.Load M sizeofT s2 data).engine.GetCounter = rest.length - 1 := by
  have hfit := Struct.fit_of_save M sizeofT e0 s0 first.r first.force hfirst
  obtain ⟨e1, s1, p1, b1, hrun, hS, hsum⟩ := Session.opened hRel hW hR hfit hb hnl s0 hvirgin
    first rest hforce hwf hk
  refine ⟨e1, s1, hrun, ?_⟩
  obtain ⟨heng, hring⟩ := hS
  have hlen : 1 ≤ rest.length := by
    cases rest with
    | nil => exact absurd rfl hrest
    | cons a l => simp
  have hloc : e1.GetLocation = e0.slot p1 := by rw [heng]; rfl
  intro s2 e2 hout hbad he2
  rw [hloc] at hout hbad
  have hrec : ((first :: rest).map SaveStep.r).getD (b1 + p1 - 1) [] =
      ((first :: rest).getD (rest.length - 1) first).r := by
    rw [hsum]
    exact getD_map_r (first :: rest) first (rest.length - 1) (by simp; omega)
  have cold : ∀ (e3 : Struct) (s3 : σ), e3.start_ = e0.start_ →
      e3.struct_pages_u32_ = e0.struct_pages_u32_ → e3.pages_ = e0.pages_ →
      e3.ware_level_ = e0.ware_level_ → e3.db_.body.length = u32Len sizeofT - 3 →
      view s3 = view s2 →
      (Struct.coldLoad M sizeofT e3 s3 data).ok = true ∧
      (Struct.coldLoad M sizeofT e3 s3 data).data =
        ((first :: rest).getD (rest.length - 1) first).r ∧
      (Struct.coldLoad M sizeofT e3 s3 data).engine.GetCounter = rest.length - 1 := by
    intro e3 s3 h0 h1 h2 h3 hb3 hv3
    have hR3 := hR.of_geometry e3 h1 h2 h3
    have hslot := Struct.slot_congr e0 e3 h0 h1
    have hring3 := hring.of_slots hslot
    obtain ⟨hok, hdata, hc⟩ := hring3.coldLoad_torn hRel.read hRel.reads hW hR3 hb3 hN
      (by omega) s3 (by rw [hslot, h1, hv3]; exact hout) (by rw [hslot, hv3]; exact hbad) data
    exact ⟨hok, by rw [hdata, hrec], by rw [hc, hsum]⟩
  have hbe1 : e1.db_.body.length = u32Len sizeofT - 3 := by
    rw [heng]; exact frameAt_body_length _ _ _
  rcases he2 with he | he
  · -- still loaded: the warm read fails and the load falls through to the cold load
    subst he
    have hl : e2.loaded = true := by rw [heng]
    have hloc2 : e2.location = e0.slot p1 := by rw [heng]
    have hfail : ¬ (Db.Read M sizeofT e2.db_ s2 e2.location).1 = true := by
      intro hok
      have := (Db.Read_ok hRel.read hW e2.db_ hbe1 s2 e2.location hok).2
      rw [hloc2] at this
      exact hbad this
    have hload : e2.Load M sizeofT s2 data =
        Struct.coldLoad M sizeofT
          { e2 with loaded := false, db_ := (Db.Read M sizeofT e2.db_ s2 e2.location).2.1 }
          (Db.Read M sizeofT e2.db_ s2 e2.location).2.2 data := by
      unfold Struct.Load
      rw [if_pos (by rw [heng]; exact hfit), if_pos hl, if_neg hfail]
    rw [hload]
    exact cold _ _ (by rw [heng]) (by rw [heng]) (by rw [heng]) (by rw [heng])
      (by simp only [Db.Read_body_length]; exact hbe1)
      (Db.Read_view hRel.read sizeofT e2.db_ s2 e2.location)
  · -- unloaded: the load is the cold load
    subst he
    have h2 : e1.Unload.pages_ = e0.pages_ := by rw [heng]; rfl
    rw [Struct.Load_cold sizeofT e1.Unload s2 data (by rw [h2]; exact hfit) rfl]
    exact cold _ _ (by rw [heng]; rfl) (by rw [heng]; rfl) h2 (by rw [heng]; rfl)
      (by simp only [Struct.Unload, Db.Clear_body_length]; exact hbe1) rfl

/-- Witness of C3: the session of four saves on the zeroed three-slot ring. -/
theorem C3_torn_write_recovery_witness :
    ∃ e1 s1, runSaves (Sim.reliable 16) 13 Demo.engine3 (fun _ => 0)
        (Demo.step0 :: Demo.steps4) = some (e1, s1) ∧
      ∀ (s2 : Int → Nat) (e2 : Struct),
        (∀ a, (a < e1.GetLocation ∨
            e1.GetLocation + (Demo.engine3.struct_pages_u32_ : Int) ≤ a) →
          id s2 a = id s1 a) →
        ¬ validFrame Sim.crcf 13 (frameAt (id s2) 13 e1.GetLocation) →
        (e2 = e1 ∨ e2 = e1.Unload) →
        (e2.Load (Sim.reliable 16) 13 s2 []).ok = true ∧
        (e2.Load (Sim.reliable 16) 13 s2 []).data =
          ((Demo.step0 :: Demo.steps4).getD (Demo.steps4.length - 1) Demo.step0).r ∧
        (e2.Load (Sim.reliable 16) 13 s2 []).engine.GetCounter = Demo.steps4.length - 1 :=
  C3_torn_write_recovery (Sim.reliable 16) id Sim.crcf 13 (by decide) Demo.engine3 3
    (Struct.new_ring (Sim.reliable 16) 13 100 3 (by decide) (by decide) (by decide) (by decide)
      (by decide))
    (by decide) (Sim.reliable_reliable 16 _) (by decide) (by decide) (fun _ => 0)
    (fun i hi => by interval_cases i <;> decide)
    Demo.step0 Demo.steps4 (by decide) (by decide) (by decide) (by decide) (by decide) []

/-- Completeness of the cold load (the statement of C4 in helper form). -/
theorem C4_aux {σ : Type} {M : Media σ} {view : σ → Int → Nat}
    {crcf : List Nat → Nat → Nat} (hM : ReadContract M view crcf) (hS : ReadsSucceed M)
    (sizeofT : Nat) (hW : u32Len sizeofT < 32768) (e : Struct) (N : Nat)
    (hR : Ring M sizeofT e N) (hb : e.db_.body.length = u32Len sizeofT - 3)
    (hnl : e.loaded = false) (hfit : Db.WillFit M sizeofT e.pages_ = true)
    (s : σ) (data : List Nat) :
    (e.Load M sizeofT s data).ok = true ↔
      ∃ i, i < N ∧ validFrame crcf sizeofT (frameAt (view s) sizeofT (e.slot i)) := by
  rw [Struct.Load_cold sizeofT e s data hfit hnl]
  constructor
  · intro h
    obtain ⟨j, hj, hv, _⟩ := Struct.coldLoad_sound hM hR hW hb s data h
    exact ⟨j, hj, hv⟩
  · rintro ⟨i, hi, hv⟩
    have hidx := (Struct.coldLoad_idx hM hS hR hW hb s data).1
    rw [hidx]
    have hcount := hR.count.2
    have hscan : (scanIdx (headerOf (view s) sizeofT e) N (doWhileCount e.pages_) 0 false 0).1
        = true := by
      apply scanIdx_found _ N i hi _ _ _ _ (Nat.zero_le _) (by omega)
      unfold headerOf
      have h2 : view s (e.slot i + 2) = sizeofU32 sizeofT := hv.1
      rw [if_pos h2]
      simp
    have hqlt := scanIdx_lt (headerOf (view s) sizeofT e) hR.levels_pos (doWhileCount e.pages_)
      0 false 0 hR.levels_pos
    rw [hscan, Bool.true_and]
    cases hbk : backIdx (fun j => decide (validFrame crcf sizeofT
        (frameAt (view s) sizeofT (e.slot j)))) N (doWhileCount e.pages_)
        (scanIdx (headerOf (view s) sizeofT e) N (doWhileCount e.pages_) 0 false 0).2 with
    | some j => rfl
    | none =>
      have := backIdx_none _ _ _ hqlt hcount hbk i hi
      simp [hv] at this

/-- C4. Load completeness. For a not-loaded engine on a ring of `N ≥ 1` slots that
passes the fit check, on a media whose reads succeed and deliver the stored words:
`Load` returns true if and only if one of the `N` slots holds a valid block. -/
theorem C4_load_completeness {σ : Type} (M : Media σ) (view : σ → Int → Nat)
    (crcf : List Nat → Nat → Nat) (hM : ReadContract M view crcf) (hS : ReadsSucceed M)
    (sizeofT : Nat) (hW : u32Len sizeofT < 32768) (e : Struct) (N : Nat)
    (hR : Ring M sizeofT e N) (hb : e.db_.body.length = u32Len sizeofT - 3)
    (hnl : e.IsLoaded = false) (hfit : Db.WillFit M sizeofT e.GetPages = true)
    (s : σ) (data : List Nat) :
    (e.Load M sizeofT s data).ok = true ↔
      ∃ i, i < N ∧ validFrame crcf sizeofT (frameAt (view s) sizeofT (e.slot i)) :=
  C4_aux hM hS sizeofT hW e N hR hb hnl hfit s data

/-- Witness of C4: a ring of three slots in which the first slot holds a saved record. -/
theorem C4_load_completeness_witness :
    ((Struct.new (Sim.reliable 16) 13 100 3).Load (Sim.reliable 16) 13
        ((Struct.new (Sim.reliable 16) 13 100 3).Save (Sim.reliable 16) 13 (fun _ => 0)
          [1, 2, 3, 4, 5, 6, 7, 8, 9, 10, 11, 12, 13] true).media []).ok = true ↔
      ∃ i, i < 3 ∧ validFrame Sim.crcf 13 (frameAt
        ((Struct.new (Sim.reliable 16) 13 100 3).Save (Sim.reliable 16) 13 (fun _ => 0)
          [1, 2, 3, 4, 5, 6, 7, 8, 9, 10, 11, 12, 13] true).media 13
        ((Struct.new (Sim.reliable 16) 13 100 3).slot i)) :=
  C4_load_completeness (Sim.reliable 16) id Sim.crcf (Sim.reliable_readContract 16)
    (Sim.reliable_readsSucceed 16) 13 (by decide) (Struct.new (Sim.reliable 16) 13 100 3) 3
    (Struct.new_ring (Sim.reliable 16) 13 100 3 (by decide) (by decide) (by decide) (by decide)
      (by decide))
    (by decide) (by decide) (by decide) _ []

/-- C5. Load soundness. On a media whose successful reads deliver the stored words,
for an engine on a ring of `N` slots that is not loaded or is loaded at a slot of
the ring: whenever `Load` returns true, `GetLocation()` is a slot whose stored
block is valid (`bytes` is the block size and `crc` is the media CRC of the words
after the header), the delivered record is the payload of that block and
`GetCounter()` is its counter. -/
theorem C5_load_soundness {σ : Type} (M : Media σ) (view : σ → Int → Nat)
    (crcf : List Nat → Nat → Nat) (hM : ReadContract M view crcf)
    (sizeofT : Nat) (hW : u32Len sizeofT < 32768) (e : Struct) (N : Nat)
    (hR : Ring M sizeofT e N) (hb : e.db_.body.length = u32Len sizeofT - 3)
    (hloc : e.IsLoaded = true → ∃ i, i < N ∧ e.GetLocation = e.slot i)
    (s : σ) (data : List Nat) (h : (e.Load M sizeofT s data).ok = true) :
    ∃ j, j < N ∧ (e.Load M sizeofT s data).engine.GetLocation = e.slot j ∧
      validFrame crcf sizeofT
        (frameAt (view (e.Load M sizeofT s data).media) sizeofT (e.slot j)) ∧
      (e.Load M sizeofT s data).data =
        (frameAt (view (e.Load M sizeofT s data).media) sizeofT (e.slot j)).Get sizeofT ∧
      (e.Load M sizeofT s data).engine.GetCounter =
        (frameAt (view (e.Load M sizeofT s data).media) sizeofT (e.slot j)).counter := by
  unfold Struct.Load at h ⊢
  by_cases hfit : Db.WillFit M sizeofT e.pages_ = true
  · rw [if_pos hfit] at h ⊢
    have cold : ∀ (e1 : Struct) (s1 : σ), e1.start_ = e.start_ →
        e1.struct_pages_u32_ = e.struct_pages_u32_ → e1.pages_ = e.pages_ →
        e1.ware_level_ = e.ware_level_ → e1.db_.body.length = u32Len sizeofT - 3 →
        view s1 = view s → (Struct.coldLoad M sizeofT e1 s1 data).ok = true →
        ∃ j, j < N ∧ (Struct.coldLoad M sizeofT e1 s1 data).engine.GetLocation = e.slot j ∧
          validFrame crcf sizeofT
            (frameAt (view (Struct.coldLoad M sizeofT e1 s1 data).media) sizeofT (e.slot j)) ∧
          (Struct.coldLoad M sizeofT e1 s1 data).data =
            (frameAt (view (Struct.coldLoad M sizeofT e1 s1 data).media) sizeofT
              (e.slot j)).Get sizeofT ∧
          (Struct.coldLoad M sizeofT e1 s1 data).engine.GetCounter =
            (frameAt (view (Struct.coldLoad M sizeofT e1 s1 data).media) sizeofT
              (e.slot j)).counter := by
      intro e1 s1 h0 h1 h2 h3 hb1 hv1 hok
      have hR1 := hR.of_geometry e1 h1 h2 h3
      obtain ⟨j, hj, hv, heng, hdata, hview⟩ := Struct.coldLoad_sound hM hR1 hW hb1 s1 data hok
      have hslot := Struct.slot_congr e e1 h0 h1 j
      rw [hslot] at hv heng hdata
      refine ⟨j, hj, ?_, ?_, ?_, ?_⟩
      · rw [heng]; rfl
      · rw [hview]; exact hv
      · rw [hview]; exact hdata
      · rw [hview, heng]; rfl
    by_cases hl : e.loaded = true
    · rw [if_pos hl] at h ⊢
      obtain ⟨i, hi, hli⟩ := hloc hl
      simp only [Struct.GetLocation] at hli
      by_cases hok : (Db.Read M sizeofT e.db_ s e.location).1 = true
      · rw [if_pos hok] at h ⊢
        have hr := Db.Read_ok hM hW e.db_ hb s e.location hok
        have hview := Db.Read_view hM sizeofT e.db_ s e.location
        simp only [hview, hr.1, Struct.GetLocation, Struct.GetCounter, Db.GetCounter]
        rw [hli] at hr ⊢
        exact ⟨i, hi, rfl, hr.2, rfl, rfl⟩
      · rw [if_neg hok] at h ⊢
        exact cold _ _ rfl rfl rfl rfl
          (by simp only [Db.Read_body_length]; exact hb)
          (Db.Read_view hM sizeofT e.db_ s e.location) h
    · rw [if_neg hl] at h ⊢
      exact cold e s rfl rfl rfl rfl hb rfl h
  · rw [if_neg hfit] at h
    simp at h

/-- Witness of C5: the load that follows a forced save on the three-slot ring. -/
theorem C5_load_soundness_witness :
    ∃ j, j < 3 ∧
      (Demo.saved3.engine.Load (Sim.reliable 16) 13 Demo.saved3.media []).engine.GetLocation =
        Demo.saved3.engine.slot j ∧
      validFrame Sim.crcf 13 (frameAt
        (id (Demo.saved3.engine.Load (Sim.reliable 16) 13 Demo.saved3.media []).media) 13
        (Demo.saved3.engine.slot j)) ∧
      (Demo.saved3.engine.Load (Sim.reliable 16) 13 Demo.saved3.media []).data =
        (frameAt (id (Demo.saved3.engine.Load (Sim.reliable 16) 13 Demo.saved3.media []).media)
          13 (Demo.saved3.engine.slot j)).Get 13 ∧
      (Demo.saved3.engine.Load (Sim.reliable 16) 13 Demo.saved3.media []).engine.GetCounter =
        (frameAt (id (Demo.saved3.engine.Load (Sim.reliable 16) 13 Demo.saved3.media []).media)
          13 (Demo.saved3.engine.slot j)).counter :=
  C5_load_soundness (Sim.reliable 16) id Sim.crcf (Sim.reliable_readContract 16) 13 (by decide)
    Demo.saved3.engine 3
    (Ring.of_geometry
      (Struct.new_ring (Sim.reliable 16) 13 100 3 (by decide) (by decide) (by decide)
        (by decide) (by decide)) Demo.saved3.engine (by decide) (by decide) (by decide))
    (by decide) (fun _ => ⟨0, by decide, by decide⟩) Demo.saved3.media [] (by decide)

/-- C7 (as stated) fails: on a ring that already holds valid blocks, a forced save
of `rec2` by a not-loaded engine returns true on a reliable media, and the load
after `Unload` returns true but delivers `rec1`, the record of the older block
with the larger counter. -/
theorem C7_counterexample :
    Demo.engine2.IsLoaded = false ∧ Demo.forced2.ok = true ∧
      (Demo.forced2.engine.Unload.Load (Sim.reliable 28) 13 Demo.forced2.media []).ok = true ∧
      (Demo.forced2.engine.Unload.Load (Sim.reliable 28) 13 Demo.forced2.media []).data =
        Demo.rec1 ∧
      Demo.rec1 ≠ Demo.rec2 := by
  decide

/-- C7 (amended). Forced save, `Unload`, `Load` round trip. On a reliable media
(reads and programs succeed, a program stores its words and changes its slot
only), for a not-loaded engine on a ring of `N ≥ 1` slots and every initial
content in which no slot other than the first holds a valid block: if
`Save(r, force=true)` returns true, then `Unload()` followed by `Load` returns
true and delivers `r`. -/
theorem C7_forced_round_trip {σ : Type} (M : Media σ) (view : σ → Int → Nat)
    (crcf : List Nat → Nat → Nat) (hM : ReadContract M view crcf) (hS : ReadsSucceed M)
    (hPs : ProgramSucceeds M) (hPst : ProgramStores M view)
    (sizeofT : Nat) (hW : u32Len sizeofT < 32768) (e : Struct) (N : Nat)
    (hR : Ring M sizeofT e N) (hPw : ProgramWithin M view e.struct_pages_u32_)
    (hb : e.db_.body.length = u32Len sizeofT - 3)
    (hnl : e.IsLoaded = false) (s : σ)
    (hothers : ∀ i, 0 < i → i < N →
      ¬ validFrame crcf sizeofT (frameAt (view s) sizeofT (e.slot i)))
    (r : List Nat) (hr : r.length = sizeofT) (hbytes : ∀ b ∈ r, b < 256) (data : List Nat)
    (hsave : (e.Save M sizeofT s r true).ok = true) :
    ((e.Save M sizeofT s r true).engine.Unload.Load M sizeofT
        (e.Save M sizeofT s r true).media data).ok = true ∧
    ((e.Save M sizeofT s r true).engine.Unload.Load M sizeofT
        (e.Save M sizeofT s r true).media data).data = r := by
  simp only [Struct.IsLoaded] at hnl
  have hfit : Db.WillFit M sizeofT e.pages_ = true := by
    unfold Struct.Save at hsave
    by_cases hfit : Db.WillFit M sizeofT e.pages_ = true
    · exact hfit
    · rw [if_neg hfit] at hsave
      simp at hsave
  have hu := Db.Update_spec hM hW e.db_ hb s r hr hbytes true
  have huv := Db.Update_view hM sizeofT e.db_ s r true
  have hw := Db.Write_of_valid hM hPs hW (Db.Update M sizeofT e.db_ s r true).1
    (Db.Update M sizeofT e.db_ s r true).2 e.start_ hu.2.2
  have hsv : e.Save M sizeofT s r true =
      { ok := true,
        engine := { e with loaded := true, location := e.start_,
                           db_ := (Db.Update M sizeofT e.db_ s r true).1 },
        media := (Db.Write M sizeofT (Db.Update M sizeofT e.db_ s r true).1
          (Db.Update M sizeofT e.db_ s r true).2 e.start_).2 } := by
    unfold Struct.Save
    simp only [hfit, hnl, if_true, Bool.not_false]
    exact Struct.saveAttempt_first sizeofT e _ _ _ hw
  rw [hsv]
  simp only []
  generalize hs1 : (Db.Write M sizeofT (Db.Update M sizeofT e.db_ s r true).1
    (Db.Update M sizeofT e.db_ s r true).2 e.start_).2 = s1
  have hframe0 : frameAt (view s1) sizeofT (e.slot 0) = (Db.Update M sizeofT e.db_ s r true).1 := by
    rw [← hs1, Struct.slot_zero]
    exact Db.Write_ok hPst hW _ hu.1 _ _ hw
  have hout : ∀ a, (a < e.slot 0 ∨ e.slot 0 + (e.struct_pages_u32_ : Int) ≤ a) →
      view s1 a = view s a := by
    intro a ha
    rw [← hs1, ← huv]
    rw [Struct.slot_zero] at ha
    exact Db.Write_view_outside hM hPw hW hR.frame_fits _ _ _ a ha
  generalize he1 : Struct.Unload
      { e with
        loaded := true
        location := e.start_
        db_ := (Db.Update M sizeofT e.db_ s r true).1 } = e1
  have h0 : e1.start_ = e.start_ := by rw [← he1]; rfl
  have h1 : e1.struct_pages_u32_ = e.struct_pages_u32_ := by rw [← he1]; rfl
  have h2 : e1.pages_ = e.pages_ := by rw [← he1]; rfl
  have h3 : e1.ware_level_ = e.ware_level_ := by rw [← he1]; rfl
  have hl1 : e1.loaded = false := by rw [← he1]; rfl
  have hb1 : e1.db_.body.length = u32Len sizeofT - 3 := by
    rw [← he1]
    simp only [Struct.Unload, Db.Clear_body_length]
    exact hu.1
  have hR1 := hR.of_geometry e1 h1 h2 h3
  have hslot := Struct.slot_congr e e1 h0 h1
  have hv0 : validFrame crcf sizeofT (frameAt (view s1) sizeofT (e1.slot 0)) := by
    rw [hslot, hframe0]; exact hu.2.2
  have hok : (e1.Load M sizeofT s1 data).ok = true :=
    (C4_aux hM hS sizeofT hW e1 N hR1 hb1 hl1 (by rw [h2]; exact hfit) s1 data).2
      ⟨0, hR.levels_pos, hv0⟩
  refine ⟨hok, ?_⟩
  rw [Struct.Load_cold sizeofT e1 s1 data (by rw [h2]; exact hfit) hl1] at hok ⊢
  obtain ⟨j, hj, hv, _, hdata, _⟩ := Struct.coldLoad_sound hM hR1 hW hb1 s1 data hok
  have hj0 : j = 0 := by
    by_contra hne
    have hjpos : 0 < j := Nat.pos_of_ne_zero hne
    apply hothers j hjpos hj
    rw [← hR.frameAt_other (view s) (view s1) j 0 hne hout, ← hslot]
    exact hv
  rw [hdata, hj0, hslot, hframe0]
  exact hu.2.1

/-- Witness of C7 (amended): a forced save of `rec0` on the zeroed three-slot ring. -/
theorem C7_forced_round_trip_witness :
    ((Demo.engine3.Save (Sim.reliable 16) 13 (fun _ => 0) Demo.rec0 true).engine.Unload.Load
        (Sim.reliable 16) 13
        (Demo.engine3.Save (Sim.reliable 16) 13 (fun _ => 0) Demo.rec0 true).media []).ok = true ∧
    ((Demo.engine3.Save (Sim.reliable 16) 13 (fun _ => 0) Demo.rec0 true).engine.Unload.Load
        (Sim.reliable 16) 13
        (Demo.engine3.Save (Sim.reliable 16) 13 (fun _ => 0) Demo.rec0 true).media []).data =
      Demo.rec0 :=
  C7_forced_round_trip (Sim.reliable 16) id Sim.crcf (Sim.reliable_readContract 16)
    (Sim.reliable_readsSucceed 16) (Sim.reliable_programSucceeds 16)
    (Sim.reliable_programStores 16) 13 (by decide) Demo.engine3 3
    (Struct.new_ring (Sim.reliable 16) 13 100 3 (by decide) (by decide) (by decide) (by decide)
      (by decide))
    (Sim.reliable_programWithin 16 _) (by decide) (by decide) (fun _ => 0)
    (fun i h1 h2 => by interval_cases i <;> decide)
    Demo.rec0 (by decide) (by decide) [] (by decide)

/-- C9. `Save` is atomic on the position state. For every engine state and every
media (observed through its journal): if `Save` returns false, `IsLoaded()` and
`GetLocation()` have the values they had before the call; if `Save` returns true,
`IsLoaded()` is true and `GetLocation()` is the destination of the last media
call, a `Program` that returned true, no earlier `Program` call having returned
true. -/
theorem C9_save_position_atomic {σ : Type} (M : Media σ) (sizeofT : Nat) (e : Struct) (s : σ)
    (r : List Nat) (force : Bool) :
    ((e.Save (traced M) sizeofT (s, []) r force).ok = false →
      (e.Save (traced M) sizeofT (s, []) r force).engine.IsLoaded = e.IsLoaded ∧
      (e.Save (traced M) sizeofT (s, []) r force).engine.GetLocation = e.GetLocation) ∧
    ((e.Save (traced M) sizeofT (s, []) r force).ok = true →
      (e.Save (traced M) sizeofT (s, []) r force).engine.IsLoaded = true ∧
      ∃ pre d k, (e.Save (traced M) sizeofT (s, []) r force).media.2 =
          pre ++ [Call.program (e.Save (traced M) sizeofT (s, []) r force).engine.GetLocation
            d k true] ∧
        ∀ b ∈ programOutcomes pre, b = false) := by
  have key : ∀ (first : Bool) (l : Int),
      ((Struct.saveAttempt (traced M) sizeofT e
          (Db.Update (traced M) sizeofT e.db_ (s, []) r first).1 l
          (Db.Update (traced M) sizeofT e.db_ (s, []) r first).2).ok = false →
        (Struct.saveAttempt (traced M) sizeofT e
          (Db.Update (traced M) sizeofT e.db_ (s, []) r first).1 l
          (Db.Update (traced M) sizeofT e.db_ (s, []) r first).2).engine.loaded = e.loaded ∧
        (Struct.saveAttempt (traced M) sizeofT e
          (Db.Update (traced M) sizeofT e.db_ (s, []) r first).1 l
          (Db.Update (traced M) sizeofT e.db_ (s, []) r first).2).engine.location = e.location) ∧
      ((Struct.saveAttempt (traced M) sizeofT e
          (Db.Update (traced M) sizeofT e.db_ (s, []) r first).1 l
          (Db.Update (traced M) sizeofT e.db_ (s, []) r first).2).ok = true →
        (Struct.saveAttempt (traced M) sizeofT e
          (Db.Update (traced M) sizeofT e.db_ (s, []) r first).1 l
          (Db.Update (traced M) sizeofT e.db_ (s, []) r first).2).engine.loaded = true ∧
        ∃ pre d k, (Struct.saveAttempt (traced M) sizeofT e
            (Db.Update (traced M) sizeofT e.db_ (s, []) r first).1 l
            (Db.Update (traced M) sizeofT e.db_ (s, []) r first).2).media.2 =
            pre ++ [Call.program (Struct.saveAttempt (traced M) sizeofT e
              (Db.Update (traced M) sizeofT e.db_ (s, []) r first).1 l
              (Db.Update (traced M) sizeofT e.db_ (s, []) r first).2).engine.location d k true] ∧
          ∀ b ∈ programOutcomes pre, b = false) := by
    intro first l
    obtain ⟨preU, hU, hUo, _⟩ := Db.Update_journal (M := M) sizeofT e.db_ (s, []) r first
    have ha := Struct.saveAttempt_journal (M := M) sizeofT e
      (Db.Update (traced M) sizeofT e.db_ (s, []) r first).1 l
      (Db.Update (traced M) sizeofT e.db_ (s, []) r first).2
    refine ⟨ha.1, fun hok => ?_⟩
    obtain ⟨hl, pre, d, k, hj, hout⟩ := ha.2 hok
    refine ⟨hl, preU ++ pre, d, k, ?_, ?_⟩
    · rw [hj, hU]; simp
    · intro b hb
      rw [programOutcomes_append, hUo] at hb
      exact hout b (by simpa using hb)
  unfold Struct.Save
  simp only [Struct.IsLoaded, Struct.GetLocation]
  by_cases hfit : Db.WillFit (traced M) sizeofT e.pages_ = true
  · rw [if_pos hfit]
    cases hl : e.loaded with
    | true =>
      simp only [Bool.not_true, Bool.false_eq_true, if_false]
      have := key false (Struct.GetNextLocation (traced M) e e.location)
      rw [hl] at this
      exact this
    | false =>
      simp only [Bool.not_false, if_true]
      cases force with
      | false => simp [hl]
      | true =>
        simp only [if_true]
        have := key true e.start_
        rw [hl] at this
        exact this
  · rw [if_neg hfit]
    simp

/-- C10 (as stated) fails at the counter: a loaded engine on three slots, at slot 0
and holding counter `2^32 - 1`, saves with a first `Program` attempt that fails
and a second that succeeds; `Save` returns true at slot 2 and `GetCounter()` is
`0`, not `2^32`. -/
theorem C10_counterexample :
    Demo.loadedLast.engine.IsLoaded = true ∧
      Demo.loadedLast.engine.GetLocation = Demo.loadedLast.engine.slot 0 ∧
      Demo.loadedLast.engine.GetCounter = 4294967295 ∧
      (programOutcomes Demo.retried.media.2).take 2 = [false, true] ∧
      Demo.retried.ok = true ∧
      Demo.retried.engine.GetLocation = Demo.loadedLast.engine.slot 2 ∧
      Demo.retried.engine.GetCounter = 0 ∧
      Demo.retried.engine.GetCounter ≠ Demo.loadedLast.engine.GetCounter + 1 := by
  decide

/-- C10 (amended). Retry after one failure. On a media whose CRC is a function of
its arguments, for a loaded engine on a ring of `N ≥ 3` slots at slot `i` holding
counter `c`: if the first `Program` attempt of `Save` fails and the second
succeeds, `Save` returns true, `GetLocation()` is slot `(i+2) mod N` and
`GetCounter()` is `(c+1) mod 2^32`. -/
theorem C10_retry_after_failure {σ : Type} (M : Media σ) (crcf : List Nat → Nat → Nat)
    (hcrc : ∀ s b n, (M.Crc s b n).1 = crcf b n) (sizeofT : Nat) (e : Struct) (N : Nat)
    (hR : Ring M sizeofT e N) (hN : 3 ≤ N) (i : Nat) (hi : i < N)
    (hl : e.IsLoaded = true) (hloc : e.GetLocation = e.slot i) (s : σ) (r : List Nat)
    (force : Bool)
    (hcalls : (programOutcomes
      (e.Save (traced M) sizeofT (s, []) r force).media.2).take 2 = [false, true]) :
    (e.Save (traced M) sizeofT (s, []) r force).ok = true ∧
    (e.Save (traced M) sizeofT (s, []) r force).engine.GetLocation = e.slot ((i + 2) % N) ∧
    (e.Save (traced M) sizeofT (s, []) r force).engine.GetCounter =
      (e.GetCounter + 1) % 2 ^ 32 := by
  simp only [Struct.IsLoaded, Struct.GetLocation] at hl hloc
  have hRt := hR.traced
  have hfit : Db.WillFit (traced M) sizeofT e.pages_ = true := by
    by_contra hfit
    unfold Struct.Save at hcalls
    rw [if_neg hfit] at hcalls
    simp [programOutcomes] at hcalls
  obtain ⟨preU, hU, hUo, _⟩ := Db.Update_journal (M := M) sizeofT e.db_ (s, []) r false
  have hst : programOutcomes (Db.Update (traced M) sizeofT e.db_ (s, []) r false).2.2 = [] := by
    rw [hU]; simpa using hUo
  have hv : ∀ st : σ × List Call,
      (Db.IsValid (traced M) sizeofT (Db.Update (traced M) sizeofT e.db_ (s, []) r false).1
        st).1 = true :=
    fun st => Db.Update_IsValid (traced M) crcf (fun s b n => by rw [traced_Crc]; exact hcrc _ _ _)
      sizeofT e.db_ (s, []) r false st
  have hpps := pagesPerSlot_pos M sizeofT
  have hpages : e.pages_ = pagesPerSlot M sizeofT * N := hR.pages
  have hlt : e.pages_ < 2 ^ 32 := by
    have ha := hR.addressable
    have hp := hR.page_pos
    have : pagesPerSlot M sizeofT * N * 1 ≤ N * pagesPerSlot M sizeofT * M.GetPageSize := by
      rw [Nat.mul_comm (pagesPerSlot M sizeofT) N]
      exact Nat.mul_le_mul_left _ hp
    omega
  have hge : N ≤ e.pages_ := by rw [hpages]; exact Nat.le_mul_of_pos_left N hpps
  obtain ⟨k, hk⟩ : ∃ k, doWhileCount (u32 (e.pages_ + 2 ^ 32 - 1)) = k + 2 := by
    refine ⟨e.pages_ - 3, ?_⟩
    unfold doWhileCount u32
    have h1 : (e.pages_ + 2 ^ 32 - 1) % 2 ^ 32 = e.pages_ - 1 := by omega
    rw [h1, if_neg (by omega)]
    omega
  have hsave : e.Save (traced M) sizeofT (s, []) r force =
      Struct.saveAttempt (traced M) sizeofT e
        (Db.Update (traced M) sizeofT e.db_ (s, []) r false).1
        (Struct.GetNextLocation (traced M) e e.location)
        (Db.Update (traced M) sizeofT e.db_ (s, []) r false).2 := by
    unfold Struct.Save
    simp [hfit, hl]
  rw [hsave] at hcalls ⊢
  unfold Struct.saveAttempt at hcalls ⊢
  simp only [hl, if_true, hk] at hcalls ⊢
  have hloop := Struct.saveLoop_retry (M := M) sizeofT e _ hv k
    (Struct.GetNextLocation (traced M) e e.location) _ hst
    (by
      cases hx : (Struct.saveLoop (traced M) sizeofT e
        (Db.Update (traced M) sizeofT e.db_ (s, []) r false).1 (k + 2)
        (Struct.GetNextLocation (traced M) e e.location)
        (Db.Update (traced M) sizeofT e.db_ (s, []) r false).2).1 <;>
      (rw [hx] at hcalls; exact hcalls))
  rw [hloop]
  simp only [Struct.GetLocation, Struct.GetCounter, Db.GetCounter, true_and]
  constructor
  · rw [hloc, hRt.next_slot i, hRt.next_slot (nextIdx N i), nextIdx_twice_eq_mod i hi]
  · rw [Db.Update_counter]
    simp [u32]

/-- Witness of C10 (amended): the save of `Demo.retried`, from slot 0 of three
slots with counter `2^32 - 1`. -/
theorem C10_retry_after_failure_witness :
    Demo.retried.ok = true ∧
    Demo.retried.engine.GetLocation = Demo.loadedLast.engine.slot ((0 + 2) % 3) ∧
    Demo.retried.engine.GetCounter = (Demo.loadedLast.engine.GetCounter + 1) % 2 ^ 32 :=
  C10_retry_after_failure (Sim.media 16) Sim.crcf (fun _ _ _ => rfl) 13 Demo.loadedLast.engine 3
    (Ring.of_geometry
      (Struct.new_ring (Sim.media 16) 13 100 3 (by decide) (by decide) (by decide) (by decide)
        (by decide)) Demo.loadedLast.engine (by decide) (by decide) (by decide))
    (by decide) 0 (by decide) (by decide) (by decide) Demo.loadedLast.media Demo.rec1 false
    (by decide)

/-- C6, the code at a failing input. Three slots of one page; `rec0` is saved with
force, then `rec1` is saved with a first `Program` attempt that fails, leaving
the header of the new block in slot 1, and a second that succeeds in slot 2.
`Save` returns true with counter 1 and a warm `Load` delivers `rec1`, but
`Unload()` followed by `Load` returns true and delivers `rec0` with counter 0:
the header scan stops at slot 2 on the equal counter and the backward pass
starts below it. -/
theorem C6_cold_load_after_retry :
    Demo.first3.ok = true ∧ Demo.second3.ok = true ∧
      Demo.second3.engine.GetLocation = Demo.second3.engine.slot 2 ∧
      Demo.second3.engine.GetCounter = 1 ∧
      (Demo.second3.engine.Load (Sim.media 28) 13 Demo.second3.media []).data = Demo.rec1 ∧
      (Demo.second3.engine.Unload.Load (Sim.media 28) 13 Demo.second3.media []).ok = true ∧
      (Demo.second3.engine.Unload.Load (Sim.media 28) 13 Demo.second3.media []).data =
        Demo.rec0 ∧
      (Demo.second3.engine.Unload.Load (Sim.media 28) 13
        Demo.second3.media []).engine.GetCounter = 0 ∧
      Demo.rec0 ≠ Demo.rec1 := by
  decide

/-- C8, the code at a failing input. Two slots of two pages each (`pages_` is 4);
the engine is loaded at slot 0 (location 100) and every `Program` attempt fails.
`Save` makes `pages_ - 1 = 3` attempts, at slot 1, slot 0 and slot 1: the second
is at `current_.location`.  `Save` returns false and the `Load` that follows
returns false. -/
theorem C8_current_slot_programmed :
    Demo.savedP2.ok = true ∧ Demo.savedP2.engine.IsLoaded = true ∧
      Demo.savedP2.engine.GetLocation = 100 ∧
      Demo.savedP2.engine.GetWareLevels = 2 ∧ Demo.savedP2.engine.GetPages = 4 ∧
      Demo.failedP2.ok = false ∧
      programLocations Demo.failedP2.media.2 = [108, 100, 108] ∧
      (Demo.failedP2.engine.Load (Sim.media 16) 13 Demo.failedP2.media.1 []).ok = false := by
  decide

/-- C11. Generation and rotation. On a ring of `N ≥ 1` slots without headers and a
reliable media, after the save number `n < 2^32` of a session of successful
saves (the first, number 0, forced; each save followed or not by a `Load`),
`GetCounter()` is `n` and `GetLocation()` is `start_ + (n mod N) * SLOT_WORDS`,
where `SLOT_WORDS` is `ceil(FRAME_BYTES / page_size) * (page_size / 4)`. -/
theorem C11_generation_and_rotation {σ : Type} (M : Media σ) (view : σ → Int → Nat)
    (crcf : List Nat → Nat → Nat) (sizeofT : Nat) (hW : u32Len sizeofT < 32768)
    (e0 : Struct) (N : Nat) (hR : Ring M sizeofT e0 N)
    (hRel : Reliable M view crcf e0.struct_pages_u32_)
    (hb : e0.db_.body.length = u32Len sizeofT - 3) (hnl : e0.IsLoaded = false) (s0 : σ)
    (hvirgin : ∀ i, i < N →
      (frameAt (view s0) sizeofT (e0.slot i)).bytes ≠ sizeofU32 sizeofT)
    (first : SaveStep) (rest : List SaveStep) (hforce : first.force = true)
    (hwf : ∀ st ∈ first :: rest, st.r.length = sizeofT ∧ ∀ x ∈ st.r, x < 256)
    (hk : rest.length < 2 ^ 32)
    (hfirst : (e0.Save M sizeofT s0 first.r first.force).ok = true) :
    ∃ e1 s1, runSaves M sizeofT e0 s0 (first :: rest) = some (e1, s1) ∧
      e1.GetCounter = rest.length ∧
      e1.GetLocation = e0.start_ +
        ((rest.length % N * (pagesPerSlot M sizeofT * (M.GetPageSize / 4)) : Nat) : Int) := by
  have hfit := Struct.fit_of_save M sizeofT e0 s0 first.r first.force hfirst
  obtain ⟨e1, s1, b1, hrun, hS, hsum⟩ := Session.opened_lap hRel hW hR hfit hb hnl s0 hvirgin
    first rest hforce hwf hk
  refine ⟨e1, s1, hrun, ?_, ?_⟩
  · have hcur := hS.ring.cur (rest.length % N) (le_refl _)
    rw [hS.engine]
    simp only [Struct.GetCounter, Db.GetCounter]
    rw [hcur.2.1, hsum]
  · rw [hS.engine, ← hR.slot_words]
    rfl

/-- Witness of C11: the fifth save of a session on the zeroed three-slot ring. -/
theorem C11_generation_and_rotation_witness :
    ∃ e1 s1, runSaves (Sim.reliable 16) 13 Demo.engine3 (fun _ => 0)
        (Demo.step0 :: Demo.steps4) = some (e1, s1) ∧
      e1.GetCounter = Demo.steps4.length ∧
      e1.GetLocation = Demo.engine3.start_ +
        ((Demo.steps4.length % 3 * (pagesPerSlot (Sim.reliable 16) 13 *
          ((Sim.reliable 16).GetPageSize / 4)) : Nat) : Int) :=
  C11_generation_and_rotation (Sim.reliable 16) id Sim.crcf 13 (by decide) Demo.engine3 3
    (Struct.new_ring (Sim.reliable 16) 13 100 3 (by decide) (by decide) (by decide) (by decide)
      (by decide))
    (Sim.reliable_reliable 16 _) (by decide) (by decide) (fun _ => 0)
    (fun i hi => by interval_cases i <;> decide)
    Demo.step0 Demo.steps4 (by decide) (by decide) (by decide) (by decide)

/-- C12 as stated fails: after the twenty cycles of the test harness on a zeroed
media the engine is at the fifth slot (index 4), not at the first. -/
theorem C12_counterexample :
    (runSaves (Sim.reliable 1024) 13 Demo.engine5 (fun _ => 0) Demo.cycles20).map
        (fun x => (x.1.GetLocation, x.1.GetCounter)) = some (Demo.engine5.slot 4, 19) ∧
      Demo.engine5.slot 4 ≠ Demo.engine5.slot 0 := by
  decide


/-- C12, amended. The twenty-cycle rotation of the test harness: with five slots,
1024-byte pages, a 13-byte record and a reliable media whose ring holds no
header, after twenty saves (the first forced), each followed or not by a `Load`,
`GetLocation()` is the slot of index 4, `start_ + 4 * 256` in words, and
`GetCounter()` is 19. -/
theorem C12_twenty_cycles {σ : Type} (M : Media σ) (view : σ → Int → Nat)
    (crcf : List Nat → Nat → Nat) (hps : M.GetPageSize = 1024) (start : Int)
    (hRel : Reliable M view crcf 256) (s0 : σ)
    (hvirgin : ∀ i, i < 5 →
      (frameAt (view s0) 13 ((Struct.new M 13 start 5).slot i)).bytes ≠ sizeofU32 13)
    (first : SaveStep) (rest : List SaveStep) (hforce : first.force = true)
    (hlen : rest.length = 19)
    (hwf : ∀ st ∈ first :: rest, st.r.length = 13 ∧ ∀ x ∈ st.r, x < 256) :
    ∃ e1 s1, runSaves M 13 (Struct.new M 13 start 5) s0 (first :: rest) = some (e1, s1) ∧
      e1.GetLocation = start + 4 * 256 ∧ e1.GetCounter = 19 := by
  have hpps : pagesPerSlot M 13 = 1 := by
    unfold pagesPerSlot
    rw [hps]
    decide
  have hR : Ring M 13 (Struct.new M 13 start 5) 5 :=
    Struct.new_ring M 13 start 5 (by decide) (by decide) (by rw [hps]; decide)
      (by rw [hps]; decide) (by rw [hpps, hps]; decide)
  have hsw : (Struct.new M 13 start 5).struct_pages_u32_ = 256 := by
    rw [hR.slot_words, hpps, hps]
  have hfit : Db.WillFit M 13 (Struct.new M 13 start 5).pages_ = true := by
    rw [hR.pages, hpps]
    unfold Db.WillFit
    rw [hps]
    decide
  have hb0 : (Struct.new M 13 start 5).db_.body.length = u32Len 13 - 3 := by
    show (Db.init 13).body.length = _
    decide
  obtain ⟨e1, s1, b1, hrun, hS, hsum⟩ := Session.opened_lap (by rw [hsw]; exact hRel)
    (by decide) hR hfit hb0 rfl s0 hvirgin first rest hforce hwf (by rw [hlen]; decide)
  rw [hlen] at hS hsum
  refine ⟨e1, s1, hrun, ?_, ?_⟩
  · rw [hS.engine]
    simp only [Struct.GetLocation, Struct.slot, hsw]
    rfl
  · have hcur := hS.ring.cur (19 % 5) (le_refl _)
    rw [hS.engine]
    simp only [Struct.GetCounter, Db.GetCounter]
    rw [hcur.2.1, hsum]

/-- Witness of C12: the twenty cycles of the test harness on a zeroed media. -/
theorem C12_twenty_cycles_witness :
    ∃ e1 s1, runSaves (Sim.reliable 1024) 13 (Struct.new (Sim.reliable 1024) 13 2048 5)
        (fun _ => 0) (Demo.cycle 0 :: Demo.cycles19) = some (e1, s1) ∧
      e1.GetLocation = 2048 + 4 * 256 ∧ e1.GetCounter = 19 :=
  C12_twenty_cycles (Sim.reliable 1024) id Sim.crcf rfl 2048 (Sim.reliable_reliable 1024 256)
    (fun _ => 0) (fun i hi => by interval_cases i <;> decide)
    (Demo.cycle 0) Demo.cycles19 (by decide) (by decide) (by decide)


/-- C13. Empty media. On a ring of `N ≥ 1` slots none of whose headers has `bytes`
equal to the block size, `Load` on a not-loaded engine returns false,
`IsLoaded()` stays false and the caller's record is not modified. -/
theorem C13_empty_media {σ : Type} (M : Media σ) (view : σ → Int → Nat)
    (crcf : List Nat → Nat → Nat) (sizeofT : Nat) (e : Struct) (N : Nat)
    (hR : Ring M sizeofT e N) (hM : ReadContract M view crcf)
    (hnl : e.IsLoaded = false) (s : σ)
    (hvirgin : ∀ i, i < N →
      (frameAt (view s) sizeofT (e.slot i)).bytes ≠ sizeofU32 sizeofT)
    (data : List Nat) :
    (e.Load M sizeofT s data).ok = false ∧
      (e.Load M sizeofT s data).engine.IsLoaded = false ∧
      (e.Load M sizeofT s data).data = data := by
  have hnl1 : e.loaded = false := hnl
  by_cases hfit : Db.WillFit M sizeofT e.pages_ = true
  · rw [Struct.Load_cold sizeofT e s data hfit hnl1]
    have hs := Struct.headerScan_empty sizeofT hM hR (doWhileCount e.pages_)
      { c := 0, s := false, l := e.start_, db := e.db_, media := s } 0 rfl
      (Struct.slot_zero e).symm hR.levels_pos hvirgin
    unfold Struct.coldLoad
    simp only [hs, Bool.false_eq_true, if_false, Struct.IsLoaded, and_true, true_and]
    exact hnl1
  · unfold Struct.Load
    rw [if_neg hfit]
    exact ⟨rfl, hnl1, rfl⟩

/-- Witness of C13: a load by the three-slot engine on a zeroed media. -/
theorem C13_empty_media_witness :
    (Demo.engine3.Load (Sim.reliable 16) 13 (fun _ => 0) Demo.rec0).ok = false ∧
      (Demo.engine3.Load (Sim.reliable 16) 13 (fun _ => 0) Demo.rec0).engine.IsLoaded = false ∧
      (Demo.engine3.Load (Sim.reliable 16) 13 (fun _ => 0) Demo.rec0).data = Demo.rec0 :=
  C13_empty_media (Sim.reliable 16) id Sim.crcf 13 Demo.engine3 3
    (Struct.new_ring (Sim.reliable 16) 13 100 3 (by decide) (by decide) (by decide) (by decide)
      (by decide))
    (Sim.reliable_readContract 16) (by decide) (fun _ => 0)
    (fun i hi => by interval_cases i <;> decide) Demo.rec0


/-- C18. Writes stay inside the ring. For an engine over a ring of `N ≥ 1` slots
(page size a multiple of 4) that, when loaded, is at a slot of its ring, and a
block size within the range of the `int16_t` size parameter of `Program`: every
`Program` call of a `Save` is at `start_ + i * SLOT_WORDS` for some `i < N`,
submits `FRAME_BYTES / 4` words, and `FRAME_BYTES / 4 ≤ SLOT_WORDS`; hence the
words programmed lie in `[start_, start_ + N * SLOT_WORDS)`. -/
theorem C18_writes_inside_ring {σ : Type} (M : Media σ) (sizeofT : Nat)
    (hW : u32Len sizeofT < 32768) (e : Struct) (N : Nat) (hR : Ring M sizeofT e N)
    (hloc : e.IsLoaded = true → ∃ i, i < N ∧ e.GetLocation = e.slot i)
    (s : σ) (r : List Nat) (force : Bool) (l : Int) (d : List Nat) (k : Int) (ok : Bool)
    (hcall : Call.program l d k ok ∈ (e.Save (traced M) sizeofT (s, []) r force).media.2) :
    (∃ i, i < N ∧
        l = e.start_ + ((i * (pagesPerSlot M sizeofT * (M.GetPageSize / 4)) : Nat) : Int)) ∧
      k = ((sizeofU32 sizeofT / 4 : Nat) : Int) ∧
      sizeofU32 sizeofT / 4 ≤ pagesPerSlot M sizeofT * (M.GetPageSize / 4) ∧
      e.start_ ≤ l ∧
      l + k ≤ e.start_ + ((N * (pagesPerSlot M sizeofT * (M.GetPageSize / 4)) : Nat) : Int) := by
  obtain ⟨pre, hj, hc⟩ := Struct.Save_calls hR hloc (s, []) r force
  rw [hj] at hcall
  simp only [List.nil_append] at hcall
  obtain ⟨⟨i, hi, hl⟩, _, hk⟩ := hc l d k ok hcall
  have hfits := hR.frame_fits
  rw [sizeofU32_div] at hk ⊢
  rw [toInt16_of_lt hW] at hk
  rw [← hR.slot_words]
  have hmul : (i + 1) * e.struct_pages_u32_ ≤ N * e.struct_pages_u32_ :=
    Nat.mul_le_mul_right _ hi
  have hsucc : (i + 1) * e.struct_pages_u32_ = i * e.struct_pages_u32_ + e.struct_pages_u32_ :=
    Nat.succ_mul _ _
  have hl1 : l = e.start_ + ((i * e.struct_pages_u32_ : Nat) : Int) := hl
  refine ⟨⟨i, hi, hl1⟩, hk, hfits, ?_, ?_⟩
  · rw [hl1]; omega
  · rw [hl1, hk]; omega

/-- Witness of C18: the `Program` call of the save that follows a forced save on
the three-slot ring, at the second slot. -/
theorem C18_writes_inside_ring_witness :
    (∃ i, i < 3 ∧ (108 : Int) = Demo.saved3.engine.start_ +
        ((i * (pagesPerSlot (Sim.reliable 16) 13 * ((Sim.reliable 16).GetPageSize / 4)) : Nat) :
          Int)) ∧
      (7 : Int) = ((sizeofU32 13 / 4 : Nat) : Int) ∧
      sizeofU32 13 / 4 ≤ pagesPerSlot (Sim.reliable 16) 13 * ((Sim.reliable 16).GetPageSize / 4) ∧
      Demo.saved3.engine.start_ ≤ 108 ∧
      (108 : Int) + 7 ≤ Demo.saved3.engine.start_ +
        ((3 * (pagesPerSlot (Sim.reliable 16) 13 * ((Sim.reliable 16).GetPageSize / 4)) : Nat) :
          Int) :=
  C18_writes_inside_ring (Sim.reliable 16) 13 (by decide) Demo.saved3.engine 3
    (Ring.of_geometry
      (Struct.new_ring (Sim.reliable 16) 13 100 3 (by decide) (by decide) (by decide)
        (by decide) (by decide)) Demo.saved3.engine (by decide) (by decide) (by decide))
    (fun _ => ⟨0, by decide, by decide⟩) Demo.saved3.media Demo.rec1 false 108
    (Demo.saved3.engine.Save (traced (Sim.reliable 16)) 13 (Demo.saved3.media, []) Demo.rec1
      false).engine.db_.u32 7 true (by decide)


/-- C14. First forced save. For a not-loaded engine that passes the fit check,
whatever its scratch block holds, on a media whose CRC is a function of its
arguments: a `Save(r, force=true)` whose first `Program` call returns true
returns true with `GetLocation() = start_`, `GetCounter() = 0` and
`IsLoaded() = true`; that call is the only `Program` call, at `start_`, and the
block programmed has `bytes` equal to the block size, the record `r` as payload
and `crc` equal to the CRC of the words after the header. -/
theorem C14_first_forced_save {σ : Type} (M : Media σ) (crcf : List Nat → Nat → Nat)
    (hcrc : ∀ s b n, (M.Crc s b n).1 = crcf b n) (sizeofT : Nat)
    (hW : u32Len sizeofT < 32768) (e : Struct)
    (hb : e.db_.body.length = u32Len sizeofT - 3) (hnl : e.IsLoaded = false)
    (hfit : Db.WillFit M sizeofT e.pages_ = true) (s : σ) (r : List Nat)
    (hr : r.length = sizeofT) (hbytes : ∀ x ∈ r, x < 256)
    (hfirst : (programOutcomes
      (e.Save (traced M) sizeofT (s, []) r true).media.2).head? = some true) :
    (e.Save (traced M) sizeofT (s, []) r true).ok = true ∧
      (e.Save (traced M) sizeofT (s, []) r true).engine.GetLocation = e.start_ ∧
      (e.Save (traced M) sizeofT (s, []) r true).engine.GetCounter = 0 ∧
      (e.Save (traced M) sizeofT (s, []) r true).engine.IsLoaded = true ∧
      ∃ (pre : List Call) (frame : Db), (e.Save (traced M) sizeofT (s, []) r true).media.2 =
          pre ++ [Call.program e.start_ frame.u32 ((sizeofU32 sizeofT / 4 : Nat) : Int) true] ∧
        programOutcomes pre = [] ∧
        frame.bytes = sizeofU32 sizeofT ∧ frame.Get sizeofT = r ∧
        frame.crc = crcf frame.body (u32Len sizeofT - 3) := by
  have hcrc1 : ∀ (st : σ × List Call) b n, ((traced M).Crc st b n).1 = crcf b n :=
    fun st b n => hcrc st.1 b n
  have hnl1 : e.loaded = false := hnl
  have hfit1 : Db.WillFit (traced M) sizeofT e.pages_ = true := hfit
  have hsave : e.Save (traced M) sizeofT (s, []) r true =
      Struct.saveAttempt (traced M) sizeofT e
        (Db.Update (traced M) sizeofT e.db_ (s, []) r true).1 e.start_
        (Db.Update (traced M) sizeofT e.db_ (s, []) r true).2 := by
    unfold Struct.Save
    rw [if_pos hfit1, hnl1]
    rfl
  obtain ⟨pre0, hu0, hu1, _⟩ := Db.Update_journal (M := M) sizeofT e.db_ (s, []) r true
  simp only [List.nil_append] at hu0
  have hv := Db.Update_IsValid (traced M) crcf hcrc1 sizeofT e.db_ (s, []) r true
  have hset := Db.setData_spec
    { e.db_ with counter := 0, bytes := sizeofU32 sizeofT } sizeofT r hb hr hbytes
  have hbody : (Db.Update (traced M) sizeofT e.db_ (s, []) r true).1.body.length =
      u32Len sizeofT - 3 := hset.1
  have hget : (Db.Update (traced M) sizeofT e.db_ (s, []) r true).1.Get sizeofT = r := hset.2
  have hcount : (Db.Update (traced M) sizeofT e.db_ (s, []) r true).1.counter = 0 :=
    Db.Update_counter sizeofT e.db_ (s, []) r true
  have hbytes1 : (Db.Update (traced M) sizeofT e.db_ (s, []) r true).1.bytes =
      sizeofU32 sizeofT := rfl
  have hcrcv : (Db.Update (traced M) sizeofT e.db_ (s, []) r true).1.crc =
      crcf (Db.Update (traced M) sizeofT e.db_ (s, []) r true).1.body (u32Len sizeofT - 3) := by
    unfold Db.Update Db.CalculateCRC
    simp only [Db.setData, if_true, hcrc1, crcSize_eq hW]
  rw [hsave] at hfirst ⊢
  generalize Db.Update (traced M) sizeofT e.db_ (s, []) r true = u at *
  have hw := Struct.saveAttempt_head sizeofT e u.1 hv e.start_ u.2 (by rw [hu0]; exact hu1)
    hfirst
  rw [Struct.saveAttempt_first sizeofT e u.1 e.start_ u.2 hw]
  refine ⟨rfl, rfl, ?_, rfl, ?_⟩
  · show u.1.counter = 0
    exact hcount
  · obtain ⟨pre1, hv0, hv1, _⟩ := Db.IsValid_journal (M := M) sizeofT u.1 u.2
    have hlen : u.1.u32.length = u32Len sizeofT := by
      have h3 := u32Len_ge sizeofT
      simp only [Db.u32, List.length_cons, hbody]
      omega
    refine ⟨pre0 ++ pre1, u.1, ?_, ?_, hbytes1, hget, hcrcv⟩
    · show (Db.Write (traced M) sizeofT u.1 u.2 e.start_).2.2 = _
      rw [Db.Write_journal_exact sizeofT u.1 u.2 e.start_ (hv u.2), hw, hv0, hu0,
        sizeofU32_div, toInt16_of_lt hW]
      rw [Int.toNat_ofNat, ← hlen, List.take_length]
    · rw [programOutcomes_append, hu1, hv1]
      rfl


/-- Witness of C14: the forced save of `rec0` by the three-slot engine on a zeroed
media. -/
theorem C14_first_forced_save_witness :
    (Demo.engine3.Save (traced (Sim.reliable 16)) 13 (fun _ => 0, []) Demo.rec0 true).ok = true ∧
      (Demo.engine3.Save (traced (Sim.reliable 16)) 13 (fun _ => 0, []) Demo.rec0
        true).engine.GetLocation = Demo.engine3.start_ ∧
      (Demo.engine3.Save (traced (Sim.reliable 16)) 13 (fun _ => 0, []) Demo.rec0
        true).engine.GetCounter = 0 ∧
      (Demo.engine3.Save (traced (Sim.reliable 16)) 13 (fun _ => 0, []) Demo.rec0
        true).engine.IsLoaded = true ∧
      ∃ (pre : List Call) (frame : Db),
        (Demo.engine3.Save (traced (Sim.reliable 16)) 13 (fun _ => 0, []) Demo.rec0
          true).media.2 =
          pre ++ [Call.program Demo.engine3.start_ frame.u32 ((sizeofU32 13 / 4 : Nat) : Int)
            true] ∧
        programOutcomes pre = [] ∧
        frame.bytes = sizeofU32 13 ∧ frame.Get 13 = Demo.rec0 ∧
        frame.crc = Sim.crcf frame.body (u32Len 13 - 3) :=
  C14_first_forced_save (Sim.reliable 16) Sim.crcf (fun _ _ _ => rfl) 13 (by decide)
    Demo.engine3 (by decide) (by decide) (by decide) (fun _ => 0) Demo.rec0 (by decide)
    (by decide) (by decide)


/-- C15. Unforced save on a not-loaded engine. `Save(r, force=false)` on a
not-loaded engine returns false, makes no `Program`, `Read` or `Crc` call (the
journal and the media state are as before) and leaves the engine, with its
scratch block, counter, loaded flag and location, as it was. -/
theorem C15_unforced_save_not_loaded {σ : Type} (M : Media σ) (sizeofT : Nat) (e : Struct)
    (hnl : e.IsLoaded = false) (s : σ) (j : List Call) (r : List Nat) :
    (e.Save (traced M) sizeofT (s, j) r false).ok = false ∧
      (e.Save (traced M) sizeofT (s, j) r false).media = (s, j) ∧
      (e.Save (traced M) sizeofT (s, j) r false).engine = e := by
  have hnl1 : e.loaded = false := hnl
  unfold Struct.Save
  rw [hnl1]
  by_cases hfit : Db.WillFit (traced M) sizeofT e.pages_ = true
  · rw [if_pos hfit]
    exact ⟨rfl, rfl, rfl⟩
  · rw [if_neg hfit]
    exact ⟨rfl, rfl, rfl⟩

/-- Witness of C15: an unforced save by the fresh three-slot engine. -/
theorem C15_unforced_save_not_loaded_witness :
    (Demo.engine3.Save (traced (Sim.reliable 16)) 13 (fun _ => 0, []) Demo.rec0 false).ok =
        false ∧
      (Demo.engine3.Save (traced (Sim.reliable 16)) 13 (fun _ => 0, []) Demo.rec0 false).media =
        (fun _ => 0, []) ∧
      (Demo.engine3.Save (traced (Sim.reliable 16)) 13 (fun _ => 0, []) Demo.rec0 false).engine =
        Demo.engine3 :=
  C15_unforced_save_not_loaded (Sim.reliable 16) 13 Demo.engine3 (by decide) (fun _ => 0) []
    Demo.rec0

/-- C16. Force flag ignored when loaded. For a loaded engine `Save(r, true)` and
`Save(r, false)` are the same computation: same media calls, same result, same
engine state. When the fit check passes the counter is incremented (modulo
`2^32`), not reset to 0, and with a CRC that is a function of its arguments the
first `Program` call is at the slot after the current location. -/
theorem C16_force_ignored_when_loaded {σ : Type} (M : Media σ) (sizeofT : Nat) (e : Struct)
    (hl : e.IsLoaded = true) (s : σ) (j : List Call) (r : List Nat) :
    e.Save (traced M) sizeofT (s, j) r true = e.Save (traced M) sizeofT (s, j) r false ∧
      (Db.WillFit M sizeofT e.pages_ = true →
        (e.Save (traced M) sizeofT (s, j) r true).engine.GetCounter = u32 (e.GetCounter + 1) ∧
        ∀ crcf : List Nat → Nat → Nat, (∀ s b n, (M.Crc s b n).1 = crcf b n) →
          ∃ pre, (e.Save (traced M) sizeofT (s, j) r true).media.2 = j ++ pre ∧
            (programLocations pre).head? = some (Struct.GetNextLocation M e e.GetLocation)) := by
  have hl1 : e.loaded = true := hl
  have heq : ∀ force, Db.WillFit M sizeofT e.pages_ = true →
      e.Save (traced M) sizeofT (s, j) r force =
        Struct.saveAttempt (traced M) sizeofT e
          (Db.Update (traced M) sizeofT e.db_ (s, j) r false).1
          (Struct.GetNextLocation (traced M) e e.location)
          (Db.Update (traced M) sizeofT e.db_ (s, j) r false).2 := by
    intro force hfit
    have hfit1 : Db.WillFit (traced M) sizeofT e.pages_ = true := hfit
    unfold Struct.Save
    rw [if_pos hfit1, hl1]
    rfl
  refine ⟨?_, ?_⟩
  · unfold Struct.Save
    rw [hl1]
    rfl
  · intro hfit
    rw [heq true hfit]
    refine ⟨?_, ?_⟩
    · have hdb : (Struct.saveAttempt (traced M) sizeofT e
          (Db.Update (traced M) sizeofT e.db_ (s, j) r false).1
          (Struct.GetNextLocation (traced M) e e.location)
          (Db.Update (traced M) sizeofT e.db_ (s, j) r false).2).engine.db_ =
          (Db.Update (traced M) sizeofT e.db_ (s, j) r false).1 := by
        unfold Struct.saveAttempt
        simp only []
        split <;> rfl
      simp only [Struct.GetCounter, Db.GetCounter]
      rw [hdb, Db.Update_counter]
      rfl
    · intro crcf hcrc
      have hcrc1 : ∀ (st : σ × List Call) b n, ((traced M).Crc st b n).1 = crcf b n :=
        fun st b n => hcrc st.1 b n
      obtain ⟨pre0, hu0, _, hu2⟩ := Db.Update_journal (M := M) sizeofT e.db_ (s, j) r false
      obtain ⟨pre1, h1, hloc⟩ := Struct.saveAttempt_target sizeofT e
        (Db.Update (traced M) sizeofT e.db_ (s, j) r false).1
        (Db.Update_IsValid (traced M) crcf hcrc1 sizeofT e.db_ (s, j) r false)
        (Struct.GetNextLocation (traced M) e e.location)
        (Db.Update (traced M) sizeofT e.db_ (s, j) r false).2
      refine ⟨pre0 ++ pre1, by rw [h1, hu0, List.append_assoc], ?_⟩
      rw [programLocations_append, hu2]
      exact hloc


/-- Witness of C16: a save of `rec1` by the three-slot engine loaded at its first
slot, with and without the force flag. -/
theorem C16_force_ignored_when_loaded_witness :
    Demo.saved3.engine.Save (traced (Sim.reliable 16)) 13 (Demo.saved3.media, []) Demo.rec1 true =
        Demo.saved3.engine.Save (traced (Sim.reliable 16)) 13 (Demo.saved3.media, []) Demo.rec1
          false ∧
      (Demo.saved3.engine.Save (traced (Sim.reliable 16)) 13 (Demo.saved3.media, []) Demo.rec1
        true).engine.GetCounter = u32 (Demo.saved3.engine.GetCounter + 1) ∧
      ∃ pre, (Demo.saved3.engine.Save (traced (Sim.reliable 16)) 13 (Demo.saved3.media, [])
          Demo.rec1 true).media.2 = [] ++ pre ∧
        (programLocations pre).head? =
          some (Struct.GetNextLocation (Sim.reliable 16) Demo.saved3.engine
            Demo.saved3.engine.GetLocation) :=
  ⟨(C16_force_ignored_when_loaded (Sim.reliable 16) 13 Demo.saved3.engine (by decide)
      Demo.saved3.media [] Demo.rec1).1,
    ((C16_force_ignored_when_loaded (Sim.reliable 16) 13 Demo.saved3.engine (by decide)
      Demo.saved3.media [] Demo.rec1).2 (by decide)).1,
    ((C16_force_ignored_when_loaded (Sim.reliable 16) 13 Demo.saved3.engine (by decide)
      Demo.saved3.media [] Demo.rec1).2 (by decide)).2 Sim.crcf (fun _ _ _ => rfl)⟩


/-- C17. Unique newest frame. On a ring of `N ≥ 1` slots without headers and a
reliable media, after a session of `k + 1` successful saves (the first forced,
`k < 2^32`), `GetCounter()` is `k`, one slot holds the valid block of counter
`k` with the last record saved, and every other slot holds either no valid block
or the valid block that an earlier save wrote, with that save's counter
`c < k` and record. -/
theorem C17_unique_newest_frame {σ : Type} (M : Media σ) (view : σ → Int → Nat)
    (crcf : List Nat → Nat → Nat) (sizeofT : Nat) (hW : u32Len sizeofT < 32768)
    (e0 : Struct) (N : Nat) (hR : Ring M sizeofT e0 N)
    (hRel : Reliable M view crcf e0.struct_pages_u32_)
    (hb : e0.db_.body.length = u32Len sizeofT - 3) (hnl : e0.IsLoaded = false) (s0 : σ)
    (hvirgin : ∀ i, i < N →
      (frameAt (view s0) sizeofT (e0.slot i)).bytes ≠ sizeofU32 sizeofT)
    (first : SaveStep) (rest : List SaveStep) (hforce : first.force = true)
    (hwf : ∀ st ∈ first :: rest, st.r.length = sizeofT ∧ ∀ x ∈ st.r, x < 256)
    (hk : rest.length < 2 ^ 32)
    (hfirst : (e0.Save M sizeofT s0 first.r first.force).ok = true) :
    ∃ e1 s1, runSaves M sizeofT e0 s0 (first :: rest) = some (e1, s1) ∧
      e1.GetCounter = rest.length ∧
      ∃ p, p < N ∧
        Holds crcf sizeofT (frameAt (view s1) sizeofT (e0.slot p)) rest.length
          (((first :: rest).map SaveStep.r).getD rest.length []) ∧
        ∀ i, i < N → i ≠ p →
          ¬ validFrame crcf sizeofT (frameAt (view s1) sizeofT (e0.slot i)) ∨
          ∃ c, c < rest.length ∧
            Holds crcf sizeofT (frameAt (view s1) sizeofT (e0.slot i)) c
              (((first :: rest).map SaveStep.r).getD c []) := by
  have hfit := Struct.fit_of_save M sizeofT e0 s0 first.r first.force hfirst
  obtain ⟨e1, s1, b1, hrun, hS, hsum⟩ := Session.opened_lap hRel hW hR hfit hb hnl s0 hvirgin
    first rest hforce hwf hk
  have hring := hS.ring
  have hcur := hring.cur (rest.length % N) (le_refl _)
  rw [hsum] at hcur
  refine ⟨e1, s1, hrun, ?_, rest.length % N, hring.p_lt, hcur, ?_⟩
  · rw [hS.engine]
    simp only [Struct.GetCounter, Db.GetCounter]
    exact hcur.2.1
  · intro i hi hne
    rcases Nat.lt_or_gt_of_ne hne with hlt | hgt
    · right
      exact ⟨b1 + i, by omega, hring.cur i (le_of_lt hlt)⟩
    · by_cases hb0 : b1 = 0
      · left
        intro hvalid
        exact hring.first_lap hb0 i hgt hi hvalid.1
      · right
        obtain ⟨hNb, hlater⟩ := hring.later_lap hb0
        exact ⟨b1 + i - N, by omega, hlater i hgt hi⟩

/-- Witness of C17: the three-slot ring after a session of four saves. -/
theorem C17_unique_newest_frame_witness :
    ∃ e1 s1, runSaves (Sim.reliable 16) 13 Demo.engine3 (fun _ => 0)
        (Demo.step0 :: Demo.steps4) = some (e1, s1) ∧
      e1.GetCounter = Demo.steps4.length ∧
      ∃ p, p < 3 ∧
        Holds Sim.crcf 13 (frameAt (id s1) 13 (Demo.engine3.slot p)) Demo.steps4.length
          (((Demo.step0 :: Demo.steps4).map SaveStep.r).getD Demo.steps4.length []) ∧
        ∀ i, i < 3 → i ≠ p →
          ¬ validFrame Sim.crcf 13 (frameAt (id s1) 13 (Demo.engine3.slot i)) ∨
          ∃ c, c < Demo.steps4.length ∧
            Holds Sim.crcf 13 (frameAt (id s1) 13 (Demo.engine3.slot i)) c
              (((Demo.step0 :: Demo.steps4).map SaveStep.r).getD c []) :=
  C17_unique_newest_frame (Sim.reliable 16) id Sim.crcf 13 (by decide) Demo.engine3 3
    (Struct.new_ring (Sim.reliable 16) 13 100 3 (by decide) (by decide) (by decide) (by decide)
      (by decide))
    (Sim.reliable_reliable 16 _) (by decide) (by decide) (fun _ => 0)
    (fun i hi => by interval_cases i <;> decide)
    Demo.step0 Demo.steps4 (by decide) (by decide) (by decide) (by decide)


/-- C19. Ring order. On a ring of `N ≥ 1` slots, slot `i` being at
`start_ + i * SLOT_WORDS`, for `i < N`: `GetNextLocation(slot(i))` is
`slot((i + 1) mod N)`, `GetPreviousLocation(slot(i))` is `slot((i + N - 1) mod N)`,
each is the inverse of the other on the slots, and `N` applications of either
return to the slot they started from. -/
theorem C19_ring_order {σ : Type} (M : Media σ) (sizeofT : Nat) (e : Struct) (N : Nat)
    (hR : Ring M sizeofT e N) (i : Nat) (hi : i < N) :
    e.slot i = e.start_ + ((i * (pagesPerSlot M sizeofT * (M.GetPageSize / 4)) : Nat) : Int) ∧
      Struct.GetNextLocation M e (e.slot i) = e.slot ((i + 1) % N) ∧
      Struct.GetPreviousLocation M e (e.slot i) = e.slot ((i + N - 1) % N) ∧
      Struct.GetPreviousLocation M e (Struct.GetNextLocation M e (e.slot i)) = e.slot i ∧
      Struct.GetNextLocation M e (Struct.GetPreviousLocation M e (e.slot i)) = e.slot i ∧
      (Struct.GetNextLocation M e)^[N] (e.slot i) = e.slot i ∧
      (Struct.GetPreviousLocation M e)^[N] (e.slot i) = e.slot i := by
  have hN := hR.levels_pos
  refine ⟨?_, ?_, ?_, ?_, ?_, ?_, ?_⟩
  · rw [← hR.slot_words]
    rfl
  · rw [hR.next_slot, nextIdx_eq_mod i hi]
  · rw [hR.prev_slot, prevIdx_eq_mod i hi, Nat.add_sub_assoc hN]
  · rw [hR.next_slot, hR.prev_slot, prevIdx_nextIdx i hi]
  · rw [hR.prev_slot, hR.next_slot, nextIdx_prevIdx i hi]
  · rw [hR.next_iterate N i hi, Nat.add_mod_right, Nat.mod_eq_of_lt hi]
  · rw [hR.prev_iterate N i hi, Nat.add_mul_mod_self_left, Nat.mod_eq_of_lt hi]

/-- Witness of C19: the last slot of the three-slot ring. -/
theorem C19_ring_order_witness :
    Demo.engine3.slot 2 = Demo.engine3.start_ +
        ((2 * (pagesPerSlot (Sim.reliable 16) 13 * ((Sim.reliable 16).GetPageSize / 4)) : Nat) :
          Int) ∧
      Struct.GetNextLocation (Sim.reliable 16) Demo.engine3 (Demo.engine3.slot 2) =
        Demo.engine3.slot ((2 + 1) % 3) ∧
      Struct.GetPreviousLocation (Sim.reliable 16) Demo.engine3 (Demo.engine3.slot 2) =
        Demo.engine3.slot ((2 + 3 - 1) % 3) ∧
      Struct.GetPreviousLocation (Sim.reliable 16) Demo.engine3
        (Struct.GetNextLocation (Sim.reliable 16) Demo.engine3 (Demo.engine3.slot 2)) =
        Demo.engine3.slot 2 ∧
      Struct.GetNextLocation (Sim.reliable 16) Demo.engine3
        (Struct.GetPreviousLocation (Sim.reliable 16) Demo.engine3 (Demo.engine3.slot 2)) =
        Demo.engine3.slot 2 ∧
      (Struct.GetNextLocation (Sim.reliable 16) Demo.engine3)^[3] (Demo.engine3.slot 2) =
        Demo.engine3.slot 2 ∧
      (Struct.GetPreviousLocation (Sim.reliable 16) Demo.engine3)^[3] (Demo.engine3.slot 2) =
        Demo.engine3.slot 2 :=
  C19_ring_order (Sim.reliable 16) 13 Demo.engine3 3
    (Struct.new_ring (Sim.reliable 16) 13 100 3 (by decide) (by decide) (by decide) (by decide)
      (by decide)) 2 (by decide)


/-- C20. Range constructor sizing. For word locations `start ≤ end` spanning less
than `2^32` bytes and a page size `> 0`, the engine built from `(start, end)`
has `GetWareLevels() = floor(floor((end - start) / page_size) / PPS)` and
`GetPages() = GetWareLevels() * PPS`, with `end - start` in bytes and
`PPS = ceil(FRAME_BYTES / page_size)`; for the byte addresses `0x2000` and
`0x6000` (the words `0x800` and `0x1800`), 1024-byte pages and a block of at
most one page, `GetWareLevels()` is 16. -/
theorem C20_range_constructor_sizing {σ : Type} (M : Media σ) (sizeofT : Nat)
    (start endp : Int) (hse : start ≤ endp) (hspan : 4 * (endp - start) < 2 ^ 32)
    (hp : 0 < M.GetPageSize) (hsize : sizeofU32 sizeofT < 2 ^ 32) :
    (Struct.newRange M sizeofT start endp).GetWareLevels =
        (4 * (endp - start)).toNat / M.GetPageSize / pagesPerSlot M sizeofT ∧
      (Struct.newRange M sizeofT start endp).GetPages =
        (Struct.newRange M sizeofT start endp).GetWareLevels * pagesPerSlot M sizeofT ∧
      (M.GetPageSize = 1024 → sizeofU32 sizeofT ≤ 1024 →
        (Struct.newRange M sizeofT 0x800 0x1800).GetWareLevels = 16) := by
  obtain ⟨h1, h2⟩ := Struct.newRange_sizing M sizeofT start endp hse hspan hp hsize
  refine ⟨h1, ?_, ?_⟩
  · show (Struct.newRange M sizeofT start endp).pages_ =
      (Struct.newRange M sizeofT start endp).ware_level_ * pagesPerSlot M sizeofT
    rw [h2, h1]
  · intro hps hone
    have h3 := (Struct.newRange_sizing M sizeofT 0x800 0x1800 (by decide) (by decide) hp hsize).1
    have h12 := u32Len_ge sizeofT
    have hpps : pagesPerSlot M sizeofT = 1 := by
      unfold pagesPerSlot
      rw [hps]
      have hs : GetStorageUnitSize sizeofT = sizeofU32 sizeofT := rfl
      have hpos : 0 < sizeofU32 sizeofT := by unfold sizeofU32; omega
      rw [hs]
      by_cases hfull : sizeofU32 sizeofT = 1024
      · rw [hfull]
        decide
      · have hlt : sizeofU32 sizeofT < 1024 := by omega
        rw [Nat.div_eq_of_lt hlt, Nat.mod_eq_of_lt hlt, if_pos (by omega)]
    show (Struct.newRange M sizeofT 0x800 0x1800).ware_level_ = 16
    rw [h3, hpps, hps]
    decide

/-- Witness of C20: the region of the words `0x800` to `0x1800` with 1024-byte
pages and the 13-byte record. -/
theorem C20_range_constructor_sizing_witness :
    (Struct.newRange (Sim.reliable 1024) 13 0x800 0x1800).GetWareLevels =
        (4 * ((0x1800 : Int) - 0x800)).toNat / (Sim.reliable 1024).GetPageSize /
          pagesPerSlot (Sim.reliable 1024) 13 ∧
      (Struct.newRange (Sim.reliable 1024) 13 0x800 0x1800).GetPages =
        (Struct.newRange (Sim.reliable 1024) 13 0x800 0x1800).GetWareLevels *
          pagesPerSlot (Sim.reliable 1024) 13 ∧
      ((Sim.reliable 1024).GetPageSize = 1024 → sizeofU32 13 ≤ 1024 →
        (Struct.newRange (Sim.reliable 1024) 13 0x800 0x1800).GetWareLevels = 16) :=
  C20_range_constructor_sizing (Sim.reliable 1024) 13 0x800 0x1800 (by decide) (by decide)
    (by decide) (by decide)


/-- C21. The two constructors agree. For `N` in `1..255`, a page size that is a
positive multiple of 4 and a region addressable in 32 bits, the engine built by
the range constructor from `start` and `start + N * SLOT_WORDS` has the same
`GetPages()`, `GetWareLevels()` and slot size as the engine built by the
wear-level constructor from `start` and `N`: `GetWareLevels() = N` and
`GetPages() = N * ceil(FRAME_BYTES / page_size)`; both start not loaded, with
location 0 and counter 0. -/
theorem C21_constructors_agree {σ : Type} (M : Media σ) (sizeofT : Nat) (start : Int)
    (N : Nat) (hN : 0 < N) (hN2 : N < 256) (hp : 0 < M.GetPageSize)
    (h4 : 4 ∣ M.GetPageSize)
    (ha : N * pagesPerSlot M sizeofT * M.GetPageSize < 2 ^ 32) :
    (Struct.newRange M sizeofT start
        (start + ((N * (pagesPerSlot M sizeofT * (M.GetPageSize / 4)) : Nat) : Int))).GetPages =
        (Struct.new M sizeofT start N).GetPages ∧
      (Struct.newRange M sizeofT start
        (start + ((N * (pagesPerSlot M sizeofT * (M.GetPageSize / 4)) : Nat) : Int))).GetWareLevels =
        (Struct.new M sizeofT start N).GetWareLevels ∧
      (Struct.newRange M sizeofT start
        (start + ((N * (pagesPerSlot M sizeofT * (M.GetPageSize / 4)) : Nat) : Int))).struct_pages_u32_ =
        (Struct.new M sizeofT start N).struct_pages_u32_ ∧
      (Struct.new M sizeofT start N).GetWareLevels = N ∧
      (Struct.new M sizeofT start N).GetPages = N * pagesPerSlot M sizeofT ∧
      (Struct.new M sizeofT start N).struct_pages_u32_ =
        pagesPerSlot M sizeofT * (M.GetPageSize / 4) ∧
      (Struct.new M sizeofT start N).IsLoaded = false ∧
      (Struct.new M sizeofT start N).GetLocation = 0 ∧
      (Struct.new M sizeofT start N).GetCounter = 0 ∧
      (Struct.newRange M sizeofT start
        (start + ((N * (pagesPerSlot M sizeofT * (M.GetPageSize / 4)) : Nat) : Int))).IsLoaded =
        false ∧
      (Struct.newRange M sizeofT start
        (start + ((N * (pagesPerSlot M sizeofT * (M.GetPageSize / 4)) : Nat) : Int))).GetLocation =
        0 ∧
      (Struct.newRange M sizeofT start
        (start + ((N * (pagesPerSlot M sizeofT * (M.GetPageSize / 4)) : Nat) : Int))).GetCounter =
        0 := by
  have hR := Struct.new_ring M sizeofT start N hN hN2 hp h4 ha
  have hge := pagesPerSlot_mul_ge M sizeofT hp
  have hpps := pagesPerSlot_pos M sizeofT
  obtain ⟨q, hq⟩ := h4
  have hq4 : M.GetPageSize / 4 = q := by rw [hq]; omega
  have hbytes : 4 * (N * (pagesPerSlot M sizeofT * (M.GetPageSize / 4))) =
      N * pagesPerSlot M sizeofT * M.GetPageSize := by
    rw [hq4, hq]; ring
  have hfb : sizeofU32 sizeofT < 2 ^ 32 := by
    have h1 : pagesPerSlot M sizeofT * M.GetPageSize ≤
        N * pagesPerSlot M sizeofT * M.GetPageSize := by
      rw [Nat.mul_assoc]
      exact Nat.le_mul_of_pos_left _ hN
    have h2 : sizeofU32 sizeofT ≤ pagesPerSlot M sizeofT * M.GetPageSize := hge
    omega
  have hdiff : 4 * (start + ((N * (pagesPerSlot M sizeofT * (M.GetPageSize / 4)) : Nat) : Int)
      - start) = ((N * pagesPerSlot M sizeofT * M.GetPageSize : Nat) : Int) := by
    rw [← hbytes]; push_cast; ring
  obtain ⟨h1, h2⟩ := Struct.newRange_sizing M sizeofT start
    (start + ((N * (pagesPerSlot M sizeofT * (M.GetPageSize / 4)) : Nat) : Int))
    (by omega) (by rw [hdiff]; exact_mod_cast ha) hp hfb
  rw [hdiff, Int.toNat_ofNat, Nat.mul_div_cancel _ hp, Nat.mul_div_cancel _ hpps] at h1 h2
  have hpages : (Struct.new M sizeofT start N).pages_ = pagesPerSlot M sizeofT * N := hR.pages
  have hlev : (Struct.new M sizeofT start N).ware_level_ = N := hR.levels
  refine ⟨?_, ?_, rfl, hlev, ?_, hR.slot_words, rfl, rfl, rfl, rfl, rfl, rfl⟩
  · show (Struct.newRange M sizeofT start _).pages_ = (Struct.new M sizeofT start N).pages_
    rw [h2, hpages, Nat.mul_comm]
  · show (Struct.newRange M sizeofT start _).ware_level_ =
      (Struct.new M sizeofT start N).ware_level_
    rw [h1, hlev]
  · show (Struct.new M sizeofT start N).pages_ = _
    rw [hpages, Nat.mul_comm]

/-- Witness of C21: three slots of two 16-byte pages from word 100. -/
theorem C21_constructors_agree_witness :
    (Struct.newRange (Sim.reliable 16) 13 100 (100 + ((3 * (pagesPerSlot (Sim.reliable 16) 13 *
        ((Sim.reliable 16).GetPageSize / 4)) : Nat) : Int))).GetPages =
        (Struct.new (Sim.reliable 16) 13 100 3).GetPages ∧
      (Struct.newRange (Sim.reliable 16) 13 100 (100 + ((3 * (pagesPerSlot (Sim.reliable 16) 13 *
        ((Sim.reliable 16).GetPageSize / 4)) : Nat) : Int))).GetWareLevels =
        (Struct.new (Sim.reliable 16) 13 100 3).GetWareLevels ∧
      (Struct.newRange (Sim.reliable 16) 13 100 (100 + ((3 * (pagesPerSlot (Sim.reliable 16) 13 *
        ((Sim.reliable 16).GetPageSize / 4)) : Nat) : Int))).struct_pages_u32_ =
        (Struct.new (Sim.reliable 16) 13 100 3).struct_pages_u32_ ∧
      (Struct.new (Sim.reliable 16) 13 100 3).GetWareLevels = 3 ∧
      (Struct.new (Sim.reliable 16) 13 100 3).GetPages = 3 * pagesPerSlot (Sim.reliable 16) 13 ∧
      (Struct.new (Sim.reliable 16) 13 100 3).struct_pages_u32_ =
        pagesPerSlot (Sim.reliable 16) 13 * ((Sim.reliable 16).GetPageSize / 4) ∧
      (Struct.new (Sim.reliable 16) 13 100 3).IsLoaded = false ∧
      (Struct.new (Sim.reliable 16) 13 100 3).GetLocation = 0 ∧
      (Struct.new (Sim.reliable 16) 13 100 3).GetCounter = 0 ∧
      (Struct.newRange (Sim.reliable 16) 13 100 (100 + ((3 * (pagesPerSlot (Sim.reliable 16) 13 *
        ((Sim.reliable 16).GetPageSize / 4)) : Nat) : Int))).IsLoaded = false ∧
      (Struct.newRange (Sim.reliable 16) 13 100 (100 + ((3 * (pagesPerSlot (Sim.reliable 16) 13 *
        ((Sim.reliable 16).GetPageSize / 4)) : Nat) : Int))).GetLocation = 0 ∧
      (Struct.newRange (Sim.reliable 16) 13 100 (100 + ((3 * (pagesPerSlot (Sim.reliable 16) 13 *
        ((Sim.reliable 16).GetPageSize / 4)) : Nat) : Int))).GetCounter = 0 :=
  C21_constructors_agree (Sim.reliable 16) 13 100 3 (by decide) (by decide) (by decide)
    (by decide) (by decide)


/-- C24. Unload resets the engine without I/O. `Unload()` takes no media: from any
state it leaves `IsLoaded()` false, `GetLocation()` the null location and
`GetCounter()` 0, the header fields `crc`, `counter` and `bytes` of the scratch
block 0 and every word after the header `0xFFFFFFFF`, and it keeps the start,
the pages, the slot size and the wear levels. The scratch block is in the same
state right after construction, by either constructor. -/
theorem C24_unload_resets (sizeofT : Nat) (e : Struct) :
    e.Unload.IsLoaded = false ∧ e.Unload.GetLocation = 0 ∧ e.Unload.GetCounter = 0 ∧
      e.Unload.db_.crc = 0 ∧ e.Unload.db_.counter = 0 ∧ e.Unload.db_.bytes = 0 ∧
      e.Unload.db_.body = List.replicate e.db_.body.length 0xFFFFFFFF ∧
      e.Unload.start_ = e.start_ ∧ e.Unload.pages_ = e.pages_ ∧
      e.Unload.ware_level_ = e.ware_level_ ∧
      e.Unload.struct_pages_u32_ = e.struct_pages_u32_ ∧
      (∀ (σ : Type) (M : Media σ) (start : Int) (N : Nat),
        (Struct.new M sizeofT start N).db_ =
          { crc := 0, counter := 0, bytes := 0,
            body := List.replicate (u32Len sizeofT - 3) 0xFFFFFFFF } ∧
        (Struct.new M sizeofT start N).Unload.db_ = (Struct.new M sizeofT start N).db_) ∧
      (∀ (σ : Type) (M : Media σ) (start endp : Int),
        (Struct.newRange M sizeofT start endp).db_ =
          { crc := 0, counter := 0, bytes := 0,
            body := List.replicate (u32Len sizeofT - 3) 0xFFFFFFFF } ∧
        (Struct.newRange M sizeofT start endp).Unload.db_ =
          (Struct.newRange M sizeofT start endp).db_) := by
  have hmap : ∀ (l : List Nat), l.map (fun _ => 0xFFFFFFFF) = List.replicate l.length 0xFFFFFFFF := by
    intro l
    induction l with
    | nil => rfl
    | cons a l ih => simp only [List.map_cons, List.length_cons, List.replicate_succ, ih]
  have hinit : Db.init sizeofT =
      { crc := 0, counter := 0, bytes := 0,
        body := List.replicate (u32Len sizeofT - 3) 0xFFFFFFFF } := by
    simp only [Db.init, Db.Clear, Db.ClearWith, hmap, List.length_replicate]
  have hclear : (Db.init sizeofT).Clear = Db.init sizeofT := by
    rw [hinit]
    simp only [Db.Clear, Db.ClearWith, hmap, List.length_replicate]
  refine ⟨rfl, rfl, rfl, rfl, rfl, rfl, ?_, rfl, rfl, rfl, rfl, ?_, ?_⟩
  · show e.db_.body.map (fun _ => 0xFFFFFFFF) = _
    exact hmap _
  · intro σ M start N
    exact ⟨hinit, hclear⟩
  · intro σ M start endp
    exact ⟨hinit, hclear⟩


/-- C25 as stated fails: with one slot of two 16-byte pages the block of 28 bytes
is larger than `N * page_size = 16`, yet the forced `Save` returns true after a
`Program` call at the first slot and the `Load` that follows returns true after
`Read` calls there. The check compares the block with all the pages of the
ring, 32 bytes. -/
theorem C25_counterexample :
    Demo.engine1.GetWareLevels * (Sim.reliable 16).GetPageSize < GetStorageUnitSize 13 ∧
      (Demo.engine1.Save (traced (Sim.reliable 16)) 13 (fun _ => 0, []) Demo.rec0 true).ok =
        true ∧
      programLocations
        (Demo.engine1.Save (traced (Sim.reliable 16)) 13 (fun _ => 0, []) Demo.rec0
          true).media.2 = [100] ∧
      ((Demo.engine1.Save (Sim.reliable 16) 13 (fun _ => 0) Demo.rec0 true).engine.Unload.Load
        (traced (Sim.reliable 16)) 13
        ((Demo.engine1.Save (Sim.reliable 16) 13 (fun _ => 0) Demo.rec0 true).media, [])
        []).ok = true ∧
      readCalls ((Demo.engine1.Save (Sim.reliable 16) 13 (fun _ => 0) Demo.rec0
        true).engine.Unload.Load (traced (Sim.reliable 16)) 13
        ((Demo.engine1.Save (Sim.reliable 16) 13 (fun _ => 0) Demo.rec0 true).media, [])
        []).media.2 = [(100, 3), (100, 3), (100, 7)] := by
  decide

/-- C25, amended. Structural impossibility: when the block is larger than all the
pages of the ring, `FRAME_BYTES > GetPages() * page_size`, both `Load` and
`Save`, with or without force, return false and make no media call at all. -/
theorem C25_no_fit_no_access {σ : Type} (M : Media σ) (sizeofT : Nat) (e : Struct)
    (hbig : e.GetPages * M.GetPageSize < GetStorageUnitSize sizeofT) (s : σ)
    (j : List Call) (r : List Nat) (force : Bool) :
    (e.Load (traced M) sizeofT (s, j) r).ok = false ∧
      (e.Load (traced M) sizeofT (s, j) r).media = (s, j) ∧
      (e.Save (traced M) sizeofT (s, j) r force).ok = false ∧
      (e.Save (traced M) sizeofT (s, j) r force).media = (s, j) := by
  have hfit : ¬ Db.WillFit (traced M) sizeofT e.pages_ = true := by
    unfold Db.WillFit
    rw [decide_eq_true_eq]
    have h1 : u32 (toUInt8 e.pages_ * M.GetPageSize) ≤ toUInt8 e.pages_ * M.GetPageSize :=
      Nat.mod_le _ _
    have h2 : toUInt8 e.pages_ * M.GetPageSize ≤ e.pages_ * M.GetPageSize :=
      Nat.mul_le_mul_right _ (Nat.mod_le _ _)
    have h3 : e.pages_ * M.GetPageSize < sizeofU32 sizeofT := hbig
    show ¬ sizeofU32 sizeofT ≤ u32 (toUInt8 e.pages_ * M.GetPageSize)
    omega
  unfold Struct.Load Struct.Save
  rw [if_neg hfit, if_neg hfit]
  exact ⟨rfl, rfl, rfl, rfl⟩

/-- Witness of C25: the engine over no slot. -/
theorem C25_no_fit_no_access_witness :
    (Demo.engine0.Load (traced (Sim.reliable 16)) 13 (fun _ => 0, []) Demo.rec0).ok = false ∧
      (Demo.engine0.Load (traced (Sim.reliable 16)) 13 (fun _ => 0, []) Demo.rec0).media =
        (fun _ => 0, []) ∧
      (Demo.engine0.Save (traced (Sim.reliable 16)) 13 (fun _ => 0, []) Demo.rec0 true).ok =
        false ∧
      (Demo.engine0.Save (traced (Sim.reliable 16)) 13 (fun _ => 0, []) Demo.rec0 true).media =
        (fun _ => 0, []) :=
  C25_no_fit_no_access (Sim.reliable 16) 13 Demo.engine0 (by decide) (fun _ => 0) [] Demo.rec0
    true


/-- C26, the code at a failing input. With 128 slots of two 16-byte pages each
`GetPages()` is 256 and the block of 28 bytes fits the 4096 bytes of the ring,
but `WillFit` receives the page count as `uint8_t`, 0, and returns false: the
forced `Save` returns false, and `Load` returns false on a media whose first
slot holds a valid block, which the three-slot engine loads. -/
theorem C26_fit_check_truncates :
    Demo.engine128.GetWareLevels = 128 ∧ Demo.engine128.GetPages = 256 ∧
      GetStorageUnitSize 13 ≤ Demo.engine128.GetPages * (Sim.reliable 16).GetPageSize ∧
      Db.WillFit (Sim.reliable 16) 13 Demo.engine128.GetPages = false ∧
      (Demo.engine128.Save (Sim.reliable 16) 13 (fun _ => 0) Demo.rec0 true).ok = false ∧
      (Demo.engine128.Load (Sim.reliable 16) 13 Demo.saved3.media []).ok = false ∧
      (Demo.engine3.Load (Sim.reliable 16) 13 Demo.saved3.media []).ok = true := by
  decide

/-- C27, the code at a failing input. For the block of 28 bytes and 1024-byte pages
one page is needed, and `GetStorageUnitPages(1024)` returns 1024: the page count
multiplied by the page size. -/
theorem C27_storage_unit_pages :
    GetStorageUnitSize 13 = 28 ∧ pagesPerSlot (Sim.reliable 1024) 13 = 1 ∧
      GetStorageUnitPages 13 1024 = 1024 ∧
      pagesPerSlot (Sim.reliable 16) 13 = 2 ∧ GetStorageUnitPages 13 16 = 32 := by
  decide

/-- C28, the code at a failing input. For the block of 28 bytes, 16-byte pages and
3 wear levels the ring takes `2 * 16 * 3 = 96` bytes, and
`PERSISTSTRUCT_SIZE` gives `28 / 16 + 1 * 16 * 3 = 49`; with 28-byte pages and 5
wear levels it gives `28 / 28 + 0 = 1` where 140 bytes are needed. With
1024-byte pages, where the quotient is 0, it gives the 5120 bytes needed. -/
theorem C28_persiststruct_size :
    PERSISTSTRUCT_SIZE 13 16 3 = 49 ∧
      pagesPerSlot (Sim.reliable 16) 13 * 16 * 3 = 96 ∧
      PERSISTSTRUCT_SIZE 13 28 5 = 1 ∧
      pagesPerSlot (Sim.reliable 28) 13 * 28 * 5 = 140 ∧
      PERSISTSTRUCT_SIZE 13 1024 5 = 5120 ∧
      pagesPerSlot (Sim.reliable 1024) 13 * 1024 * 5 = 5120 := by
  decide

/-- C29, the code at a failing input. Two slots of two 16-byte pages each
(`pages_` is 4) and a media whose `Program` calls all fail: the forced `Save` of
a not-loaded engine calls `Program` `pages_ = 4` times, not `N = 2` times, and
the `Save` of the engine loaded at the first slot calls it `pages_ - 1 = 3`
times, not `N - 1 = 1` time; both return false. -/
theorem C29_retry_budget :
    (Struct.new (Sim.media 16) 13 100 2).GetWareLevels = 2 ∧
      (Struct.new (Sim.media 16) 13 100 2).GetPages = 4 ∧
      Demo.forcedFailP2.ok = false ∧
      programLocations Demo.forcedFailP2.media.2 = [100, 108, 100, 108] ∧
      programOutcomes Demo.forcedFailP2.media.2 = [false, false, false, false] ∧
      Demo.savedP2.engine.IsLoaded = true ∧ Demo.savedP2.engine.GetWareLevels = 2 ∧
      Demo.failedP2.ok = false ∧
      (programLocations Demo.failedP2.media.2).length = 3 ∧
      programOutcomes Demo.failedP2.media.2 = [false, false, false] := by
  decide


/-- C22 as stated fails. For the 13-byte record the block has `28 / 4 = 7` words,
and the `Crc` call of the check covers 4 words, the words after the header; for
a record of 131060 bytes the block has 32768 words, and the `Read` call of the
block receives the word count `-32768`, the value of 32768 as `int16_t`. -/
theorem C22_counterexample :
    GetStorageUnitSize 13 / 4 = 7 ∧
      crcSizes (Db.IsValid (traced (Sim.reliable 16)) 13 Demo.saved3.engine.db_
        (Demo.saved3.media, [])).2.2 = [4] ∧
      crcSizes (Demo.engine3.Save (traced (Sim.reliable 16)) 13 (fun _ => 0, []) Demo.rec0
        true).media.2 = [4, 4] ∧
      GetStorageUnitSize 131060 / 4 = 32768 ∧
      readCalls (Db.Read (traced (Sim.reliable 1024)) 131060 (Db.init 131060)
        (fun _ => 0, []) 0).2.2.2 = [(0, -32768)] := by
  decide

/-- C22, amended. Frame size: `GetStorageUnitSize()` is `4 * ceil((12 + s) / 4)`, a
multiple of 4 with `12 + s ≤ GetStorageUnitSize() < 12 + s + 4`, and 28 for the
13-byte record. When the block has fewer than 32768 words, `Db::Read` reads
`GetStorageUnitSize() / 4` words, `Db::Write` programs that many words when the
block passes the check, and every `Crc` call of the two covers
`GetStorageUnitSize() / 4 - 3` words, the words after the header. -/
theorem C22_frame_size (sizeofT : Nat) :
    GetStorageUnitSize sizeofT = 4 * ((12 + sizeofT + 3) / 4) ∧
      4 ∣ GetStorageUnitSize sizeofT ∧
      12 + sizeofT ≤ GetStorageUnitSize sizeofT ∧
      GetStorageUnitSize sizeofT < 12 + sizeofT + 4 ∧
      GetStorageUnitSize 13 = 28 ∧
      (GetStorageUnitSize sizeofT / 4 < 32768 →
        ∀ (σ : Type) (M : Media σ) (db : Db) (s : σ) (l : Int),
          readCalls (Db.Read (traced M) sizeofT db (s, []) l).2.2.2 =
            [(l, ((GetStorageUnitSize sizeofT / 4 : Nat) : Int))] ∧
          (∀ n ∈ crcSizes (Db.Read (traced M) sizeofT db (s, []) l).2.2.2,
            n = GetStorageUnitSize sizeofT / 4 - 3) ∧
          programSizes (Db.Write (traced M) sizeofT db (s, []) l).2.2 =
            (if (Db.IsValid (traced M) sizeofT db (s, [])).1
              then [((GetStorageUnitSize sizeofT / 4 : Nat) : Int)] else []) ∧
          crcSizes (Db.Write (traced M) sizeofT db (s, []) l).2.2 =
            (if db.bytes = GetStorageUnitSize sizeofT
              then [GetStorageUnitSize sizeofT / 4 - 3] else [])) := by
  have hsz : GetStorageUnitSize sizeofT = sizeofU32 sizeofT := rfl
  have hlen : sizeofU32 sizeofT = 4 * u32Len sizeofT := rfl
  refine ⟨?_, ?_, ?_, ?_, by decide, ?_⟩
  · rw [hsz, hlen]; unfold u32Len GetDbHeadSize; split <;> omega
  · rw [hsz, hlen]; exact Dvd.intro _ rfl
  · rw [hsz, hlen]; unfold u32Len GetDbHeadSize; split <;> omega
  · rw [hsz, hlen]; unfold u32Len GetDbHeadSize; split <;> omega
  · intro hsmall σ M db s l
    rw [hsz, sizeofU32_div] at hsmall ⊢
    have hW : u32Len sizeofT < 32768 := hsmall
    have hcs := crcSize_eq hW
    refine ⟨?_, ?_, ?_, ?_⟩
    · obtain ⟨ok, post, hj, hr, _, _⟩ := Db.Read_journal_exact (M := M) sizeofT db (s, []) l
      rw [hj, sizeofU32_div, toInt16_of_lt hW]
      simp only [List.nil_append, readCalls, hr]
    · obtain ⟨ok, post, hj, _, _, hc⟩ := Db.Read_journal_exact (M := M) sizeofT db (s, []) l
      intro n hn
      rw [hj] at hn
      simp only [List.nil_append, crcSizes] at hn
      rw [hc n hn, hcs]
    · by_cases hv : (Db.IsValid (traced M) sizeofT db (s, [])).1 = true
      · rw [if_pos hv, Db.Write_journal_exact sizeofT db (s, []) l hv, Db.IsValid_journal_exact,
          programSizes_append, programSizes_append, sizeofU32_div, toInt16_of_lt hW]
        have h0 : programSizes (if db.bytes = sizeofU32 sizeofT
            then [Call.crc (toUInt16 ((db.bytes - GetDbHeadSize) / 4))] else []) = [] := by
          split <;> rfl
        rw [h0]
        rfl
      · rw [if_neg hv]
        unfold Db.Write
        simp only []
        rw [if_neg hv, Db.IsValid_journal_exact, programSizes_append]
        have h0 : programSizes (if db.bytes = sizeofU32 sizeofT
            then [Call.crc (toUInt16 ((db.bytes - GetDbHeadSize) / 4))] else []) = [] := by
          split <;> rfl
        rw [h0]
        rfl
    · have hcrc : crcSizes (Db.IsValid (traced M) sizeofT db (s, [])).2.2 =
          (if db.bytes = sizeofU32 sizeofT then [u32Len sizeofT - 3] else []) := by
        rw [Db.IsValid_journal_exact]
        by_cases hb : db.bytes = sizeofU32 sizeofT
        · rw [if_pos hb, if_pos hb, hb, hcs]
          rfl
        · rw [if_neg hb, if_neg hb]
          rfl
      rw [← hcrc]
      by_cases hv : (Db.IsValid (traced M) sizeofT db (s, [])).1 = true
      · rw [Db.Write_journal_exact sizeofT db (s, []) l hv, crcSizes_append]
        simp only [crcSizes, List.append_nil]
      · unfold Db.Write
        simp only []
        rw [if_neg hv]


/-- Witness of C22: the 13-byte record, with the block the three-slot engine holds
after its forced save. -/
theorem C22_frame_size_witness :
    GetStorageUnitSize 13 / 4 < 32768 ∧
      readCalls (Db.Read (traced (Sim.reliable 16)) 13 Demo.saved3.engine.db_
        (Demo.saved3.media, []) 100).2.2.2 = [(100, ((GetStorageUnitSize 13 / 4 : Nat) : Int))] ∧
      (∀ n ∈ crcSizes (Db.Read (traced (Sim.reliable 16)) 13 Demo.saved3.engine.db_
        (Demo.saved3.media, []) 100).2.2.2, n = GetStorageUnitSize 13 / 4 - 3) ∧
      programSizes (Db.Write (traced (Sim.reliable 16)) 13 Demo.saved3.engine.db_
        (Demo.saved3.media, []) 100).2.2 =
        (if (Db.IsValid (traced (Sim.reliable 16)) 13 Demo.saved3.engine.db_
            (Demo.saved3.media, [])).1
          then [((GetStorageUnitSize 13 / 4 : Nat) : Int)] else []) ∧
      crcSizes (Db.Write (traced (Sim.reliable 16)) 13 Demo.saved3.engine.db_
        (Demo.saved3.media, []) 100).2.2 =
        (if Demo.saved3.engine.db_.bytes = GetStorageUnitSize 13
          then [GetStorageUnitSize 13 / 4 - 3] else []) :=
  ⟨by decide, (C22_frame_size 13).2.2.2.2.2 (by decide) (Int → Nat) (Sim.reliable 16)
    Demo.saved3.engine.db_ Demo.saved3.media 100⟩


/-- C23. CRC covers payload only. On a media whose CRC is a function of its
arguments, every block a `Save` submits to `Program` is a whole block whose
word 2, `bytes`, is the block size and whose word 0, `crc`, is the CRC of the
`(FRAME_BYTES - 12) / 4` words from word 3 on. The `crc` does not depend on the
counter: two saves of the same record over the same padding bytes, whatever the
engines' counters, locations and force flags, stamp the same `crc`. -/
theorem C23_crc_covers_payload {σ : Type} (M : Media σ) (crcf : List Nat → Nat → Nat)
    (hcrc : ∀ s b n, (M.Crc s b n).1 = crcf b n) (sizeofT : Nat)
    (hW : u32Len sizeofT < 32768) (e : Struct)
    (hb : e.db_.body.length = u32Len sizeofT - 3) (s : σ) (r : List Nat)
    (hr : r.length = sizeofT) (hbytes : ∀ x ∈ r, x < 256) (force : Bool) :
    (∀ l d k ok,
        Call.program l d k ok ∈ (e.Save (traced M) sizeofT (s, []) r force).media.2 →
        d.length = sizeofU32 sizeofT / 4 ∧ d.getD 2 0 = sizeofU32 sizeofT ∧
          d.getD 0 0 = crcf (d.drop 3) ((sizeofU32 sizeofT - GetDbHeadSize) / 4)) ∧
      (∀ (e2 : Struct) (s2 : σ) (force2 : Bool),
        (bytesOf e2.db_.body).drop sizeofT = (bytesOf e.db_.body).drop sizeofT →
        (e.Save (traced M) sizeofT (s, []) r force).ok = true →
        (e2.Save (traced M) sizeofT (s2, []) r force2).ok = true →
        (e2.Save (traced M) sizeofT (s2, []) r force2).engine.db_.crc =
          (e.Save (traced M) sizeofT (s, []) r force).engine.db_.crc) := by
  have hcrc1 : ∀ (st : σ × List Call) b n, ((traced M).Crc st b n).1 = crcf b n :=
    fun st b n => hcrc st.1 b n
  have hcs := crcSize_eq hW
  have h3 := u32Len_ge sizeofT
  refine ⟨?_, ?_⟩
  · intro l d k ok hmem
    rcases Struct.Save_frames (M := M) sizeofT e (s, []) r force with hno | ⟨_, pre, hj, hc⟩
    · rw [hno.2] at hmem
      simp at hmem
    · rw [hj] at hmem
      simp only [List.nil_append] at hmem
      have hd := hc l d k ok hmem
      obtain ⟨hu1, hu2, hu3⟩ := Db.Update_crc (traced M) crcf hcrc1 sizeofT e.db_ (s, []) r
        (!e.loaded)
      have hset := Db.setData_spec
        { e.db_ with counter := if (!e.loaded) = true then 0 else u32 (e.db_.counter + 1),
                     bytes := sizeofU32 sizeofT } sizeofT r hb hr hbytes
      have hlenb : (Db.Update (traced M) sizeofT e.db_ (s, []) r (!e.loaded)).1.body.length =
          u32Len sizeofT - 3 := hset.1
      rw [← hu2] at hu3
      generalize (Db.Update (traced M) sizeofT e.db_ (s, []) r (!e.loaded)).1 = U at *
      have hlen : U.u32.length = u32Len sizeofT := by
        simp only [Db.u32, List.length_cons, hlenb]
        omega
      rw [sizeofU32_div, toInt16_of_lt hW, Int.toNat_ofNat, ← hlen, List.take_length] at hd
      rw [hd, sizeofU32_div, hlen]
      refine ⟨rfl, hu1, ?_⟩
      have hcs2 : (sizeofU32 sizeofT - GetDbHeadSize) / 4 = u32Len sizeofT - 3 := by
        unfold sizeofU32 GetDbHeadSize; omega
      rw [hcs2]
      rw [hcs] at hu3
      exact hu3
  · intro e2 s2 force2 hpad hok hok2
    rcases Struct.Save_frames (M := M) sizeofT e (s, []) r force with hno | ⟨hdb, _⟩
    · rw [hno.1] at hok
      exact absurd hok (by decide)
    · rcases Struct.Save_frames (M := M) sizeofT e2 (s2, []) r force2 with hno2 | ⟨hdb2, _⟩
      · rw [hno2.1] at hok2
        exact absurd hok2 (by decide)
      · rw [hdb, hdb2,
          (Db.Update_crc (traced M) crcf hcrc1 sizeofT e.db_ (s, []) r (!e.loaded)).2.2,
          (Db.Update_crc (traced M) crcf hcrc1 sizeofT e2.db_ (s2, []) r (!e2.loaded)).2.2,
          hr, hpad]

/-- Witness of C23: the forced save of `rec0` by the fresh three-slot engine, and
the save of the same record by the engine loaded after a first save. -/
theorem C23_crc_covers_payload_witness :
    (∀ l d k ok,
        Call.program l d k ok ∈
          (Demo.engine3.Save (traced (Sim.reliable 16)) 13 (fun _ => 0, []) Demo.rec0
            true).media.2 →
        d.length = sizeofU32 13 / 4 ∧ d.getD 2 0 = sizeofU32 13 ∧
          d.getD 0 0 = Sim.crcf (d.drop 3) ((sizeofU32 13 - GetDbHeadSize) / 4)) ∧
      (∀ (e2 : Struct) (s2 : Int → Nat) (force2 : Bool),
        (bytesOf e2.db_.body).drop 13 = (bytesOf Demo.engine3.db_.body).drop 13 →
        (Demo.engine3.Save (traced (Sim.reliable 16)) 13 (fun _ => 0, []) Demo.rec0
          true).ok = true →
        (e2.Save (traced (Sim.reliable 16)) 13 (s2, []) Demo.rec0 force2).ok = true →
        (e2.Save (traced (Sim.reliable 16)) 13 (s2, []) Demo.rec0 force2).engine.db_.crc =
          (Demo.engine3.Save (traced (Sim.reliable 16)) 13 (fun _ => 0, []) Demo.rec0
            true).engine.db_.crc) :=
  C23_crc_covers_payload (Sim.reliable 16) Sim.crcf (fun _ _ _ => rfl) 13 (by decide)
    Demo.engine3 (by decide) (fun _ => 0) Demo.rec0 (by decide) (by decide) true


/-- C30. Warm-load fallback. On a media whose reads succeed and deliver the stored
words, for a loaded engine that passes the fit check: when the block at
`current_location` does not validate, `Load` returns the same result, delivers
the same record and ends with the same `IsLoaded()`, `GetLocation()` and
`GetCounter()` as `Load` by the same engine with its loaded flag cleared,
whatever its scratch block holds; against the engine after `Unload()` the
result, the record, `IsLoaded()` and `GetCounter()` are the same, and
`GetLocation()` is the same when `Load` returns true. When the block at
`current_location` validates, `Load` returns true, delivers its payload and
makes one `Read` call, of that block. -/
theorem C30_warm_load_fallback {σ : Type} (M : Media σ) (view : σ → Int → Nat)
    (crcf : List Nat → Nat → Nat) (hM : ReadContract M view crcf) (hR : ReadsSucceed M)
    (sizeofT : Nat) (hW : u32Len sizeofT < 32768) (e : Struct)
    (hb : e.db_.body.length = u32Len sizeofT - 3) (hl : e.IsLoaded = true)
    (hfit : Db.WillFit M sizeofT e.pages_ = true) (s : σ) (data : List Nat) :
    (¬ validFrame crcf sizeofT (frameAt (view s) sizeofT e.GetLocation) →
      (∀ scratch : Db, scratch.body.length = u32Len sizeofT - 3 →
        (e.Load M sizeofT s data).ok =
          (Struct.Load M sizeofT { e with loaded := false, db_ := scratch } s data).ok ∧
        (e.Load M sizeofT s data).data =
          (Struct.Load M sizeofT { e with loaded := false, db_ := scratch } s data).data ∧
        (e.Load M sizeofT s data).engine.IsLoaded =
          (Struct.Load M sizeofT { e with loaded := false, db_ := scratch } s
            data).engine.IsLoaded ∧
        (e.Load M sizeofT s data).engine.GetLocation =
          (Struct.Load M sizeofT { e with loaded := false, db_ := scratch } s
            data).engine.GetLocation ∧
        (e.Load M sizeofT s data).engine.GetCounter =
          (Struct.Load M sizeofT { e with loaded := false, db_ := scratch } s
            data).engine.GetCounter) ∧
      (e.Load M sizeofT s data).ok = (e.Unload.Load M sizeofT s data).ok ∧
      (e.Load M sizeofT s data).data = (e.Unload.Load M sizeofT s data).data ∧
      (e.Load M sizeofT s data).engine.IsLoaded =
        (e.Unload.Load M sizeofT s data).engine.IsLoaded ∧
      (e.Load M sizeofT s data).engine.GetCounter =
        (e.Unload.Load M sizeofT s data).engine.GetCounter ∧
      ((e.Load M sizeofT s data).ok = true →
        (e.Load M sizeofT s data).engine.GetLocation =
          (e.Unload.Load M sizeofT s data).engine.GetLocation)) ∧
    (validFrame crcf sizeofT (frameAt (view s) sizeofT e.GetLocation) →
      (e.Load (traced M) sizeofT (s, []) data).ok = true ∧
      (e.Load (traced M) sizeofT (s, []) data).data =
        (frameAt (view s) sizeofT e.GetLocation).Get sizeofT ∧
      readCalls (e.Load (traced M) sizeofT (s, []) data).media.2 =
        [(e.GetLocation, ((sizeofU32 sizeofT / 4 : Nat) : Int))]) := by
  have hl1 : e.loaded = true := hl
  refine ⟨?_, ?_⟩
  · intro hinv
    have hinv1 : ¬ validFrame crcf sizeofT (frameAt (view s) sizeofT e.location) := hinv
    obtain ⟨a1, _⟩ := Db.Read_eq hM hR hW e.db_ hb s e.location
    have hfail : ¬ (Db.Read M sizeofT e.db_ s e.location).1 = true := by
      rw [a1, decide_eq_true_eq]
      exact hinv1
    have hwarm : e.Load M sizeofT s data =
        Struct.coldLoad M sizeofT
          { e with loaded := false, db_ := (Db.Read M sizeofT e.db_ s e.location).2.1 }
          (Db.Read M sizeofT e.db_ s e.location).2.2 data := by
      unfold Struct.Load
      rw [if_pos hfit, hl1]
      simp only [if_true]
      rw [if_neg hfail]
    have key : ∀ e2 : Struct, e2.start_ = e.start_ → e2.pages_ = e.pages_ →
        e2.struct_pages_u32_ = e.struct_pages_u32_ → e2.loaded = false →
        e2.db_.body.length = u32Len sizeofT - 3 →
        (e.Load M sizeofT s data).ok = (e2.Load M sizeofT s data).ok ∧
        (e.Load M sizeofT s data).data = (e2.Load M sizeofT s data).data ∧
        (e.Load M sizeofT s data).engine.loaded = (e2.Load M sizeofT s data).engine.loaded ∧
        (e.Load M sizeofT s data).engine.db_.counter =
          (e2.Load M sizeofT s data).engine.db_.counter ∧
        ((e.Load M sizeofT s data).ok = true →
          (e.Load M sizeofT s data).engine.location =
            (e2.Load M sizeofT s data).engine.location) ∧
        ((e.Load M sizeofT s data).ok = false →
          (e.Load M sizeofT s data).engine.location = e.location ∧
          (e2.Load M sizeofT s data).engine.location = e2.location) := by
      intro e2 h1 h2 h3 h4 h5
      rw [hwarm, Struct.Load_cold sizeofT e2 s data (by rw [h2]; exact hfit) h4]
      have hlen : (Db.Read M sizeofT e.db_ s e.location).2.1.body.length =
          u32Len sizeofT - 3 := by
        rw [Db.Read_body_length]; exact hb
      exact Struct.coldLoad_determined hM hR hW
        { e with loaded := false, db_ := (Db.Read M sizeofT e.db_ s e.location).2.1 } e2
        h1.symm h2.symm h3.symm hlen h5 rfl h4 (Db.Read M sizeofT e.db_ s e.location).2.2 s
        (Db.Read_view hM sizeofT e.db_ s e.location) data
    refine ⟨?_, ?_⟩
    · intro scratch hsc
      obtain ⟨k1, k2, k3, k4, k5, k6⟩ := key { e with loaded := false, db_ := scratch }
        rfl rfl rfl rfl hsc
      refine ⟨k1, k2, k3, ?_, k4⟩
      cases hok : (e.Load M sizeofT s data).ok with
      | true => exact k5 hok
      | false =>
        obtain ⟨q1, q2⟩ := k6 hok
        show (e.Load M sizeofT s data).engine.location = _
        rw [q1]
        exact q2.symm
    · obtain ⟨k1, k2, k3, k4, k5, _⟩ := key e.Unload rfl rfl rfl rfl
        (by
          show e.db_.Clear.body.length = _
          rw [Db.Clear_body_length]; exact hb)
      exact ⟨k1, k2, k3, k4, k5⟩
  · intro hvalid
    have hvalid1 : validFrame crcf sizeofT (frameAt (view s) sizeofT e.location) := hvalid
    have hMt := hM.journaled
    have hRt := hR.with_journal
    obtain ⟨w1, w2, _, _⟩ := Struct.Load_warm hMt hRt hW e hb (s, []) data hfit hl1 hvalid1
    refine ⟨w1, w2, ?_⟩
    have hread : (Db.Read (traced M) sizeofT e.db_ (s, []) e.location).1 = true :=
      Db.Read_of_valid hMt hRt hW e.db_ hb (s, []) e.location hvalid1
    have hmedia : (e.Load (traced M) sizeofT (s, []) data).media =
        (Db.Read (traced M) sizeofT e.db_ (s, []) e.location).2.2 := by
      unfold Struct.Load
      rw [if_pos (show Db.WillFit (traced M) sizeofT e.pages_ = true from hfit), hl1]
      simp only [if_true]
      rw [if_pos hread]
    obtain ⟨ok, post, hj, hr, _, _⟩ := Db.Read_journal_exact (M := M) sizeofT e.db_ (s, [])
      e.location
    rw [hmedia, hj, sizeofU32_div, toInt16_of_lt hW]
    simp only [List.nil_append, readCalls, hr]
    rfl


/-- Witness of C30: the three-slot engine loaded at its second slot on a media that
holds the first slot only falls back to the first slot, as the engine does after
`Unload()`; the engine loaded at the first slot re-reads it. -/
theorem C30_warm_load_fallback_witness :
    ((Demo.ahead3.Load (Sim.reliable 16) 13 Demo.saved3.media []).ok =
        (Demo.ahead3.Unload.Load (Sim.reliable 16) 13 Demo.saved3.media []).ok ∧
      (Demo.ahead3.Load (Sim.reliable 16) 13 Demo.saved3.media []).data =
        (Demo.ahead3.Unload.Load (Sim.reliable 16) 13 Demo.saved3.media []).data ∧
      (Demo.ahead3.Load (Sim.reliable 16) 13 Demo.saved3.media []).engine.IsLoaded =
        (Demo.ahead3.Unload.Load (Sim.reliable 16) 13 Demo.saved3.media []).engine.IsLoaded ∧
      (Demo.ahead3.Load (Sim.reliable 16) 13 Demo.saved3.media []).engine.GetCounter =
        (Demo.ahead3.Unload.Load (Sim.reliable 16) 13 Demo.saved3.media []).engine.GetCounter ∧
      ((Demo.ahead3.Load (Sim.reliable 16) 13 Demo.saved3.media []).ok = true →
        (Demo.ahead3.Load (Sim.reliable 16) 13 Demo.saved3.media []).engine.GetLocation =
          (Demo.ahead3.Unload.Load (Sim.reliable 16) 13 Demo.saved3.media
            []).engine.GetLocation)) ∧
    ((Demo.saved3.engine.Load (traced (Sim.reliable 16)) 13 (Demo.saved3.media, []) []).ok =
        true ∧
      (Demo.saved3.engine.Load (traced (Sim.reliable 16)) 13 (Demo.saved3.media, []) []).data =
        (frameAt (id Demo.saved3.media) 13 Demo.saved3.engine.GetLocation).Get 13 ∧
      readCalls (Demo.saved3.engine.Load (traced (Sim.reliable 16)) 13 (Demo.saved3.media, [])
        []).media.2 = [(Demo.saved3.engine.GetLocation, ((sizeofU32 13 / 4 : Nat) : Int))]) :=
  ⟨((C30_warm_load_fallback (Sim.reliable 16) id Sim.crcf (Sim.reliable_readContract 16)
      (Sim.reliable_readsSucceed 16) 13 (by decide) Demo.ahead3 (by decide) (by decide)
      (by decide) Demo.saved3.media []).1 (by decide)).2,
    (C30_warm_load_fallback (Sim.reliable 16) id Sim.crcf (Sim.reliable_readContract 16)
      (Sim.reliable_readsSucceed 16) 13 (by decide) Demo.saved3.engine (by decide) (by decide)
      (by decide) Demo.saved3.media []).2 (by decide)⟩


/-- C32. Load result matches the loaded flag. For every engine state reachable
from a not-loaded engine by `Load`, `Save` and `Unload` calls on any media
states, right after a `Load` call `IsLoaded()` is the value `Load` returned. -/
theorem C32_load_result_matches_flag {σ : Type} (M : Media σ) (sizeofT : Nat)
    (e0 : Struct) (h0 : e0.IsLoaded = false) (e : Struct)
    (hreach : Reachable M sizeofT e0 e) (s : σ) (data : List Nat) :
    (e.Load M sizeofT s data).engine.IsLoaded = (e.Load M sizeofT s data).ok := by
  have hinv := Reachable.fit h0 hreach
  obtain ⟨_, _, _, _, c5, c6⟩ := Struct.Load_engine (M := M) sizeofT e s data
  show (e.Load M sizeofT s data).engine.loaded = _
  cases hok : (e.Load M sizeofT s data).ok with
  | true => exact (c5 hok).1
  | false =>
    by_cases hfit : Db.WillFit M sizeofT e.pages_ = true
    · exact (c6 hok).2.2.1 hfit
    · rw [(c6 hok).2.2.2 hfit]
      cases hl : e.loaded with
      | false => rfl
      | true => exact absurd (hinv hl) hfit

/-- Witness of C32: a load by the three-slot engine after its forced save. -/
theorem C32_load_result_matches_flag_witness :
    (Demo.saved3.engine.Load (Sim.reliable 16) 13 Demo.saved3.media []).engine.IsLoaded =
      (Demo.saved3.engine.Load (Sim.reliable 16) 13 Demo.saved3.media []).ok :=
  C32_load_result_matches_flag (Sim.reliable 16) 13 Demo.engine3 (by decide) Demo.saved3.engine
    (Reachable.save Demo.engine3 (fun _ => 0) Demo.rec0 true Reachable.construction)
    Demo.saved3.media []

/-- C33. Location invariant. In every engine state reachable from a not-loaded
engine over a ring of `N ≥ 1` slots by `Load`, `Save` and `Unload` calls on any
media states: when `IsLoaded()` holds, `GetLocation()` is
`start_ + i * SLOT_WORDS` for some `i < N`; `GetPages()` is
`GetWareLevels() * ceil(FRAME_BYTES / page_size)`; and `start_`, `GetPages()`
and `GetWareLevels()` are those of the engine as constructed. -/
theorem C33_location_invariant {σ : Type} (M : Media σ) (sizeofT : Nat) (e0 : Struct)
    (N : Nat) (hR : Ring M sizeofT e0 N) (h0 : e0.IsLoaded = false) (e : Struct)
    (hreach : Reachable M sizeofT e0 e) :
    (e.IsLoaded = true → ∃ i, i < N ∧ e.GetLocation =
        e.start_ + ((i * (pagesPerSlot M sizeofT * (M.GetPageSize / 4)) : Nat) : Int)) ∧
      e.GetPages = e.GetWareLevels * pagesPerSlot M sizeofT ∧
      e.start_ = e0.start_ ∧ e.GetPages = e0.GetPages ∧
      e.GetWareLevels = e0.GetWareLevels := by
  obtain ⟨g1, g2, g3, g4, hloc⟩ := Reachable.ring hR h0 hreach
  have hRe := hR.of_geometry e g3 g2 g4
  refine ⟨?_, ?_, g1, g2, g4⟩
  · intro hl
    obtain ⟨i, hi, hli⟩ := hloc hl
    refine ⟨i, hi, ?_⟩
    rw [← hRe.slot_words]
    exact hli
  · show e.pages_ = e.ware_level_ * pagesPerSlot M sizeofT
    rw [hRe.pages, hRe.levels, Nat.mul_comm]

/-- Witness of C33: the three-slot engine after its forced save. -/
theorem C33_location_invariant_witness :
    (Demo.saved3.engine.IsLoaded = true → ∃ i, i < 3 ∧ Demo.saved3.engine.GetLocation =
        Demo.saved3.engine.start_ + ((i * (pagesPerSlot (Sim.reliable 16) 13 *
          ((Sim.reliable 16).GetPageSize / 4)) : Nat) : Int)) ∧
      Demo.saved3.engine.GetPages =
        Demo.saved3.engine.GetWareLevels * pagesPerSlot (Sim.reliable 16) 13 ∧
      Demo.saved3.engine.start_ = Demo.engine3.start_ ∧
      Demo.saved3.engine.GetPages = Demo.engine3.GetPages ∧
      Demo.saved3.engine.GetWareLevels = Demo.engine3.GetWareLevels :=
  C33_location_invariant (Sim.reliable 16) 13 Demo.engine3 3
    (Struct.new_ring (Sim.reliable 16) 13 100 3 (by decide) (by decide) (by decide) (by decide)
      (by decide)) (by decide) Demo.saved3.engine
    (Reachable.save Demo.engine3 (fun _ => 0) Demo.rec0 true Reachable.construction)

/-- C34: `Load` is read-only. On any media and from any engine state, the journal of
a `Load` started with an empty journal holds no `Program` call, and when `Load`
returns false the caller's record comes back exactly as it was passed in; on a
media whose `Read` and `Crc` leave the stored words alone, the stored words after
`Load` are the stored words before it. -/
theorem C34_load_read_only {σ : Type} (M : Media σ) (sizeofT : Nat) (e : Struct) (s : σ)
    (data : List Nat) :
    programSizes (e.Load (traced M) sizeofT (s, []) data).media.2 = [] ∧
      programLocations (e.Load (traced M) sizeofT (s, []) data).media.2 = [] ∧
      ((e.Load M sizeofT s data).ok = false → (e.Load M sizeofT s data).data = data) ∧
      (∀ (view : σ → Int → Nat) (crcf : List Nat → Nat → Nat), ReadContract M view crcf →
        view (e.Load (traced M) sizeofT (s, []) data).media.1 = view s ∧
        view (e.Load M sizeofT s data).media = view s) := by
  have hp := Struct.Load_no_program (M := M) sizeofT e (s, []) data
  have hp0 : programSizes (e.Load (traced M) sizeofT (s, []) data).media.2 = [] := by
    rw [hp]; rfl
  refine ⟨hp0, ?_, ?_, ?_⟩
  · have hlen := congrArg List.length hp0
    rw [← List.length_eq_zero, programLocations_length]
    exact hlen
  · intro hok
    exact ((Struct.Load_engine (M := M) sizeofT e s data).2.2.2.2.2 hok).2.1
  · intro view crcf hM
    exact ⟨Struct.Load_view (ReadContract.journaled hM) e (s, []) data,
      Struct.Load_view hM e s data⟩

/-- Witness of C34: the cold three-slot engine on a blank media; `Load` returns false,
the record `rec0` comes back and the media is as before. -/
theorem C34_load_read_only_witness :
    (Demo.engine3.Load (Sim.reliable 16) 13 (fun _ => 0) Demo.rec0).ok = false ∧
      (Demo.engine3.Load (Sim.reliable 16) 13 (fun _ => 0) Demo.rec0).data = Demo.rec0 ∧
      id (Demo.engine3.Load (traced (Sim.reliable 16)) 13 (fun _ => 0, [])
        Demo.rec0).media.1 = id (fun _ => 0) ∧
      id (Demo.engine3.Load (Sim.reliable 16) 13 (fun _ => 0) Demo.rec0).media =
        id (fun _ => 0) :=
  ⟨by decide,
    (C34_load_read_only (Sim.reliable 16) 13 Demo.engine3 (fun _ => 0) Demo.rec0).2.2.1
      (by decide),
    (C34_load_read_only (Sim.reliable 16) 13 Demo.engine3 (fun _ => 0) Demo.rec0).2.2.2 id
      Sim.crcf (Sim.reliable_readContract 16)⟩

/-- C35 (as stated) fails at the counter wrap: the three-slot engine is loaded
holding counter `2^32 - 1`; a `Save` whose `Program` attempts all fail returns
false and leaves `GetCounter()` at `0`; the `Save` retried directly afterwards
succeeds and stores counter `1`, which is not `c + 2` and is less than the counter
`c` of the block the engine was loaded from. -/
theorem C35_counterexample :
    Demo.loadedLast.engine.IsLoaded = true ∧
      Demo.loadedLast.engine.GetCounter = 4294967295 ∧
      Demo.failedLast.ok = false ∧
      Demo.failedLast.engine.GetCounter = 0 ∧
      Demo.failedLast.engine.IsLoaded = Demo.loadedLast.engine.IsLoaded ∧
      Demo.failedLast.engine.GetLocation = Demo.loadedLast.engine.GetLocation ∧
      Demo.retriedLast.ok = true ∧
      (frameAt (Sim.view Demo.retriedLast.media) 13
        Demo.retriedLast.engine.GetLocation).counter = 1 ∧
      (frameAt (Sim.view Demo.retriedLast.media) 13
        Demo.retriedLast.engine.GetLocation).counter ≠
          Demo.loadedLast.engine.GetCounter + 2 ∧
      ¬ (frameAt (Sim.view Demo.retriedLast.media) 13
          Demo.loadedLast.engine.GetLocation).counter <
        (frameAt (Sim.view Demo.retriedLast.media) 13
          Demo.retriedLast.engine.GetLocation).counter := by
  decide

/-- C35 (amended). A failed `Save` still stamps the scratch block. On a media whose
`Program`, when it returns true, has stored its words, for an engine reachable from
construction that is loaded and holds counter `c`: a `Save(r)` that returns false
leaves `GetCounter()` at `(c+1) mod 2^32` and the scratch payload equal to `r`, with
`IsLoaded()` and `GetLocation()` unchanged; a `Save` made directly afterwards that
returns true stores its record under counter `(c+2) mod 2^32`; and while
`c + 2 < 2^32` that stored counter is `c + 2`, above `c`, the value `c + 1`
being skipped. -/
theorem C35_failed_save_stamps {σ : Type} (M : Media σ) (view : σ → Int → Nat)
    (hP : ProgramStores M view) (sizeofT : Nat) (hW : u32Len sizeofT < 32768)
    (e0 : Struct) (h0 : e0.IsLoaded = false) (e : Struct)
    (hreach : Reachable M sizeofT e0 e) (hl : e.IsLoaded = true)
    (hb : e.db_.body.length = u32Len sizeofT - 3) (s : σ) (r : List Nat)
    (hr : r.length = sizeofT) (hbytes : ∀ b ∈ r, b < 256) (force : Bool)
    (hfail : (e.Save M sizeofT s r force).ok = false)
    (s1 : σ) (r2 : List Nat) (hr2 : r2.length = sizeofT) (hbytes2 : ∀ b ∈ r2, b < 256)
    (force2 : Bool)
    (hretry : ((e.Save M sizeofT s r force).engine.Save M sizeofT s1 r2 force2).ok = true) :
    (e.Save M sizeofT s r force).engine.GetCounter = (e.GetCounter + 1) % 2 ^ 32 ∧
      (e.Save M sizeofT s r force).engine.db_.Get sizeofT = r ∧
      (e.Save M sizeofT s r force).engine.IsLoaded = e.IsLoaded ∧
      (e.Save M sizeofT s r force).engine.GetLocation = e.GetLocation ∧
      ((e.Save M sizeofT s r force).engine.Save M sizeofT s1 r2 force2).engine.GetCounter =
        (e.GetCounter + 2) % 2 ^ 32 ∧
      (frameAt (view ((e.Save M sizeofT s r force).engine.Save M sizeofT s1 r2 force2).media)
        sizeofT ((e.Save M sizeofT s r force).engine.Save M sizeofT s1 r2
          force2).engine.GetLocation).counter = (e.GetCounter + 2) % 2 ^ 32 ∧
      (frameAt (view ((e.Save M sizeofT s r force).engine.Save M sizeofT s1 r2 force2).media)
        sizeofT ((e.Save M sizeofT s r force).engine.Save M sizeofT s1 r2
          force2).engine.GetLocation).Get sizeofT = r2 ∧
      (e.GetCounter + 2 < 2 ^ 32 →
        (e.GetCounter + 2) % 2 ^ 32 = e.GetCounter + 2 ∧
        e.GetCounter < (e.GetCounter + 2) % 2 ^ 32 ∧
        (e.GetCounter + 1) % 2 ^ 32 ≠ (e.GetCounter + 2) % 2 ^ 32) := by
  simp only [Struct.IsLoaded, Struct.GetLocation, Struct.GetCounter, Db.GetCounter] at *
  have hfit := Reachable.fit h0 hreach hl
  have hst := Struct.Save_stamp (M := M) sizeofT e s r force hfit hl
  have hu := Db.Update_body (M := M) sizeofT e.db_ hb s r hr hbytes false
  have hc := Db.Update_counter (M := M) sizeofT e.db_ s r false
  obtain ⟨g2, g3, _, _, _, g6⟩ := Struct.Save_engine (M := M) sizeofT e s r force
  obtain ⟨k1, k2⟩ := g6 hfail
  have hl1 : (e.Save M sizeofT s r force).engine.loaded = true := by rw [k1]; exact hl
  have hfit1 : Db.WillFit M sizeofT (e.Save M sizeofT s r force).engine.pages_ = true := by
    rw [g3]; exact hfit
  have hb1 : (e.Save M sizeofT s r force).engine.db_.body.length = u32Len sizeofT - 3 := by
    rw [hst]; exact hu.1
  have hst2 := Struct.Save_stamp (M := M) sizeofT (e.Save M sizeofT s r force).engine s1 r2
    force2 hfit1 hl1
  have hsd2 := Struct.Save_stored hP hW (e.Save M sizeofT s r force).engine hb1 s1 r2 hr2
    hbytes2 force2 hl1 hretry
  have hu2 := Db.Update_body (M := M) sizeofT (e.Save M sizeofT s r force).engine.db_ hb1 s1
    r2 hr2 hbytes2 false
  have hc2 := Db.Update_counter (M := M) sizeofT (e.Save M sizeofT s r force).engine.db_ s1
    r2 false
  have hc1 : (e.Save M sizeofT s r force).engine.db_.counter = (e.db_.counter + 1) % 2 ^ 32 := by
    rw [hst, hc]; simp [u32]
  refine ⟨hc1, ?_, k1, k2, ?_, ?_, ?_, ?_⟩
  · rw [hst]; exact hu.2
  · rw [hst2, hc2, hc1]; simp [u32]
  · rw [hsd2, hc2, hc1]; simp [u32]
  · rw [hsd2]; exact hu2.2
  · intro hlt
    omega

/-- Witness of C35 (amended): the two-slot engine after a forced save (counter 0),
a save of `rec1` whose three attempts fail, and the save of `rec2` that follows:
the stored counter is 2. -/
theorem C35_failed_save_stamps_witness :
    Demo.failedOnce.engine.GetCounter = (Demo.savedP2.engine.GetCounter + 1) % 2 ^ 32 ∧
      Demo.failedOnce.engine.db_.Get 13 = Demo.rec1 ∧
      Demo.failedOnce.engine.IsLoaded = Demo.savedP2.engine.IsLoaded ∧
      Demo.failedOnce.engine.GetLocation = Demo.savedP2.engine.GetLocation ∧
      Demo.retriedOnce.engine.GetCounter = (Demo.savedP2.engine.GetCounter + 2) % 2 ^ 32 ∧
      (frameAt (Sim.view Demo.retriedOnce.media) 13
        Demo.retriedOnce.engine.GetLocation).counter =
          (Demo.savedP2.engine.GetCounter + 2) % 2 ^ 32 ∧
      (frameAt (Sim.view Demo.retriedOnce.media) 13
        Demo.retriedOnce.engine.GetLocation).Get 13 = Demo.rec2 ∧
      (Demo.savedP2.engine.GetCounter + 2 < 2 ^ 32 →
        (Demo.savedP2.engine.GetCounter + 2) % 2 ^ 32 = Demo.savedP2.engine.GetCounter + 2 ∧
        Demo.savedP2.engine.GetCounter < (Demo.savedP2.engine.GetCounter + 2) % 2 ^ 32 ∧
        (Demo.savedP2.engine.GetCounter + 1) % 2 ^ 32 ≠
          (Demo.savedP2.engine.GetCounter + 2) % 2 ^ 32) :=
  C35_failed_save_stamps (Sim.media 16) Sim.view (Sim.programStores 16) 13 (by decide)
    (Struct.new (Sim.media 16) 13 100 2) (by decide) Demo.savedP2.engine
    (Reachable.save (Struct.new (Sim.media 16) 13 100 2) (Sim.zeroed []) Demo.rec0 true
      Reachable.construction)
    (by decide) (by decide)
    { Demo.savedP2.media with faults := List.replicate 3 (some []) } Demo.rec1 (by decide)
    (by decide) false (by decide) Demo.failedOnce.media Demo.rec2 (by decide) (by decide) false
    (by decide)


/-- C31: counter wrap. On a reliable media, for a ring of `N ≥ 2` slots whose slots
`0` to `p` carry the counters `b`, `b + 1`, ..., `b + p = 2^32 - 1`, the block of
slot `p` being valid, and an engine loaded at slot `p` that holds counter
`2^32 - 1`: `Save(r)` returns true and stamps and stores counter `0` in the slot
after `p`; the `Load` that follows `Unload()` then returns true and delivers the
block of slot `p`, whose counter is `2^32 - 1`, not the block just saved. -/
theorem C31_counter_wrap {σ : Type} (M : Media σ) (view : σ → Int → Nat)
    (crcf : List Nat → Nat → Nat) (sizeofT : Nat) (e : Struct) (N : Nat)
    (hRel : Reliable M view crcf e.struct_pages_u32_) (hW : u32Len sizeofT < 32768)
    (hR : Ring M sizeofT e N) (hN : 2 ≤ N) (hfit : Db.WillFit M sizeofT e.GetPages = true)
    (hl : e.IsLoaded = true) (hb : e.db_.body.length = u32Len sizeofT - 3)
    (hc : e.GetCounter = 2 ^ 32 - 1) (p b : Nat) (hp : p < N)
    (hloc : e.GetLocation = e.slot p) (s : σ)
    (hcur : ∀ i, i ≤ p → headerOf (view s) sizeofT e i = some (b + i))
    (hbp : b + p = 2 ^ 32 - 1)
    (hvp : validFrame crcf sizeofT (frameAt (view s) sizeofT (e.slot p)))
    (r : List Nat) (hr : r.length = sizeofT) (hbytes : ∀ x ∈ r, x < 256) (force : Bool)
    (data : List Nat) :
    (e.Save M sizeofT s r force).ok = true ∧
      (e.Save M sizeofT s r force).engine.GetCounter = 0 ∧
      (e.Save M sizeofT s r force).engine.GetLocation = e.slot (nextIdx N p) ∧
      Holds crcf sizeofT
        (frameAt (view (e.Save M sizeofT s r force).media) sizeofT (e.slot (nextIdx N p))) 0 r ∧
      ((e.Save M sizeofT s r force).engine.Unload.Load M sizeofT
        (e.Save M sizeofT s r force).media data).ok = true ∧
      ((e.Save M sizeofT s r force).engine.Unload.Load M sizeofT
        (e.Save M sizeofT s r force).media data).data =
          (frameAt (view s) sizeofT (e.slot p)).Get sizeofT ∧
      ((e.Save M sizeofT s r force).engine.Unload.Load M sizeofT
        (e.Save M sizeofT s r force).media data).engine.GetCounter = 2 ^ 32 - 1 ∧
      ((e.Save M sizeofT s r force).engine.Unload.Load M sizeofT
        (e.Save M sizeofT s r force).media data).engine.GetLocation = e.slot p := by
  simp only [Struct.IsLoaded, Struct.GetLocation, Struct.GetCounter, Db.GetCounter,
    Struct.GetPages] at hfit hl hc hloc ⊢
  obtain ⟨hsa, hframe, hout, hholds⟩ := Struct.Save_reliable hRel hW hR e hb s r hr hbytes
    false (e.slot (nextIdx N p))
  have hsv : e.Save M sizeofT s r force =
      Struct.saveAttempt M sizeofT e (Db.Update M sizeofT e.db_ s r false).1
        (e.slot (nextIdx N p)) (Db.Update M sizeofT e.db_ s r false).2 := by
    unfold Struct.Save
    rw [if_pos hfit, hl, hloc, hR.next_slot p]
    simp
  have hbu := (Db.Update_body (M := M) sizeofT e.db_ hb s r hr hbytes false).1
  rw [hsv, hsa]
  simp only []
  generalize Db.Update M sizeofT e.db_ s r false = U at hframe hout hholds hbu ⊢
  generalize (Db.Write M sizeofT U.1 U.2 (e.slot (nextIdx N p))).2 = s1 at hframe hout ⊢
  have hcnt : (if false = true then 0 else u32 (e.db_.counter + 1)) = 0 := by
    rw [hc]; simp [u32]
  rw [hcnt] at hholds
  have hpq : p ≠ nextIdx N p := by unfold nextIdx; split <;> omega
  have hsame : ∀ i, i ≠ nextIdx N p →
      frameAt (view s1) sizeofT (e.slot i) = frameAt (view s) sizeofT (e.slot i) :=
    fun i hi => hR.frameAt_other (view s) (view s1) i (nextIdx N p) hi hout
  generalize he1 : ({ e with loaded := true, location := e.slot (nextIdx N p), db_ := U.1 } :
    Struct) = e1
  have hg1 : e1.Unload.struct_pages_u32_ = e.struct_pages_u32_ := by rw [← he1]; rfl
  have hg2 : e1.Unload.pages_ = e.pages_ := by rw [← he1]; rfl
  have hg3 : e1.Unload.ware_level_ = e.ware_level_ := by rw [← he1]; rfl
  have hg4 : e1.Unload.start_ = e.start_ := by rw [← he1]; rfl
  have hslot : ∀ i, e1.Unload.slot i = e.slot i := by
    intro i; unfold Struct.slot; rw [hg1, hg4]
  have hR1 : Ring M sizeofT e1.Unload N := Ring.of_geometry hR _ hg1 hg2 hg3
  have hb1 : e1.Unload.db_.body.length = u32Len sizeofT - 3 := by
    rw [← he1]
    simp only [Struct.Unload, Db.Clear_body_length]
    exact hbu
  have hhead : headerOf (view s1) sizeofT e1.Unload = headerOf (view s1) sizeofT e := by
    funext i; unfold headerOf; rw [hslot]
  obtain ⟨hscan, hback⟩ := scanIdx_wrapped (headerOf (view s1) sizeofT e)
    (fun j => decide (validFrame crcf sizeofT (frameAt (view s1) sizeofT (e.slot j)))) N p b
    hN hp
    (by rw [headerOf_frame, hframe, if_pos hholds.1.1, hholds.2.1])
    (fun i hi hne => by
      rw [headerOf_frame, hsame i hne, ← headerOf_frame]; exact hcur i hi)
    (by simp only [hsame p hpq]; simpa using hvp)
    (doWhileCount e.pages_) hR.count.2
  rw [Struct.Load_cold sizeofT _ s1 data (by rw [hg2]; exact hfit) (by rw [← he1]; rfl)]
  obtain ⟨hok, hres⟩ := Struct.coldLoad_idx hRel.read hRel.reads hR1 hW hb1 s1 data
  simp only [hslot, hhead, hg2] at hok hres
  have hok1 : (Struct.coldLoad M sizeofT e1.Unload s1 data).ok = true := by
    rw [hok, hscan, hback]; rfl
  obtain ⟨heng, hdata⟩ := hres p hback hok1
  refine ⟨trivial, hholds.2.1, trivial, ?_, hok1, ?_, ?_, ?_⟩
  · rw [hframe]; exact hholds
  · rw [hdata]
    exact congrArg (fun d => Db.Get d sizeofT) (hsame p hpq)
  · rw [heng]
    show (frameAt (view s1) sizeofT (e.slot p)).counter = 2 ^ 32 - 1
    rw [hsame p hpq]
    have h1 := hcur p (le_refl _)
    rw [headerOf_frame, if_pos hvp.1] at h1
    simp only [Option.some.injEq] at h1
    rw [h1, hbp]
  · rw [heng]


/-- Witness of C31: the two-slot engine loaded at slot 1 from a media whose slots hold
the counters `2^32 - 2` and `2^32 - 1`; the save of `rec1` lands in slot 0 with
counter 0 and the cold load that follows delivers the block of slot 1. -/
theorem C31_counter_wrap_witness :
    (Demo.loadedWrap.engine.Save (Sim.reliable 28) 13 Demo.nearWrap Demo.rec1 false).ok = true ∧
      (Demo.loadedWrap.engine.Save (Sim.reliable 28) 13 Demo.nearWrap Demo.rec1
        false).engine.GetCounter = 0 ∧
      (Demo.loadedWrap.engine.Save (Sim.reliable 28) 13 Demo.nearWrap Demo.rec1
        false).engine.GetLocation = Demo.loadedWrap.engine.slot (nextIdx 2 1) ∧
      Holds Sim.crcf 13
        (frameAt (id (Demo.loadedWrap.engine.Save (Sim.reliable 28) 13 Demo.nearWrap Demo.rec1
          false).media) 13 (Demo.loadedWrap.engine.slot (nextIdx 2 1))) 0 Demo.rec1 ∧
      ((Demo.loadedWrap.engine.Save (Sim.reliable 28) 13 Demo.nearWrap Demo.rec1
        false).engine.Unload.Load (Sim.reliable 28) 13
        (Demo.loadedWrap.engine.Save (Sim.reliable 28) 13 Demo.nearWrap Demo.rec1 false).media
        []).ok = true ∧
      ((Demo.loadedWrap.engine.Save (Sim.reliable 28) 13 Demo.nearWrap Demo.rec1
        false).engine.Unload.Load (Sim.reliable 28) 13
        (Demo.loadedWrap.engine.Save (Sim.reliable 28) 13 Demo.nearWrap Demo.rec1 false).media
        []).data = (frameAt (id Demo.nearWrap) 13 (Demo.loadedWrap.engine.slot 1)).Get 13 ∧
      ((Demo.loadedWrap.engine.Save (Sim.reliable 28) 13 Demo.nearWrap Demo.rec1
        false).engine.Unload.Load (Sim.reliable 28) 13
        (Demo.loadedWrap.engine.Save (Sim.reliable 28) 13 Demo.nearWrap Demo.rec1 false).media
        []).engine.GetCounter = 2 ^ 32 - 1 ∧
      ((Demo.loadedWrap.engine.Save (Sim.reliable 28) 13 Demo.nearWrap Demo.rec1
        false).engine.Unload.Load (Sim.reliable 28) 13
        (Demo.loadedWrap.engine.Save (Sim.reliable 28) 13 Demo.nearWrap Demo.rec1 false).media
        []).engine.GetLocation = Demo.loadedWrap.engine.slot 1 :=
  C31_counter_wrap (Sim.reliable 28) id Sim.crcf 13 Demo.loadedWrap.engine 2
    (Sim.reliable_reliable 28 _) (by decide)
    (Ring.of_geometry
      (Struct.new_ring (Sim.reliable 28) 13 0 2 (by decide) (by decide) (by decide) (by decide)
        (by decide)) Demo.loadedWrap.engine (by decide) (by decide) (by decide))
    (by decide) (by decide) (by decide) (by decide) (by decide) 1 4294967294 (by decide)
    (by decide) Demo.nearWrap (fun i hi => by interval_cases i <;> decide) (by decide)
    (by decide) Demo.rec1 (by decide) (by decide) false []


/-- C36 (as stated) fails under a write fault that reaches another word. On the
simulated flash with a write disturb (programming a word also clears the word
before it), holding zeros, three words are programmed at byte address 1032 with
pages of four words: each word reads back right after its own programming, so
`Program` returns true, but afterwards the first two words at the destination are
0, not 17 and 18. -/
theorem C36_counterexample :
    (0 : Int) < ((3 : Nat) : Int) ∧ 0 < 4 ∧
      (stm32f103x.Flash.Program stm32f103x.Flash.disturbed (fun _ => 0) 1032 [17, 18, 19]
          ((3 : Nat) : Int) 4 true).1 = true ∧
      [1032, 1036, 1040].map
          (stm32f103x.Flash.Program stm32f103x.Flash.disturbed (fun _ => 0) 1032 [17, 18, 19]
            ((3 : Nat) : Int) 4 true).2 = [0, 0, 19] ∧
      stm32f103x.Flash.disturbed.peek
          (stm32f103x.Flash.Program stm32f103x.Flash.disturbed (fun _ => 0) 1032 [17, 18, 19]
            ((3 : Nat) : Int) 4 true).2 (u32 (1032 + 4 * 0)) ≠ [17, 18, 19].getD 0 0 := by
  decide

/-- C36 (amended): the STM32 flash `Program` verifies each word as it writes it. For
every destination, data, size (as `int16_t`) and page size: on a flash where the
programming sequence of a word changes no other word and the lock sequence changes
none, whatever the programming sequence leaves in its own word and the erase
sequence leaves anywhere, if `Program` returns true then the sizes are positive
and the `size_u32` flash words at the destination equal the data word for word;
on any flash, `Program` returns false, touching nothing, when `size_u32` or
`page_size_u32` is 0; and with positive sizes, when the flash already equals the
data it returns true and the hardware state is the one it was given (no unlock,
erase, programming or lock sequence). -/
theorem C36_program_verifies {σ : Type} (hw : stm32f103x.Hardware σ)
    (s : σ) (buffer : Nat) (data : List Nat) (size : Nat) (hsize : size < 32768)
    (page_size_u32 : Nat) (use_lock : Bool) :
    ((∀ s a d b, b ≠ a → hw.peek (hw.programWord s a d) b = hw.peek s b) →
        (∀ s a, hw.peek (hw.lock s) a = hw.peek s a) →
        (stm32f103x.Flash.Program hw s buffer data (size : Int) page_size_u32 use_lock).1 =
          true →
        0 < size ∧ 0 < page_size_u32 ∧
        ∀ i, i < size →
          hw.peek (stm32f103x.Flash.Program hw s buffer data (size : Int) page_size_u32
            use_lock).2 (u32 (buffer + 4 * i)) = data.getD i 0) ∧
      (size = 0 ∨ page_size_u32 = 0 →
        stm32f103x.Flash.Program hw s buffer data (size : Int) page_size_u32 use_lock =
          (false, s)) ∧
      (0 < size → 0 < page_size_u32 →
        (∀ i, i < size → hw.peek s (u32 (buffer + 4 * i)) = data.getD i 0) →
        stm32f103x.Flash.Program hw s buffer data (size : Int) page_size_u32 use_lock =
          (true, s)) := by
  refine ⟨fun hlocal hlock => stm32f103x.Flash.Program_ok hw hlocal hlock s buffer data size
    hsize page_size_u32 use_lock, ?_, ?_⟩
  · intro h0
    unfold stm32f103x.Flash.Program
    rw [if_pos (by rcases h0 with h | h
                   · exact Or.inl (by simp [h])
                   · exact Or.inr h)]
  · intro hs0 hp0 hsame
    unfold stm32f103x.Flash.Program
    rw [if_neg (by intro h
                   rcases h with h | h
                   · have : size = 0 := by exact_mod_cast h
                     omega
                   · omega)]
    rw [if_pos ((stm32f103x.Flash.Verify_iff hw s buffer data (size : Int)).2
      (by rw [stm32f103x.toUInt32_natCast size (by omega)]; exact hsame))]

/-- Witness of C36 (amended): on the simulated flash holding zeros, three words are programmed
at byte address 1032 with pages of four words; `Program` returns true and the three
words are in the flash. -/
theorem C36_program_verifies_witness :
    (stm32f103x.Flash.Program stm32f103x.Flash.simulated (fun _ => 0) 1032 [17, 18, 19]
        ((3 : Nat) : Int) 4 true).1 = true ∧
      (0 < 3 ∧ 0 < 4 ∧
        ∀ i, i < 3 →
          stm32f103x.Flash.simulated.peek
            (stm32f103x.Flash.Program stm32f103x.Flash.simulated (fun _ => 0) 1032 [17, 18, 19]
              ((3 : Nat) : Int) 4 true).2 (u32 (1032 + 4 * i)) = [17, 18, 19].getD i 0) :=
  ⟨by decide,
    (C36_program_verifies stm32f103x.Flash.simulated (fun _ => 0) 1032 [17, 18, 19] 3
      (by decide) 4 true).1 stm32f103x.Flash.simulated_local (fun _ _ => rfl) (by decide)⟩

/-- C37: the STM32 flash `Program` erases exactly the pages the write overlaps. For a
page of `2^j` words (`P = 4 * 2^j` bytes), a destination at byte offset
`o = buffer mod P` within its page, `size_u32 = s` with `0 < s < 32768`, and a
write that lies with one more page inside the 32-bit address space, when the flash
differs from the data:
the page count that `Program` computes is `ceil((o + 4s) / P)`, and `Program` is the
erase and write with that count passed to `ErasePages` from `buffer`;
`ErasePages` from `buffer` with that count is the specified erase of the overlapped
pages, one after the other from the page that contains the destination, a page
receiving the erase sequence when it is not blank;
in the journal of the hardware, the erase sequences of `Program` go to overlapped
pages only, each at most once and in ascending order;
the overlapped pages are `ceil((o + 4s) / P)` in number and are the page-aligned
addresses whose page has a byte in common with the bytes written;
the count is the page count `ceil(4s / P)` of the data alone plus one exactly when
`o + 4s` exceeds those pages; and step `k` of `ErasePages` checks and erases the
page at `buffer - o + k * P`. -/
theorem C37_erase_page_count {σ : Type} (hw : stm32f103x.Hardware σ) (s : σ) (buffer : Nat)
    (data : List Nat) (size j : Nat) (use_lock : Bool) (hs0 : 0 < size) (hs : size < 32768)
    (hspace : buffer + 4 * size + 4 * 2 ^ j ≤ 2 ^ 32)
    (hdiff : stm32f103x.Flash.Verify hw s buffer data (size : Int) = false) :
    stm32f103x.Flash.pageCount buffer (size : Int) (2 ^ j) =
        (((buffer % (4 * 2 ^ j) + 4 * size + (4 * 2 ^ j - 1)) / (4 * 2 ^ j) : Nat) : Int) ∧
      stm32f103x.Flash.Program hw s buffer data (size : Int) (2 ^ j) use_lock =
        ((stm32f103x.Flash.eraseWrite hw (if use_lock then hw.unlock s else s) buffer data
            (size : Int) (2 ^ j)
            (((buffer % (4 * 2 ^ j) + 4 * size + (4 * 2 ^ j - 1)) / (4 * 2 ^ j) : Nat) : Int)).1,
          if use_lock then
            hw.lock (stm32f103x.Flash.eraseWrite hw (if use_lock then hw.unlock s else s) buffer
              data (size : Int) (2 ^ j)
              (((buffer % (4 * 2 ^ j) + 4 * size + (4 * 2 ^ j - 1)) / (4 * 2 ^ j) : Nat) : Int)).2
          else
            (stm32f103x.Flash.eraseWrite hw (if use_lock then hw.unlock s else s) buffer
              data (size : Int) (2 ^ j)
              (((buffer % (4 * 2 ^ j) + 4 * size + (4 * 2 ^ j - 1)) / (4 * 2 ^ j) : Nat) :
                Int)).2) ∧
      (∀ (s1 : σ) (pc : Int),
        stm32f103x.Flash.eraseWrite hw s1 buffer data (size : Int) (2 ^ j) pc =
          if (stm32f103x.Flash.ErasePages hw s1 buffer pc (2 ^ j)).1 then
            stm32f103x.Flash.Write32Buffer hw
              (stm32f103x.Flash.ErasePages hw s1 buffer pc (2 ^ j)).2 buffer data (size : Int)
          else (false, (stm32f103x.Flash.ErasePages hw s1 buffer pc (2 ^ j)).2)) ∧
      (∀ s1 : σ,
        stm32f103x.Flash.ErasePages hw s1 buffer
            (stm32f103x.Flash.pageCount buffer (size : Int) (2 ^ j)) (2 ^ j) =
          stm32f103x.Flash.erasePagesSpec hw (2 ^ j)
            (stm32f103x.Flash.overlappedPages buffer size (2 ^ j)) s1) ∧
      (stm32f103x.Flash.Program (stm32f103x.Flash.journaled hw) (s, []) buffer data (size : Int)
          (2 ^ j) use_lock).2.2.Sublist (stm32f103x.Flash.overlappedPages buffer size (2 ^ j)) ∧
      (stm32f103x.Flash.overlappedPages buffer size (2 ^ j)).length =
        (buffer % (4 * 2 ^ j) + 4 * size + (4 * 2 ^ j - 1)) / (4 * 2 ^ j) ∧
      (∀ a, 4 * 2 ^ j ∣ a →
        (a ∈ stm32f103x.Flash.overlappedPages buffer size (2 ^ j) ↔
          a < buffer + 4 * size ∧ buffer < a + 4 * 2 ^ j)) ∧
      (buffer % (4 * 2 ^ j) + 4 * size + (4 * 2 ^ j - 1)) / (4 * 2 ^ j) =
        (4 * size + (4 * 2 ^ j - 1)) / (4 * 2 ^ j) +
          (if buffer % (4 * 2 ^ j) + 4 * size >
              (4 * size + (4 * 2 ^ j - 1)) / (4 * 2 ^ j) * (4 * 2 ^ j) then 1 else 0) ∧
      (∀ k, k < (buffer % (4 * 2 ^ j) + 4 * size + (4 * 2 ^ j - 1)) / (4 * 2 ^ j) →
        stm32f103x.Flash.pageBase (u32 (buffer + k * (4 * 2 ^ j))) (2 ^ j) =
          buffer - buffer % (4 * 2 ^ j) + k * (4 * 2 ^ j)) := by
  have hpc := stm32f103x.Flash.pageCount_eq buffer size j hs0 hs hspace
  have hps : 0 < 2 ^ j := Nat.two_pow_pos j
  have ho : buffer % (4 * 2 ^ j) < 4 * 2 ^ j := Nat.mod_lt _ (by omega)
  have hj : j + 2 < 32 := by
    by_contra hcon
    have h1 : 4 * 2 ^ j = 2 ^ (j + 2) := by rw [pow_add]; ring
    have h2 : 2 ^ 32 ≤ 2 ^ (j + 2) := Nat.pow_le_pow_right (by omega) (by omega)
    omega
  refine ⟨hpc, ?_, fun _ _ => rfl, ?_,
    stm32f103x.Flash.Program_journal hw s buffer data size j use_lock hs0 hs hspace hdiff, ?_,
    fun a ha => stm32f103x.Flash.mem_overlappedPages buffer size (2 ^ j) hps a ha,
    stm32f103x.pages_split _ size j ho, ?_⟩
  · unfold stm32f103x.Flash.Program
    rw [if_neg (by intro h
                   rcases h with h | h
                   · have : size = 0 := by exact_mod_cast h
                     omega
                   · omega), hdiff, hpc]
    simp
  · intro s1
    rw [hpc]
    exact stm32f103x.Flash.ErasePages_spec hw s1 buffer size j hspace hs0
  · simp [stm32f103x.Flash.overlappedPages]
  · intro k hk
    apply stm32f103x.Flash.pageBase_step buffer j k _ hj
    have h1 := Nat.div_mul_le_self (buffer % (4 * 2 ^ j) + 4 * size + (4 * 2 ^ j - 1))
      (4 * 2 ^ j)
    have h2 : (k + 1) * (4 * 2 ^ j) ≤
        (buffer % (4 * 2 ^ j) + 4 * size + (4 * 2 ^ j - 1)) / (4 * 2 ^ j) * (4 * 2 ^ j) :=
      Nat.mul_le_mul_right _ hk
    rw [Nat.succ_mul] at h2
    omega

/-- Witness of C37: on the simulated flash holding zeros, three words for byte
address 1032 with pages of four words (16 bytes): the offset is 8, the data alone
needs one page and the write two; the erase sequences go to the pages at 1024 and
1040, after which the words around the data read `0xffffffff` inside those two
pages and are untouched outside them. -/
theorem C37_erase_page_count_witness :
    stm32f103x.Flash.Verify stm32f103x.Flash.simulated (fun _ => 0) 1032 [17, 18, 19]
        ((3 : Nat) : Int) = false ∧
      stm32f103x.Flash.pageCount 1032 ((3 : Nat) : Int) (2 ^ 2) =
        (((1032 % (4 * 2 ^ 2) + 4 * 3 + (4 * 2 ^ 2 - 1)) / (4 * 2 ^ 2) : Nat) : Int) ∧
      (1032 % (4 * 2 ^ 2) + 4 * 3 + (4 * 2 ^ 2 - 1)) / (4 * 2 ^ 2) = 2 ∧
      (4 * 3 + (4 * 2 ^ 2 - 1)) / (4 * 2 ^ 2) = 1 ∧
      stm32f103x.Flash.pageBase (u32 (1032 + 1 * (4 * 2 ^ 2))) (2 ^ 2) =
        1032 - 1032 % (4 * 2 ^ 2) + 1 * (4 * 2 ^ 2) ∧
      stm32f103x.Flash.overlappedPages 1032 3 (2 ^ 2) = [1024, 1040] ∧
      (stm32f103x.Flash.Program (stm32f103x.Flash.journaled stm32f103x.Flash.simulated)
          (fun _ => 0, []) 1032 [17, 18, 19] ((3 : Nat) : Int) (2 ^ 2) true).2.2.Sublist
        (stm32f103x.Flash.overlappedPages 1032 3 (2 ^ 2)) ∧
      (stm32f103x.Flash.Program (stm32f103x.Flash.journaled stm32f103x.Flash.simulated)
          (fun _ => 0, []) 1032 [17, 18, 19] ((3 : Nat) : Int) (2 ^ 2) true).2.2 =
        [1024, 1040] ∧
      (stm32f103x.Flash.Program stm32f103x.Flash.simulated (fun _ => 0) 1032 [17, 18, 19]
          ((3 : Nat) : Int) (2 ^ 2) true).1 = true ∧
      [1020, 1024, 1028, 1032, 1036, 1040, 1044, 1048, 1052, 1056].map
          (stm32f103x.Flash.Program stm32f103x.Flash.simulated (fun _ => 0) 1032 [17, 18, 19]
            ((3 : Nat) : Int) (2 ^ 2) true).2 =
        [0, 4294967295, 4294967295, 17, 18, 19, 4294967295, 4294967295, 4294967295, 0] :=
  ⟨by decide,
    (C37_erase_page_count stm32f103x.Flash.simulated (fun _ => 0) 1032 [17, 18, 19] 3 2 true
      (by decide) (by decide) (by decide) (by decide)).1,
    by decide, by decide,
    (C37_erase_page_count stm32f103x.Flash.simulated (fun _ => 0) 1032 [17, 18, 19] 3 2 true
      (by decide) (by decide) (by decide) (by decide)).2.2.2.2.2.2.2.2 1 (by decide),
    by decide,
    (C37_erase_page_count stm32f103x.Flash.simulated (fun _ => 0) 1032 [17, 18, 19] 3 2 true
      (by decide) (by decide) (by decide) (by decide)).2.2.2.2.1,
    by decide, by decide, by decide⟩

/-- C38, the code at a failing input. With the device page size and `page_size_u8`
both 128 bytes, the destination at byte address `0x7040` (offset 64 within its
page) and `size_u8 = 128`: the write covers the bytes `0x7040` to `0x70BF`, in the
two pages at `0x7000` and `0x7080`, and `ceil((64 + 128) / 128) = 2`, but the page
count that `Program` passes to `ErasePages` is 1. -/
theorem C38_avr_page_count :
    avr8mega.Flash.pageCount 128 0x7040 128 128 = 1 ∧
      0x7040 % 128 = 64 ∧
      (0x7040 % 128 + 128 + (128 - 1)) / 128 = 2 ∧
      (0x7040 + 128 - 1) / 128 - 0x7040 / 128 + 1 = 2 := by
  decide


end persist
